import Mathlib

/-!
# lx: a shallow embedding of `src/lx.c`

The interpreter keeps every runtime value in a cell (`lx_Value`) of a fixed
arena.  Cells are addressed by pointers; here a pointer is a value of `Ptr`,
which tells apart the null pointer, the four static singletons of `lx.c`
(`lx_nil_`, `lx_eof`, `lx_zero`, `lx_one`), the cells of the arena and the
`lx_Value` records that `lx_eval` and `lx_run` keep on the C stack (call
frames).  Program text is a byte memory addressed by natural numbers.

Conventions of the embedding:
* `double` is modelled by `ℚ` (exact arithmetic): rounding, infinities and
  NaN are not represented, a division by zero yields 0 here, and the cast
  `(int)x` is truncation toward zero without the bounds of `int` (`toInt`);
  the theorems evaluate no division by zero and no number outside `int`;
* the members of the payload union are kept as separate record fields; the
  members `env` and `list` are one anonymous struct in the source and share
  the fields `name`, `value`, `next` here as well;
* dereferencing the null pointer or an address outside memory is the error
  `Err.fault`; running out of recursion budget is `Err.fuel`.
-/

namespace Lx

/-- The enumeration `lx_Type`. -/
inductive LxType
  | LX_FREE | LX_NIL | LX_NUMBER | LX_STRING | LX_SYMBOL | LX_LIST | LX_ENV
  | LX_FN | LX_CFN | LX_CALL | LX_EOF
  deriving DecidableEq, Repr

open LxType

/-- Pointers to `lx_Value`. -/
inductive Ptr
  | null
  | nil
  | eof
  | zero
  | one
  | cell (i : Nat)
  | stack (i : Nat)
  deriving DecidableEq, Repr

/-- The record `struct lx_Value`. -/
structure Value where
  mark : Bool := false
  persist : Bool := false
  type : LxType := LX_FREE
  free : Ptr := Ptr.null
  number : ℚ := 0
  start : Nat := 0
  len : Int := 0
  name : Ptr := Ptr.null
  value : Ptr := Ptr.null
  next : Ptr := Ptr.null
  arg_start : Nat := 0
  body_start : Nat := 0
  args : Nat := 0
  cfn : Nat := 0
  env : Ptr := Ptr.null
  callable : Ptr := Ptr.null
  last : Ptr := Ptr.null
  deriving DecidableEq, Repr

/-- The record `struct lx_Ctx` together with the memory it lives in: the
arena `cells`, the four static singletons, the stack-allocated values, the
program text and the list of strings handed to the printer so far. -/
structure Ctx where
  cells : List Value
  stack : List Value := []
  nil_ : Value := { type := LX_NIL }
  eof_ : Value := { type := LX_EOF }
  zero_ : Value := { type := LX_NUMBER, number := 0 }
  one_ : Value := { type := LX_NUMBER, number := 1 }
  free_list : Ptr := Ptr.null
  current : Ptr := Ptr.null
  text : List Nat := []
  prog_start : Nat := 0
  prog_end : Nat := 0
  out : List (List Nat) := []
  gcs : Nat := 0
  deriving DecidableEq, Repr

/-- Failure modes of the embedding. -/
inductive Err
  | fault
  | fuel
  deriving DecidableEq, Repr

deriving instance DecidableEq for Except

/-- Read through a pointer; `none` for null and for addresses outside memory. -/
def Ctx.get (c : Ctx) : Ptr → Option Value
  | Ptr.null => none
  | Ptr.nil => some c.nil_
  | Ptr.eof => some c.eof_
  | Ptr.zero => some c.zero_
  | Ptr.one => some c.one_
  | Ptr.cell i => c.cells[i]?
  | Ptr.stack i => c.stack[i]?

/-- Write through a pointer (a write to an invalid address changes nothing;
callers check validity with `Ctx.get` first). -/
def Ctx.set (c : Ctx) (p : Ptr) (v : Value) : Ctx :=
  match p with
  | Ptr.null => c
  | Ptr.nil => { c with nil_ := v }
  | Ptr.eof => { c with eof_ := v }
  | Ptr.zero => { c with zero_ := v }
  | Ptr.one => { c with one_ := v }
  | Ptr.cell i => { c with cells := c.cells.set i v }
  | Ptr.stack i => { c with stack := c.stack.set i v }

/-- Update the value behind a pointer in place; faults on an invalid pointer. -/
def Ctx.modify (c : Ctx) (p : Ptr) (f : Value → Value) : Except Err Ctx :=
  match c.get p with
  | none => Except.error Err.fault
  | some v => Except.ok (c.set p (f v))

/-- Dereference, faulting on an invalid pointer. -/
def Ctx.deref (c : Ctx) (p : Ptr) : Except Err Value :=
  match c.get p with
  | none => Except.error Err.fault
  | some v => Except.ok v

/-! ## Garbage collector (`mark`, `lx_gc`) -/

/-- The pointers `mark` recurses into, in the order of the source. -/
def children (v : Value) : List Ptr :=
  match v.type with
  | LX_LIST => [v.next, v.value]
  | LX_ENV => [v.next, v.name, v.value]
  | LX_CALL => [v.callable, v.env, v.last]
  | _ => []

mutual
/-- The function `mark`: set the mark bit of `v` and recurse into its
children.  The source has no visited check, so the recursion is bounded by
`fuel` here: `Err.fuel` when the budget is exhausted, `Err.fault` when a
pointer that is followed is invalid. -/
def mark : Nat → Ctx → Ptr → Except Err Ctx
  | 0, _, _ => Except.error Err.fuel
  | fuel + 1, c, v =>
    if v = Ptr.null then Except.ok c
    else
      match c.get v with
      | none => Except.error Err.fault
      | some x => markAll fuel (c.set v { x with mark := true }) (children x)
/-- Mark a sequence of pointers one after the other. -/
def markAll : Nat → Ctx → List Ptr → Except Err Ctx
  | _, c, [] => Except.ok c
  | 0, _, _ :: _ => Except.error Err.fuel
  | fuel + 1, c, p :: ps =>
    match mark fuel c p with
    | Except.error e => Except.error e
    | Except.ok c1 => markAll fuel c1 ps
end

/-- The loop `for (val = cell_start; val < cell_end; val++) if (val->persist) mark(val);`,
from index `i`, for `n` remaining cells. -/
def markPersist (fuel : Nat) : Nat → Nat → Ctx → Except Err Ctx
  | 0, _, c => Except.ok c
  | n + 1, i, c =>
    match c.cells[i]? with
    | none => Except.ok c
    | some x =>
      if x.persist then
        match mark fuel c (Ptr.cell i) with
        | Except.error e => Except.error e
        | Except.ok c1 => markPersist fuel n (i + 1) c1
      else markPersist fuel n (i + 1) c

/-- The branch `if (val->mark) val->mark = 0;` of the sweep, at cell `i`
holding `x`. -/
def sweepKeep (c : Ctx) (i : Nat) (x : Value) : Ctx :=
  { c with cells := c.cells.set i { x with mark := false } }

/-- The else branch of the sweep: retag cell `i` as free and push it on the
free list. -/
def sweepFree (c : Ctx) (i : Nat) (x : Value) : Ctx :=
  { c with cells := c.cells.set i { x with type := LX_FREE, free := c.free_list },
           free_list := Ptr.cell i }

/-- The sweep loop of `lx_gc`, from index `i`, for `n` remaining cells;
returns the context and the running `n_freed`. -/
def sweep : Nat → Nat → Ctx → Nat → Ctx × Nat
  | 0, _, c, k => (c, k)
  | n + 1, i, c, k =>
    match c.cells[i]? with
    | none => (c, k)
    | some x =>
      if x.mark then sweep n (i + 1) (sweepKeep c i x) k
      else sweep n (i + 1) (sweepFree c i x) (k + 1)

/-- Count one more collection cycle in the ghost field `gcs`. -/
def Ctx.tick (c : Ctx) : Ctx := { c with gcs := c.gcs + 1 }

/-- The function `lx_gc`; `gcs` counts the cycles run (a ghost field). -/
def lx_gc (fuel : Nat) (c : Ctx) : Except Err (Ctx × Nat) :=
  match mark fuel c c.current with
  | Except.error e => Except.error e
  | Except.ok c1 =>
    match markPersist fuel c1.cells.length 0 c1 with
    | Except.error e => Except.error e
    | Except.ok c2 => Except.ok (sweep c2.cells.length 0 c2.tick 0)

/-! ## Allocation and value constructors -/

/-- The statements `item->type = type; item->mark = mark;
ctx->free_list = ctx->free_list->free;` of `lx_alloc`, where `x` is the
value of the head of the free list. -/
def Ctx.popFree (c : Ctx) (x : Value) (type : LxType) (mark : Bool) : Ctx :=
  { c.set c.free_list { x with type := type, mark := mark } with free_list := x.free }

/-- The part of `lx_alloc` after the collection: pop the head of the free list. -/
def allocPop (c : Ctx) (type : LxType) (mark : Bool) : Except Err (Ptr × Ctx) :=
  match c.get c.free_list with
  | none => Except.error Err.fault
  | some x => Except.ok (c.free_list, c.popFree x type mark)

/-- The function `lx_alloc`; the null pointer is returned when the free list
is empty and a collection frees nothing. -/
def lx_alloc (fuel : Nat) (c : Ctx) (type : LxType) (mark : Bool) : Except Err (Ptr × Ctx) :=
  if c.free_list = Ptr.null then
    match lx_gc fuel c with
    | Except.error e => Except.error e
    | Except.ok (c1, n) => if n = 0 then Except.ok (Ptr.null, c1) else allocPop c1 type mark
  else allocPop c type mark

/-- The function `lx_promote`: allocate a cell and copy `val` into it. -/
def lx_promote (fuel : Nat) (c : Ctx) (val : Value) : Except Err (Ptr × Ctx) := do
  let (p, c1) ← lx_alloc fuel c val.type false
  let _ ← c1.deref p
  Except.ok (p, c1.set p val)

/-- The function `lx_number`. -/
def lx_number (fuel : Nat) (c : Ctx) (number : ℚ) : Except Err (Ptr × Ctx) :=
  lx_promote fuel c { type := LX_NUMBER, number := number }

/-- The function `lx_symbol`. -/
def lx_symbol (fuel : Nat) (c : Ctx) (str : Nat) (len : Int) : Except Err (Ptr × Ctx) :=
  lx_promote fuel c { type := LX_SYMBOL, start := str, len := len }

/-- The function `lx_fn`. -/
def lx_fn (fuel : Nat) (c : Ctx) (args code : Nat) : Except Err (Ptr × Ctx) :=
  lx_promote fuel c { type := LX_FN, arg_start := args, body_start := code }

/-- The function `lx_cfn`. -/
def lx_cfn (fuel : Nat) (c : Ctx) (args cfn : Nat) : Except Err (Ptr × Ctx) :=
  lx_promote fuel c { type := LX_CFN, args := args, cfn := cfn }

/-- The function `lx_list`. -/
def lx_list (fuel : Nat) (c : Ctx) : Except Err (Ptr × Ctx) :=
  lx_promote fuel c { type := LX_LIST, value := Ptr.null, next := Ptr.null }

/-- The function `lx_makenv`. -/
def lx_makenv (fuel : Nat) (c : Ctx) : Except Err (Ptr × Ctx) := do
  let (env, c1) ← lx_alloc fuel c LX_ENV true
  let c2 ← c1.modify env fun x => { x with name := Ptr.null, value := Ptr.null, next := Ptr.null }
  Except.ok (env, c2)

/-- The function `lx_persist`. -/
def lx_persist (c : Ctx) (val : Ptr) : Except Err Ctx :=
  c.modify val fun x => { x with persist := true }

/-- The function `lx_marktemp`. -/
def lx_marktemp (c : Ctx) (v : Ptr) : Except Err Ctx :=
  c.modify v fun x => { x with mark := true }

/-- The function `lx_releasetemp` (it sets the mark bit, as the source does). -/
def lx_releasetemp (c : Ctx) (v : Ptr) : Except Err Ctx :=
  c.modify v fun x => { x with mark := true }

/-! ## Program text -/

/-- The byte at address `i` of the text memory (bytes never written are 0). -/
def Ctx.peek (c : Ctx) (i : Nat) : Nat := c.text.getD i 0

/-- The function `lx_isspace`. -/
def lx_isspace (b : Nat) : Bool := b == 32 || b == 9 || b == 10 || b == 13

/-- The function `lx_isdigit`. -/
def lx_isdigit (b : Nat) : Bool := decide (48 ≤ b) && decide (b ≤ 57)

/-- The function `lx_isalpha`. -/
def lx_isalpha (b : Nat) : Bool :=
  (decide (97 ≤ b) && decide (b ≤ 122)) || (decide (65 ≤ b) && decide (b ≤ 90)) || b == 95

/-- The function `lx_isalnum`. -/
def lx_isalnum (b : Nat) : Bool := lx_isdigit b || lx_isalpha b

/-- Number of leading bytes of `bs` that satisfy `p` and are not the
terminating NUL: the loops `while (*s && p(*s)) s++`. -/
def scan (p : Nat → Bool) (bs : List Nat) : Nat :=
  (bs.takeWhile fun b => b != 0 && p b).length

/-- The function `lx_strlen`. -/
def lx_strlen (c : Ctx) (str : Nat) : Nat := scan (fun _ => true) (c.text.drop str)

/-- The function `lx_word`. -/
def lx_word (c : Ctx) (str : Nat) : Nat :=
  scan (fun b => lx_isalnum b || b == 95) (c.text.drop str)

/-- The loop of the macro `EAT_SPACE`: the cursor after the white space. -/
def eatSpace (c : Ctx) (str : Nat) : Nat := str + scan lx_isspace (c.text.drop str)

/-- The loop of `lx_parsenumber` over the bytes from the cursor on; returns
the value and the number of bytes consumed. -/
def parsenumberLoop : List Nat → ℚ → ℚ → Bool → Nat → ℚ × Nat
  | [], val, _, _, n => (val, n)
  | b :: bs, val, scale, dot, n =>
    if lx_isdigit b || (b == 46 && !dot) then
      if dot then
        parsenumberLoop bs (val + ((b : ℚ) - 48) * (scale / 10)) (scale / 10) dot (n + 1)
      else if b == 46 then parsenumberLoop bs val scale true (n + 1)
      else parsenumberLoop bs (val * 10 + ((b : ℚ) - 48)) scale dot (n + 1)
    else (val, n)

/-- The function `lx_parsenumber`: the value and the end cursor. -/
def lx_parsenumber (c : Ctx) (str : Nat) : ℚ × Nat :=
  let r := parsenumberLoop (c.text.drop str) 0 1 false 0
  (r.1, str + r.2)

/-- The conversion `(int)x` of a number (truncation toward zero). -/
def toInt (x : ℚ) : Int := Int.tdiv x.num x.den

/-! ## Lists -/

/-- The loop `while (list->list.next) list = list->list.next;`. -/
def listLast : Nat → Ctx → Ptr → Except Err Ptr
  | 0, _, _ => Except.error Err.fuel
  | fuel + 1, c, list => do
    let x ← c.deref list
    if x.next = Ptr.null then Except.ok list else listLast fuel c x.next

/-- The function `lx_listappend`. -/
def lx_listappend (fuel : Nat) (c : Ctx) (list item : Ptr) : Except Err (Ptr × Ctx) := do
  let x ← c.deref list
  if x.type != LX_LIST then Except.ok (Ptr.nil, c)
  else if x.value = Ptr.null then Except.ok (list, c.set list { x with value := item })
  else
    let l ← listLast fuel c list
    let (n, c1) ← lx_list fuel c
    let c2 ← c1.modify l fun y => { y with next := n }
    let c3 ← c2.modify n fun y => { y with value := item }
    Except.ok (n, c3)

/-- The loop of `lx_listpop`: the last cell and its predecessor. -/
def listLastPrev : Nat → Ctx → Ptr → Ptr → Except Err (Ptr × Ptr)
  | 0, _, _, _ => Except.error Err.fuel
  | fuel + 1, c, prev, list => do
    let x ← c.deref list
    if x.next = Ptr.null then Except.ok (prev, list) else listLastPrev fuel c list x.next

/-- The function `lx_listpop`. -/
def lx_listpop (fuel : Nat) (c : Ctx) (list : Ptr) : Except Err (Ptr × Ctx) := do
  let x ← c.deref list
  if x.type != LX_LIST then Except.ok (Ptr.nil, c)
  else
    let (prev, l) ← listLastPrev fuel c list list
    let c1 ← c.modify prev fun y => { y with next := Ptr.null }
    let c2 ← (if prev = l then c1.modify l fun y => { y with value := Ptr.null } else Except.ok c1)
    Except.ok (l, c2)

/-- The function `lx_listnext`. -/
def lx_listnext (c : Ctx) (val : Ptr) : Except Err Ptr := do
  let x ← c.deref val
  Except.ok (if x.type == LX_LIST then x.next else Ptr.nil)

/-! ## Environments and call frames -/

/-- The byte comparison loop of `lx_symbeq` and of `==` on strings:
`true` when the first `n` bytes at `a` and `b` agree. -/
def bytesEq (c : Ctx) (a b : Nat) : Nat → Bool
  | 0 => true
  | n + 1 => bytesEq c a b n && c.peek (a + n) == c.peek (b + n)

/-- The function `lx_symbeq`. -/
def lx_symbeq (c : Ctx) (a b : Ptr) : Except Err Bool := do
  if a = Ptr.null || b = Ptr.null then Except.ok false
  else
    let x ← c.deref a
    let y ← c.deref b
    if x.type != LX_SYMBOL || y.type != LX_SYMBOL then Except.ok false
    else if x.len != y.len then Except.ok false
    else Except.ok (bytesEq c x.start y.start x.len.toNat)

/-- The loop of `lx_setenv`: `(true, _, _, c)` when a binding was overwritten
(the source returns from inside the loop), otherwise `(false, prev, env, c)`
with the values `prev` and `env` have when the loop ends. -/
def setenvLoop : Nat → Ctx → Ptr → Ptr → Ptr → Ptr → Except Err (Bool × Ptr × Ptr × Ctx)
  | 0, _, _, _, _, _ => Except.error Err.fuel
  | fuel + 1, c, prev, env, name, value =>
    if env = Ptr.null then Except.ok (false, prev, env, c)
    else do
      let e ← c.deref env
      if e.name = Ptr.null then Except.ok (false, prev, env, c)
      else if (← lx_symbeq c e.name name) then
        Except.ok (true, prev, env, c.set env { e with value := value })
      else setenvLoop fuel c env e.next name value

/-- The part of `lx_setenv` after the loop, from the values `prev` and `env`
have there. -/
def setenvTail (fuel : Nat) (c1 : Ctx) (prev env1 name value : Ptr) : Except Err Ctx := do
  let (env2, c2) ← (if env1 = Ptr.null then do
      let (e, d) ← lx_alloc fuel c1 LX_ENV true
      let d1 ← d.modify e fun x => { x with next := Ptr.null }
      Except.ok (e, d1)
    else Except.ok (env1, c1) : Except Err (Ptr × Ctx))
  let c3 ← (if env2 != prev then c2.modify prev fun x => { x with next := env2 }
    else Except.ok c2)
  c3.modify env2 fun x => { x with name := name, value := value }

/-- The function `lx_setenv` entered with the given value of `prev`; the
budget of the loop is `fuel`, the one of a collection `gcfuel`. -/
def setenvFrom (gcfuel fuel : Nat) (c : Ctx) (prev env name value : Ptr) : Except Err Ctx := do
  let (done, prev1, env1, c1) ← setenvLoop fuel c prev env name value
  if done then Except.ok c1 else setenvTail gcfuel c1 prev1 env1 name value

/-- The function `lx_setenv`. -/
def lx_setenv (fuel : Nat) (c : Ctx) (env name value : Ptr) : Except Err Ctx :=
  setenvFrom fuel fuel c env env name value

/-- The function `lx_getenv`. -/
def lx_getenv : Nat → Ctx → Ptr → Ptr → Except Err Ptr
  | 0, _, _, _ => Except.error Err.fuel
  | fuel + 1, c, env, name =>
    if env = Ptr.null then Except.ok Ptr.nil
    else do
      let e ← c.deref env
      if (← lx_symbeq c e.name name) then Except.ok e.value
      else lx_getenv fuel c e.next name

/-- The function `lx_getcall`. -/
def lx_getcall : Nat → Ctx → Ptr → Ptr → Except Err Ptr
  | 0, _, _, _ => Except.error Err.fuel
  | fuel + 1, c, call, name => do
    let f ← c.deref call
    let result ← lx_getenv fuel c f.env name
    let r ← c.deref result
    if r.type != LX_NIL then Except.ok result
    else if f.last = Ptr.null then Except.ok Ptr.nil
    else lx_getcall fuel c f.last name

/-- The function `lx_truthy`. -/
def lx_truthy (c : Ctx) (val : Ptr) : Except Err Bool := do
  if val = Ptr.null then Except.ok false
  else
    let x ← c.deref val
    if x.type == LX_FREE || x.type == LX_NIL then Except.ok false
    else if x.type == LX_NUMBER && x.number == 0 then Except.ok false
    else Except.ok true

/-! ## Formatter -/

/-- Decimal digits of `n`, least significant first (the first loop of the
number case of `lx_format`). -/
def digitsRev : Nat → Nat → List Nat
  | 0, _ => []
  | fuel + 1, n => if 0 < n then (48 + n % 10) :: digitsRev fuel (n / 10) else []

/-- The fractional digits loop of `lx_format`: at most `k` more digits. -/
def fracDigits : Nat → ℚ → List Nat
  | 0, _ => []
  | k + 1, frac =>
    if 0 < frac then
      (48 + (toInt (frac * 10)).toNat) :: fracDigits k (frac * 10 - (toInt (frac * 10) : ℚ))
    else []

/-- The table `formats`. -/
def formats : LxType → String
  | LX_FREE => "<free>" | LX_NIL => "<nil>" | LX_NUMBER => "<number>"
  | LX_STRING => "<string>" | LX_SYMBOL => "<symbol>" | LX_LIST => "<list>"
  | LX_ENV => "<env>" | LX_FN => "<fn>" | LX_CFN => "<cfn>" | LX_CALL => "<call>"
  | LX_EOF => "<eof>"

/-- The function `lx_format`: the characters of the returned C string. -/
def lx_format (c : Ctx) (val : Ptr) : Except Err (List Nat) := do
  let x ← c.deref val
  match x.type with
  | LX_NUMBER =>
    let ip := (toInt x.number).natAbs
    let sign : List Nat := if x.number < 0 then [45] else []
    let ds : List Nat := if ip = 0 then [48] else (digitsRev (ip + 1) ip).reverse
    let frac := |x.number - (toInt x.number : ℚ)|
    let fs : List Nat := if (1 : ℚ) / 100000 < frac then 46 :: fracDigits 6 frac else []
    Except.ok (sign ++ ds ++ fs)
  | LX_STRING =>
    let len := if x.len > 63 then 63 else x.len.toNat
    Except.ok (((List.range len).map fun i => c.peek (x.start + i)).takeWhile (· != 0))
  | t => Except.ok ((formats t).toList.map Char.toNat)

/-! ## Evaluator -/

/-- Type of the evaluator: context, call frame, start cursor, the value
stored at `*end` on entry, `eval_symbol`, `side_effects`; the result is the
returned pointer, the value stored at `*end` on return and the context. -/
abbrev Eval := Ctx → Ptr → Nat → Nat → Bool → Bool → Except Err (Ptr × Nat × Ctx)

/-- Type of the table of native functions (`lx_Cfn`), indexed by the
address stored in a `LX_CFN` cell. -/
abbrev Host := Nat → Ctx → Ptr → Except Err (Ptr × Ctx)

/-- The test of the macro `BUBBLE_EOF`. -/
def isEof (c : Ctx) (p : Ptr) : Except Err Bool := do
  let x ← c.deref p
  Except.ok (x.type == LX_EOF)

/-- The macro `GET_AB`: `none` stands for `return &lx_eof`. -/
def getAB (ev : Eval) (c : Ctx) (call : Ptr) (start next e : Nat) (se : Bool) :
    Except Err (Option (Ptr × Ptr) × Nat × Ctx) := do
  let (a, next1, c1) ← ev c call start next true se
  let c2 ← lx_marktemp c1 a
  if (← isEof c2 a) then Except.ok (none, e, c2)
  else
    let (b, e1, c3) ← ev c2 call next1 e true se
    if (← isEof c3 b) then Except.ok (none, e1, c3)
    else Except.ok (some (a, b), e1, c3)

/-- The macro `ARITH_OP` followed by `return &lx_nil_`. -/
def arithOp (fuel : Nat) (ev : Eval) (op : ℚ → ℚ → ℚ) (c : Ctx) (call : Ptr)
    (start next e : Nat) (se : Bool) : Except Err (Ptr × Nat × Ctx) := do
  let (ab, e1, c1) ← getAB ev c call start next e se
  match ab with
  | none => Except.ok (Ptr.eof, e1, c1)
  | some (a, b) =>
    let x ← c1.deref a
    let y ← c1.deref b
    if x.type != y.type then Except.ok (Ptr.nil, e1, c1)
    else if x.type == LX_NUMBER then
      let (p, c2) ← lx_promote fuel c1 { type := LX_NUMBER, number := op x.number y.number }
      Except.ok (p, e1, c2)
    else Except.ok (Ptr.nil, e1, c1)

/-- The macro `COMP_OP`: `some p` when the macro returns `p`, `none` when
control falls out of it with the operands `a` and `b`. -/
def compOp (ev : Eval) (op : ℚ → ℚ → Bool) (c : Ctx) (call : Ptr)
    (start next e : Nat) (se : Bool) : Except Err (Option Ptr × Ptr × Ptr × Nat × Ctx) := do
  let (ab, e1, c1) ← getAB ev c call start next e se
  match ab with
  | none => Except.ok (some Ptr.eof, Ptr.null, Ptr.null, e1, c1)
  | some (a, b) =>
    let x ← c1.deref a
    let y ← c1.deref b
    if x.type != y.type then Except.ok (some Ptr.zero, a, b, e1, c1)
    else if x.type == LX_NUMBER then
      Except.ok (some (if op x.number y.number then Ptr.one else Ptr.zero), a, b, e1, c1)
    else Except.ok (none, a, b, e1, c1)

/-- The cases `<`, `>`, `<=`, `>=` of `lx_eval`: `COMP_OP` followed by
`return &lx_nil_`. -/
def evalCompare (ev : Eval) (op : ℚ → ℚ → Bool) (c : Ctx) (call : Ptr)
    (start next e : Nat) (se : Bool) : Except Err (Ptr × Nat × Ctx) := do
  let (r, _, _, e1, c1) ← compOp ev op c call start next e se
  match r with
  | some p => Except.ok (p, e1, c1)
  | none => Except.ok (Ptr.nil, e1, c1)

/-- The case `==` of `lx_eval`. -/
def evalEq (ev : Eval) (c : Ctx) (call : Ptr) (start next e : Nat) (se : Bool) :
    Except Err (Ptr × Nat × Ctx) := do
  let (r, a, b, e1, c1) ← compOp ev (fun x y => decide (x = y)) c call start next e se
  match r with
  | some p => Except.ok (p, e1, c1)
  | none =>
    let x ← c1.deref a
    let y ← c1.deref b
    if x.type == LX_STRING then
      if x.len != y.len then Except.ok (Ptr.zero, e1, c1)
      else if bytesEq c1 x.start y.start y.len.toNat then Except.ok (Ptr.one, e1, c1)
      else Except.ok (Ptr.zero, e1, c1)
    else if a = b then Except.ok (Ptr.one, e1, c1)
    else Except.ok (Ptr.nil, e1, c1)

/-- The cases `&` and `|` of `lx_eval`. -/
def evalLogic (ev : Eval) (op : Bool → Bool → Bool) (c : Ctx) (call : Ptr)
    (start next e : Nat) (se : Bool) : Except Err (Ptr × Nat × Ctx) := do
  let (ab, e1, c1) ← getAB ev c call start next e se
  match ab with
  | none => Except.ok (Ptr.eof, e1, c1)
  | some (a, b) =>
    let ta ← lx_truthy c1 a
    let tb ← lx_truthy c1 b
    Except.ok (if op ta tb then Ptr.one else Ptr.zero, e1, c1)

/-- The case `!` of `lx_eval`. -/
def evalNot (ev : Eval) (c : Ctx) (call : Ptr) (start e : Nat) (se : Bool) :
    Except Err (Ptr × Nat × Ctx) := do
  let (a, e1, c1) ← ev c call start e true se
  if (← isEof c1 a) then Except.ok (Ptr.eof, e1, c1)
  else
    let t ← lx_truthy c1 a
    Except.ok (if t then Ptr.zero else Ptr.one, e1, c1)

/-- The case `_` of `lx_eval`. -/
def evalRound (fuel : Nat) (ev : Eval) (c : Ctx) (call : Ptr) (start e : Nat) (se : Bool) :
    Except Err (Ptr × Nat × Ctx) := do
  let (a, e1, c1) ← ev c call start e true se
  if (← isEof c1 a) then Except.ok (Ptr.eof, e1, c1)
  else
    let x ← c1.deref a
    if x.type != LX_NUMBER then Except.ok (Ptr.nil, e1, c1)
    else
      let r : Int := if 0 < x.number then toInt (x.number + 1 / 2) else toInt (x.number - 1 / 2)
      let (p, c2) ← lx_promote fuel c1 { type := LX_NUMBER, number := (r : ℚ) }
      Except.ok (p, e1, c2)

/-- The case of a string literal of `lx_eval`. -/
def evalString (fuel : Nat) (c : Ctx) (start e : Nat) : Except Err (Ptr × Nat × Ctx) := do
  let (result, c1) ← lx_promote fuel c { type := LX_STRING, start := start, len := 0 }
  let start1 := start + scan (fun b => b != 34) (c1.text.drop start)
  if c1.peek start1 == 0 then Except.ok (Ptr.eof, e, c1)
  else
    let c2 ← c1.modify result fun x => { x with len := (start1 : Int) - (x.start : Int) }
    Except.ok (result, start1 + 1, c2)

/-- The do-while loop of the macro `PARSE_BODY`.  `lst` is `some list_current`
for the list literal, whose `afterparse` appends the result, and `none`
otherwise.  The outcome `none` stands for `return &lx_eof`; otherwise the
cursor after the closing character, the last `result` and `list_current`. -/
def parseBodyLoop (gcfuel : Nat) (ev : Eval) (endchar : Nat) (se : Bool) :
    Nat → Ctx → Ptr → Nat → Nat → Ptr → Option Ptr →
    Except Err (Option (Nat × Ptr × Option Ptr) × Ctx)
  | 0, _, _, _, _, _, _ => Except.error Err.fuel
  | fuel + 1, c, call, start, next, result, lst => do
    let (value, next1, c1) ← ev c call start next true se
    let result1 := if value = Ptr.null then result else value
    if (← isEof c1 result1) then Except.ok (none, c1)
    else
      let start1 := eatSpace c1 next1
      if c1.peek start1 == 0 then Except.ok (none, c1)
      else
        let (lst1, c2) ← (match lst with
          | none => Except.ok (none, c1)
          | some cur => do
            let (cur1, d) ← lx_listappend gcfuel c1 cur result1
            Except.ok (some cur1, d) : Except Err (Option Ptr × Ctx))
        if c2.peek start1 != endchar then
          parseBodyLoop gcfuel ev endchar se fuel c2 call start1 next1 result1 lst1
        else Except.ok (some (start1 + 1, result1, lst1), c2)

/-- The macro `PARSE_BODY`.  The statement `start++` that ends the macro
follows the whole `if`/`else`, so an empty body advances the cursor twice:
past the closing character and past the byte after it. -/
def parseBody (fuel : Nat) (ev : Eval) (endchar : Nat) (se : Bool) (c : Ctx) (call : Ptr)
    (start next : Nat) (result : Ptr) (lst : Option Ptr) :
    Except Err (Option (Nat × Ptr × Option Ptr) × Ctx) :=
  let start1 := eatSpace c start
  if c.peek start1 == 0 then Except.ok (none, c)
  else if c.peek start1 == endchar then Except.ok (some (start1 + 2, result, lst), c)
  else parseBodyLoop fuel ev endchar se fuel c call start1 next result lst

/-- Leave the scope of the stack values pushed since the stack had `n` entries. -/
def Ctx.pop (c : Ctx) (n : Nat) : Ctx := { c with stack := c.stack.take n }

/-- Declare a stack value: its address and the new context. -/
def Ctx.push (c : Ctx) (v : Value) : Ptr × Ctx :=
  (Ptr.stack c.stack.length, { c with stack := c.stack ++ [v] })

/-- The statement `ctx->current = ctx->current->call.last;`. -/
def popCurrent (c : Ctx) : Except Err Ctx := do
  let cur ← c.deref c.current
  Except.ok { c with current := cur.last }

/-- The case `(` of `lx_eval`. -/
def evalParen (fuel : Nat) (ev : Eval) (c : Ctx) (call : Ptr) (start next e : Nat)
    (se : Bool) : Except Err (Ptr × Nat × Ctx) := do
  let (r, c1) ← parseBody fuel ev 41 se c call start next Ptr.nil none
  match r with
  | none => Except.ok (Ptr.eof, e, c1)
  | some (start1, result, _) => Except.ok (result, start1, c1)

/-- The case `{` of `lx_eval`. -/
def evalBlock (fuel : Nat) (ev : Eval) (c : Ctx) (call : Ptr) (start next e : Nat)
    (se : Bool) : Except Err (Ptr × Nat × Ctx) := do
  let n0 := c.stack.length
  let (fp, c0) := c.push { type := LX_CALL, last := call, env := Ptr.null, callable := Ptr.null }
  let (r, c1) ← parseBody fuel ev 125 se { c0 with current := fp } fp start next Ptr.nil none
  match r with
  | none => Except.ok (Ptr.eof, e, c1.pop n0)
  | some (start1, _, _) =>
    let c2 ← popCurrent c1
    let fr ← c2.deref fp
    Except.ok (if fr.env = Ptr.null then Ptr.nil else fr.env, start1, c2.pop n0)

/-- The case `[` of `lx_eval`. -/
def evalList (fuel : Nat) (ev : Eval) (c : Ctx) (call : Ptr) (start next e : Nat)
    (se : Bool) : Except Err (Ptr × Nat × Ctx) := do
  let (list_start, c0) ← lx_list fuel c
  let (r, c1) ← parseBody fuel ev 93 se c0 call start next Ptr.nil (some list_start)
  match r with
  | none => Except.ok (Ptr.eof, e, c1)
  | some (start1, _, _) => Except.ok (list_start, start1, c1)

/-- The loop `for (i = 0; i < n; ++i) env = env->list.next ? env->list.next : 0;`. -/
def listWalk : Nat → Ctx → Ptr → Except Err Ptr
  | 0, _, env => Except.ok env
  | n + 1, c, env => do
    let x ← c.deref env
    listWalk n c x.next

/-- The list branch of the case `.` after the index has been evaluated to the
number `k`: the walk and the final test. -/
def dotList (c : Ctx) (list : Ptr) (k : ℚ) : Except Err Ptr := do
  let env1 ← listWalk (toInt k).toNat c list
  if env1 = Ptr.null then Except.ok Ptr.nil
  else
    let z ← c.deref env1
    Except.ok z.value

/-- The case `.` of `lx_eval`. -/
def evalDot (fuel : Nat) (ev : Eval) (c : Ctx) (call : Ptr) (start next e : Nat)
    (se : Bool) : Except Err (Ptr × Nat × Ctx) := do
  let (env, next1, c1) ← ev c call start next true se
  let c2 ← lx_marktemp c1 env
  let x ← c2.deref env
  if x.type == LX_EOF then Except.ok (Ptr.eof, e, c2)
  else if x.type == LX_ENV then
    let (sym, e1, c3) ← ev c2 call next1 e false se
    if (← isEof c3 sym) then Except.ok (Ptr.eof, e1, c3)
    else
      let c4 ← lx_releasetemp c3 env
      let r ← lx_getenv fuel c4 env sym
      Except.ok (r, e1, c4)
  else
    let c3 ← lx_releasetemp c2 env
    if x.type == LX_LIST then
      let (sym, e1, c4) ← ev c3 call next1 e true se
      if (← isEof c4 sym) then Except.ok (Ptr.eof, e1, c4)
      else
        let y ← c4.deref sym
        if y.type != LX_NUMBER then Except.ok (Ptr.nil, e1, c4)
        else
          let r ← dotList c4 env y.number
          Except.ok (r, e1, c4)
    else
      let (sym, e1, c4) ← ev c3 call next1 e false se
      if (← isEof c4 sym) then Except.ok (Ptr.eof, e1, c4)
      else Except.ok (Ptr.nil, e1, c4)

/-- The operands `sym` and `val` of the case `:`; `none` stands for
`return &lx_eof`.  `mk` tells whether `val` is passed through `lx_marktemp`. -/
def colonOperands (ev : Eval) (c : Ctx) (call : Ptr) (start next e : Nat) (se : Bool)
    (evsym mk : Bool) : Except Err (Option (Ptr × Ptr) × Nat × Ctx) := do
  let (sym, start1, c1) ← ev c call next start evsym se
  let c2 ← lx_marktemp c1 sym
  if (← isEof c2 sym) then Except.ok (none, e, c2)
  else
    let (val, e1, c3) ← ev c2 call start1 e true se
    let c4 ← (if mk then lx_marktemp c3 val else Except.ok c3)
    if (← isEof c4 val) then Except.ok (none, e1, c4)
    else Except.ok (some (sym, val), e1, c4)

/-- The case `:` of `lx_eval`. -/
def evalColon (fuel : Nat) (ev : Eval) (c : Ctx) (call : Ptr) (start next e : Nat)
    (se : Bool) : Except Err (Ptr × Nat × Ctx) := do
  let (env, next1, c1) ← ev c call start next true se
  let c2 ← lx_marktemp c1 env
  let x ← c2.deref env
  if x.type == LX_EOF then Except.ok (Ptr.eof, e, c2)
  else if se && x.type == LX_ENV then
    let (r, e1, c3) ← colonOperands ev c2 call start next1 e se false true
    match r with
    | none => Except.ok (Ptr.eof, e1, c3)
    | some (sym, val) =>
      let c4 ← lx_setenv fuel c3 env sym val
      Except.ok (Ptr.nil, e1, c4)
  else if se && x.type == LX_LIST then
    let (r, e1, c3) ← colonOperands ev c2 call start next1 e se true true
    match r with
    | none => Except.ok (Ptr.eof, e1, c3)
    | some (sym, val) =>
      let y ← c3.deref sym
      if y.type != LX_NUMBER then Except.ok (Ptr.nil, e1, c3)
      else
        let c4 ← lx_releasetemp c3 sym
        let env1 ← listWalk (toInt y.number).toNat c4 env
        let c5 ← lx_releasetemp c4 env1
        let c6 ← lx_releasetemp c5 val
        let c7 ← c6.modify env1 fun z => { z with value := val }
        Except.ok (Ptr.nil, e1, c7)
  else
    let (r, e1, c3) ← colonOperands ev c2 call start next1 e se false false
    match r with
    | none => Except.ok (Ptr.eof, e1, c3)
    | some _ => Except.ok (Ptr.nil, e1, c3)

/-- The case `=` of `lx_eval` when the next character is not `=`. -/
def evalAssign (fuel : Nat) (ev : Eval) (c : Ctx) (call : Ptr) (start next e : Nat)
    (se : Bool) : Except Err (Ptr × Nat × Ctx) := do
  let (sym, next1, c1) ← ev c call start next false se
  let c2 ← lx_marktemp c1 sym
  if (← isEof c2 sym) then Except.ok (Ptr.eof, e, c2)
  else
    let (val, e1, c3) ← ev c2 call next1 e true se
    let c4 ← lx_marktemp c3 val
    if (← isEof c4 val) then Except.ok (Ptr.eof, e1, c4)
    else if se then
      let fr ← c4.deref call
      let (envp, c5) ← (if fr.env = Ptr.null then do
          let (en, d) ← lx_makenv fuel c4
          let d1 ← d.modify call fun f => { f with env := en }
          Except.ok (en, d1)
        else Except.ok (fr.env, c4) : Except Err (Ptr × Ctx))
      let c6 ← lx_setenv fuel c5 envp sym val
      Except.ok (Ptr.nil, e1, c6)
    else Except.ok (Ptr.nil, e1, c4)

/-- The case `,` of `lx_eval`. -/
def evalPrint (ev : Eval) (c : Ctx) (call : Ptr) (start e : Nat) (se : Bool) :
    Except Err (Ptr × Nat × Ctx) := do
  let (v, e1, c1) ← ev c call start e true se
  if (← isEof c1 v) then Except.ok (Ptr.eof, e1, c1)
  else if se then
    let str ← lx_format c1 v
    Except.ok (Ptr.nil, e1, { c1 with out := c1.out ++ [str] })
  else Except.ok (Ptr.nil, e1, c1)

/-- The case `@` of `lx_eval`. -/
def evalAt (fuel : Nat) (ev : Eval) (c : Ctx) (call : Ptr) (start e : Nat) (se : Bool) :
    Except Err (Ptr × Nat × Ctx) := do
  let (sym, e1, c1) ← ev c call start e false se
  if (← isEof c1 sym) then Except.ok (Ptr.eof, e1, c1)
  else
    let r ← lx_getcall fuel c1 call sym
    Except.ok (r, e1, c1)

/-- The case `?` of `lx_eval`. -/
def evalCond (ev : Eval) (c : Ctx) (call : Ptr) (start next e : Nat) (se : Bool) :
    Except Err (Ptr × Nat × Ctx) := do
  let (cond, next1, c1) ← ev c call start next true se
  let c2 ← lx_marktemp c1 cond
  if (← isEof c2 cond) then Except.ok (Ptr.eof, e, c2)
  else
    let t1 ← lx_truthy c2 cond
    let (true_result, start1, c3) ← ev c2 call next1 start true (se && t1)
    let c4 ← lx_marktemp c3 true_result
    if (← isEof c4 true_result) then Except.ok (Ptr.eof, e, c4)
    else
      let t2 ← lx_truthy c4 cond
      let (false_result, e1, c5) ← ev c4 call start1 e true (se && !t2)
      if (← isEof c5 false_result) then Except.ok (Ptr.eof, e1, c5)
      else
        let c6 ← lx_releasetemp c5 cond
        let t3 ← lx_truthy c6 cond
        if t3 then
          let c7 ← lx_releasetemp c6 true_result
          Except.ok (true_result, e1, c7)
        else Except.ok (false_result, e1, c6)

/-- The case `#` of `lx_eval`. -/
def evalAppend (fuel : Nat) (ev : Eval) (c : Ctx) (call : Ptr) (start next e : Nat)
    (se : Bool) : Except Err (Ptr × Nat × Ctx) := do
  let (list, next1, c1) ← ev c call start next true se
  let c2 ← lx_marktemp c1 list
  if (← isEof c2 list) then Except.ok (Ptr.eof, e, c2)
  else
    let (item, e1, c3) ← ev c2 call next1 e true se
    let c4 ← lx_marktemp c3 item
    if (← isEof c4 item) then Except.ok (Ptr.eof, e1, c4)
    else if se then
      let c5 ← lx_releasetemp c4 list
      let c6 ← lx_releasetemp c5 item
      let (r, c7) ← lx_listappend fuel c6 list item
      Except.ok (r, e1, c7)
    else Except.ok (Ptr.nil, e1, c4)

/-- The case of the backslash (pop) of `lx_eval`; `start` is the cursor
after the operator character, which is what `WRITE_END` stores. -/
def evalPop (fuel : Nat) (ev : Eval) (c : Ctx) (call : Ptr) (start next e : Nat)
    (se : Bool) : Except Err (Ptr × Nat × Ctx) := do
  let (list, _, c1) ← ev c call start next true se
  if (← isEof c1 list) then Except.ok (Ptr.eof, e, c1)
  else if se then
    let (r, c2) ← lx_listpop fuel c1 list
    Except.ok (r, start, c2)
  else Except.ok (Ptr.nil, start, c1)

/-- The while loop of the case `%` of `lx_eval`. -/
def forLoop (gcfuel : Nat) (ev : Eval) (call name : Ptr) (body_start : Nat) (se : Bool) :
    Nat → Ctx → Ptr → Ptr → Nat → Except Err (Ptr × Nat × Ctx)
  | 0, _, _, _, _ => Except.error Err.fuel
  | fuel + 1, c, list, result, e =>
    if list = Ptr.null then Except.ok (result, e, c)
    else do
      let x ← c.deref list
      if x.value = Ptr.null then Except.ok (result, e, c)
      else
        let fr ← c.deref call
        let c1 ← lx_marktemp c name
        let c2 ← lx_marktemp c1 list
        let y ← c2.deref list
        let c3 ← lx_setenv gcfuel c2 fr.env name y.value
        let (result1, e1, c4) ← ev c3 call body_start e true se
        let list1 ← lx_listnext c4 list
        forLoop gcfuel ev call name body_start se fuel c4 list1 result1 e1

/-- The case `%` of `lx_eval`. -/
def evalFor (fuel : Nat) (ev : Eval) (c : Ctx) (call : Ptr) (start next e : Nat)
    (se : Bool) : Except Err (Ptr × Nat × Ctx) := do
  let (list, next1, c1) ← ev c call start next true se
  let c2 ← lx_marktemp c1 list
  if (← isEof c2 list) then Except.ok (Ptr.eof, e, c2)
  else
    let (name, e1, c3) ← ev c2 call next1 e false se
    if (← isEof c3 name) then Except.ok (Ptr.eof, e1, c3)
    else
      let body_start := e1
      let x ← c3.deref list
      let (e2, c4) ← (if x.value = Ptr.null then do
          let (_, e', d) ← ev c3 call body_start e1 false false
          Except.ok (e', d)
        else Except.ok (e1, c3) : Except Err (Nat × Ctx))
      forLoop fuel ev call name body_start se fuel c4 list Ptr.nil e2

/-- The while loop of the case `^` of `lx_eval`. -/
def whileLoop (ev : Eval) (call : Ptr) (cond_start body_start : Nat) (se : Bool) :
    Nat → Ctx → Ptr → Ptr → Nat → Nat → Except Err (Ptr × Nat × Ctx)
  | 0, _, _, _, _, _ => Except.error Err.fuel
  | fuel + 1, c, cond, result, next, e => do
    if (← lx_truthy c cond) then
      let c1 ← lx_releasetemp c result
      let (result1, e1, c2) ← ev c1 call body_start e true se
      let c3 ← lx_marktemp c2 result1
      let c4 ← lx_releasetemp c3 cond
      let (cond1, next1, c5) ← ev c4 call cond_start next true se
      let c6 ← lx_marktemp c5 cond1
      if !se then Except.ok (result1, e1, c6)
      else whileLoop ev call cond_start body_start se fuel c6 cond1 result1 next1 e1
    else Except.ok (result, e, c)

/-- The case `^` of `lx_eval`. -/
def evalWhile (fuel : Nat) (ev : Eval) (c : Ctx) (call : Ptr) (start next e : Nat)
    (se : Bool) : Except Err (Ptr × Nat × Ctx) := do
  let (cond, next1, c1) ← ev c call start next true se
  let c2 ← lx_marktemp c1 cond
  if (← isEof c2 cond) then Except.ok (Ptr.eof, e, c2)
  else
    let body_start := next1
    let (e1, c3) ← (if !(← lx_truthy c2 cond) then do
        let (_, e', d) ← ev c2 call body_start e false false
        Except.ok (e', d)
      else Except.ok (e, c2) : Except Err (Nat × Ctx))
    whileLoop ev call start body_start se fuel c3 cond Ptr.nil next1 e1

/-- The length loops `while (val) { len++; val = val->env.next; }` of the case `$`. -/
def chainLen : Nat → Ctx → Ptr → Except Err Int
  | 0, _, _ => Except.error Err.fuel
  | fuel + 1, c, val =>
    if val = Ptr.null then Except.ok 0
    else do
      let x ← c.deref val
      let n ← chainLen fuel c x.next
      Except.ok (n + 1)

/-- The computation of `len` in the case `$` for a List or Env value. -/
def dollarLen (fuel : Nat) (c : Ctx) (val : Ptr) : Except Err Int := do
  let x ← c.deref val
  let n ← chainLen fuel c val
  Except.ok ((if x.value = Ptr.null then -1 else 0) + n)

/-- The case `$` of `lx_eval`. -/
def evalLen (fuel : Nat) (ev : Eval) (c : Ctx) (call : Ptr) (start e : Nat) (se : Bool) :
    Except Err (Ptr × Nat × Ctx) := do
  let (val, e1, c1) ← ev c call start e true se
  if (← isEof c1 val) then Except.ok (Ptr.eof, e1, c1)
  else
    let x ← c1.deref val
    let len ← (if x.type == LX_STRING then Except.ok x.len
      else if x.type == LX_ENV || x.type == LX_LIST then dollarLen fuel c1 val
      else Except.ok (-1) : Except Err Int)
    if len = -1 then Except.ok (Ptr.nil, e1, c1)
    else
      let (p, c2) ← lx_promote fuel c1 { type := LX_NUMBER, number := (len : ℚ) }
      Except.ok (p, e1, c2)

/-- The case of the function literal (apostrophe) of `lx_eval`. -/
def evalFn (fuel : Nat) (ev : Eval) (c : Ctx) (call : Ptr) (start e : Nat) :
    Except Err (Ptr × Nat × Ctx) := do
  let (result, c1) ← lx_alloc fuel c LX_FN true
  let start1 := eatSpace c1 start
  if c1.peek start1 == 0 then Except.ok (Ptr.eof, e, c1)
  else
    let c2 ← c1.modify result fun x => { x with arg_start := start1 }
    let r : Option Nat :=
      if c2.peek start1 == 40 then
        let s2 := start1 + scan (fun b => b != 41) (c2.text.drop start1) + 1
        if c2.peek s2 == 0 then none else some s2
      else
        let s2 := eatSpace c2 start1
        if c2.peek s2 == 0 then none else some (s2 + lx_word c2 s2)
    match r with
    | none => Except.ok (Ptr.eof, e, c2)
    | some s2 =>
      let start3 := eatSpace c2 s2
      if c2.peek start3 == 0 then Except.ok (Ptr.eof, e, c2)
      else
        let c3 ← c2.modify result fun x => { x with body_start := start3 }
        let (_, e1, c4) ← ev c3 call start3 e false false
        Except.ok (result, e1, c4)

/-- The macro `PARSE_ARG`, with `fp` the address of `next_call`.  The
outcome `none` stands for `return &lx_eof`; otherwise the new values of
`args`, `start` and `next`.  C leaves the order in which the arguments of the
call of `lx_setenv` are evaluated open; they are evaluated from right to left
here, the order in which `arg_value` is marked before the name is
allocated. -/
def parseArg (fuel : Nat) (ev : Eval) (c : Ctx) (call fp : Ptr) (args start next : Nat)
    (se : Bool) : Except Err (Option (Nat × Nat × Nat) × Ctx) := do
  let args1 := eatSpace c args
  if c.peek args1 == 0 then Except.ok (none, c)
  else
    let fr ← c.deref fp
    let c1 ← lx_marktemp c fr.env
    let arg_name : Value := { type := LX_SYMBOL, start := args1, len := (lx_word c1 args1 : Int) }
    let (arg_value, next1, c2) ← ev c1 call start next true se
    if (← isEof c2 arg_value) then Except.ok (none, c2)
    else
      let c3 ← lx_marktemp c2 arg_value
      let (np, c4) ← lx_promote fuel c3 arg_name
      let c5 ← lx_marktemp c4 np
      let fr2 ← c5.deref fp
      let c6 ← lx_setenv fuel c5 fr2.env np arg_value
      Except.ok (some (args1 + lx_word c1 args1, next1, next1), c6)

/-- The loop `while (*args && *args != ')') { PARSE_ARG; }`. -/
def parseArgs (gcfuel : Nat) (ev : Eval) (call fp : Ptr) (se : Bool) :
    Nat → Ctx → Nat → Nat → Nat → Except Err (Option (Nat × Nat × Nat) × Ctx)
  | 0, _, _, _, _ => Except.error Err.fuel
  | fuel + 1, c, args, start, next =>
    if c.peek args != 0 && c.peek args != 41 then do
      let (r, c1) ← parseArg gcfuel ev c call fp args start next se
      match r with
      | none => Except.ok (none, c1)
      | some (args1, start1, next1) => parseArgs gcfuel ev call fp se fuel c1 args1 start1 next1
    else Except.ok (some (args, start, next), c)

/-- The application of a callable in the word case of `lx_eval`: `result`
is the `LX_FN` or `LX_CFN` cell found by `lx_getcall`, `start` the cursor
after the word, `n0` the height of the stack when `lx_eval` was entered. -/
def evalApply (fuel : Nat) (ev : Eval) (host : Host) (c : Ctx) (call result : Ptr)
    (start next e : Nat) (se : Bool) (n0 : Nat) : Except Err (Ptr × Nat × Ctx) := do
  let r ← c.deref result
  let args := if r.type == LX_FN then r.arg_start else r.args
  let (envp, c1) ← lx_makenv fuel c
  let (fp, c2) := c1.push { type := LX_CALL, last := call, env := envp, callable := result }
  let (pa, c3) ← (if c2.peek args == 40 then parseArgs fuel ev call fp se fuel c2 (args + 1) start next
    else parseArg fuel ev c2 call fp args start next se)
  match pa with
  | none => Except.ok (Ptr.eof, e, c3.pop n0)
  | some (_, start1, _) =>
    let c4 := { c3 with current := fp }
    let r1 ← c4.deref result
    let (result1, e1, c5) ← (if se && r1.type == LX_FN then ev c4 fp r1.body_start e true se
      else if se then do
        let fr ← c4.deref fp
        let (v, d) ← host r1.cfn c4 fr.env
        Except.ok (v, e, d)
      else Except.ok (result, e, c4) : Except Err (Ptr × Nat × Ctx))
    let _ := e1
    let c6 ← popCurrent c5
    let fr ← c6.deref fp
    let c7 ← lx_releasetemp c6 fr.env
    Except.ok (result1, start1, c7.pop n0)

/-- The default case of `lx_eval`: a number or a word at cursor `s`. -/
def evalWord (fuel : Nat) (ev : Eval) (host : Host) (c : Ctx) (call : Ptr) (s e : Nat)
    (eval_symbol se : Bool) : Except Err (Ptr × Nat × Ctx) := do
  if lx_isdigit (c.peek s) then
    let (p, c1) ← lx_promote fuel c { type := LX_NUMBER, number := (lx_parsenumber c s).1 }
    Except.ok (p, (lx_parsenumber c s).2, c1)
  else if lx_isalpha (c.peek s) then
    let name : Value := { type := LX_SYMBOL, start := s, len := (lx_word c s : Int) }
    let start := s + lx_word c s
    if eval_symbol then
      let n0 := c.stack.length
      let (np, c1) := c.push name
      let result ← lx_getcall fuel c1 call np
      let r ← c1.deref result
      if r.type == LX_FN || r.type == LX_CFN then
        evalApply fuel ev host c1 call result start s e se n0
      else Except.ok (result, start, c1.pop n0)
    else
      let (p, c1) ← lx_promote fuel c name
      Except.ok (p, start, c1)
  else Except.ok (Ptr.eof, e, c)

/-- The body of `lx_eval`, with the recursive calls made through `ev`. -/
def evalStep (fuel : Nat) (ev : Eval) (host : Host) : Eval :=
  fun c call start0 end0 eval_symbol se =>
    let s := eatSpace c start0
    if c.peek s == 0 then Except.ok (Ptr.eof, end0, c)
    else
      let start := s + 1
      let ch := c.peek s
      if ch == 126 then Except.ok (Ptr.nil, start, c)
      else if ch == 34 then evalString fuel c start s
      else if ch == 43 then arithOp fuel ev (· + ·) c call start s s se
      else if ch == 45 then arithOp fuel ev (· - ·) c call start s s se
      else if ch == 42 then arithOp fuel ev (· * ·) c call start s s se
      else if ch == 47 then arithOp fuel ev (· / ·) c call start s s se
      else if ch == 60 then
        if c.peek start == 61 then evalCompare ev (fun x y => decide (x ≤ y)) c call (start + 1) s s se
        else evalCompare ev (fun x y => decide (x < y)) c call start s s se
      else if ch == 62 then
        if c.peek start == 61 then evalCompare ev (fun x y => decide (x ≥ y)) c call (start + 1) s s se
        else evalCompare ev (fun x y => decide (x > y)) c call start s s se
      else if ch == 38 then evalLogic ev (· && ·) c call start s s se
      else if ch == 124 then evalLogic ev (· || ·) c call start s s se
      else if ch == 33 then evalNot ev c call start s se
      else if ch == 95 then evalRound fuel ev c call start s se
      else if ch == 40 then evalParen fuel ev c call start s s se
      else if ch == 123 then evalBlock fuel ev c call start s s se
      else if ch == 91 then evalList fuel ev c call start s s se
      else if ch == 46 then evalDot fuel ev c call start s s se
      else if ch == 58 then evalColon fuel ev c call start s s se
      else if ch == 61 then
        if c.peek start == 61 then evalEq ev c call (start + 1) s s se
        else evalAssign fuel ev c call start s s se
      else if ch == 96 then
        Except.ok (Ptr.null, start + scan (fun b => b != 10) (c.text.drop start), c)
      else if ch == 44 then evalPrint ev c call start s se
      else if ch == 59 then
        Except.ok (Ptr.nil, start, if se then { c with out := c.out ++ [[10]] } else c)
      else if ch == 64 then evalAt fuel ev c call start s se
      else if ch == 63 then evalCond ev c call start s s se
      else if ch == 35 then evalAppend fuel ev c call start s s se
      else if ch == 92 then evalPop fuel ev c call start s s se
      else if ch == 37 then evalFor fuel ev c call start s s se
      else if ch == 94 then evalWhile fuel ev c call start s s se
      else if ch == 36 then evalLen fuel ev c call start s se
      else if ch == 39 then evalFn fuel ev c call start s
      else evalWord fuel ev host c call s s eval_symbol se

/-- The function `lx_eval`, with the recursion depth bounded by the first
argument. -/
def lx_eval (host : Host) : Nat → Eval
  | 0 => fun _ _ _ _ _ _ => Except.error Err.fuel
  | fuel + 1 => evalStep fuel (lx_eval host fuel) host

/-! ## Host entry points -/

/-- The free cells written by `lx_open`: cell `i` of `n` links to cell `i + 1`,
the last one to null. -/
def openCells (n : Nat) : List Value :=
  (List.range n).map fun i =>
    { type := LX_FREE, free := if i + 1 < n then Ptr.cell (i + 1) else Ptr.null }

/-- The function `lx_open` for an arena of `n` cells (`0 < n`) and a program
buffer of `p` bytes; addresses of program text start at 0. -/
def lx_open (p n : Nat) : Ctx :=
  { cells := openCells n, free_list := Ptr.cell 0, text := List.replicate p 0,
    prog_start := 0, prog_end := p }

/-- The function `lx_cells`. -/
def lx_cells (c : Ctx) : Nat := c.cells.length

/-- Store the bytes `bs` at address `pos` of a byte memory. -/
def writeBytes (t : List Nat) (pos : Nat) (bs : List Nat) : List Nat :=
  t.take pos ++ List.replicate (pos - t.length) 0 ++ bs ++ t.drop (pos + bs.length)

/-- The while loop of `lx_run`; `fp` is the address of the local `call`. -/
def runLoop (ev : Eval) (fp : Ptr) (stop : Nat) :
    Nat → Ctx → Nat → Nat → Ptr → Except Err (Ptr × Ctx)
  | 0, _, _, _, _ => Except.error Err.fuel
  | fuel + 1, c, prog_current, prog_next, result =>
    if prog_current < stop then do
      let (value, prog_next1, c1) ← ev c fp prog_current prog_next true true
      if value = Ptr.null then runLoop ev fp stop fuel c1 prog_next1 prog_next1 result
      else if (← isEof c1 value) then Except.ok (result, c1)
      else runLoop ev fp stop fuel c1 prog_next1 prog_next1 value
    else Except.ok (result, c)

/-- The function `lx_run`; `code` holds the bytes of the C string. -/
def lx_run (host : Host) (fuel : Nat) (c : Ctx) (env : Ptr) (code : List Nat) :
    Except Err (Ptr × Ctx) := do
  let str := code.takeWhile (· != 0)
  let len := str.length + 1
  let prog_start := c.prog_start
  if (c.prog_end : Int) - (c.prog_start : Int) ≤ (len : Int) then Except.ok (Ptr.nil, c)
  else
    let c0 := { c with text := writeBytes c.text prog_start (str ++ [0, 0]),
                       prog_start := prog_start + len }
    let n0 := c0.stack.length
    let (fp, c1) := c0.push { type := LX_CALL, last := c0.current, callable := Ptr.null, env := env }
    let (result, c2) ← runLoop (lx_eval host fuel) fp (prog_start + len) fuel
      { c1 with current := fp } prog_start prog_start Ptr.nil
    let fr ← c2.deref fp
    Except.ok (result, { c2 with current := fr.last }.pop n0)

/-- A host without native functions: every call faults. -/
def noHost : Host := fun _ _ _ => Except.error Err.fault

/-- The bytes of a string literal. -/
def bytes (s : String) : List Nat := s.toList.map Char.toNat

/-! ## Specification vocabulary -/

/-- A cell with its mark bit cleared. -/
def unmark (x : Value) : Value := { x with mark := false }

/-- The pointer `q` is a child pointer of the value behind `p`. -/
def Child (c : Ctx) (p q : Ptr) : Prop := ∃ x, c.get p = some x ∧ q ∈ children x

/-- Reachability through child pointers. -/
inductive Reach (c : Ctx) : Ptr → Ptr → Prop
  | refl (p : Ptr) : Reach c p p
  | step {p q r : Ptr} : Child c p q → Reach c q r → Reach c p r

/-- The roots of a collection: `ctx->current` and the arena cells whose
persist flag is set. -/
def Root (c : Ctx) (p : Ptr) : Prop :=
  p = c.current ∨ ∃ i x, p = Ptr.cell i ∧ c.cells[i]? = some x ∧ x.persist = true

/-- Reachable from a root. -/
def Reachable (c : Ctx) (p : Ptr) : Prop := ∃ r, Root c r ∧ Reach c r p

/-- Membership in the free list: the chain that starts at `ctx->free_list`
and follows the `free` pointers. -/
inductive OnFreeList (c : Ctx) : Ptr → Prop
  | head : c.free_list ≠ Ptr.null → OnFreeList c c.free_list
  | next {p : Ptr} {x : Value} :
      OnFreeList c p → c.get p = some x → x.free ≠ Ptr.null → OnFreeList c x.free

/-- The context `c2` differs from `c1` at most in mark bits, and no mark bit
set in `c1` is cleared in `c2`. -/
structure MarkLe (c1 c2 : Ctx) : Prop where
  get : ∀ p, Option.map unmark (c2.get p) = Option.map unmark (c1.get p)
  mono : ∀ p x y, c1.get p = some x → c2.get p = some y → x.mark = true → y.mark = true
  free_list : c2.free_list = c1.free_list
  current : c2.current = c1.current
  len : c2.cells.length = c1.cells.length
  gcs : c2.gcs = c1.gcs

/-- The value behind `p` exists and has its mark bit set. -/
def Marked (c : Ctx) (p : Ptr) : Prop := ∃ x, c.get p = some x ∧ x.mark = true

/-- The arena cell `j` exists and has its mark bit clear. -/
def Unmarked (c : Ctx) (j : Nat) : Prop := ∃ x, c.cells[j]? = some x ∧ x.mark = false

/-- A context with an empty free list: cell 0 is a persistent env node that
binds the symbol in cell 1 to the number in cell 2; cell 3 is an unreferenced
number. -/
def gcDemo : Ctx :=
  { cells := [
      { type := LX_ENV, persist := true, name := Ptr.cell 1, value := Ptr.cell 2 },
      { type := LX_SYMBOL, start := 0, len := 1 },
      { type := LX_NUMBER, number := 7 },
      { type := LX_NUMBER, number := 9 }],
    text := [120, 0] }

/-- The context `gcDemo` after one collection. -/
def gcDemoAfter : Ctx :=
  { cells := [
      { type := LX_ENV, persist := true, name := Ptr.cell 1, value := Ptr.cell 2 },
      { type := LX_SYMBOL, start := 0, len := 1 },
      { type := LX_NUMBER, number := 7 },
      { type := LX_FREE, number := 9 }],
    free_list := Ptr.cell 3,
    text := [120, 0],
    gcs := 1 }

/-- The operations that run collection cycles: `lx_gc` called by the host,
and `lx_alloc`, which runs a cycle when the free list is empty. -/
inductive GcStep
  | gc
  | alloc (type : LxType) (mark : Bool)
  deriving DecidableEq, Repr

/-- Run one step, keeping the context. -/
def GcStep.run (fuel : Nat) (c : Ctx) : GcStep → Except Err Ctx
  | GcStep.gc =>
    match lx_gc fuel c with
    | Except.error e => Except.error e
    | Except.ok r => Except.ok r.1
  | GcStep.alloc type mark =>
    match lx_alloc fuel c type mark with
    | Except.error e => Except.error e
    | Except.ok r => Except.ok r.2

/-- Run a sequence of steps. -/
def runSteps (fuel : Nat) : Ctx → List GcStep → Except Err Ctx
  | c, [] => Except.ok c
  | c, s :: ss =>
    match s.run fuel c with
    | Except.error e => Except.error e
    | Except.ok c1 => runSteps fuel c1 ss

/-- A context with an empty free list and three unreferenced numbers. -/
def persistDemo : Ctx :=
  { cells := [
      { type := LX_NUMBER, number := 9 },
      { type := LX_NUMBER, number := 5 },
      { type := LX_NUMBER, number := 6 }] }

/-- The context `persistDemo` after `lx_persist` on cell 0. -/
def persistDemo0 : Ctx :=
  { cells := [
      { type := LX_NUMBER, number := 9, persist := true },
      { type := LX_NUMBER, number := 5 },
      { type := LX_NUMBER, number := 6 }] }

/-- The context `persistDemo0` after an allocation (which collects), a
collection requested by the host and another allocation. -/
def persistDemoEnd : Ctx :=
  { cells := [
      { type := LX_NUMBER, number := 9, persist := true },
      { type := LX_FREE, number := 5, free := Ptr.cell 1 },
      { type := LX_ENV, number := 6, free := Ptr.cell 1, mark := true }],
    free_list := Ptr.cell 1,
    gcs := 2 }

/-! ## Environments as finite maps: specification vocabulary -/

/-- The pointer `p` addresses a Symbol. -/
def IsSymbol (c : Ctx) (p : Ptr) : Prop := ∃ x, c.get p = some x ∧ x.type = LX_SYMBOL

/-- Two pointers address Symbols with the same length and the same bytes. -/
def sameSymbol (c : Ctx) (a b : Ptr) : Bool :=
  match c.get a, c.get b with
  | some x, some y =>
    x.type == LX_SYMBOL && y.type == LX_SYMBOL && x.len == y.len &&
      bytesEq c x.start y.start x.len.toNat
  | _, _ => false

/-- The env chain that starts at `p` consists of the arena cells listed, in
order, each with the name and value given. -/
def Chain (c : Ctx) : Ptr → List (Nat × Ptr × Ptr) → Prop
  | p, [] => p = Ptr.null
  | p, (i, k, w) :: r =>
    p = Ptr.cell i ∧ ∃ x, c.cells[i]? = some x ∧ x.name = k ∧ x.value = w ∧ Chain c x.next r

/-- Effect of `lx_setenv` on the bindings of a chain: the first node without
a name is filled, the first node whose name equals `n` gets the value `v`,
and otherwise a node (cell `j`) is appended. -/
def envUpd (eqv : Ptr → Ptr → Bool) (j : Nat) (n v : Ptr) :
    List (Nat × Ptr × Ptr) → List (Nat × Ptr × Ptr)
  | [] => [(j, n, v)]
  | (i, k, w) :: r =>
    if k = Ptr.null then (i, n, v) :: r
    else if eqv k n then (i, k, v) :: r
    else (i, k, w) :: envUpd eqv j n v r

/-- Whether `lx_setenv` appends a node to the chain. -/
def envGrows (eqv : Ptr → Ptr → Bool) (n : Ptr) : List (Nat × Ptr × Ptr) → Bool
  | [] => true
  | (_, k, _) :: r => if k = Ptr.null then false else if eqv k n then false else envGrows eqv n r

/-- Result of `lx_getenv` on the bindings of a chain. -/
def envFind (eqv : Ptr → Ptr → Bool) (m : Ptr) : List (Nat × Ptr × Ptr) → Ptr
  | [] => Ptr.nil
  | (_, k, w) :: r => if eqv k m then w else envFind eqv m r

/-- A finite map given by the sequence of its updates (oldest first), read
as the spec describes it: the value of the last update of the name, the nil
singleton for a name that was never set. -/
def mapLookup (eqv : Ptr → Ptr → Bool) (m : Ptr) (kvs : List (Ptr × Ptr)) : Ptr :=
  match kvs.reverse.find? fun kv => eqv kv.1 m with
  | some kv => kv.2
  | none => Ptr.nil

/-- The free list starts with the arena cells listed, each tagged Free. -/
def FreeFrom (c : Ctx) : Ptr → List Nat → Prop
  | _, [] => True
  | p, i :: r => p = Ptr.cell i ∧ ∃ x, c.cells[i]? = some x ∧ x.type = LX_FREE ∧ FreeFrom c x.free r

/-- A sequence of calls of `lx_setenv` on the same env. -/
def setAll (fuel : Nat) (env : Ptr) : Ctx → List (Ptr × Ptr) → Except Err Ctx
  | c, [] => Except.ok c
  | c, (n, v) :: r =>
    match lx_setenv fuel c env n v with
    | Except.error e => Except.error e
    | Except.ok c1 => setAll fuel env c1 r

/-- What `lx_symbeq` reads of a value: start and length when it is a Symbol. -/
def symView (x : Value) : Option (Nat × Int) :=
  if x.type = LX_SYMBOL then some (x.start, x.len) else none

/-- The contexts agree on the program text, on which pointers are valid and
on which of them address Symbols with which bytes. -/
def SymSame (c1 c2 : Ctx) : Prop :=
  c2.text = c1.text ∧ ∀ p, Option.map symView (c2.get p) = Option.map symView (c1.get p)

/-- The arena cells of a chain. -/
def nodeIds (ns : List (Nat × Ptr × Ptr)) : List Nat := ns.map fun a => a.1

/-- Every name of the chain is null or a valid pointer. -/
def NamesValid (c : Ctx) (ns : List (Nat × Ptr × Ptr)) : Prop :=
  ∀ a ∈ ns, a.2.1 = Ptr.null ∨ (c.get a.2.1).isSome = true

/-- What a call of `lx_setenv` leaves unchanged: `touched` are the cells of
the chain, `j` is the head of the free list (holding `xj`), `t` the pointer
stored in the `next` field of `prev`, `grows` tells whether a node was
appended. -/
def SetenvPost (c c' : Ctx) (prev t : Ptr) (touched : List Nat) (j : Nat) (grows : Bool)
    (xj : Value) : Prop :=
  (∀ ip y, prev = Ptr.cell ip → ip ∉ touched → ip ≠ j → c.cells[ip]? = some y →
    c'.cells[ip]? = some { y with next := t }) ∧
  (∀ i, i ∉ touched → i ≠ j → Ptr.cell i ≠ prev → c'.cells[i]? = c.cells[i]?) ∧
  (∀ p, (∀ i, p ≠ Ptr.cell i) → c'.get p = c.get p) ∧
  SymSame c c' ∧
  c'.free_list = (if grows then xj.free else Ptr.cell j) ∧
  (grows = false → c'.cells[j]? = some xj) ∧
  c'.cells.length = c.cells.length ∧
  c'.gcs = c.gcs

/-- The invariant of an env built by `lx_makenv` and `lx_setenv` from the
context `c0`: `ns` are its nodes, `ps` is a prefix of the free list. -/
def EnvInv (c0 c : Ctx) (env : Ptr) (ns : List (Nat × Ptr × Ptr)) (ps : List Nat) : Prop :=
  Chain c env ns ∧ NamesValid c ns ∧ (nodeIds ns).Nodup ∧ ns ≠ [] ∧
  FreeFrom c c.free_list ps ∧ ps.Nodup ∧ (∀ i ∈ ps, i ∉ nodeIds ns) ∧
  SymSame c0 c ∧ c.gcs = c0.gcs

/-- A context with two Symbols (`a` in cell 0, `b` in cell 1) and three free
cells. -/
def envDemo : Ctx :=
  { cells := [
      { type := LX_SYMBOL, start := 0, len := 1 },
      { type := LX_SYMBOL, start := 2, len := 1 },
      { type := LX_FREE, free := Ptr.cell 3 },
      { type := LX_FREE, free := Ptr.cell 4 },
      { type := LX_FREE, free := Ptr.null }],
    free_list := Ptr.cell 2,
    text := [97, 0, 98, 0] }

/-- A host session on an arena of five cells: an env is made and flagged
persistent, `a` is bound to 1 in it, then the Symbol `b` and the number 2 are
made, which uses up the free list.  The host also holds a Symbol `b` of its
own (at `Ptr.stack 0`).  The result is the env, the Symbol `b`, the number 2
and the context. -/
def envBadRun : Except Err (Ptr × Ptr × Ptr × Ctx) := do
  let c0 : Ctx := { lx_open 8 5 with
    text := [97, 0, 98, 0], stack := [{ type := LX_SYMBOL, start := 2, len := 1 }] }
  let (env, c1) ← lx_makenv 9 c0
  let c2 ← lx_persist c1 env
  let (n1, c3) ← lx_symbol 9 c2 0 1
  let (v1, c4) ← lx_number 9 c3 1
  let c5 ← lx_setenv 9 c4 env n1 v1
  let (n2, c6) ← lx_symbol 9 c5 2 1
  let (v2, c7) ← lx_number 9 c6 2
  Except.ok (env, n2, v2, c7)

/-- The context the session `envBadRun` ends in. -/
def envBad : Ctx :=
  { cells := [
      { type := LX_ENV, mark := true, persist := true, free := Ptr.cell 1,
        name := Ptr.cell 1, value := Ptr.cell 2 },
      { type := LX_SYMBOL, start := 0, len := 1 },
      { type := LX_NUMBER, number := 1 },
      { type := LX_SYMBOL, start := 2, len := 1 },
      { type := LX_NUMBER, number := 2 }],
    stack := [{ type := LX_SYMBOL, start := 2, len := 1 }],
    text := [97, 0, 98, 0],
    prog_end := 8 }

/-! ## Call chains: specification vocabulary -/

/-- The chain of call frames that starts at `call` and follows the parent
pointers to null consists of frames with the envs listed (each paired with a
pointer, used for the result of the lookup in that env). -/
def Frames (c : Ctx) : Ptr → List (Ptr × Ptr) → Prop
  | p, [] => p = Ptr.null
  | p, (e, _) :: r => ∃ x, c.get p = some x ∧ x.env = e ∧ Frames c x.last r

/-- The value is tagged Nil. -/
def isNilAt (c : Ctx) (p : Ptr) : Bool :=
  match c.get p with
  | some x => x.type == LX_NIL
  | none => false

/-- The first lookup result along the chain that is not tagged Nil, the nil
singleton when there is none. -/
def firstBound (c : Ctx) : List (Ptr × Ptr) → Ptr
  | [] => Ptr.nil
  | (_, r) :: rest => if isNilAt c r then firstBound c rest else r

/-- Two call frames on the stack: the outer one (`Ptr.stack 0`) binds `x`
(the Symbol in cell 1) to the number 5, the inner one (`Ptr.stack 1`) binds
`x` to the nil singleton. -/
def callDemo : Ctx :=
  { cells := [
      { type := LX_ENV, name := Ptr.cell 1, value := Ptr.cell 2 },
      { type := LX_SYMBOL, start := 0, len := 1 },
      { type := LX_NUMBER, number := 5 },
      { type := LX_ENV, name := Ptr.cell 1, value := Ptr.nil }],
    stack := [
      { type := LX_CALL, env := Ptr.cell 0, last := Ptr.null },
      { type := LX_CALL, env := Ptr.cell 3, last := Ptr.stack 0 }],
    text := [120, 0] }

/-! ## Operators: specification vocabulary -/

/-- The four ordering operators. -/
inductive CmpOp
  | lt | gt | le | ge
  deriving DecidableEq, Repr

/-- The relation the operator names. -/
def CmpOp.rel : CmpOp → ℚ → ℚ → Bool
  | CmpOp.lt => fun x y => decide (x < y)
  | CmpOp.le => fun x y => decide (x ≤ y)
  | CmpOp.gt => fun x y => decide (x > y)
  | CmpOp.ge => fun x y => decide (x ≥ y)

/-- The result of an ordering operator on two operand values, as the code
computes it. -/
def cmpResult (k : CmpOp) (x y : Value) : Ptr :=
  if x.type ≠ y.type then Ptr.zero
  else if x.type = LX_NUMBER then (if k.rel x.number y.number then Ptr.one else Ptr.zero)
  else Ptr.nil

/-- The value of a successful computation (`d` for a failed one). -/
def okOr {α : Type} (d : α) : Except Err α → α
  | Except.ok a => a
  | Except.error _ => d

/-- A context of `n` free cells whose program text is the given string. -/
def ctxOf (n : Nat) (code : String) : Ctx :=
  { lx_open (code.length + 2) n with text := bytes code ++ [0, 0] }

/-- The value and the context a computation returns, the value read in that
context (`none` when the computation fails or returns an invalid pointer). -/
def valueOf (r : Except Err (Ptr × Nat × Ctx)) : Option Value :=
  match r with
  | Except.ok (p, _, c) => c.get p
  | Except.error _ => none

/-- Run a program on a fresh context of `n` cells without native functions
and without a host env. -/
def runFresh (n : Nat) (code : String) : Except Err (Ptr × Ctx) :=
  lx_run noHost 12 (lx_open (code.length + 4) n) Ptr.null (bytes code)

/-- The value a run returns (`none` when the run fails or returns an invalid
pointer). -/
def runValue (r : Except Err (Ptr × Ctx)) : Option Value :=
  match r with
  | Except.ok (p, c) => c.get p
  | Except.error _ => none

/-- The pointer an evaluation returns. -/
def ptrOf (r : Except Err (Ptr × Nat × Ctx)) : Option Ptr :=
  match r with
  | Except.ok (p, _, _) => some p
  | Except.error _ => none

/-! ## Lists: specification vocabulary -/

/-- The list that starts at `p` consists of the arena cells listed, in order,
each tagged List and holding the value given; the last one has no successor. -/
def LChain (c : Ctx) : Ptr → List (Nat × Ptr) → Prop
  | p, [] => p = Ptr.null
  | p, (i, w) :: r =>
    p = Ptr.cell i ∧ ∃ x, c.cells[i]? = some x ∧ x.type = LX_LIST ∧ x.value = w ∧
      LChain c x.next r

/-! ## List literals: specification vocabulary -/

/-- The free list starts with an arena cell tagged Free: the next allocation
runs no collection and does not fail. -/
def HeadFree (c : Ctx) : Prop :=
  ∃ j, c.free_list = Ptr.cell j ∧ (c.cells[j]?).map (fun x => x.type) = some LX_FREE

/-- The evaluations of the elements of a list literal, one after the other,
from a state of the loop of its `PARSE_BODY`: the context `c`, the cell
`list_current`, the cells of the list built so far (`spine`), the cursor
`pos` behind the white space and the value of `next`.  Each entry of the list
gives the value, the cursor and the context that the evaluation of the next
element returns.  That evaluation returns a value (not a null pointer, not
Eof), leaves the cells of the list built so far as they are and, unless the
element is the first one (which is stored in the cell of the list itself),
leaves a free cell at the head of the free list.  The state after the element
is the one that `lx_listappend` produces; after the last element the text
continues with the closing bracket. -/
def ElemsRun (fuel : Nat) (ev : Eval) (call : Ptr) (se : Bool) :
    List (Ptr × Nat × Ctx) → Bool → Ctx → Ptr → List Ptr → Nat → Nat → Prop
  | [], _, c, _, _, pos, _ => c.peek pos = 93
  | (v, nx, d) :: r, first, c, cur, spine, pos, next =>
    c.peek pos ≠ 0 ∧ c.peek pos ≠ 93 ∧
    ev c call pos next true se = Except.ok (v, nx, d) ∧
    v ≠ Ptr.null ∧ isEof d v = Except.ok false ∧
    (∀ p ∈ spine, d.get p = c.get p) ∧
    (first = true ∨ HeadFree d) ∧
    ElemsRun fuel ev call se r false
      (okOr (cur, d) (lx_listappend fuel d cur v)).2
      (okOr (cur, d) (lx_listappend fuel d cur v)).1
      (spine ++ [(okOr (cur, d) (lx_listappend fuel d cur v)).1])
      (eatSpace d nx) nx

/-- The context for evaluating `[10 20 30]`. -/
def litDemo : Ctx := ctxOf 8 "[10 20 30]"

/-- The evaluation of the first element of `litDemo`. -/
def litDemoA : Ptr × Nat × Ctx :=
  okOr (Ptr.null, 0, litDemo)
    (lx_eval noHost 5 (okOr (Ptr.null, litDemo) (lx_list 5 litDemo)).2 Ptr.null 1 0 true true)

/-- The state after the first element has been appended. -/
def litDemoA2 : Ptr × Ctx :=
  okOr (Ptr.cell 0, litDemoA.2.2) (lx_listappend 5 litDemoA.2.2 (Ptr.cell 0) litDemoA.1)

/-- The evaluation of the second element of `litDemo`. -/
def litDemoB : Ptr × Nat × Ctx :=
  okOr (Ptr.null, 0, litDemo)
    (lx_eval noHost 5 litDemoA2.2 Ptr.null (eatSpace litDemoA.2.2 litDemoA.2.1) litDemoA.2.1
      true true)

/-- The state after the second element has been appended. -/
def litDemoB2 : Ptr × Ctx :=
  okOr (litDemoA2.1, litDemoB.2.2) (lx_listappend 5 litDemoB.2.2 litDemoA2.1 litDemoB.1)

/-- The evaluation of the third element of `litDemo`. -/
def litDemoC : Ptr × Nat × Ctx :=
  okOr (Ptr.null, 0, litDemo)
    (lx_eval noHost 5 litDemoB2.2 Ptr.null (eatSpace litDemoB.2.2 litDemoB.2.1) litDemoB.2.1
      true true)

/-- The element evaluations of `litDemo`. -/
def litDemoElems : List (Ptr × Nat × Ctx) :=
  [(litDemoA.1, litDemoA.2.1, litDemoA.2.2), (litDemoB.1, litDemoB.2.1, litDemoB.2.2),
    (litDemoC.1, litDemoC.2.1, litDemoC.2.2)]

/-! ## Runs under memory pressure: specification vocabulary -/

/-- Run a program on a fresh context of `n` cells, with fuel for deeper
nesting than `runFresh`. -/
def runAt (n : Nat) (code : String) : Except Err (Ptr × Ctx) :=
  lx_run noHost 24 (lx_open (code.length + 4) n) Ptr.null (bytes code)

/-- The number a run returns (`none` when it does not return a number). -/
def runNumber (r : Except Err (Ptr × Ctx)) : Option ℚ :=
  match runValue r with
  | some x => if x.type = LX_NUMBER then some x.number else none
  | none => none

/-- The number of GC cycles a run has gone through (`none` when it fails). -/
def runGcs (r : Except Err (Ptr × Ctx)) : Option Nat :=
  match r with
  | Except.ok (_, c) => some c.gcs
  | Except.error _ => none

/-- The tag of the value a run returns. -/
def runType (r : Except Err (Ptr × Ctx)) : Option LxType :=
  (runValue r).map fun x => x.type

/-- The tag of the cell that the first node of the env returned by a run
holds as its name. -/
def runEnvNameType (r : Except Err (Ptr × Ctx)) : Option LxType :=
  match r with
  | Except.ok (p, c) =>
    match c.get p with
    | some e => if e.type = LX_ENV then (c.get e.name).map fun x => x.type else none
    | none => none
  | Except.error _ => none

/-! ## Truth values: specification vocabulary -/

/-- The C string `code` with its terminating NUL fits in what is left of the
program-text buffer. -/
def Fits (c : Ctx) (code : List Nat) : Prop :=
  ((code.takeWhile (· != 0)).length : Int) + 1 ≤ (c.prog_end : Int) - (c.prog_start : Int)

/-- The tag of the value an evaluation returns. -/
def typeOf (r : Except Err (Ptr × Nat × Ctx)) : Option LxType :=
  (valueOf r).map fun x => x.type

/-! ## Counting and allocation failure: specification vocabulary -/

/-- The number of arena cells that are not tagged Free in `c` and are tagged
Free in `c'`. -/
def newlyFreed (c c' : Ctx) : Nat :=
  ((List.range c.cells.length).filter fun i =>
    match c.cells[i]?, c'.cells[i]? with
    | some x, some y => x.type != LX_FREE && y.type == LX_FREE
    | _, _ => false).length

/-- The count `lx_gc` returns and the number of cells it has turned from
not Free to Free. -/
def gcCounts (fuel : Nat) (c : Ctx) : Option (Nat × Nat) :=
  match lx_gc fuel c with
  | Except.ok (c', n) => some (n, newlyFreed c c')
  | Except.error _ => none

/-- A context of three cells with an empty free list in which a collection
frees nothing: cell 0 is a persistent env that binds the symbol `a` of cell 1
to `lx_one`, cell 2 is the symbol `b`; both symbols are persistent. -/
def fullDemo : Ctx :=
  { cells := [
      { type := LX_ENV, persist := true, name := Ptr.cell 1, value := Ptr.one },
      { type := LX_SYMBOL, persist := true, start := 0, len := 1 },
      { type := LX_SYMBOL, persist := true, start := 1, len := 1 }],
    text := [97, 98, 0, 0] }

/-! ## The outcome of a collection: specification vocabulary -/

/-- The cell `p` is on the free list through cells with an index below `b`
only. -/
inductive FreePath (c : Ctx) (b : Nat) : Ptr → Prop
  | head {j : Nat} : c.free_list = Ptr.cell j → j < b → FreePath c b (Ptr.cell j)
  | next {j j2 : Nat} {x : Value} : FreePath c b (Ptr.cell j) → c.cells[j]? = some x →
      x.free = Ptr.cell j2 → j2 < b → FreePath c b (Ptr.cell j2)

/-- The context after `lx_open` on two cells and one `lx_makenv`: cell 0 is
an env with its mark bit set that nothing references. -/
def markDemo : Ctx :=
  { cells := [{ type := LX_ENV, mark := true, free := Ptr.cell 1 }, { type := LX_FREE }],
    free_list := Ptr.cell 1 }

/-- The context `markDemo` after one collection: cell 0 has been kept. -/
def markDemoAfter : Ctx :=
  { cells := [{ type := LX_ENV, free := Ptr.cell 1 }, { type := LX_FREE, free := Ptr.cell 1 }],
    free_list := Ptr.cell 1,
    gcs := 1 }

/-! ## A loop that never ends: specification vocabulary -/

/-- The source of the loop scenario: the body of `^` is the one expression
`(, i)`, and the statements after it are run when the loop has ended. -/
def loopProg : List Nat := bytes "(= i 0)(^ (< i 3) (, i)(; )(= i (+ i 1)))"

/-- The loop scenario with the three statements grouped into one body. -/
def loopGrouped : List Nat := bytes "(= i 0)(^ (< i 3) ((, i)(; )(= i (+ i 1))))"

/-- The text memory once `lx_run` has copied `loopProg` into a buffer of 48 bytes. -/
def loopText : List Nat := writeBytes (List.replicate 48 0) 0 (loopProg ++ [0, 0])

/-- The states of the run of `loopProg` while the loop is running: the frame
of `lx_run` is the only stack value and is current, its environment is the
cell 2, which binds the symbol `i` (cell 0) to the number 0 (cell 1), and no
free cell is one of these three.  Mark bits are left open. -/
structure LoopInv (c : Ctx) : Prop where
  text : c.text = loopText
  cur : c.current = Ptr.stack 0
  frame : ∃ fr, c.stack = [fr] ∧ fr.type = LX_CALL ∧ fr.env = Ptr.cell 2 ∧
    fr.callable = Ptr.null ∧ fr.last = Ptr.null
  env : ∃ e, c.cells[2]? = some e ∧ e.type = LX_ENV ∧ e.name = Ptr.cell 0 ∧
    e.value = Ptr.cell 1 ∧ e.next = Ptr.null
  name : ∃ x, c.cells[0]? = some x ∧ x.type = LX_SYMBOL ∧ x.start = 3 ∧ x.len = 1
  val : ∃ x, c.cells[1]? = some x ∧ x.type = LX_NUMBER ∧ x.number = 0
  nil : c.nil_.type = LX_NIL
  one : c.one_.type = LX_NUMBER ∧ c.one_.number = 1
  free : ∀ p, OnFreeList c p → ∃ j, p = Ptr.cell j ∧ 3 ≤ j

/-- The state in which `lx_run` starts the evaluation of `loopProg` on a
fresh context of 8 cells with a buffer of 48 bytes: the text is copied and
the local `call` of `lx_run` is the current frame. -/
def loopInit : Ctx :=
  { lx_open 48 8 with text := loopText, prog_start := 42, stack := [{ type := LX_CALL }],
                      current := Ptr.stack 0 }

/-- The states the first statement `(= i 0)` of `loopProg` goes through:
after the symbol is allocated, marked, the number allocated, marked, the
environment made and stored in the frame. -/
def loopSteps : List Ctx :=
  let s1 := (okOr (Ptr.null, loopInit)
    (lx_promote 0 loopInit { type := LX_SYMBOL, start := 3, len := 1 })).2
  let s2 := okOr s1 (lx_marktemp s1 (Ptr.cell 0))
  let s3 := (okOr (Ptr.null, s2) (lx_promote 0 s2 { type := LX_NUMBER, number := 0 })).2
  let s4 := okOr s3 (lx_marktemp s3 (Ptr.cell 1))
  let s5 := (okOr (Ptr.null, s4) (lx_makenv 0 s4)).2
  let s6 := okOr s5 (s5.modify (Ptr.stack 0) fun f => { f with env := Ptr.cell 2 })
  [s1, s2, s3, s4, s5, s6]

/-- The state number `k` of `loopSteps`. -/
def loopS (k : Nat) : Ctx := loopSteps.getD k loopInit

/-- The state after the first statement `(= i 0)` of `loopProg`. -/
def loopFirst : Ctx :=
  (okOr (Ptr.null, 0, loopInit) (lx_eval noHost 4 loopInit (Ptr.stack 0) 0 0 true true)).2.2
/-! ## Dry and wet parses: specification vocabulary -/

/-- The pointer is null or the address of an arena cell. -/
def Ptr.isCellOrNull : Ptr → Bool
  | Ptr.null => true
  | Ptr.cell _ => true
  | _ => false

/-- The pointer members of a value are plain: `value`, `next` and `env` do
not refer to the Eof singleton, and `free` is null or an arena cell. -/
def PlainF (x : Value) : Prop :=
  x.value ≠ Ptr.eof ∧ x.next ≠ Ptr.eof ∧ x.env ≠ Ptr.eof ∧ x.free.isCellOrNull = true

/-- A plain tag: not Eof, Fn or CFn. -/
def PlainTag (t : LxType) : Prop := t ≠ LX_EOF ∧ t ≠ LX_FN ∧ t ≠ LX_CFN

/-- A plain state: a well-formed state without functions.  No arena cell, no
stack value and none of the singletons nil, 0 and 1 is tagged Eof, Fn or CFn,
the Eof singleton is tagged Eof, no value refers to the Eof singleton in its
members `value`, `next` and `env`, and the free list links arena cells. -/
def Plain (c : Ctx) : Prop :=
  (∀ x ∈ c.cells, PlainTag x.type ∧ PlainF x) ∧ (∀ x ∈ c.stack, PlainTag x.type ∧ PlainF x) ∧
    (PlainTag c.nil_.type ∧ PlainF c.nil_) ∧ (PlainTag c.zero_.type ∧ PlainF c.zero_) ∧
    (PlainTag c.one_.type ∧ PlainF c.one_) ∧ (c.eof_.type = LX_EOF ∧ PlainF c.eof_) ∧
    c.free_list.isCellOrNull = true

/-- A plain text: it contains no apostrophe (function literal), no `^` and
no `%`. -/
def PlainText (t : List Nat) : Prop := ∀ b ∈ t, b ≠ 39 ∧ b ≠ 94 ∧ b ≠ 37

/-- Type of the cursor scan: from a start cursor and the value stored at
`*end` on entry to whether Eof is returned and the value stored at `*end` on
return (`none` when the budget of the scan is used up). -/
abbrev Scan := Nat → Nat → Option (Bool × Nat)

/-- The cursor flow of two operands read under `BUBBLE_EOF` (the macro
`GET_AB` and the cases `=`, `#` and `.`). -/
def scanAB (sc : Scan) (start next e : Nat) : Option (Bool × Nat) :=
  match sc start next with
  | none => none
  | some (true, _) => some (true, e)
  | some (false, next1) => sc next1 e

/-- The cursor flow of three operands read under `BUBBLE_EOF` (the cases
`?` and `:`). -/
def scanABC (sc : Scan) (start next e : Nat) : Option (Bool × Nat) :=
  match sc start next with
  | none => none
  | some (true, _) => some (true, e)
  | some (false, next1) => scanAB sc next1 start e

/-- The cursor flow of the loop of `PARSE_BODY`: `some none` stands for
`return &lx_eof`, `some (some p)` for the cursor after the closing character. -/
def scanBodyLoop (k : Ctx) (sc : Scan) (endchar : Nat) : Nat → Nat → Nat → Option (Option Nat)
  | 0, _, _ => none
  | fuel + 1, start, next =>
    match sc start next with
    | none => none
    | some (true, _) => some none
    | some (false, next1) =>
      let start1 := eatSpace k next1
      if k.peek start1 == 0 then some none
      else if k.peek start1 != endchar then scanBodyLoop k sc endchar fuel start1 next1
      else some (some (start1 + 1))

/-- The cursor flow of the cases `(`, `{` and `[`. -/
def scanBody (k : Ctx) (fuel : Nat) (sc : Scan) (endchar : Nat) (start next e : Nat) :
    Option (Bool × Nat) :=
  let start1 := eatSpace k start
  let r : Option (Option Nat) :=
    if k.peek start1 == 0 then some none
    else if k.peek start1 == endchar then some (some (start1 + 2))
    else scanBodyLoop k sc endchar fuel start1 next
  match r with
  | none => none
  | some none => some (true, e)
  | some (some p) => some (false, p)

/-- The cursor flow of the body of `lx_eval` on the text of `k`, for texts
without function literals, `^` and `%` and states without functions: which
operands are read, from which cursors, and where the end cursor is written.
No value is computed. -/
def scanStep (k : Ctx) (fuel : Nat) (sc : Scan) : Scan :=
  fun start0 end0 =>
    let s := eatSpace k start0
    if k.peek s == 0 then some (true, end0)
    else
      let start := s + 1
      let ch := k.peek s
      if ch == 126 then some (false, start)
      else if ch == 34 then
        let start1 := start + scan (fun b => b != 34) (k.text.drop start)
        if k.peek start1 == 0 then some (true, s) else some (false, start1 + 1)
      else if ch == 43 || ch == 45 || ch == 42 || ch == 47 then scanAB sc start s s
      else if ch == 60 || ch == 62 || ch == 61 then
        if k.peek start == 61 then scanAB sc (start + 1) s s else scanAB sc start s s
      else if ch == 38 || ch == 124 || ch == 46 || ch == 35 then scanAB sc start s s
      else if ch == 33 || ch == 95 || ch == 44 || ch == 64 || ch == 36 then sc start s
      else if ch == 40 then scanBody k fuel sc 41 start s s
      else if ch == 123 then scanBody k fuel sc 125 start s s
      else if ch == 91 then scanBody k fuel sc 93 start s s
      else if ch == 58 || ch == 63 then scanABC sc start s s
      else if ch == 96 then some (false, start + scan (fun b => b != 10) (k.text.drop start))
      else if ch == 59 then some (false, start)
      else if ch == 92 then
        match sc start s with
        | none => none
        | some (true, _) => some (true, s)
        | some (false, _) => some (false, start)
      else if ch == 37 || ch == 94 || ch == 39 then none
      else if lx_isdigit ch then some (false, (lx_parsenumber k s).2)
      else if lx_isalpha ch then some (false, s + lx_word k s)
      else some (true, s)

/-- The cursor scan with the recursion depth bounded like `lx_eval`. -/
def scanE (k : Ctx) : Nat → Scan
  | 0 => fun _ _ => none
  | fuel + 1 => scanStep k fuel (scanE k fuel)

/-- The state `c` has the text of `k` and is plain. -/
def PlainAt (k c : Ctx) : Prop := c.text = k.text ∧ Plain c

/-- The evaluator `ev` keeps states plain and moves the cursor as `sc` says. -/
def Scans (k : Ctx) (ev : Eval) (sc : Scan) : Prop :=
  ∀ c call s e es se r, PlainAt k c → ev c call s e es se = Except.ok r →
    PlainAt k r.2.2 ∧ sc s e = some (decide (r.1 = Ptr.eof), r.2.1)

/-- A context of `n` free cells whose text is `code`, with a call frame set
up as `lx_run` does. -/
def frameOf (n : Nat) (code : String) : Ctx :=
  { ctxOf n code with stack := [{ type := LX_CALL }], current := Ptr.stack 0 }

/-- Evaluate `j` successive expressions of the text with side effects: the
cursor and the state after them. -/
def stmts (fuel : Nat) : Nat → Ctx → Nat → Except Err (Nat × Ctx)
  | 0, c, s => Except.ok (s, c)
  | j + 1, c, s => do
    let (_, e, c1) ← lx_eval noHost fuel c (Ptr.stack 0) s s true true
    stmts fuel j c1 e

/-- The cursor and the state after the first `pre` expressions of `code`
have been evaluated with side effects on `frameOf n code`. -/
def startOf (n pre : Nat) (code : String) : Nat × Ctx :=
  okOr (0, frameOf n code) (stmts 30 pre (frameOf n code) 0)

/-- The pointer returned and the end cursor written by the evaluation, with
the given value of `side_effects`, of the expression that follows the first
`pre` expressions of `code` (`none` when the evaluation does not return). -/
def cursorOf (n pre : Nat) (code : String) (se : Bool) : Option (Ptr × Nat) :=
  match lx_eval noHost 30 (startOf n pre code).2 (Ptr.stack 0) (startOf n pre code).1
      (startOf n pre code).1 true se with
  | Except.ok (p, e, _) => some (p, e)
  | Except.error _ => none

/-- The state of the demonstration of the dry parse: the text `(= a (+ 1 2))`
and a call frame. -/
def dryDemo : Ctx := frameOf 8 "(= a (+ 1 2))"

/-- The wet evaluation of the text of `dryDemo`. -/
def dryDemoWet : Ptr × Nat × Ctx :=
  okOr (Ptr.null, 0, dryDemo) (lx_eval noHost 8 dryDemo (Ptr.stack 0) 0 0 true true)

/-- The dry evaluation of the text of `dryDemo`. -/
def dryDemoDry : Ptr × Nat × Ctx :=
  okOr (Ptr.null, 0, dryDemo) (lx_eval noHost 6 dryDemo (Ptr.stack 0) 0 0 true false)
/-! ## Formatting integers: specification vocabulary -/

/-- The decimal representation of a natural number as character codes: the
digits most significant first, without leading zeros, and `0` for zero. -/
def decimal (m : Nat) : List Nat :=
  if m = 0 then [48] else (Nat.digits 10 m).reverse.map (48 + ·)

/-- The result of the run of `(+ 1 2)` on a fresh arena of eight cells. -/
def fmtDemo : Ptr × Ctx := okOr (Ptr.null, lx_open 0 0) (runAt 8 "(+ 1 2)")

/-! ## Words: specification vocabulary -/

/-- The letters `A`..`Z` and `a`..`z`. -/
def isLetter (b : Nat) : Bool :=
  (decide (97 ≤ b) && decide (b ≤ 122)) || (decide (65 ≤ b) && decide (b ≤ 90))

/-- The characters `[A-Za-z0-9_]` of which the spec builds identifiers. -/
def isWordChar (b : Nat) : Bool :=
  isLetter b || (decide (48 ≤ b) && decide (b ≤ 57)) || b == 95

/-- The bytes of the Symbol an evaluation returns and the end cursor it
writes (`none` when it does not return a Symbol). -/
def symbolOf (r : Except Err (Ptr × Nat × Ctx)) : Option (List Nat × Nat) :=
  match r with
  | Except.ok (p, e, c) =>
    match c.get p with
    | some x =>
      if x.type = LX_SYMBOL then some ((c.text.drop x.start).take x.len.toNat, e) else none
    | none => none
  | Except.error _ => none

/-! ## One binding per name: specification vocabulary -/

/-- The names of the nodes of the env chain that starts at `p` (at most
`fuel` nodes). -/
def envNames : Nat → Ctx → Ptr → List Ptr
  | 0, _, _ => []
  | fuel + 1, c, p =>
    match c.get p with
    | none => []
    | some x => x.name :: envNames fuel c x.next

/-- The tag and the number of the value behind a pointer. -/
def numView (c : Ctx) (p : Ptr) : Option (LxType × ℚ) :=
  (c.get p).map fun x => (x.type, x.number)

/-- The number of nodes of a chain whose name has the length and the bytes
of the Symbol `m`. -/
def bindingsOf (c : Ctx) (m : Ptr) (ns : List (Nat × Ptr × Ptr)) : Nat :=
  (ns.filter fun a => sameSymbol c a.2.1 m).length

/-- The names of a chain are Symbols, no two of them with the same length
and bytes; or the chain is the single node without a name that `lx_makenv`
returns. -/
def NamesOk (c : Ctx) (ns : List (Nat × Ptr × Ptr)) : Prop :=
  (∃ j w, ns = [(j, Ptr.null, w)]) ∨
    ((∀ a ∈ ns, IsSymbol c a.2.1) ∧
      ns.Pairwise fun a b => sameSymbol c a.2.1 b.2.1 = false)

/-- The state after `(= 5 1)(= 5 2)` has been evaluated in a call frame on
an arena of eight cells. -/
def dupKeys : Ctx := (startOf 8 2 "(= 5 1)(= 5 2)").2

/-- The host session `envBadRun` continued from the context `envBad` it ends
in: the Symbol `b` (cell 3) is bound to cell 4 in the env (cell 0), which has
to collect; then the host makes a Symbol `a` and binds it to the number one.
The result is the new Symbol and the context. -/
def envDupRun : Except Err (Ptr × Ctx) := do
  let c1 ← lx_setenv 9 envBad (Ptr.cell 0) (Ptr.cell 3) (Ptr.cell 4)
  let (n, c2) ← lx_symbol 9 c1 0 1
  let c3 ← lx_setenv 9 c2 (Ptr.cell 0) n Ptr.one
  Except.ok (n, c3)

/-! ## The free-list invariant: specification vocabulary -/

/-- The free list that starts at `p` is the finite chain of the arena cells
listed, in order, each tagged Free; it ends in the null pointer. -/
def FreeChain (c : Ctx) : Ptr → List Nat → Prop
  | p, [] => p = Ptr.null
  | p, i :: r =>
    p = Ptr.cell i ∧ ∃ x, c.cells[i]? = some x ∧ x.type = LX_FREE ∧ FreeChain c x.free r

/-- A sequence of `k` calls of `lx_number` (of the numbers `k`, ..., 1): the
cells returned, in order, and the final context. -/
def allocs (fuel : Nat) : Nat → Ctx → Except Err (List Ptr × Ctx)
  | 0, c => Except.ok ([], c)
  | k + 1, c => do
    let (p, c1) ← lx_number fuel c (k + 1 : ℚ)
    let (ps, c2) ← allocs fuel k c1
    Except.ok (p :: ps, c2)

/-- The context `lx_open` returns for four cells, after one call of `lx_gc`:
the sweep has pushed every cell on the free list again, so cell 0, which was
its head before, links to itself. -/
def openGc : Ctx :=
  { cells := [
      { type := LX_FREE, free := Ptr.cell 0 },
      { type := LX_FREE, free := Ptr.cell 0 },
      { type := LX_FREE, free := Ptr.cell 1 },
      { type := LX_FREE, free := Ptr.cell 2 }],
    free_list := Ptr.cell 3,
    text := List.replicate 8 0,
    prog_end := 8,
    gcs := 1 }

/-! ## Collections on cyclic heaps: specification vocabulary -/

/-- The List cells `i` and `j` form a cycle: the `next` pointer of cell `i`
addresses cell `j`, whose `next` pointer is null and whose `value` pointer
addresses cell `i`. -/
def Cyc (c : Ctx) (i j : Nat) : Prop :=
  i ≠ j ∧ ∃ a b, c.cells[i]? = some a ∧ a.type = LX_LIST ∧ a.next = Ptr.cell j ∧
    c.cells[j]? = some b ∧ b.type = LX_LIST ∧ b.next = Ptr.null ∧ b.value = Ptr.cell i

/-- The state after `(= xs [1])(# xs xs)` has been evaluated in a call frame
on an arena of five cells: cell 1 is the list `xs`, cell 4 the cell appended
to it, whose value is `xs` itself; the free list is empty. -/
def cycDemo : Ctx :=
  { cells := [
      { type := LX_SYMBOL, mark := true, start := 3, len := 2 },
      { type := LX_LIST, mark := true, value := Ptr.cell 2, next := Ptr.cell 4 },
      { type := LX_NUMBER, number := 1 },
      { type := LX_ENV, mark := true, free := Ptr.cell 4, name := Ptr.cell 0,
        value := Ptr.cell 1 },
      { type := LX_LIST, value := Ptr.cell 1 }],
    stack := [{ type := LX_CALL, env := Ptr.cell 3 }],
    current := Ptr.stack 0,
    text := bytes "(= xs [1])(# xs xs)" ++ [0, 0],
    prog_end := 21 }

/-! ## List literals under memory pressure: specification vocabulary -/

/-- The pointer a run returns and the head of the free list after the run
(`none` when the run fails). -/
def runHead (r : Except Err (Ptr × Ctx)) : Option (Ptr × Ptr) :=
  match r with
  | Except.ok (p, c) => some (p, c.free_list)
  | Except.error _ => none

/-! ## The pop operator and the end cursor: specification vocabulary -/

/-- The pointer returned and the end cursor written by the evaluation, from
cursor `s` and with the given value of `side_effects`, in the state after the
first `pre` expressions of `code` on `frameOf n code`. -/
def cursorAt (n pre : Nat) (code : String) (s : Nat) (se : Bool) : Option (Ptr × Nat) :=
  match lx_eval noHost 30 (startOf n pre code).2 (Ptr.stack 0) s s true se with
  | Except.ok (p, e, _) => some (p, e)
  | Except.error _ => none

/-! ## The GC root across an evaluation: specification vocabulary -/

/-- What an evaluation leaves behind: the pointer returned, the value of
`ctx->current`, and whether `ctx->current` still addresses a value (`none`
when the evaluation does not return). -/
def rootAfter (r : Except Err (Ptr × Nat × Ctx)) : Option (Ptr × Ptr × Bool) :=
  match r with
  | Except.ok (p, _, c) => some (p, c.current, (c.get c.current).isSome)
  | Except.error _ => none

/-- The outcome of a collection run right after an evaluation (`none` when
the evaluation does not return). -/
def gcAfter (r : Except Err (Ptr × Nat × Ctx)) : Option (Except Err Nat) :=
  match r with
  | Except.ok (_, _, c) => some ((lx_gc 9 c).map fun q => q.2)
  | Except.error _ => none

/-! ## Roots and persistent cells after a collection requested by the host:
specification vocabulary -/

/-- A host session on a fresh arena of four cells: `lx_gc`, three numbers,
an env made by `lx_makenv`, and `lx_persist` on that env.  The result is the
env and the context. -/
def hostGcRun : Except Err (Ptr × Ctx) := do
  let (c1, _) ← lx_gc 5 (lx_open 8 4)
  let (_, c2) ← lx_number 5 c1 1
  let (_, c3) ← lx_number 5 c2 2
  let (_, c4) ← lx_number 5 c3 3
  let (env, c5) ← lx_makenv 5 c4
  let c6 ← lx_persist c5 env
  Except.ok (env, c6)

/-- The context the session `hostGcRun` ends in: the persistent env is cell
0, which is still the head of the free list (the collection on the fresh
arena has made it link to itself, and `lx_alloc` has popped it to itself).
In the source `lx_makenv` clears the member `env.name`, which shares its
storage with `free`; the record keeps the two apart. -/
def hostGc : Ctx :=
  { cells := [
      { type := LX_ENV, mark := true, persist := true, free := Ptr.cell 0 },
      { type := LX_NUMBER, number := 3 },
      { type := LX_NUMBER, number := 2 },
      { type := LX_NUMBER, number := 1 }],
    free_list := Ptr.cell 0,
    text := List.replicate 8 0,
    prog_end := 8,
    gcs := 1 }

/-- The context `hostGc` after one more collection. -/
def hostGcAfter : Ctx :=
  { cells := [
      { type := LX_ENV, persist := true, free := Ptr.cell 0 },
      { type := LX_FREE, number := 3, free := Ptr.cell 0 },
      { type := LX_FREE, number := 2, free := Ptr.cell 1 },
      { type := LX_FREE, number := 1, free := Ptr.cell 2 }],
    free_list := Ptr.cell 3,
    text := List.replicate 8 0,
    prog_end := 8,
    gcs := 2 }

/-- The session `hostGcRun` continued from `hostGc`: a number is made, then
`lx_gc` is called.  The result is the cell of the number and the contexts
after the allocation and after the collection. -/
def persistReuseRun : Except Err (Ptr × Ctx × Ctx) := do
  let (p, c1) ← lx_number 5 hostGc 9
  let (c2, _) ← lx_gc 5 c1
  Except.ok (p, c1, c2)

/-- The tag and the persist flag of an arena cell. -/
def tagPersist (c : Ctx) (i : Nat) : Option (LxType × Bool) :=
  (c.cells[i]?).map fun x => (x.type, x.persist)

/-! ## Reading a list back under memory pressure: specification vocabulary -/

/-- The pointer an evaluation returns, the end cursor it writes, the number
of collections run so far and the head of the free list after it. -/
def evalGcs (r : Except Err (Ptr × Nat × Ctx)) : Option (Ptr × Nat × Nat × Ptr) :=
  match r with
  | Except.ok (p, e, c) => some (p, e, c.gcs, c.free_list)
  | Except.error _ => none

/-! # Theorems -/

theorem get_set_same (c : Ctx) (p : Ptr) (x v : Value) (h : c.get p = some x) :
    (c.set p v).get p = some v := by
  cases p <;> simp_all [Ctx.get, Ctx.set]
  all_goals
    rename_i i
    obtain ⟨hi, -⟩ := List.getElem?_eq_some.mp h
    simp [hi]

theorem get_set_other (c : Ctx) (p q : Ptr) (v : Value) (h : q ≠ p) :
    (c.set p v).get q = c.get q := by
  cases p <;> cases q <;> simp_all [Ctx.get, Ctx.set]
  all_goals
    rename_i i j
    exact List.getElem?_set_ne (by omega)

theorem markLe_refl (c : Ctx) : MarkLe c c :=
  ⟨fun _ => rfl, fun p x y h1 h2 hm => by rw [h1] at h2; cases h2; exact hm, rfl, rfl, rfl, rfl⟩

theorem markLe_trans {a b c : Ctx} (h1 : MarkLe a b) (h2 : MarkLe b c) : MarkLe a c := by
  refine ⟨fun p => (h2.get p).trans (h1.get p), ?_, h2.free_list.trans h1.free_list,
    h2.current.trans h1.current, h2.len.trans h1.len, h2.gcs.trans h1.gcs⟩
  intro p x z hx hz hm
  have hb := h1.get p
  rw [hx] at hb
  cases hy : b.get p with
  | none => rw [hy] at hb; simp at hb
  | some y => exact h2.mono p y z hy hz (h1.mono p x y hx hy hm)

theorem set_cells_length (c : Ctx) (p : Ptr) (v : Value) :
    (c.set p v).cells.length = c.cells.length := by
  cases p <;> simp [Ctx.set]

theorem markLe_set_mark (c : Ctx) (p : Ptr) (x : Value) (h : c.get p = some x) :
    MarkLe c (c.set p { x with mark := true }) := by
  refine ⟨?_, ?_, ?_, ?_, set_cells_length _ _ _, ?_⟩
  · intro q
    by_cases hq : q = p
    · subst hq
      rw [get_set_same c q x _ h, h]
      rfl
    · rw [get_set_other c p q _ hq]
  · intro q a b ha hb hm
    by_cases hq : q = p
    · subst hq
      rw [get_set_same c q x _ h] at hb
      cases hb
      rfl
    · rw [get_set_other c p q _ hq, ha] at hb
      cases hb
      exact hm
  all_goals cases p <;> rfl

theorem children_unmark (x : Value) : children (unmark x) = children x := rfl

theorem markLe_children {c1 c2 : Ctx} (h : MarkLe c1 c2) {p : Ptr} {x : Value}
    (hx : c1.get p = some x) : ∃ y, c2.get p = some y ∧ unmark y = unmark x := by
  have hg := h.get p
  rw [hx] at hg
  cases hy : c2.get p with
  | none => rw [hy] at hg; simp at hg
  | some y =>
    rw [hy] at hg
    exact ⟨y, rfl, by simpa using hg⟩

theorem markLe_children_back {c1 c2 : Ctx} (h : MarkLe c1 c2) {p : Ptr} {y : Value}
    (hy : c2.get p = some y) : ∃ x, c1.get p = some x ∧ unmark y = unmark x := by
  have hg := h.get p
  rw [hy] at hg
  cases hx : c1.get p with
  | none => rw [hx] at hg; simp at hg
  | some x =>
    rw [hx] at hg
    exact ⟨x, rfl, by simpa using hg⟩

theorem children_of_unmark_eq {x y : Value} (h : unmark y = unmark x) :
    children y = children x := by
  rw [← children_unmark y, h, children_unmark]

theorem child_markLe {c1 c2 : Ctx} (h : MarkLe c1 c2) {p q : Ptr} (hc : Child c1 p q) :
    Child c2 p q := by
  obtain ⟨x, hx, hq⟩ := hc
  obtain ⟨y, hy, hu⟩ := markLe_children h hx
  exact ⟨y, hy, by rw [children_of_unmark_eq hu]; exact hq⟩

theorem child_markLe_back {c1 c2 : Ctx} (h : MarkLe c1 c2) {p q : Ptr} (hc : Child c2 p q) :
    Child c1 p q := by
  obtain ⟨y, hy, hq⟩ := hc
  obtain ⟨x, hx, hu⟩ := markLe_children_back h hy
  exact ⟨x, hx, by rw [← children_of_unmark_eq hu]; exact hq⟩

theorem reach_markLe {c1 c2 : Ctx} (h : MarkLe c1 c2) {p q : Ptr} (hr : Reach c1 p q) :
    Reach c2 p q := by
  induction hr with
  | refl p => exact Reach.refl p
  | step hc _ ih => exact Reach.step (child_markLe h hc) ih

theorem marked_markLe {c1 c2 : Ctx} (h : MarkLe c1 c2) {p : Ptr} (hm : Marked c1 p) :
    Marked c2 p := by
  obtain ⟨x, hx, hmx⟩ := hm
  obtain ⟨y, hy, _⟩ := markLe_children h hx
  exact ⟨y, hy, h.mono p x y hx hy hmx⟩

/-- What a successful run of `mark` (and of `markAll`) establishes. -/
theorem mark_spec (fuel : Nat) :
    (∀ c v c', mark fuel c v = Except.ok c' →
      MarkLe c c' ∧ ∀ p x, Reach c v p → c.get p = some x → Marked c' p) ∧
    (∀ c ps c', markAll fuel c ps = Except.ok c' →
      MarkLe c c' ∧ ∀ q ∈ ps, ∀ p x, Reach c q p → c.get p = some x → Marked c' p) := by
  induction fuel with
  | zero =>
    constructor
    · intro c v c' h
      simp [mark] at h
    · intro c ps c' h
      cases ps with
      | nil =>
        simp [markAll] at h
        subst h
        exact ⟨markLe_refl c, by simp⟩
      | cons p ps => simp [markAll] at h
  | succ fuel ih =>
    obtain ⟨ihm, iha⟩ := ih
    constructor
    · intro c v c' h
      rw [mark] at h
      by_cases hv : v = Ptr.null
      · simp [hv] at h
        subst h
        refine ⟨markLe_refl c, ?_⟩
        intro p x hr hx
        subst hv
        cases hr with
        | refl => simp [Ctx.get] at hx
        | step hc _ =>
          obtain ⟨y, hy, _⟩ := hc
          simp [Ctx.get] at hy
      · simp only [hv, if_false] at h
        cases hg : c.get v with
        | none => simp [hg] at h
        | some x =>
          simp only [hg] at h
          have h1 := markLe_set_mark c v x hg
          obtain ⟨h2, h3⟩ := iha _ _ _ h
          refine ⟨markLe_trans h1 h2, ?_⟩
          intro p y hr hy
          cases hr with
          | refl =>
            exact marked_markLe h2 ⟨_, get_set_same c v x _ hg, rfl⟩
          | step hc hr2 =>
            obtain ⟨x2, hx2, hq⟩ := hc
            rw [hg] at hx2
            cases hx2
            obtain ⟨y1, hy1, _⟩ := markLe_children h1 hy
            exact h3 _ hq p y1 (reach_markLe h1 hr2) hy1
    · intro c ps c' h
      cases ps with
      | nil =>
        simp [markAll] at h
        subst h
        exact ⟨markLe_refl c, by simp⟩
      | cons q ps =>
        rw [markAll] at h
        cases hm : mark fuel c q with
        | error e => simp [hm] at h
        | ok c1 =>
          simp only [hm] at h
          obtain ⟨h1, h1r⟩ := ihm _ _ _ hm
          obtain ⟨h2, h2r⟩ := iha _ _ _ h
          refine ⟨markLe_trans h1 h2, ?_⟩
          intro q2 hq2 p x hr hx
          rcases List.mem_cons.mp hq2 with rfl | hin
          · exact marked_markLe h2 (h1r p x hr hx)
          · obtain ⟨y1, hy1, _⟩ := markLe_children h1 hx
            exact h2r q2 hin p y1 (reach_markLe h1 hr) hy1

theorem get_cell (c : Ctx) (j : Nat) : c.get (Ptr.cell j) = c.cells[j]? := rfl

theorem markPersist_spec (fuel : Nat) : ∀ (n i : Nat) (c c' : Ctx),
    markPersist fuel n i c = Except.ok c' →
    MarkLe c c' ∧ ∀ j x, i ≤ j → j < i + n → c.cells[j]? = some x → x.persist = true →
      ∀ p y, Reach c (Ptr.cell j) p → c.get p = some y → Marked c' p := by
  intro n
  induction n with
  | zero =>
    intro i c c' h
    simp [markPersist] at h
    subst h
    exact ⟨markLe_refl c, fun j x h1 h2 => by omega⟩
  | succ n ih =>
    intro i c c' h
    rw [markPersist] at h
    cases hi : c.cells[i]? with
    | none =>
      simp only [hi] at h
      cases h
      refine ⟨markLe_refl c, ?_⟩
      intro j x h1 _ hx
      have h3 : c.cells.length ≤ i := List.getElem?_eq_none_iff.mp hi
      have h4 : c.cells[j]? = none := List.getElem?_eq_none_iff.mpr (by omega)
      rw [h4] at hx
      cases hx
    | some x0 =>
      simp only [hi] at h
      by_cases hp : x0.persist = true
      · simp only [hp, if_true] at h
        cases hm : mark fuel c (Ptr.cell i) with
        | error e => simp [hm] at h
        | ok c1 =>
          simp only [hm] at h
          obtain ⟨h1, h1r⟩ := (mark_spec fuel).1 _ _ _ hm
          obtain ⟨h2, h2r⟩ := ih _ _ _ h
          refine ⟨markLe_trans h1 h2, ?_⟩
          intro j x hij hjn hx hxp p y hr hy
          by_cases hji : j = i
          · subst hji
            exact marked_markLe h2 (h1r p y hr hy)
          · obtain ⟨x1, hx1, hu⟩ := markLe_children h1 (p := Ptr.cell j) hx
            obtain ⟨y1, hy1, _⟩ := markLe_children h1 hy
            have hp1 : x1.persist = true := by
              have := congrArg Value.persist hu
              simpa [unmark, hxp] using this
            exact h2r j x1 (by omega) (by omega) hx1 hp1 p y1 (reach_markLe h1 hr) hy1
      · simp only [hp] at h
        obtain ⟨h2, h2r⟩ := ih _ _ _ h
        refine ⟨h2, ?_⟩
        intro j x hij hjn hx hxp p y hr hy
        by_cases hji : j = i
        · subst hji
          rw [hi] at hx
          cases hx
          exact absurd hxp hp
        · exact h2r j x (by omega) (by omega) hx hxp p y hr hy

/-- The mark phase of `lx_gc` marks everything reachable from the roots and
changes mark bits only. -/
theorem mark_phase_spec (fuel : Nat) (c c1 c2 : Ctx)
    (h1 : mark fuel c c.current = Except.ok c1)
    (h2 : markPersist fuel c1.cells.length 0 c1 = Except.ok c2) :
    MarkLe c c2 ∧ ∀ p x, Reachable c p → c.get p = some x → Marked c2 p := by
  obtain ⟨m1, r1⟩ := (mark_spec fuel).1 _ _ _ h1
  obtain ⟨m2, r2⟩ := markPersist_spec fuel _ _ _ _ h2
  refine ⟨markLe_trans m1 m2, ?_⟩
  intro p x hr hx
  obtain ⟨r, hroot, hreach⟩ := hr
  rcases hroot with rfl | ⟨i, x0, rfl, hx0, hp⟩
  · exact marked_markLe m2 (r1 p x hreach hx)
  · obtain ⟨x1, hx1, hu⟩ := markLe_children m1 (p := Ptr.cell i) hx0
    obtain ⟨y1, hy1, _⟩ := markLe_children m1 hx
    have hp1 : x1.persist = true := by
      have := congrArg Value.persist hu
      simpa [unmark, hp] using this
    have hlt : i < c1.cells.length := (List.getElem?_eq_some.mp hx1).1
    exact r2 i x1 (Nat.zero_le _) (by omega) hx1 hp1 p y1 (reach_markLe m1 hreach) hy1

theorem unmarked_of_keep {c : Ctx} {i j : Nat} {v : Value} (hne : i ≠ j)
    (h : Unmarked (sweepKeep c i v) j) : Unmarked c j := by
  obtain ⟨x, hx, hm⟩ := h
  refine ⟨x, ?_, hm⟩
  simpa [sweepKeep, List.getElem?_set_ne hne] using hx

theorem unmarked_of_free {c : Ctx} {i j : Nat} {v : Value} (hne : i ≠ j)
    (h : Unmarked (sweepFree c i v) j) : Unmarked c j := by
  obtain ⟨x, hx, hm⟩ := h
  refine ⟨x, ?_, hm⟩
  simpa [sweepFree, List.getElem?_set_ne hne] using hx

/-- The effect of the sweep loop on the cells and on the free list. -/
theorem sweep_spec : ∀ (n i : Nat) (c : Ctx) (k : Nat), i + n = c.cells.length →
    (∀ j, j < i → (sweep n i c k).1.cells[j]? = c.cells[j]?) ∧
    (∀ j x, i ≤ j → c.cells[j]? = some x → x.mark = true →
      (sweep n i c k).1.cells[j]? = some (unmark x)) ∧
    ((sweep n i c k).1.free_list = c.free_list ∨
      ∃ j, i ≤ j ∧ Unmarked c j ∧ (sweep n i c k).1.free_list = Ptr.cell j) ∧
    (∀ j x', i ≤ j → Unmarked c j → (sweep n i c k).1.cells[j]? = some x' →
      (x'.free = c.free_list ∨ ∃ j', i ≤ j' ∧ Unmarked c j' ∧ x'.free = Ptr.cell j')) ∧
    (∀ p, (∀ j, p ≠ Ptr.cell j) → (sweep n i c k).1.get p = c.get p) ∧
    (sweep n i c k).1.cells.length = c.cells.length := by
  intro n
  induction n with
  | zero =>
    intro i c k hlen
    rw [sweep]
    refine ⟨fun _ _ => rfl, ?_, Or.inl rfl, ?_, fun _ _ => rfl, rfl⟩
    · intro j x hij hx
      have := (List.getElem?_eq_some.mp hx).1
      omega
    · intro j x' hij hu
      obtain ⟨x, hx, _⟩ := hu
      have := (List.getElem?_eq_some.mp hx).1
      omega
  | succ n ih =>
    intro i c k hlen
    have hi : i < c.cells.length := by omega
    have hx0 : c.cells[i]? = some c.cells[i] := List.getElem?_eq_getElem hi
    rw [sweep]
    simp only [hx0]
    by_cases hm : c.cells[i].mark = true
    · rw [if_pos hm]
      obtain ⟨hA, hB, hC, hD, hE, hF⟩ := ih (i + 1) (sweepKeep c i c.cells[i]) k
        (by simp [sweepKeep]; omega)
      have hne : ∀ j, j ≠ i → (sweepKeep c i c.cells[i]).cells[j]? = c.cells[j]? := by
        intro j hj
        simp [sweepKeep, List.getElem?_set_ne (Ne.symm hj)]
      refine ⟨?_, ?_, ?_, ?_, ?_, hF.trans (by simp [sweepKeep])⟩
      · intro j hj
        rw [hA j (by omega)]
        exact hne j (by omega)
      · intro j x hij hx hxm
        by_cases hji : j = i
        · subst hji
          rw [hA j (by omega)]
          rw [hx0] at hx
          cases hx
          simp [sweepKeep, hi, unmark]
        · exact hB j x (by omega) (by rw [hne j hji]; exact hx) hxm
      · rcases hC with h | ⟨j, hj, hu, h⟩
        · exact Or.inl h
        · exact Or.inr ⟨j, by omega, unmarked_of_keep (by omega) hu, h⟩
      · intro j x' hij hu hx'
        have hji : j ≠ i := by
          rintro rfl
          obtain ⟨x, hx, hxm⟩ := hu
          rw [hx0] at hx
          cases hx
          simp [hm] at hxm
        have hu1 : Unmarked (sweepKeep c i c.cells[i]) j := by
          obtain ⟨x, hx, hxm⟩ := hu
          exact ⟨x, by rw [hne j hji]; exact hx, hxm⟩
        rcases hD j x' (by omega) hu1 hx' with h | ⟨j', hj', hu', h⟩
        · exact Or.inl h
        · exact Or.inr ⟨j', by omega, unmarked_of_keep (by omega) hu', h⟩
      · intro p hp
        rw [hE p hp]
        cases p <;> first | rfl | exact absurd rfl (hp _)
    · rw [if_neg hm]
      have hmf : c.cells[i].mark = false := by simpa using hm
      have hui : Unmarked c i := ⟨_, hx0, hmf⟩
      obtain ⟨hA, hB, hC, hD, hE, hF⟩ := ih (i + 1) (sweepFree c i c.cells[i]) (k + 1)
        (by simp [sweepFree]; omega)
      have hne : ∀ j, j ≠ i → (sweepFree c i c.cells[i]).cells[j]? = c.cells[j]? := by
        intro j hj
        simp [sweepFree, List.getElem?_set_ne (Ne.symm hj)]
      have hfl : (sweepFree c i c.cells[i]).free_list = Ptr.cell i := rfl
      refine ⟨?_, ?_, ?_, ?_, ?_, hF.trans (by simp [sweepFree])⟩
      · intro j hj
        rw [hA j (by omega)]
        exact hne j (by omega)
      · intro j x hij hx hxm
        have hji : j ≠ i := by
          rintro rfl
          rw [hx0] at hx
          cases hx
          exact hm hxm
        exact hB j x (by omega) (by rw [hne j hji]; exact hx) hxm
      · rcases hC with h | ⟨j, hj, hu, h⟩
        · exact Or.inr ⟨i, le_refl _, hui, h.trans hfl⟩
        · exact Or.inr ⟨j, by omega, unmarked_of_free (by omega) hu, h⟩
      · intro j x' hij hu hx'
        by_cases hji : j = i
        · subst hji
          rw [hA j (by omega)] at hx'
          simp [sweepFree, hi] at hx'
          subst hx'
          exact Or.inl rfl
        · have hu1 : Unmarked (sweepFree c i c.cells[i]) j := by
            obtain ⟨x, hx, hxm⟩ := hu
            exact ⟨x, by rw [hne j hji]; exact hx, hxm⟩
          rcases hD j x' (by omega) hu1 hx' with h | ⟨j', hj', hu', h⟩
          · exact Or.inr ⟨i, le_refl _, hui, h.trans hfl⟩
          · exact Or.inr ⟨j', by omega, unmarked_of_free (by omega) hu', h⟩
      · intro p hp
        rw [hE p hp]
        cases p <;> first | rfl | exact absurd rfl (hp _)

theorem onFreeList_congr {c1 c2 : Ctx}
    (h : ∀ p, Option.map Value.free (c1.get p) = Option.map Value.free (c2.get p))
    (hf : c1.free_list = c2.free_list) {p : Ptr} (hp : OnFreeList c1 p) : OnFreeList c2 p := by
  induction hp with
  | head hne =>
    rw [hf] at hne ⊢
    exact OnFreeList.head hne
  | @next q x _ hx hne ih =>
    have hq := h q
    rw [hx] at hq
    cases hy : c2.get q with
    | none => rw [hy] at hq; simp at hq
    | some y =>
      rw [hy] at hq
      have hxy : x.free = y.free := by simpa using hq
      rw [hxy] at hne ⊢
      exact OnFreeList.next ih hy hne

theorem markLe_free (c1 c2 : Ctx) (h : MarkLe c1 c2) (p : Ptr) :
    Option.map Value.free (c2.get p) = Option.map Value.free (c1.get p) := by
  have hg := h.get p
  have key : ∀ o : Option Value, Option.map Value.free o =
      Option.map Value.free (Option.map unmark o) := by
    intro o
    cases o <;> rfl
  rw [key (c2.get p), key (c1.get p), hg]

/-- After the sweep every pointer on the free list is a cell the sweep
freed or was on the free list before the sweep. -/
theorem sweep_freeList (c : Ctx) (k : Nat) (p : Ptr)
    (hp : OnFreeList (sweep c.cells.length 0 c k).1 p) :
    (∃ j, p = Ptr.cell j ∧ Unmarked c j) ∨ OnFreeList c p := by
  obtain ⟨_, hB, hC, hD, hE, hF⟩ := sweep_spec c.cells.length 0 c k (by simp)
  induction hp with
  | head hne =>
    rcases hC with h | ⟨j, _, hu, h⟩
    · rw [h] at hne ⊢
      exact Or.inr (OnFreeList.head hne)
    · exact Or.inl ⟨j, h, hu⟩
  | @next q x _ hx hne ih =>
    have freed : ∀ j, q = Ptr.cell j → Unmarked c j →
        (∃ j, x.free = Ptr.cell j ∧ Unmarked c j) ∨ OnFreeList c x.free := by
      intro j hq hu
      subst hq
      rcases hD j x (Nat.zero_le _) hu hx with h | ⟨j', _, hu', h⟩
      · rw [h] at hne ⊢
        exact Or.inr (OnFreeList.head hne)
      · exact Or.inl ⟨j', h, hu'⟩
    by_cases hq : ∃ j, q = Ptr.cell j
    · obtain ⟨j, rfl⟩ := hq
      have hj : j < c.cells.length := by
        rw [← hF]
        exact (List.getElem?_eq_some.mp hx).1
      have hy : c.cells[j]? = some c.cells[j] := List.getElem?_eq_getElem hj
      by_cases hm : c.cells[j].mark = true
      · rcases ih with ⟨j2, h2, x2, hx2, hm2⟩ | hold
        · cases h2
          rw [hy] at hx2
          cases hx2
          simp [hm] at hm2
        · have hx1 := hB j _ (Nat.zero_le _) hy hm
          rw [get_cell, hx1] at hx
          cases hx
          exact Or.inr (OnFreeList.next (x := c.cells[j]) hold hy hne)
      · exact freed j rfl ⟨_, hy, by simpa using hm⟩
    · have hq2 : ∀ j, q ≠ Ptr.cell j := fun j hj => hq ⟨j, hj⟩
      rcases ih with ⟨j2, h2, _⟩ | hold
      · exact absurd h2 (hq2 j2)
      · rw [hE q hq2] at hx
        exact Or.inr (OnFreeList.next hold hx hne)

/-- A cell reachable from the roots survives a collection unchanged up to
its mark bit, and the collection does not put it on the free list. -/
theorem lx_gc_reachable_core (fuel : Nat) (c c' : Ctx) (n i : Nat) (x : Value)
    (hgc : lx_gc fuel c = Except.ok (c', n))
    (hx : c.cells[i]? = some x)
    (hr : Reachable c (Ptr.cell i)) :
    c'.cells[i]? = some (unmark x) ∧
      (¬ OnFreeList c (Ptr.cell i) → ¬ OnFreeList c' (Ptr.cell i)) := by
  unfold lx_gc at hgc
  cases h1 : mark fuel c c.current with
  | error e => simp [h1] at hgc
  | ok c1 =>
    simp only [h1] at hgc
    cases h2 : markPersist fuel c1.cells.length 0 c1 with
    | error e => simp [h2] at hgc
    | ok c2 =>
      simp only [h2, Except.ok.injEq] at hgc
      obtain ⟨hle, hmk⟩ := mark_phase_spec fuel c c1 c2 h1 h2
      obtain ⟨y, hy, hym⟩ := hmk (Ptr.cell i) x hr hx
      obtain ⟨x', hx', hu⟩ := markLe_children hle (p := Ptr.cell i) hx
      rw [hy] at hx'
      cases hx'
      have hsp := sweep_spec c2.tick.cells.length 0 c2.tick 0 (by simp)
      have hfl := sweep_freeList c2.tick 0 (Ptr.cell i)
      have hc' : c' = (sweep c2.tick.cells.length 0 c2.tick 0).1 := by
        show c' = (sweep c2.cells.length 0 c2.tick 0).1
        rw [hgc]
      have hy2 : c2.tick.cells[i]? = some y := hy
      constructor
      · rw [hc', hsp.2.1 i y (Nat.zero_le _) hy2 hym, hu]
      · intro hnot hon
        rw [hc'] at hon
        rcases hfl hon with ⟨j, hj, z, hz, hzm⟩ | hold
        · cases hj
          rw [hy2] at hz
          cases hz
          simp [hym] at hzm
        · apply hnot
          have h3 : OnFreeList c2 (Ptr.cell i) :=
            @onFreeList_congr c2.tick c2 (fun p => by cases p <;> rfl) rfl _ hold
          exact onFreeList_congr (fun p => markLe_free c c2 hle p) hle.free_list h3

/-- Reachable cells across `lx_gc`. For every context in which the
collection terminates, an arena cell that is reachable from `ctx->current` or from a persist-flagged cell through
the child pointers of List, Env and Call cells keeps, across `lx_gc`, its tag
and its payload (the cell after the call is the cell before it with the mark
bit cleared) and, being a live cell (not on the free list before the call),
is not on the free list after it. -/
theorem lx_gc_preserves_reachable (fuel : Nat) (c c' : Ctx) (n i : Nat) (x : Value)
    (hgc : lx_gc fuel c = Except.ok (c', n))
    (hx : c.cells[i]? = some x)
    (hr : Reachable c (Ptr.cell i)) :
    c'.cells[i]? = some (unmark x) ∧
        (¬ OnFreeList c (Ptr.cell i) → ¬ OnFreeList c' (Ptr.cell i)) := by
  exact lx_gc_reachable_core fuel c c' n i x hgc hx hr

theorem lx_gc_preserves_reachable_witness :
    lx_gc 5 gcDemo = Except.ok (gcDemoAfter, 1) ∧
    Reachable gcDemo (Ptr.cell 2) ∧
    gcDemoAfter.cells[2]? = some (unmark { type := LX_NUMBER, number := 7 }) ∧
    ¬ OnFreeList gcDemoAfter (Ptr.cell 2) := by
  have hreach : Reachable gcDemo (Ptr.cell 2) :=
    ⟨Ptr.cell 0, Or.inr ⟨0, _, rfl, rfl, rfl⟩,
      Reach.step ⟨_, rfl, by decide⟩ (Reach.refl _)⟩
  have hlive : ¬ OnFreeList gcDemo (Ptr.cell 2) := by
    intro h
    have key : ∀ p, OnFreeList gcDemo p → False := by
      intro p hp
      induction hp with
      | head hne => exact hne rfl
      | next _ _ _ ih => exact ih
    exact key _ h
  have h := lx_gc_preserves_reachable 5 gcDemo gcDemoAfter 1 2 _ rfl rfl hreach
  exact ⟨rfl, hreach, h.1, h.2 hlive⟩

/-- The two phases of `lx_alloc`: an optional collection, then either the
null result or the pop of the head of the free list. -/
theorem lx_alloc_cases (fuel : Nat) (c : Ctx) (t : LxType) (m : Bool) (p : Ptr) (c' : Ctx)
    (h : lx_alloc fuel c t m = Except.ok (p, c')) :
    ∃ c1, ((c1 = c ∧ c.free_list ≠ Ptr.null) ∨
        (c.free_list = Ptr.null ∧ ∃ n, lx_gc fuel c = Except.ok (c1, n))) ∧
      ((p = Ptr.null ∧ c' = c1 ∧ c.free_list = Ptr.null) ∨
        ∃ x, c1.get c1.free_list = some x ∧ p = c1.free_list ∧ c' = c1.popFree x t m) := by
  have pop : ∀ c1, allocPop c1 t m = Except.ok (p, c') →
      ∃ x, c1.get c1.free_list = some x ∧ p = c1.free_list ∧ c' = c1.popFree x t m := by
    intro c1 hp
    unfold allocPop at hp
    cases hd : c1.get c1.free_list with
    | none => simp [hd] at hp
    | some x =>
      simp only [hd, Except.ok.injEq, Prod.mk.injEq] at hp
      exact ⟨x, rfl, hp.1.symm, hp.2.symm⟩
  unfold lx_alloc at h
  by_cases hf : c.free_list = Ptr.null
  · rw [if_pos hf] at h
    cases hg : lx_gc fuel c with
    | error e => simp [hg] at h
    | ok r =>
      obtain ⟨c1, n⟩ := r
      refine ⟨c1, Or.inr ⟨hf, n, rfl⟩, ?_⟩
      simp only [hg] at h
      by_cases hn : n = 0
      · rw [if_pos hn] at h
        simp only [Except.ok.injEq, Prod.mk.injEq] at h
        exact Or.inl ⟨h.1.symm, h.2.symm, hf⟩
      · rw [if_neg hn] at h
        exact Or.inr (pop c1 h)
  · rw [if_neg hf] at h
    exact ⟨c, Or.inl ⟨rfl, hf⟩, Or.inr (pop c h)⟩

theorem popFree_get (c : Ctx) (x : Value) (t : LxType) (m : Bool) (r : Ptr) :
    (c.popFree x t m).get r = (c.set c.free_list { x with type := t, mark := m }).get r := by
  cases r <;> rfl

/-- Popping the head of the free list does not add members to it. -/
theorem onFreeList_pop (c : Ctx) (x : Value) (t : LxType) (m : Bool)
    (hx : c.get c.free_list = some x) (q : Ptr)
    (hq : OnFreeList (c.popFree x t m) q) : OnFreeList c q := by
  have hnn : c.free_list ≠ Ptr.null := by
    intro h
    rw [h] at hx
    simp [Ctx.get] at hx
  induction hq with
  | head hne => exact OnFreeList.next (OnFreeList.head hnn) hx hne
  | @next r z _ hz hne ih =>
    rw [popFree_get] at hz
    by_cases hr : r = c.free_list
    · subst hr
      rw [get_set_same c _ x _ hx] at hz
      cases hz
      exact @OnFreeList.next c _ x (OnFreeList.head hnn) hx hne
    · rw [get_set_other c _ r _ hr] at hz
      exact OnFreeList.next ih hz hne

theorem persist_inv_gc (fuel : Nat) (c c' : Ctx) (n i : Nat) (y : Value)
    (hgc : lx_gc fuel c = Except.ok (c', n)) (hy : c.cells[i]? = some y)
    (hp : y.persist = true) :
    c'.cells[i]? = some (unmark y) ∧
      (¬ OnFreeList c (Ptr.cell i) → ¬ OnFreeList c' (Ptr.cell i)) :=
  lx_gc_reachable_core fuel c c' n i y hgc hy
    ⟨Ptr.cell i, Or.inr ⟨i, y, rfl, hy, hp⟩, Reach.refl _⟩

theorem persist_inv_alloc (fuel : Nat) (c c' : Ctx) (t : LxType) (m : Bool) (p : Ptr)
    (i : Nat) (y : Value)
    (h : lx_alloc fuel c t m = Except.ok (p, c')) (hy : c.cells[i]? = some y)
    (hp : y.persist = true) (hlive : ¬ OnFreeList c (Ptr.cell i)) :
    ∃ y', c'.cells[i]? = some y' ∧ unmark y' = unmark y ∧ ¬ OnFreeList c' (Ptr.cell i) := by
  obtain ⟨c1, hc1, hres⟩ := lx_alloc_cases fuel c t m p c' h
  have h1 : ∃ y1, c1.cells[i]? = some y1 ∧ unmark y1 = unmark y ∧
      ¬ OnFreeList c1 (Ptr.cell i) := by
    rcases hc1 with ⟨rfl, _⟩ | ⟨_, n, hg⟩
    · exact ⟨y, hy, rfl, hlive⟩
    · obtain ⟨ha, hb⟩ := persist_inv_gc fuel c c1 n i y hg hy hp
      exact ⟨unmark y, ha, rfl, hb hlive⟩
  obtain ⟨y1, hy1, hu1, hl1⟩ := h1
  rcases hres with ⟨_, rfl, _⟩ | ⟨x, hx, _, rfl⟩
  · exact ⟨y1, hy1, hu1, hl1⟩
  · have hne : Ptr.cell i ≠ c1.free_list := by
      intro heq
      apply hl1
      rw [heq]
      apply OnFreeList.head
      intro hnull
      rw [hnull] at hx
      simp [Ctx.get] at hx
    refine ⟨y1, ?_, hu1, fun hon => hl1 (onFreeList_pop c1 x t m hx _ hon)⟩
    have := popFree_get c1 x t m (Ptr.cell i)
    rw [get_set_other c1 _ _ _ hne] at this
    exact this.trans hy1

theorem persist_inv_steps (fuel : Nat) (i : Nat) (x : Value) (hp : x.persist = true) :
    ∀ (steps : List GcStep) (c c' : Ctx), runSteps fuel c steps = Except.ok c' →
      (∃ y, c.cells[i]? = some y ∧ unmark y = unmark x ∧ ¬ OnFreeList c (Ptr.cell i)) →
      ∃ y, c'.cells[i]? = some y ∧ unmark y = unmark x ∧ ¬ OnFreeList c' (Ptr.cell i) := by
  intro steps
  induction steps with
  | nil =>
    intro c c' h hinv
    simp only [runSteps, Except.ok.injEq] at h
    subst h
    exact hinv
  | cons s ss ih =>
    intro c c' h hinv
    rw [runSteps] at h
    cases hs : s.run fuel c with
    | error e => simp [hs] at h
    | ok c1 =>
      simp only [hs] at h
      apply ih c1 c' h
      obtain ⟨y, hy, hu, hl⟩ := hinv
      have hyp : y.persist = true := by
        have := congrArg Value.persist hu
        simpa [unmark, hp] using this
      cases s with
      | gc =>
        simp only [GcStep.run] at hs
        cases hg : lx_gc fuel c with
        | error e => simp [hg] at hs
        | ok r =>
          simp only [hg, Except.ok.injEq] at hs
          subst hs
          obtain ⟨ha, hb⟩ := persist_inv_gc fuel c r.1 r.2 i y hg hy hyp
          exact ⟨unmark y, ha, by rw [← hu]; rfl, hb hl⟩
      | alloc t m =>
        simp only [GcStep.run] at hs
        cases hg : lx_alloc fuel c t m with
        | error e => simp [hg] at hs
        | ok r =>
          simp only [hg, Except.ok.injEq] at hs
          subst hs
          obtain ⟨y', ha, hb, hc⟩ := persist_inv_alloc fuel c r.2 t m r.1 i y hg hy hyp hl
          exact ⟨y', ha, hb.trans hu, hc⟩

/-- Persistent live cells. A live arena cell (one that is not on the free
list) on which
`lx_persist` has been called is, after every later sequence of collection
cycles, whether run by `lx_gc` called by the host or by `lx_alloc` finding
the free list empty, still tagged as before (so it is never retagged Free),
still flagged persistent and still not on the free list; nothing needs to
reference it. -/
theorem persist_never_reclaimed (fuel : Nat) (c c0 c' : Ctx) (i : Nat) (x : Value)
    (steps : List GcStep)
    (hx : c.cells[i]? = some x) (hlive : ¬ OnFreeList c (Ptr.cell i))
    (hp : lx_persist c (Ptr.cell i) = Except.ok c0)
    (hrun : runSteps fuel c0 steps = Except.ok c') :
    ∃ y, c'.cells[i]? = some y ∧ y.persist = true ∧ y.type = x.type ∧
      ¬ OnFreeList c' (Ptr.cell i) := by
  have hc0 : c0 = c.set (Ptr.cell i) { x with persist := true } := by
    simp only [lx_persist, Ctx.modify, get_cell, hx, Except.ok.injEq] at hp
    exact hp.symm
  have hget : c0.cells[i]? = some { x with persist := true } := by
    rw [hc0]
    exact get_set_same c (Ptr.cell i) x _ (show c.get (Ptr.cell i) = some x from hx)
  have hlive0 : ¬ OnFreeList c0 (Ptr.cell i) := by
    intro hon
    apply hlive
    refine @onFreeList_congr c0 c ?_ (by rw [hc0]; rfl) _ hon
    intro q
    rw [hc0]
    by_cases hq : q = Ptr.cell i
    · subst hq
      rw [get_set_same c _ x _ (show c.get (Ptr.cell i) = some x from hx)]
      show _ = Option.map Value.free (c.cells[i]?)
      rw [hx]
      rfl
    · rw [get_set_other c _ q _ hq]
  obtain ⟨y, hy, hu, hl⟩ := persist_inv_steps fuel i { x with persist := true } rfl steps c0 c' hrun
    ⟨_, hget, rfl, hlive0⟩
  refine ⟨y, hy, ?_, ?_, hl⟩
  · have := congrArg Value.persist hu
    simpa [unmark] using this
  · have := congrArg Value.type hu
    simpa [unmark] using this

theorem persist_never_reclaimed_witness :
    lx_persist persistDemo (Ptr.cell 0) = Except.ok persistDemo0 ∧
    runSteps 5 persistDemo0 [GcStep.alloc LX_LIST false, GcStep.gc, GcStep.alloc LX_ENV true]
      = Except.ok persistDemoEnd ∧
    ∃ y, persistDemoEnd.cells[0]? = some y ∧ y.persist = true ∧ y.type = LX_NUMBER ∧
      ¬ OnFreeList persistDemoEnd (Ptr.cell 0) := by
  have hlive : ¬ OnFreeList persistDemo (Ptr.cell 0) := by
    have key : ∀ p, OnFreeList persistDemo p → False := by
      intro p hp
      induction hp with
      | head hne => exact hne rfl
      | next _ _ _ ih => exact ih
    exact key _
  exact ⟨rfl, rfl,
    persist_never_reclaimed 5 persistDemo persistDemo0 persistDemoEnd 0
      { type := LX_NUMBER, number := 9 }
      [GcStep.alloc LX_LIST false, GcStep.gc, GcStep.alloc LX_ENV true] rfl hlive rfl rfl⟩

/-! ## Environments as finite maps -/

theorem bytesEq_symm (c : Ctx) (a b : Nat) : ∀ n, bytesEq c a b n = bytesEq c b a n := by
  intro n
  induction n with
  | zero => rfl
  | succ n ih =>
    simp only [bytesEq, ih]
    congr 1
    exact Bool.eq_iff_iff.mpr ⟨fun h => by simpa using (by simpa using h : c.peek (a + n) = c.peek (b + n)).symm,
      fun h => by simpa using (by simpa using h : c.peek (b + n) = c.peek (a + n)).symm⟩

theorem bytesEq_trans (c : Ctx) (a b d : Nat) : ∀ n, bytesEq c a b n = true →
    bytesEq c a d n = bytesEq c b d n := by
  intro n
  induction n with
  | zero => intro _; rfl
  | succ n ih =>
    intro h
    simp only [bytesEq, Bool.and_eq_true, beq_iff_eq] at h
    simp only [bytesEq, ih h.1, h.2]

theorem sameSymbol_null (c : Ctx) (m : Ptr) : sameSymbol c Ptr.null m = false := rfl

theorem sameSymbol_symm (c : Ctx) (a b : Ptr) : sameSymbol c a b = sameSymbol c b a := by
  unfold sameSymbol
  cases ha : c.get a <;> cases hb : c.get b <;> simp only []
  rename_i x y
  by_cases hl : x.len = y.len
  · rw [bytesEq_symm c x.start y.start, hl]
    cases x.type == LX_SYMBOL <;> cases y.type == LX_SYMBOL <;> rfl
  · have h1 : (x.len == y.len) = false := by simpa using hl
    have h2 : (y.len == x.len) = false := by simpa using Ne.symm hl
    simp [h1, h2]

theorem sameSymbol_trans (c : Ctx) (k n m : Ptr) (h : sameSymbol c k n = true) :
    sameSymbol c k m = sameSymbol c n m := by
  unfold sameSymbol at h ⊢
  cases hk : c.get k with
  | none => simp [hk] at h
  | some x =>
    cases hn : c.get n with
    | none => simp [hk, hn] at h
    | some y =>
      simp only [hk, hn, Bool.and_eq_true, beq_iff_eq] at h
      obtain ⟨⟨⟨hx, hy⟩, hl⟩, hb⟩ := h
      cases hm : c.get m with
      | none => rfl
      | some z =>
        simp only []
        rw [bytesEq_trans c x.start y.start z.start _ hb, hl]
        have e1 : (x.type == LX_SYMBOL) = true := by simpa using hx
        have e2 : (y.type == LX_SYMBOL) = true := by simpa using hy
        rw [e1, e2]

/-- Reading a chain after `lx_setenv` has updated it. -/
theorem envFind_envUpd (eqv : Ptr → Ptr → Bool)
    (hnull : ∀ m, eqv Ptr.null m = false)
    (hsymm : ∀ a b, eqv a b = eqv b a)
    (htrans : ∀ k n m, eqv k n = true → eqv k m = eqv n m)
    (j : Nat) (n v m : Ptr) : ∀ ns : List (Nat × Ptr × Ptr),
    envFind eqv m (envUpd eqv j n v ns) = if eqv n m then v else envFind eqv m ns := by
  intro ns
  induction ns with
  | nil => simp [envUpd, envFind]
  | cons a r ih =>
    obtain ⟨i, k, w⟩ := a
    simp only [envUpd]
    by_cases hk : k = Ptr.null
    · subst hk
      simp [envFind, hnull]
    · rw [if_neg hk]
      by_cases he : eqv k n = true
      · rw [if_pos he]
        simp only [envFind, htrans k n m he]
        split <;> rfl
      · rw [if_neg he]
        simp only [envFind, ih]
        by_cases h1 : eqv k m = true
        · have h2 : eqv n m = false := by
            cases h3 : eqv n m with
            | false => rfl
            | true =>
              have := htrans k m n h1
              rw [hsymm m n, h3] at this
              exact absurd this he
          simp [h1, h2]
        · simp [h1]

theorem lx_symbeq_eq (c : Ctx) (a b : Ptr)
    (ha : a = Ptr.null ∨ (c.get a).isSome = true)
    (hb : b = Ptr.null ∨ (c.get b).isSome = true) :
    lx_symbeq c a b = Except.ok (sameSymbol c a b) := by
  unfold lx_symbeq sameSymbol
  by_cases h1 : a = Ptr.null
  · subst h1
    simp [Ctx.get]
  · by_cases h2 : b = Ptr.null
    · subst h2
      cases c.get a <;> simp [Ctx.get]
    · have ha' := ha.resolve_left h1
      have hb' := hb.resolve_left h2
      obtain ⟨x, hx⟩ := Option.isSome_iff_exists.mp ha'
      obtain ⟨y, hy⟩ := Option.isSome_iff_exists.mp hb'
      simp only [h1, h2, Bool.or_self, Bool.false_eq_true, if_false, Ctx.deref, hx, hy, bind,
        Except.bind, decide_False]
      by_cases t1 : x.type = LX_SYMBOL <;> by_cases t2 : y.type = LX_SYMBOL <;>
        by_cases t3 : x.len = y.len <;> simp [t1, t2, t3]

theorem bytesEq_text (c1 c2 : Ctx) (h : c2.text = c1.text) (a b : Nat) :
    ∀ n, bytesEq c2 a b n = bytesEq c1 a b n := by
  intro n
  induction n with
  | zero => rfl
  | succ n ih => simp only [bytesEq, ih, Ctx.peek, h]

theorem sameSymbol_view (c : Ctx) (a b : Ptr) :
    sameSymbol c a b =
      match (c.get a).bind symView, (c.get b).bind symView with
      | some u, some w => u.2 == w.2 && bytesEq c u.1 w.1 u.2.toNat
      | _, _ => false := by
  unfold sameSymbol symView
  cases c.get a with
  | none => rfl
  | some x =>
    cases c.get b with
    | none =>
      simp only [Option.bind]
      split <;> simp_all
    | some y =>
      by_cases t1 : x.type = LX_SYMBOL <;> by_cases t2 : y.type = LX_SYMBOL <;>
        simp [t1, t2]

theorem sameSymbol_symSame {c1 c2 : Ctx} (h : SymSame c1 c2) (a b : Ptr) :
    sameSymbol c2 a b = sameSymbol c1 a b := by
  have key : ∀ p, (c2.get p).bind symView = (c1.get p).bind symView := by
    intro p
    have := h.2 p
    cases h2 : c2.get p <;> cases h1 : c1.get p <;> simp_all
  rw [sameSymbol_view, sameSymbol_view, key a, key b]
  cases (c1.get a).bind symView <;> cases (c1.get b).bind symView <;> simp only []
  rw [bytesEq_text c1 c2 h.1]

theorem symSame_valid {c1 c2 : Ctx} (h : SymSame c1 c2) (p : Ptr)
    (hp : p = Ptr.null ∨ (c1.get p).isSome = true) :
    p = Ptr.null ∨ (c2.get p).isSome = true := by
  rcases hp with hp | hp
  · exact Or.inl hp
  · right
    have := h.2 p
    cases h2 : c2.get p <;> cases h1 : c1.get p <;> simp_all

theorem symSame_refl (c : Ctx) : SymSame c c := ⟨rfl, fun _ => rfl⟩

theorem symSame_trans {a b c : Ctx} (h1 : SymSame a b) (h2 : SymSame b c) : SymSame a c :=
  ⟨h2.1.trans h1.1, fun p => (h2.2 p).trans (h1.2 p)⟩

/-- The function `lx_getenv` on a chain reads the bindings as `envFind` does. -/
theorem lx_getenv_chain (c : Ctx) (m : Ptr) (hm : m = Ptr.null ∨ (c.get m).isSome = true) :
    ∀ (ns : List (Nat × Ptr × Ptr)) (env : Ptr) (fuel : Nat), Chain c env ns →
      NamesValid c ns → ns.length < fuel →
      lx_getenv fuel c env m = Except.ok (envFind (sameSymbol c) m ns) := by
  intro ns
  induction ns with
  | nil =>
    intro env fuel hc _ hf
    cases fuel with
    | zero => omega
    | succ f =>
      simp only [Chain] at hc
      subst hc
      simp [lx_getenv, envFind]
  | cons a r ih =>
    intro env fuel hc hv hf
    obtain ⟨i, k, w⟩ := a
    cases fuel with
    | zero => omega
    | succ f =>
      obtain ⟨henv, x, hx, hk, hw, hr⟩ := hc
      subst henv
      have hkv := hv (i, k, w) (List.mem_cons_self _ _)
      have hv' : NamesValid c r := fun a ha => hv a (List.mem_cons_of_mem _ ha)
      have hs := lx_symbeq_eq c k m hkv hm
      simp only [lx_getenv, Ctx.deref, get_cell, hx, hk, hs, bind, Except.bind, envFind]
      by_cases he : sameSymbol c k m = true
      · simp [he, hw]
      · simp only [he]
        simpa using ih x.next f hr hv' (by simpa using hf)

theorem set_text (c : Ctx) (p : Ptr) (v : Value) : (c.set p v).text = c.text := by
  cases p <;> rfl

theorem set_free_list (c : Ctx) (p : Ptr) (v : Value) : (c.set p v).free_list = c.free_list := by
  cases p <;> rfl

theorem set_cell_same (c : Ctx) (i : Nat) (x v : Value) (h : c.cells[i]? = some x) :
    (c.set (Ptr.cell i) v).cells[i]? = some v :=
  get_set_same c (Ptr.cell i) x v h

theorem set_cell_other (c : Ctx) (p : Ptr) (i : Nat) (v : Value) (h : Ptr.cell i ≠ p) :
    (c.set p v).cells[i]? = c.cells[i]? :=
  get_set_other c p (Ptr.cell i) v h

theorem cell_ne {i j : Nat} (h : i ≠ j) : Ptr.cell i ≠ Ptr.cell j := by
  intro e
  cases e
  exact h rfl

/-- A chain is not affected by changes to cells outside it. -/
theorem chain_frame (c c' : Ctx) : ∀ (ns : List (Nat × Ptr × Ptr)) (p : Ptr),
    Chain c p ns → (∀ i ∈ nodeIds ns, c'.cells[i]? = c.cells[i]?) → Chain c' p ns := by
  intro ns
  induction ns with
  | nil => intro p h _; exact h
  | cons a r ih =>
    intro p h hf
    obtain ⟨i, k, w⟩ := a
    obtain ⟨hp, x, hx, hk, hw, hr⟩ := h
    refine ⟨hp, x, ?_, hk, hw, ih _ hr fun i' hi' => hf i' (List.mem_cons_of_mem _ hi')⟩
    rw [hf i (List.mem_cons_self _ _)]
    exact hx

theorem modify_ok (c : Ctx) (p : Ptr) (f : Value → Value) (x : Value) (h : c.get p = some x) :
    c.modify p f = Except.ok (c.set p (f x)) := by
  simp [Ctx.modify, h]

/-- Changing fields other than type, symbol start and length, or retagging
a cell that is not a Symbol to a tag that is not Symbol, is invisible to
`lx_symbeq`. -/
theorem symSame_set (c : Ctx) (p : Ptr) (x v : Value) (hx : c.get p = some x)
    (hv : symView v = symView x) : SymSame c (c.set p v) := by
  refine ⟨set_text c p v, fun q => ?_⟩
  by_cases hq : q = p
  · subst hq
    rw [get_set_same c q x v hx, hx]
    simp [hv]
  · rw [get_set_other c p q v hq]

theorem set_get_noncell (c : Ctx) (i : Nat) (v : Value) (p : Ptr) (hp : ∀ k, p ≠ Ptr.cell k) :
    (c.set (Ptr.cell i) v).get p = c.get p :=
  get_set_other c (Ptr.cell i) p v (hp i)

theorem set_gcs (c : Ctx) (p : Ptr) (v : Value) : (c.set p v).gcs = c.gcs := by
  cases p <;> rfl

/-- The tail of `lx_setenv` when the loop stopped at a node without name. -/
theorem setenvTail_fill (g : Nat) (c : Ctx) (prev : Ptr) (i j : Nat) (x xj : Value)
    (n v : Ptr) (touched : List Nat)
    (hx : c.cells[i]? = some x) (hi : i ∈ touched) (hj : j ∉ touched)
    (hfl : c.free_list = Ptr.cell j) (hxj : c.cells[j]? = some xj)
    (hprev : prev = Ptr.cell i ∨
      ∃ ip y, prev = Ptr.cell ip ∧ c.cells[ip]? = some y ∧ y.next = Ptr.cell i ∧
        ip ∉ touched ∧ ip ≠ j) :
    ∃ c', setenvTail g c prev (Ptr.cell i) n v = Except.ok c' ∧
      c'.cells[i]? = some { x with name := n, value := v } ∧
      (∀ k, k ≠ i → k ∈ touched → c'.cells[k]? = c.cells[k]?) ∧
      SetenvPost c c' prev (Ptr.cell i) touched j false xj := by
  have hij : i ≠ j := fun e => hj (e ▸ hi)
  rcases hprev with rfl | ⟨ip, y, rfl, hy, hyn, hip, hipj⟩
  · refine ⟨c.set (Ptr.cell i) { x with name := n, value := v }, ?_, ?_, ?_, ?_⟩
    · simp [setenvTail, bind, Except.bind, modify_ok c (Ptr.cell i) _ x hx]
    · exact set_cell_same c i x _ hx
    · intro k hk _
      exact set_cell_other c _ k _ (cell_ne hk)
    · refine ⟨?_, ?_, ?_, ?_, ?_, ?_, ?_, ?_⟩
      · intro ip y hp hnt
        have e : i = ip := Ptr.cell.inj hp
        exact absurd (e ▸ hi) hnt
      · intro k _ _ hk
        exact set_cell_other c _ k _ hk
      · intro p hp
        exact set_get_noncell c i _ p hp
      · exact symSame_set c (Ptr.cell i) x { x with name := n, value := v } hx rfl
      · simp [set_free_list, hfl]
      · intro _
        rw [set_cell_other c _ j _ (cell_ne (Ne.symm hij))]
        exact hxj
      · exact set_cells_length c _ _
      · exact set_gcs c _ _
  · have hne : ip ≠ i := fun e => hip (e ▸ hi)
    have h1 : (c.set (Ptr.cell ip) { y with next := Ptr.cell i }).get (Ptr.cell i) = some x := by
      rw [get_set_other c _ _ _ (cell_ne (Ne.symm hne))]
      exact hx
    have hyg : c.get (Ptr.cell ip) = some y := hy
    refine ⟨(c.set (Ptr.cell ip) { y with next := Ptr.cell i }).set (Ptr.cell i)
      { x with name := n, value := v }, ?_, ?_, ?_, ?_⟩
    · have hb : (Ptr.cell i != Ptr.cell ip) = true := by
        simpa using Ne.symm hne
      simp only [setenvTail, bind, Except.bind]
      simp only [show (Ptr.cell i = Ptr.null) = False from by simp, if_false, hb, if_true]
      rw [modify_ok c (Ptr.cell ip) _ y hy]
      simp only []
      rw [modify_ok _ (Ptr.cell i) _ x h1]
    · exact get_set_same _ (Ptr.cell i) x _ h1
    · intro k hk hkt
      have hkip : k ≠ ip := fun e => hip (e ▸ hkt)
      rw [set_cell_other _ _ k _ (cell_ne hk), set_cell_other _ _ k _ (cell_ne hkip)]
    · refine ⟨?_, ?_, ?_, ?_, ?_, ?_, ?_, ?_⟩
      · intro ip' y' hp _ _ hy'
        have e : ip' = ip := (Ptr.cell.inj hp).symm
        rw [e] at hy' ⊢
        rw [hy] at hy'
        cases hy'
        rw [set_cell_other _ _ ip _ (cell_ne hne)]
        exact get_set_same c (Ptr.cell ip) y _ hyg
      · intro k hk _ hkp
        have hki : k ≠ i := fun e => hk (e ▸ hi)
        rw [set_cell_other _ _ k _ (cell_ne hki), set_cell_other _ _ k _ hkp]
      · intro p hp
        rw [set_get_noncell _ i _ p hp, set_get_noncell _ ip _ p hp]
      · exact symSame_trans (symSame_set c (Ptr.cell ip) y { y with next := Ptr.cell i } hyg rfl)
          (symSame_set _ (Ptr.cell i) x { x with name := n, value := v } h1 rfl)
      · simp [set_free_list, hfl]
      · intro _
        rw [set_cell_other _ _ j _ (cell_ne (Ne.symm hij)),
          set_cell_other _ _ j _ (cell_ne (Ne.symm hipj))]
        exact hxj
      · rw [set_cells_length, set_cells_length]
      · rw [set_gcs, set_gcs]

theorem lx_alloc_pop (g : Nat) (c : Ctx) (t : LxType) (m : Bool) (j : Nat) (xj : Value)
    (hfl : c.free_list = Ptr.cell j) (hxj : c.cells[j]? = some xj) :
    lx_alloc g c t m = Except.ok (Ptr.cell j, c.popFree xj t m) := by
  unfold lx_alloc allocPop
  simp [hfl, get_cell, hxj]

theorem popFree_cell_same (c : Ctx) (xj : Value) (t : LxType) (m : Bool) (j : Nat)
    (hfl : c.free_list = Ptr.cell j) (hxj : c.cells[j]? = some xj) :
    (c.popFree xj t m).get (Ptr.cell j) = some { xj with type := t, mark := m } := by
  rw [popFree_get, hfl]
  exact get_set_same c (Ptr.cell j) xj _ hxj

theorem popFree_get_other (c : Ctx) (xj : Value) (t : LxType) (m : Bool) (j : Nat) (p : Ptr)
    (hfl : c.free_list = Ptr.cell j) (hp : p ≠ Ptr.cell j) :
    (c.popFree xj t m).get p = c.get p := by
  rw [popFree_get, hfl]
  exact get_set_other c (Ptr.cell j) p _ hp

theorem symSame_popFree (c : Ctx) (xj : Value) (t : LxType) (m : Bool) (j : Nat)
    (hfl : c.free_list = Ptr.cell j) (hxj : c.cells[j]? = some xj)
    (hx : xj.type ≠ LX_SYMBOL) (ht : t ≠ LX_SYMBOL) : SymSame c (c.popFree xj t m) := by
  refine ⟨?_, fun p => ?_⟩
  · show (c.set c.free_list _).text = c.text
    exact set_text _ _ _
  · by_cases hp : p = Ptr.cell j
    · subst hp
      rw [popFree_cell_same c xj t m j hfl hxj, get_cell, hxj]
      simp [symView, hx, ht]
    · rw [popFree_get_other c xj t m j p hfl hp]

/-- The tail of `lx_setenv` when the loop reached the end of the chain: the
head of the free list becomes the new last node. -/
theorem setenvTail_append (g : Nat) (c : Ctx) (ip j : Nat) (y xj : Value)
    (n v : Ptr) (touched : List Nat)
    (hy : c.cells[ip]? = some y) (hip : ip ∉ touched) (hj : j ∉ touched) (hipj : ip ≠ j)
    (hfl : c.free_list = Ptr.cell j) (hxj : c.cells[j]? = some xj) (hxt : xj.type = LX_FREE) :
    ∃ c', setenvTail g c (Ptr.cell ip) Ptr.null n v = Except.ok c' ∧
      Chain c' (Ptr.cell j) [(j, n, v)] ∧
      (∀ k, k ∈ touched → c'.cells[k]? = c.cells[k]?) ∧
      SetenvPost c c' (Ptr.cell ip) (Ptr.cell j) touched j true xj := by
  have e1 := popFree_cell_same c xj LX_ENV true j hfl hxj
  have hne : Ptr.cell ip ≠ Ptr.cell j := cell_ne hipj
  have e2 : ((c.popFree xj LX_ENV true).set (Ptr.cell j)
      { xj with type := LX_ENV, mark := true, next := Ptr.null }).get (Ptr.cell ip) = some y := by
    rw [get_set_other _ _ _ _ hne, popFree_get_other c xj _ _ j _ hfl hne]
    exact hy
  have e3 : (((c.popFree xj LX_ENV true).set (Ptr.cell j)
      { xj with type := LX_ENV, mark := true, next := Ptr.null }).set (Ptr.cell ip)
      { y with next := Ptr.cell j }).get (Ptr.cell j)
      = some { xj with type := LX_ENV, mark := true, next := Ptr.null } := by
    rw [get_set_other _ _ _ _ (Ne.symm hne)]
    exact get_set_same _ _ _ _ e1
  refine ⟨(((c.popFree xj LX_ENV true).set (Ptr.cell j)
      { xj with type := LX_ENV, mark := true, next := Ptr.null }).set (Ptr.cell ip)
      { y with next := Ptr.cell j }).set (Ptr.cell j)
      { xj with type := LX_ENV, mark := true, next := Ptr.null, name := n, value := v },
    ?_, ?_, ?_, ?_⟩
  · have hb : (Ptr.cell j != Ptr.cell ip) = true := by
      simpa using Ne.symm hipj
    simp only [setenvTail, bind, Except.bind, if_true, lx_alloc_pop g c LX_ENV true j xj hfl hxj]
    rw [modify_ok _ (Ptr.cell j) _ _ e1]
    simp only [hb, if_true]
    rw [modify_ok _ (Ptr.cell ip) _ y e2]
    simp only []
    rw [modify_ok _ (Ptr.cell j) _ _ e3]
  · exact ⟨rfl, _, get_set_same _ (Ptr.cell j) _ _ e3, rfl, rfl, rfl⟩
  · intro k hk
    have hkj : k ≠ j := fun e => hj (e ▸ hk)
    have hkip : k ≠ ip := fun e => hip (e ▸ hk)
    rw [set_cell_other _ _ k _ (cell_ne hkj), set_cell_other _ _ k _ (cell_ne hkip),
      set_cell_other _ _ k _ (cell_ne hkj)]
    exact popFree_get_other c xj _ _ j _ hfl (cell_ne hkj)
  · refine ⟨?_, ?_, ?_, ?_, ?_, ?_, ?_, ?_⟩
    · intro ip' y' hp _ _ hy'
      have e : ip' = ip := (Ptr.cell.inj hp).symm
      rw [e] at hy' ⊢
      rw [hy] at hy'
      cases hy'
      rw [set_cell_other _ _ ip _ hne]
      exact get_set_same _ (Ptr.cell ip) y _ e2
    · intro k _ hkj hkp
      rw [set_cell_other _ _ k _ (cell_ne hkj), set_cell_other _ _ k _ hkp,
        set_cell_other _ _ k _ (cell_ne hkj)]
      exact popFree_get_other c xj _ _ j _ hfl (cell_ne hkj)
    · intro p hp
      rw [set_get_noncell _ j _ p hp, set_get_noncell _ ip _ p hp, set_get_noncell _ j _ p hp]
      exact popFree_get_other c xj _ _ j p hfl (hp j)
    · have s1 := symSame_popFree c xj LX_ENV true j hfl hxj (by simp [hxt]) (by simp)
      have s2 := symSame_set (c.popFree xj LX_ENV true) (Ptr.cell j) _
        { xj with type := LX_ENV, mark := true, next := Ptr.null } e1 rfl
      have s3 := symSame_set _ (Ptr.cell ip) y { y with next := Ptr.cell j } e2 rfl
      have s4 := symSame_set _ (Ptr.cell j) _
        { xj with type := LX_ENV, mark := true, next := Ptr.null, name := n, value := v } e3 rfl
      exact symSame_trans (symSame_trans (symSame_trans s1 s2) s3) s4
    · simp only [set_free_list, if_true]
      rfl
    · intro h
      cases h
    · simp only [set_cells_length]
      show (c.set c.free_list _).cells.length = _
      exact set_cells_length _ _ _
    · simp only [set_gcs]
      show (c.set c.free_list _).gcs = _
      exact set_gcs _ _ _

theorem setenvLoop_nil (f : Nat) (c : Ctx) (prev n v : Ptr) :
    setenvLoop (f + 1) c prev Ptr.null n v = Except.ok (false, prev, Ptr.null, c) := by
  simp [setenvLoop]

theorem setenvLoop_noname (f : Nat) (c : Ctx) (prev n v : Ptr) (i : Nat) (x : Value)
    (hx : c.cells[i]? = some x) (hk : x.name = Ptr.null) :
    setenvLoop (f + 1) c prev (Ptr.cell i) n v = Except.ok (false, prev, Ptr.cell i, c) := by
  simp [setenvLoop, Ctx.deref, get_cell, hx, hk, bind, Except.bind]

theorem setenvLoop_match (f : Nat) (c : Ctx) (prev n v : Ptr) (i : Nat) (x : Value)
    (hx : c.cells[i]? = some x) (hk : x.name ≠ Ptr.null)
    (hs : lx_symbeq c x.name n = Except.ok true) :
    setenvLoop (f + 1) c prev (Ptr.cell i) n v =
      Except.ok (true, prev, Ptr.cell i, c.set (Ptr.cell i) { x with value := v }) := by
  simp [setenvLoop, Ctx.deref, get_cell, hx, hk, hs, bind, Except.bind]

theorem setenvLoop_next (f : Nat) (c : Ctx) (prev n v : Ptr) (i : Nat) (x : Value)
    (hx : c.cells[i]? = some x) (hk : x.name ≠ Ptr.null)
    (hs : lx_symbeq c x.name n = Except.ok false) :
    setenvLoop (f + 1) c prev (Ptr.cell i) n v = setenvLoop f c (Ptr.cell i) x.next n v := by
  simp [setenvLoop, Ctx.deref, get_cell, hx, hk, hs, bind, Except.bind]

/-- The function `lx_setenv` on a chain, when the free list is not empty:
the bindings change as `envUpd` says and nothing else that is observable
changes. -/
theorem setenvFrom_chain (g : Nat) (c : Ctx) (n v : Ptr) (j : Nat) (xj : Value)
    (hn : n = Ptr.null ∨ (c.get n).isSome = true)
    (hfl : c.free_list = Ptr.cell j) (hxj : c.cells[j]? = some xj) (hxt : xj.type = LX_FREE) :
    ∀ (ns : List (Nat × Ptr × Ptr)) (prev env : Ptr) (fuel : Nat),
      Chain c env ns → NamesValid c ns → (nodeIds ns).Nodup → j ∉ nodeIds ns →
      ns.length < fuel →
      ((prev = env ∧ ns ≠ []) ∨ ∃ ip y, prev = Ptr.cell ip ∧ c.cells[ip]? = some y ∧
        y.next = env ∧ ip ∉ nodeIds ns ∧ ip ≠ j) →
      ∃ c' t, setenvFrom g fuel c prev env n v = Except.ok c' ∧
        Chain c' t (envUpd (sameSymbol c) j n v ns) ∧ (ns ≠ [] → t = env) ∧
        SetenvPost c c' prev t (nodeIds ns) j (envGrows (sameSymbol c) n ns) xj := by
  intro ns
  induction ns with
  | nil =>
    intro prev env fuel hc _ _ _ hf hprev
    cases fuel with
    | zero => omega
    | succ f =>
      simp only [Chain] at hc
      subst hc
      rcases hprev with ⟨_, hne⟩ | ⟨ip, y, rfl, hy, _, hip, hipj⟩
      · exact absurd rfl hne
      · obtain ⟨c', h1, h2, _, h4⟩ := setenvTail_append g c ip j y xj n v [] hy hip
          (by simp) hipj hfl hxj hxt
        refine ⟨c', Ptr.cell j, ?_, h2, fun h => absurd rfl h, h4⟩
        simp only [setenvFrom, setenvLoop_nil, bind, Except.bind]
        exact h1
  | cons a r ih =>
    intro prev env fuel hc hv hnd hj hf hprev
    obtain ⟨i, k, w⟩ := a
    obtain ⟨henv, x, hx, hk, hw, hr⟩ := hc
    subst henv
    have hi : i ∈ nodeIds ((i, k, w) :: r) := List.mem_cons_self _ _
    have hij : i ≠ j := fun e => hj (e ▸ hi)
    have hir : i ∉ nodeIds r := (List.nodup_cons.mp hnd).1
    have hndr : (nodeIds r).Nodup := (List.nodup_cons.mp hnd).2
    have hjr : j ∉ nodeIds r := fun h => hj (List.mem_cons_of_mem _ h)
    have hvr : NamesValid c r := fun a ha => hv a (List.mem_cons_of_mem _ ha)
    have hprevy : ∀ ip y, prev = Ptr.cell ip → ip ∉ nodeIds ((i, k, w) :: r) →
        c.cells[ip]? = some y → y.next = Ptr.cell i := by
      intro ip y hp hnt hy
      rcases hprev with ⟨h, _⟩ | ⟨ip', y', h, hy', hn', _, _⟩
      · rw [h] at hp
        exact absurd ((Ptr.cell.inj hp) ▸ hi) hnt
      · rw [h] at hp
        have e : ip' = ip := Ptr.cell.inj hp
        rw [e, hy] at hy'
        cases hy'
        exact hn'
    cases fuel with
    | zero => omega
    | succ f =>
      by_cases hk0 : k = Ptr.null
      · -- the loop stops at a node without name
        obtain ⟨c', h1, h2, h3, h4⟩ := setenvTail_fill g c prev i j x xj n v
          (nodeIds ((i, k, w) :: r)) hx hi hj hfl hxj (by
            rcases hprev with ⟨h, _⟩ | ⟨ip, y, h, hy, hyn, hip, hipj⟩
            · exact Or.inl h
            · exact Or.inr ⟨ip, y, h, hy, hyn, hip, hipj⟩)
        refine ⟨c', Ptr.cell i, ?_, ?_, fun _ => rfl, ?_⟩
        · simp only [setenvFrom, setenvLoop_noname f c prev n v i x hx (hk.trans hk0), bind,
            Except.bind]
          exact h1
        · simp only [envUpd, hk0, if_true]
          refine ⟨rfl, _, h2, rfl, rfl, ?_⟩
          apply chain_frame c c' r _ hr
          intro i' hi'
          exact h3 i' (fun e => hir (e ▸ hi')) (List.mem_cons_of_mem _ hi')
        · simpa [envGrows, hk0] using h4
      · have hkx : x.name ≠ Ptr.null := hk ▸ hk0
        have hs := lx_symbeq_eq c k n (hv (i, k, w) (List.mem_cons_self _ _)) hn
        by_cases he : sameSymbol c k n = true
        · -- the loop overwrites the value of a matching node
          rw [he] at hs
          refine ⟨c.set (Ptr.cell i) { x with value := v }, Ptr.cell i, ?_, ?_, fun _ => rfl, ?_⟩
          · simp [setenvFrom, setenvLoop_match f c prev n v i x hx hkx (hk ▸ hs), bind,
              Except.bind]
          · simp only [envUpd, hk0, if_false, he, if_true]
            refine ⟨rfl, _, set_cell_same c i x _ hx, hk, rfl, ?_⟩
            apply chain_frame c _ r _ hr
            intro i' hi'
            exact set_cell_other c _ i' _ (cell_ne (fun e => hir (e ▸ hi')))
          · simp only [envGrows, hk0, if_false, he, if_true]
            refine ⟨?_, ?_, ?_, ?_, ?_, ?_, ?_, ?_⟩
            · intro ip y hp hnt _ hy
              have hipi : ip ≠ i := fun e => hnt (e ▸ hi)
              rw [set_cell_other c _ ip _ (cell_ne hipi), hy,
                ← hprevy ip y hp hnt hy]
            · intro k' hk' _ _
              exact set_cell_other c _ k' _ (cell_ne (fun e => hk' (e ▸ hi)))
            · intro p hp
              exact set_get_noncell c i _ p hp
            · exact symSame_set c (Ptr.cell i) x { x with value := v } hx rfl
            · simp [set_free_list, hfl]
            · intro _
              rw [set_cell_other c _ j _ (cell_ne (Ne.symm hij))]
              exact hxj
            · exact set_cells_length c _ _
            · exact set_gcs c _ _
        · -- the loop moves on to the next node
          have he' : sameSymbol c k n = false := by simpa using he
          rw [he'] at hs
          obtain ⟨c', t, h1, h2, h3, h4⟩ := ih (Ptr.cell i) x.next f hr hvr hndr hjr
            (by simpa using hf) (Or.inr ⟨i, x, rfl, hx, rfl, hir, hij⟩)
          obtain ⟨p1, p2, p3, p4, p5, p6, p7, p8⟩ := h4
          refine ⟨c', Ptr.cell i, ?_, ?_, fun _ => rfl, ?_⟩
          · simp only [setenvFrom, setenvLoop_next f c prev n v i x hx hkx (hk ▸ hs)]
            exact h1
          · simp only [envUpd, hk0, if_false, he', Bool.false_eq_true]
            exact ⟨rfl, _, p1 i x rfl hir hij hx, hk, hw, h2⟩
          · simp only [envGrows, hk0, if_false, he', Bool.false_eq_true]
            refine ⟨?_, ?_, p3, p4, p5, p6, p7, p8⟩
            · intro ip y hp hnt hipj hy
              have hipi : ip ≠ i := fun e => hnt (e ▸ hi)
              have hipr : ip ∉ nodeIds r := fun h => hnt (List.mem_cons_of_mem _ h)
              rw [p2 ip hipr hipj (cell_ne hipi), hy, ← hprevy ip y hp hnt hy]
            · intro k' hk' hkj _
              have hki : k' ≠ i := fun e => hk' (e ▸ hi)
              have hkr : k' ∉ nodeIds r := fun h => hk' (List.mem_cons_of_mem _ h)
              exact p2 k' hkr hkj (cell_ne hki)

theorem freeFrom_frame (c c' : Ctx) : ∀ (ps : List Nat) (p : Ptr),
    FreeFrom c p ps → (∀ i ∈ ps, c'.cells[i]? = c.cells[i]?) → FreeFrom c' p ps := by
  intro ps
  induction ps with
  | nil => intro p _ _; trivial
  | cons i r ih =>
    intro p h hf
    obtain ⟨hp, x, hx, ht, hr⟩ := h
    refine ⟨hp, x, ?_, ht, ih _ hr fun k hk => hf k (List.mem_cons_of_mem _ hk)⟩
    rw [hf i (List.mem_cons_self _ _)]
    exact hx

theorem nodeIds_envUpd (eqv : Ptr → Ptr → Bool) (j : Nat) (n v : Ptr) :
    ∀ ns, nodeIds (envUpd eqv j n v ns) =
      if envGrows eqv n ns then nodeIds ns ++ [j] else nodeIds ns := by
  intro ns
  induction ns with
  | nil => simp [envUpd, envGrows, nodeIds]
  | cons a r ih =>
    obtain ⟨i, k, w⟩ := a
    simp only [envUpd, envGrows]
    by_cases hk : k = Ptr.null
    · simp [hk, nodeIds]
    · by_cases he : eqv k n = true
      · simp [hk, he, nodeIds]
      · have he' : eqv k n = false := by simpa using he
        simp only [hk, he', if_false, Bool.false_eq_true]
        have : nodeIds ((i, k, w) :: envUpd eqv j n v r) = i :: nodeIds (envUpd eqv j n v r) := rfl
        rw [this, ih]
        split <;> simp [nodeIds]

theorem envUpd_ne_nil (eqv : Ptr → Ptr → Bool) (j : Nat) (n v : Ptr) :
    ∀ ns, envUpd eqv j n v ns ≠ [] := by
  intro ns
  cases ns with
  | nil => simp [envUpd]
  | cons a r =>
    obtain ⟨i, k, w⟩ := a
    simp only [envUpd]
    split
    · simp
    · split <;> simp

theorem envUpd_length (eqv : Ptr → Ptr → Bool) (j : Nat) (n v : Ptr) :
    ∀ ns, (envUpd eqv j n v ns).length ≤ ns.length + 1 := by
  intro ns
  induction ns with
  | nil => simp [envUpd]
  | cons a r ih =>
    obtain ⟨i, k, w⟩ := a
    simp only [envUpd]
    split
    · simp
    · split
      · simp
      · simp only [List.length_cons]
        omega

theorem namesValid_envUpd (c : Ctx) (eqv : Ptr → Ptr → Bool) (j : Nat) (n v : Ptr)
    (hn : n = Ptr.null ∨ (c.get n).isSome = true) :
    ∀ ns, NamesValid c ns → NamesValid c (envUpd eqv j n v ns) := by
  intro ns
  induction ns with
  | nil =>
    intro _ a ha
    simp only [envUpd, List.mem_singleton] at ha
    subst ha
    exact hn
  | cons b r ih =>
    intro hv a ha
    obtain ⟨i, k, w⟩ := b
    have hvr : NamesValid c r := fun a ha => hv a (List.mem_cons_of_mem _ ha)
    have hk := hv (i, k, w) (List.mem_cons_self _ _)
    simp only [envUpd] at ha
    split at ha
    · rcases List.mem_cons.mp ha with rfl | h
      · exact hn
      · exact hvr a h
    · split at ha
      · rcases List.mem_cons.mp ha with rfl | h
        · exact hk
        · exact hvr a h
      · rcases List.mem_cons.mp ha with rfl | h
        · exact hk
        · exact ih hvr a h

theorem namesValid_symSame {c c' : Ctx} (h : SymSame c c') (ns : List (Nat × Ptr × Ptr))
    (hv : NamesValid c ns) : NamesValid c' ns :=
  fun a ha => symSame_valid h _ (hv a ha)

theorem mapLookup_append (eqv : Ptr → Ptr → Bool) (m n v : Ptr) (kvs : List (Ptr × Ptr)) :
    mapLookup eqv m (kvs ++ [(n, v)]) = if eqv n m then v else mapLookup eqv m kvs := by
  unfold mapLookup
  rw [List.reverse_append]
  simp only [List.reverse_cons, List.reverse_nil, List.nil_append, List.singleton_append,
    List.find?_cons]
  by_cases h : eqv n m = true
  · simp [h]
  · simp [h]

theorem mapLookup_unset (eqv : Ptr → Ptr → Bool) (m : Ptr) (kvs : List (Ptr × Ptr))
    (h : ∀ kv ∈ kvs, eqv kv.1 m = false) : mapLookup eqv m kvs = Ptr.nil := by
  unfold mapLookup
  have : kvs.reverse.find? (fun kv => eqv kv.1 m) = none := by
    rw [List.find?_eq_none]
    intro kv hkv
    simp [h kv (List.mem_reverse.mp hkv)]
  rw [this]

theorem chain_head (c : Ctx) (env : Ptr) (ns : List (Nat × Ptr × Ptr)) (h : Chain c env ns)
    (hne : ns ≠ []) : ∃ i, env = Ptr.cell i ∧ i ∈ nodeIds ns := by
  cases ns with
  | nil => exact absurd rfl hne
  | cons a r =>
    obtain ⟨i, k, w⟩ := a
    exact ⟨i, h.1, List.mem_cons_self _ _⟩

/-- One call of `lx_setenv` keeps the invariant and updates the bindings. -/
theorem envInv_setenv (fuel : Nat) (c0 c : Ctx) (env : Ptr) (ns : List (Nat × Ptr × Ptr))
    (j : Nat) (ps : List Nat) (n v : Ptr)
    (hinv : EnvInv c0 c env ns (j :: ps))
    (hn : n = Ptr.null ∨ (c0.get n).isSome = true) (hf : ns.length < fuel) :
    ∃ c' ns' ps', lx_setenv fuel c env n v = Except.ok c' ∧ EnvInv c0 c' env ns' ps' ∧
      ps.length ≤ ps'.length ∧ ns'.length ≤ ns.length + 1 ∧
      ∀ m, envFind (sameSymbol c0) m ns' =
        if sameSymbol c0 n m then v else envFind (sameSymbol c0) m ns := by
  obtain ⟨hch, hnv, hnd, hne, hfr, hpn, hdis, hss, hgc⟩ := hinv
  obtain ⟨hfl, xj, hxj, hxt, hfr'⟩ := hfr
  have hjps : j ∉ ps := (List.nodup_cons.mp hpn).1
  have hpsn : ps.Nodup := (List.nodup_cons.mp hpn).2
  have hjn : j ∉ nodeIds ns := hdis j (List.mem_cons_self _ _)
  have heq : sameSymbol c = sameSymbol c0 := by
    funext a b
    exact sameSymbol_symSame hss a b
  obtain ⟨i0, hi0, hi0n⟩ := chain_head c env ns hch hne
  obtain ⟨c', t, h1, h2, h3, h4⟩ := setenvFrom_chain fuel c n v j xj (symSame_valid hss n hn)
    hfl hxj hxt ns env env fuel hch hnv hnd hjn hf (Or.inl ⟨rfl, hne⟩)
  rw [heq] at h2 h4
  have ht : t = env := h3 hne
  subst ht
  obtain ⟨_, p2, _, p4, p5, p6, _, p8⟩ := h4
  have hframe : ∀ i ∈ ps, c'.cells[i]? = c.cells[i]? := by
    intro i hi
    have h1 : i ∉ nodeIds ns := hdis i (List.mem_cons_of_mem _ hi)
    have h2 : i ≠ j := fun e => hjps (e ▸ hi)
    have h3 : Ptr.cell i ≠ t := by
      rw [hi0]
      exact cell_ne (fun e => h1 (e ▸ hi0n))
    exact p2 i h1 h2 h3
  have hnv' : NamesValid c' (envUpd (sameSymbol c0) j n v ns) :=
    namesValid_envUpd c' _ j n v (symSame_valid p4 n (symSame_valid hss n hn)) ns
      (namesValid_symSame p4 ns hnv)
  have hfind := envFind_envUpd (sameSymbol c0) (sameSymbol_null c0) (sameSymbol_symm c0)
    (sameSymbol_trans c0) j n v
  have hids := nodeIds_envUpd (sameSymbol c0) j n v ns
  by_cases hg : envGrows (sameSymbol c0) n ns = true
  · rw [hg] at p5 hids
    simp only [if_true] at p5 hids
    refine ⟨c', envUpd (sameSymbol c0) j n v ns, ps, h1, ?_, le_refl _, envUpd_length _ _ _ _ _,
      fun m => hfind m ns⟩
    refine ⟨h2, hnv', ?_, envUpd_ne_nil _ _ _ _ _, ?_, hpsn, ?_, symSame_trans hss p4,
      p8.trans hgc⟩
    · rw [hids]
      exact List.nodup_append.mpr ⟨hnd, List.nodup_singleton j, by
        intro a ha hb
        rw [List.mem_singleton] at hb
        exact hjn (hb ▸ ha)⟩
    · rw [p5]
      exact freeFrom_frame c c' ps _ hfr' hframe
    · intro i hi
      rw [hids]
      intro hmem
      rcases List.mem_append.mp hmem with h | h
      · exact hdis i (List.mem_cons_of_mem _ hi) h
      · rw [List.mem_singleton] at h
        exact hjps (h ▸ hi)
  · have hg' : envGrows (sameSymbol c0) n ns = false := by simpa using hg
    rw [hg'] at p5 p6 hids
    simp only [Bool.false_eq_true, if_false] at p5 hids
    refine ⟨c', envUpd (sameSymbol c0) j n v ns, j :: ps, h1, ?_, Nat.le_succ _,
      envUpd_length _ _ _ _ _, fun m => hfind m ns⟩
    refine ⟨h2, hnv', ?_, envUpd_ne_nil _ _ _ _ _, ?_, hpn, ?_, symSame_trans hss p4,
      p8.trans hgc⟩
    · rw [hids]
      exact hnd
    · rw [p5]
      exact ⟨rfl, xj, p6 rfl, hxt, freeFrom_frame c c' ps _ hfr' hframe⟩
    · intro i hi
      rw [hids]
      exact hdis i hi

/-- The env made by `lx_makenv` from a non-empty free list satisfies the
invariant, with one node that has no name. -/
theorem envInv_makenv (fuel : Nat) (c0 : Ctx) (j : Nat) (ps : List Nat)
    (hfr : FreeFrom c0 c0.free_list (j :: ps)) (hpn : (j :: ps).Nodup) :
    ∃ c1, lx_makenv fuel c0 = Except.ok (Ptr.cell j, c1) ∧
      EnvInv c0 c1 (Ptr.cell j) [(j, Ptr.null, Ptr.null)] ps := by
  obtain ⟨hfl, xj, hxj, hxt, hfr'⟩ := hfr
  have hjps : j ∉ ps := (List.nodup_cons.mp hpn).1
  have hpsn : ps.Nodup := (List.nodup_cons.mp hpn).2
  have e1 := popFree_cell_same c0 xj LX_ENV true j hfl hxj
  refine ⟨(c0.popFree xj LX_ENV true).set (Ptr.cell j)
    { xj with type := LX_ENV, mark := true, name := Ptr.null, value := Ptr.null,
              next := Ptr.null }, ?_, ?_⟩
  · simp only [lx_makenv, bind, Except.bind, lx_alloc_pop fuel c0 LX_ENV true j xj hfl hxj]
    rw [modify_ok _ (Ptr.cell j) _ _ e1]
  · have hs : SymSame c0 ((c0.popFree xj LX_ENV true).set (Ptr.cell j)
        { xj with type := LX_ENV, mark := true, name := Ptr.null, value := Ptr.null,
                  next := Ptr.null }) :=
      symSame_trans (symSame_popFree c0 xj LX_ENV true j hfl hxj (by simp [hxt]) (by simp))
        (symSame_set _ (Ptr.cell j) _ _ e1 rfl)
    refine ⟨⟨rfl, _, get_set_same _ (Ptr.cell j) _ _ e1, rfl, rfl, rfl⟩, ?_, ?_, by simp, ?_,
      hpsn, ?_, hs, ?_⟩
    · intro a ha
      simp only [List.mem_singleton] at ha
      subst ha
      exact Or.inl rfl
    · simp [nodeIds]
    · have hfree : ((c0.popFree xj LX_ENV true).set (Ptr.cell j)
          { xj with type := LX_ENV, mark := true, name := Ptr.null, value := Ptr.null,
                    next := Ptr.null }).free_list = xj.free := by
        rw [set_free_list]
        rfl
      rw [hfree]
      apply freeFrom_frame c0 _ ps _ hfr'
      intro i hi
      have hij : i ≠ j := fun e => hjps (e ▸ hi)
      rw [set_cell_other _ _ i _ (cell_ne hij)]
      exact popFree_get_other c0 xj _ _ j _ hfl (cell_ne hij)
    · intro i hi
      simp only [nodeIds, List.map_cons, List.map_nil, List.mem_singleton]
      exact fun e => hjps (e ▸ hi)
    · rw [set_gcs]
      show (c0.set c0.free_list _).gcs = _
      exact set_gcs _ _ _

/-- A sequence of calls of `lx_setenv` keeps the invariant; the chain then
holds the finite map given by the sequence of updates. -/
theorem envInv_setAll (fuel : Nat) (c0 : Ctx) (env : Ptr) :
    ∀ (kvs : List (Ptr × Ptr)) (c : Ctx) (ns : List (Nat × Ptr × Ptr)) (ps : List Nat)
      (done : List (Ptr × Ptr)),
      EnvInv c0 c env ns ps → kvs.length ≤ ps.length →
      (∀ kv ∈ kvs, kv.1 = Ptr.null ∨ (c0.get kv.1).isSome = true) →
      ns.length + kvs.length < fuel →
      (∀ m, envFind (sameSymbol c0) m ns = mapLookup (sameSymbol c0) m done) →
      ∃ c' ns' ps', setAll fuel env c kvs = Except.ok c' ∧ EnvInv c0 c' env ns' ps' ∧
        ps.length ≤ ps'.length + kvs.length ∧ ns'.length ≤ ns.length + kvs.length ∧
        ∀ m, envFind (sameSymbol c0) m ns' = mapLookup (sameSymbol c0) m (done ++ kvs) := by
  intro kvs
  induction kvs with
  | nil =>
    intro c ns ps done hinv _ _ _ hsem
    exact ⟨c, ns, ps, rfl, hinv, le_refl _, le_refl _, by simpa using hsem⟩
  | cons kv r ih =>
    intro c ns ps done hinv hlen hval hfuel hsem
    obtain ⟨n, v⟩ := kv
    cases ps with
    | nil => simp at hlen
    | cons j ps =>
      obtain ⟨c1, ns1, ps1, h1, hinv1, hl1, hn1, hs1⟩ := envInv_setenv fuel c0 c env ns j ps n v
        hinv (hval (n, v) (List.mem_cons_self _ _)) (by simp at hfuel; omega)
      have hsem1 : ∀ m, envFind (sameSymbol c0) m ns1 =
          mapLookup (sameSymbol c0) m (done ++ [(n, v)]) := by
        intro m
        rw [hs1 m, mapLookup_append, hsem m]
      obtain ⟨c2, ns2, ps2, h2, hinv2, hl2, hn2, hs2⟩ := ih c1 ns1 ps1 (done ++ [(n, v)]) hinv1
        (by simp at hlen; omega) (fun kv hkv => hval kv (List.mem_cons_of_mem _ hkv))
        (by simp at hfuel; omega) hsem1
      refine ⟨c2, ns2, ps2, ?_, hinv2, ?_, ?_, ?_⟩
      · simp only [setAll, h1]
        exact h2
      · simp only [List.length_cons]
        omega
      · simp only [List.length_cons]
        omega
      · intro m
        rw [hs2 m]
        simp

theorem isSymbol_valid {c : Ctx} {p : Ptr} (h : IsSymbol c p) :
    p = Ptr.null ∨ (c.get p).isSome = true := by
  obtain ⟨x, hx, _⟩ := h
  exact Or.inr (by simp [hx])

/-- C3 (amended). Environments behave as finite maps as long as no collection
runs: from a context whose free list starts with distinct Free cells, more
of them than there are calls of `lx_setenv`, take the env made by `lx_makenv`
and modified by any sequence `kvs` of calls of `lx_setenv` with Symbol names.
Then `lx_getenv(env, m)` returns some `r`; after one more
`lx_setenv(env, n, v)` it returns `v` when `m` has the same length and bytes as
`n` and `r` otherwise; and `r` is the nil singleton when no name set so far
equals `m`.  No collection has run (`gcs` is unchanged). -/
theorem env_finite_map (fuel : Nat) (c0 : Ctx) (ps : List Nat) (kvs : List (Ptr × Ptr))
    (n v m : Ptr)
    (hfree : FreeFrom c0 c0.free_list ps) (hnd : ps.Nodup) (hlen : kvs.length + 2 ≤ ps.length)
    (hkvs : ∀ kv ∈ kvs, IsSymbol c0 kv.1) (hn : IsSymbol c0 n) (hm : IsSymbol c0 m)
    (hfuel : kvs.length + 2 < fuel) :
    ∃ env c1 c2 c3 r, lx_makenv fuel c0 = Except.ok (env, c1) ∧
      setAll fuel env c1 kvs = Except.ok c2 ∧
      lx_getenv fuel c2 env m = Except.ok r ∧
      lx_setenv fuel c2 env n v = Except.ok c3 ∧
      lx_getenv fuel c3 env m = Except.ok (if sameSymbol c0 m n then v else r) ∧
      ((∀ kv ∈ kvs, sameSymbol c0 kv.1 m = false) → r = Ptr.nil) ∧
      c3.gcs = c0.gcs := by
  cases ps with
  | nil => simp at hlen
  | cons j0 ps1 =>
    obtain ⟨c1, hmk, hinv1⟩ := envInv_makenv fuel c0 j0 ps1 hfree hnd
    have hsem0 : ∀ m, envFind (sameSymbol c0) m [(j0, Ptr.null, Ptr.null)] =
        mapLookup (sameSymbol c0) m [] := by
      intro m
      simp [envFind, sameSymbol_null, mapLookup]
    obtain ⟨c2, ns2, ps2, hset, hinv2, hl2, hn2, hs2⟩ := envInv_setAll fuel c0 (Ptr.cell j0) kvs
      c1 [(j0, Ptr.null, Ptr.null)] ps1 [] hinv1 (by simp at hlen; omega)
      (fun kv hkv => isSymbol_valid (hkvs kv hkv)) (by simp; omega) hsem0
    simp only [List.length_cons, List.length_nil] at hn2 hlen
    cases ps2 with
    | nil => simp at hl2; omega
    | cons j ps' =>
      obtain ⟨c3, ns3, ps3, hset3, hinv3, _, hn3, hs3⟩ := envInv_setenv fuel c0 c2 (Ptr.cell j0)
        ns2 j ps' n v hinv2 (isSymbol_valid hn) (by omega)
      have hg2 := lx_getenv_chain c2 m (symSame_valid hinv2.2.2.2.2.2.2.2.1 m (isSymbol_valid hm))
        ns2 (Ptr.cell j0) fuel hinv2.1 hinv2.2.1 (by omega)
      have hg3 := lx_getenv_chain c3 m (symSame_valid hinv3.2.2.2.2.2.2.2.1 m (isSymbol_valid hm))
        ns3 (Ptr.cell j0) fuel hinv3.1 hinv3.2.1 (by omega)
      have e2 : sameSymbol c2 = sameSymbol c0 := by
        funext a b
        exact sameSymbol_symSame hinv2.2.2.2.2.2.2.2.1 a b
      have e3 : sameSymbol c3 = sameSymbol c0 := by
        funext a b
        exact sameSymbol_symSame hinv3.2.2.2.2.2.2.2.1 a b
      rw [e2] at hg2
      rw [e3, hs3 m, sameSymbol_symm c0 n m] at hg3
      refine ⟨Ptr.cell j0, c1, c2, c3, _, hmk, hset, hg2, hset3, hg3, ?_, hinv3.2.2.2.2.2.2.2.2⟩
      intro hun
      rw [hs2 m]
      exact mapLookup_unset _ _ _ (by simpa using hun)

theorem env_finite_map_witness :
    ∃ env c1 c2 c3 r, lx_makenv 9 envDemo = Except.ok (env, c1) ∧
      setAll 9 env c1 [(Ptr.cell 0, Ptr.zero)] = Except.ok c2 ∧
      lx_getenv 9 c2 env (Ptr.cell 1) = Except.ok r ∧
      lx_setenv 9 c2 env (Ptr.cell 1) Ptr.one = Except.ok c3 ∧
      lx_getenv 9 c3 env (Ptr.cell 1) =
        Except.ok (if sameSymbol envDemo (Ptr.cell 1) (Ptr.cell 1) then Ptr.one else r) ∧
      ((∀ kv ∈ [(Ptr.cell 0, Ptr.zero)], sameSymbol envDemo kv.1 (Ptr.cell 1) = false) →
        r = Ptr.nil) ∧
      c3.gcs = envDemo.gcs :=
  env_finite_map 9 envDemo [2, 3, 4] [(Ptr.cell 0, Ptr.zero)] (Ptr.cell 1) Ptr.one (Ptr.cell 1)
    ⟨rfl, _, rfl, rfl, rfl, _, rfl, rfl, rfl, _, rfl, rfl, trivial⟩ (by decide) (by decide)
    (by
      intro kv hkv
      simp only [List.mem_singleton] at hkv
      subst hkv
      exact ⟨_, rfl, rfl⟩)
    ⟨_, rfl, rfl⟩ ⟨_, rfl, rfl⟩ (by decide)

/-- C3 as stated fails when `lx_setenv` has to collect: after the session
`envBadRun` the env (cell 0) is persistent, the name `b` (cell 3) and the
value (cell 4) of the next binding are fresh cells and the free list is
empty.  The collection run by the allocation inside `lx_setenv` frees both;
afterwards looking up `b` yields the nil singleton although `b` was just
bound to a value that is not nil. -/
theorem env_finite_map_counterexample :
    envBadRun = Except.ok (Ptr.cell 0, Ptr.cell 3, Ptr.cell 4, envBad) ∧
    sameSymbol envBad (Ptr.stack 0) (Ptr.cell 3) = true ∧
    ((lx_setenv 9 envBad (Ptr.cell 0) (Ptr.cell 3) (Ptr.cell 4)).bind fun c' =>
      lx_getenv 9 c' (Ptr.cell 0) (Ptr.stack 0)) = Except.ok Ptr.nil := by
  decide!

/-! ## Lookup along the call chain -/

theorem lx_getenv_mono (c : Ctx) (name : Ptr) : ∀ (f : Nat) (env r : Ptr),
    lx_getenv f c env name = Except.ok r → ∀ k, lx_getenv (f + k) c env name = Except.ok r := by
  intro f
  induction f with
  | zero =>
    intro env r h
    simp [lx_getenv] at h
  | succ f ih =>
    intro env r h k
    have e : f + 1 + k = (f + k) + 1 := by omega
    rw [e]
    rw [lx_getenv] at h ⊢
    by_cases hn : env = Ptr.null
    · simpa [hn] using h
    · simp only [hn, if_false] at h ⊢
      cases hd : c.deref env with
      | error e => simp [hd, bind, Except.bind] at h
      | ok x =>
        simp only [hd, bind, Except.bind] at h ⊢
        cases hs : lx_symbeq c x.name name with
        | error e => simp [hs] at h
        | ok b =>
          simp only [hs] at h ⊢
          cases b with
          | true => simpa using h
          | false =>
            simp only [Bool.false_eq_true, if_false] at h ⊢
            exact ih _ _ h k

/-- C4 (amended). The function `lx_getcall` returns the result of the lookup
in the nearest frame (starting at `call` and following the parent pointers)
in whose env the lookup of the name yields a value that is not tagged Nil,
and the nil singleton when there is no such frame.  A frame that binds the
name to nil is passed over like a frame that does not bind it. -/
theorem lx_getcall_nearest (c : Ctx) (name : Ptr) (fuel : Nat) :
    ∀ (fs : List (Ptr × Ptr)) (call : Ptr), fs ≠ [] → Frames c call fs →
      (∀ f ∈ fs, lx_getenv fuel c f.1 name = Except.ok f.2 ∧ (c.get f.2).isSome = true) →
      lx_getcall (fuel + fs.length) c call name = Except.ok (firstBound c fs) := by
  intro fs
  induction fs with
  | nil => intro call h; exact absurd rfl h
  | cons a r ih =>
    intro call _ hfr hres
    obtain ⟨e, res⟩ := a
    obtain ⟨x, hx, hxe, hlast⟩ := hfr
    obtain ⟨hget, hvalid⟩ := hres (e, res) (List.mem_cons_self _ _)
    obtain ⟨y, hy⟩ := Option.isSome_iff_exists.mp hvalid
    have e1 : fuel + ((e, res) :: r).length = (fuel + r.length) + 1 := by
      simp only [List.length_cons]
      omega
    rw [e1, lx_getcall]
    have hg := lx_getenv_mono c name fuel e res hget r.length
    simp only [Ctx.deref, hx, hxe, hg, hy, bind, Except.bind, firstBound, isNilAt]
    by_cases ht : y.type = LX_NIL
    · simp only [ht, bne_self_eq_false, Bool.false_eq_true, if_false, beq_self_eq_true, if_true]
      cases r with
      | nil =>
        simp only [Frames] at hlast
        simp [hlast, firstBound]
      | cons b r' =>
        have hne : x.last ≠ Ptr.null := by
          obtain ⟨e', res'⟩ := b
          obtain ⟨z, hz, _⟩ := hlast
          intro h0
          rw [h0] at hz
          simp [Ctx.get] at hz
        simp only [hne, if_false]
        exact ih x.last (by simp) hlast (fun f hf => hres f (List.mem_cons_of_mem _ hf))
    · have hb : (y.type != LX_NIL) = true := by simpa using ht
      have hb2 : (y.type == LX_NIL) = false := by simpa using ht
      simp [hb, hb2]

theorem lx_getcall_nearest_witness :
    lx_getcall (3 + 2) callDemo (Ptr.stack 1) (Ptr.cell 1) =
      Except.ok (firstBound callDemo [(Ptr.cell 3, Ptr.nil), (Ptr.cell 0, Ptr.cell 2)]) :=
  lx_getcall_nearest callDemo (Ptr.cell 1) 3 [(Ptr.cell 3, Ptr.nil), (Ptr.cell 0, Ptr.cell 2)]
    (Ptr.stack 1) (by simp) ⟨_, rfl, rfl, _, rfl, rfl, rfl⟩ (by
      intro f hf
      simp only [List.mem_cons, List.mem_singleton, List.not_mem_nil, or_false] at hf
      rcases hf with rfl | rfl
      · exact ⟨by decide, by decide⟩
      · exact ⟨by decide, by decide⟩)

/-- C4 as stated fails: in `callDemo` the nearest frame that binds `x` is the
inner one, where `x` is bound to the nil singleton, yet `lx_getcall` returns
the number 5 bound in the outer frame. -/
theorem lx_getcall_counterexample :
    callDemo.get (Ptr.stack 1) = some { type := LX_CALL, env := Ptr.cell 3, last := Ptr.stack 0 } ∧
    callDemo.get (Ptr.cell 3) = some { type := LX_ENV, name := Ptr.cell 1, value := Ptr.nil } ∧
    lx_getenv 3 callDemo (Ptr.cell 3) (Ptr.cell 1) = Except.ok Ptr.nil ∧
    sameSymbol callDemo (Ptr.cell 1) (Ptr.cell 1) = true ∧
    lx_getcall 5 callDemo (Ptr.stack 1) (Ptr.cell 1) = Except.ok (Ptr.cell 2) ∧
    callDemo.get (Ptr.cell 2) = some { type := LX_NUMBER, number := 5 } := by
  decide

/-! ## The evaluator: ordering operators -/

theorem lx_eval_succ (host : Host) (f : Nat) :
    lx_eval host (f + 1) = evalStep f (lx_eval host f) host := rfl

theorem isEof_false (c : Ctx) (p : Ptr) (x : Value) (hx : c.get p = some x)
    (h : x.type ≠ LX_EOF) : isEof c p = Except.ok false := by
  simp [isEof, Ctx.deref, hx, bind, Except.bind, h]

/-- C7 fails on the code. On the list `[10 20 30]` the index -1 yields the
first element (the number 10) and the index 4 dereferences a null pointer;
on the empty list the index 0 yields a null pointer, not the nil singleton.
Only the index equal to the length yields nil. -/
theorem dot_index_out_of_range :
    runValue (runFresh 12 "(= l [10 20 30])(. l (- 0 1))") =
      some { type := LX_NUMBER, number := 10 } ∧
    runFresh 12 "(= l [10 20 30])(. l 4)" = Except.error Err.fault ∧
    ptrOf (lx_eval noHost 9 (ctxOf 4 ". [] 0") Ptr.null 0 0 true true) = some Ptr.null ∧
    runValue (runFresh 12 "(= l [10 20 30])(. l 3)") = some { type := LX_NIL } := by
  decide!

/-! ## Lists built by `lx_list` and `lx_listappend` -/

/-- The arena cells of a list. -/
theorem lchain_frame (c c' : Ctx) : ∀ (cells : List (Nat × Ptr)) (p : Ptr),
    LChain c p cells → (∀ a ∈ cells, c'.cells[a.1]? = c.cells[a.1]?) → LChain c' p cells := by
  intro cells
  induction cells with
  | nil => intro p h _; exact h
  | cons a r ih =>
    intro p h hf
    obtain ⟨i, w⟩ := a
    obtain ⟨hp, x, hx, ht, hw, hr⟩ := h
    refine ⟨hp, x, ?_, ht, hw, ih _ hr fun a ha => hf a (List.mem_cons_of_mem _ ha)⟩
    rw [hf (i, w) (List.mem_cons_self _ _)]
    exact hx

/-- Linking a new last cell to a list. -/
theorem lchain_snoc (c c' : Ctx) (iL j : Nat) (wL w : Ptr) (xL y : Value)
    (hxL : c.cells[iL]? = some xL) (hL' : c'.cells[iL]? = some { xL with next := Ptr.cell j })
    (hj : c'.cells[j]? = some y) (hyt : y.type = LX_LIST) (hyw : y.value = w)
    (hyn : y.next = Ptr.null) :
    ∀ (init : List (Nat × Ptr)) (p : Ptr), LChain c p (init ++ [(iL, wL)]) →
      (∀ a ∈ init, a.1 ≠ iL ∧ c'.cells[a.1]? = c.cells[a.1]?) →
      LChain c' p (init ++ [(iL, wL), (j, w)]) := by
  intro init
  induction init with
  | nil =>
    intro p h _
    obtain ⟨hp, x, hx, ht, hw, _⟩ := h
    rw [hxL] at hx
    cases hx
    exact ⟨hp, _, hL', ht, hw, rfl, y, hj, hyt, hyw, hyn⟩
  | cons a r ih =>
    intro p h hf
    obtain ⟨i, v⟩ := a
    obtain ⟨hp, x, hx, ht, hw, hr⟩ := h
    have h1 := hf (i, v) (List.mem_cons_self _ _)
    refine ⟨hp, x, ?_, ht, hw, ih _ hr fun a ha => hf a (List.mem_cons_of_mem _ ha)⟩
    rw [h1.2]
    exact hx

theorem lx_promote_pop (g : Nat) (c : Ctx) (val : Value) (j : Nat) (xj : Value)
    (hfl : c.free_list = Ptr.cell j) (hxj : c.cells[j]? = some xj) :
    lx_promote g c val =
      Except.ok (Ptr.cell j, (c.popFree xj val.type false).set (Ptr.cell j) val) := by
  simp only [lx_promote, lx_alloc_pop g c val.type false j xj hfl hxj, bind, Except.bind,
    Ctx.deref, popFree_cell_same c xj val.type false j hfl hxj]

theorem promote_cell_same (c : Ctx) (val xj : Value) (j : Nat)
    (hfl : c.free_list = Ptr.cell j) (hxj : c.cells[j]? = some xj) :
    ((c.popFree xj val.type false).set (Ptr.cell j) val).get (Ptr.cell j) = some val :=
  get_set_same _ _ _ _ (popFree_cell_same c xj val.type false j hfl hxj)

theorem promote_get_other (c : Ctx) (val xj : Value) (j : Nat) (p : Ptr)
    (hfl : c.free_list = Ptr.cell j) (hp : p ≠ Ptr.cell j) :
    ((c.popFree xj val.type false).set (Ptr.cell j) val).get p = c.get p := by
  rw [get_set_other _ _ _ _ hp]
  exact popFree_get_other c xj _ _ j p hfl hp

theorem promote_free_list (c : Ctx) (val xj : Value) (j : Nat) :
    ((c.popFree xj val.type false).set (Ptr.cell j) val).free_list = xj.free := by
  rw [set_free_list]
  rfl

theorem promote_gcs (c : Ctx) (val xj : Value) (j : Nat) :
    ((c.popFree xj val.type false).set (Ptr.cell j) val).gcs = c.gcs := by
  rw [set_gcs]
  show (c.set c.free_list _).gcs = _
  exact set_gcs _ _ _

theorem promote_text (c : Ctx) (val xj : Value) (j : Nat) :
    ((c.popFree xj val.type false).set (Ptr.cell j) val).text = c.text := by
  rw [set_text]
  show (c.set c.free_list _).text = _
  exact set_text _ _ _

/-- The function `lx_listappend` on the last cell of a non-empty list, when
the free list is not empty. -/
theorem lx_listappend_snoc (fuel : Nat) (c : Ctx) (iL j : Nat) (xL xj : Value) (item : Ptr)
    (hxL : c.cells[iL]? = some xL) (hLt : xL.type = LX_LIST) (hLv : xL.value ≠ Ptr.null)
    (hLn : xL.next = Ptr.null)
    (hfl : c.free_list = Ptr.cell j) (hxj : c.cells[j]? = some xj) (hxt : xj.type = LX_FREE) :
    ∃ c', lx_listappend (fuel + 1) c (Ptr.cell iL) item = Except.ok (Ptr.cell j, c') ∧
      c'.cells[iL]? = some { xL with next := Ptr.cell j } ∧
      c'.cells[j]? = some { type := LX_LIST, value := item } ∧
      (∀ i, i ≠ iL → i ≠ j → c'.cells[i]? = c.cells[i]?) ∧
      c'.free_list = xj.free ∧ c'.gcs = c.gcs ∧ c'.text = c.text := by
  have hne : iL ≠ j := by
    intro e
    rw [e, hxj] at hxL
    cases hxL
    rw [hLt] at hxt
    cases hxt
  have hp := lx_promote_pop (fuel + 1) c { type := LX_LIST, value := Ptr.null, next := Ptr.null }
    j xj hfl hxj
  have e1 := promote_cell_same c { type := LX_LIST, value := Ptr.null, next := Ptr.null } xj j
    hfl hxj
  have e2 : ((c.popFree xj LX_LIST false).set (Ptr.cell j)
      { type := LX_LIST, value := Ptr.null, next := Ptr.null }).get (Ptr.cell iL) = some xL := by
    rw [promote_get_other c { type := LX_LIST, value := Ptr.null, next := Ptr.null } xj j _ hfl
      (cell_ne hne)]
    exact hxL
  have e3 : (((c.popFree xj LX_LIST false).set (Ptr.cell j)
      { type := LX_LIST, value := Ptr.null, next := Ptr.null }).set (Ptr.cell iL)
      { xL with next := Ptr.cell j }).get (Ptr.cell j)
      = some { type := LX_LIST, value := Ptr.null, next := Ptr.null } := by
    rw [get_set_other _ _ _ _ (cell_ne (Ne.symm hne))]
    exact e1
  refine ⟨(((c.popFree xj LX_LIST false).set (Ptr.cell j)
      { type := LX_LIST, value := Ptr.null, next := Ptr.null }).set (Ptr.cell iL)
      { xL with next := Ptr.cell j }).set (Ptr.cell j) { type := LX_LIST, value := item },
    ?_, ?_, ?_, ?_, ?_, ?_, ?_⟩
  · have hb : (xL.type != LX_LIST) = false := by simp [hLt]
    simp only [lx_listappend, Ctx.deref, get_cell, hxL, bind, Except.bind, hb,
      Bool.false_eq_true, if_false, hLv, listLast, hLn, if_true, lx_list]
    rw [hp]
    simp only []
    rw [modify_ok _ (Ptr.cell iL) _ xL e2]
    simp only []
    rw [modify_ok _ (Ptr.cell j) _ _ e3]
  · rw [set_cell_other _ _ iL _ (cell_ne hne)]
    exact get_set_same _ (Ptr.cell iL) xL _ e2
  · exact get_set_same _ (Ptr.cell j) _ _ e3
  · intro i hi hj
    rw [set_cell_other _ _ i _ (cell_ne hj), set_cell_other _ _ i _ (cell_ne hi)]
    exact promote_get_other c { type := LX_LIST, value := Ptr.null, next := Ptr.null } xj j _
      hfl (cell_ne hj)
  · rw [set_free_list, set_free_list]
    exact promote_free_list c { type := LX_LIST, value := Ptr.null, next := Ptr.null } xj j
  · rw [set_gcs, set_gcs]
    exact promote_gcs c { type := LX_LIST, value := Ptr.null, next := Ptr.null } xj j
  · rw [set_text, set_text]
    exact promote_text c { type := LX_LIST, value := Ptr.null, next := Ptr.null } xj j

/-- The function `lx_listappend` on the cell of an empty list. -/
theorem lx_listappend_first (fuel : Nat) (c : Ctx) (i0 : Nat) (x0 : Value) (item : Ptr)
    (hx0 : c.cells[i0]? = some x0) (h0t : x0.type = LX_LIST) (h0v : x0.value = Ptr.null) :
    lx_listappend fuel c (Ptr.cell i0) item =
      Except.ok (Ptr.cell i0, c.set (Ptr.cell i0) { x0 with value := item }) := by
  have hb : (x0.type != LX_LIST) = false := by simp [h0t]
  simp [lx_listappend, Ctx.deref, get_cell, hx0, bind, Except.bind, hb, h0v]

theorem lchain_cell (c : Ctx) : ∀ (cells : List (Nat × Ptr)) (p : Ptr), LChain c p cells →
    ∀ a ∈ cells, ∃ x, c.cells[a.1]? = some x ∧ x.type = LX_LIST ∧ x.value = a.2 := by
  intro cells
  induction cells with
  | nil => intro p _ a ha; cases ha
  | cons b r ih =>
    intro p h a ha
    obtain ⟨i, w⟩ := b
    obtain ⟨_, x, hx, ht, hw, hr⟩ := h
    rcases List.mem_cons.mp ha with rfl | h2
    · exact ⟨x, hx, ht, hw⟩
    · exact ih _ hr a h2

theorem lchain_last_next (c : Ctx) (iL : Nat) (wL : Ptr) : ∀ (init : List (Nat × Ptr)) (p : Ptr),
    LChain c p (init ++ [(iL, wL)]) → ((init ++ [(iL, wL)]).map fun a => a.1).Nodup →
    ∃ x, c.cells[iL]? = some x ∧ x.type = LX_LIST ∧ x.value = wL ∧ x.next = Ptr.null := by
  intro init
  induction init with
  | nil =>
    intro p h _
    obtain ⟨_, x, hx, ht, hw, hr⟩ := h
    exact ⟨x, hx, ht, hw, hr⟩
  | cons a r ih =>
    intro p h hnd
    obtain ⟨i, w⟩ := a
    obtain ⟨_, x, _, _, _, hr⟩ := h
    exact ih _ hr (List.nodup_cons.mp hnd).2

theorem freeFrom_type (c : Ctx) : ∀ (ps : List Nat) (p : Ptr), FreeFrom c p ps →
    ∀ i ∈ ps, ∃ x, c.cells[i]? = some x ∧ x.type = LX_FREE := by
  intro ps
  induction ps with
  | nil => intro p _ i hi; cases hi
  | cons k r ih =>
    intro p h i hi
    obtain ⟨_, x, hx, ht, hr⟩ := h
    rcases List.mem_cons.mp hi with rfl | h2
    · exact ⟨x, hx, ht⟩
    · exact ih _ hr i h2

/-- The walk of the case `.` along a list. -/
theorem listWalk_lchain (c : Ctx) : ∀ (cells : List (Nat × Ptr)) (p : Ptr) (k : Nat),
    LChain c p cells → k ≤ cells.length →
    listWalk k c p = Except.ok (match cells[k]? with
      | some a => Ptr.cell a.1
      | none => Ptr.null) := by
  intro cells
  induction cells with
  | nil =>
    intro p k h hk
    simp only [LChain] at h
    subst h
    have : k = 0 := by simpa using hk
    subst this
    simp [listWalk]
  | cons a r ih =>
    intro p k h hk
    obtain ⟨i, w⟩ := a
    obtain ⟨hp, x, hx, _, _, hr⟩ := h
    subst hp
    cases k with
    | zero => simp [listWalk]
    | succ k =>
      simp only [listWalk, Ctx.deref, get_cell, hx, bind, Except.bind, List.getElem?_cons_succ]
      exact ih _ k hr (by simpa using hk)

/-- The length loop of the case `$` along a list. -/
theorem chainLen_lchain (c : Ctx) : ∀ (cells : List (Nat × Ptr)) (p : Ptr) (fuel : Nat),
    LChain c p cells → cells.length < fuel →
    chainLen fuel c p = Except.ok (cells.length : Int) := by
  intro cells
  induction cells with
  | nil =>
    intro p fuel h hf
    simp only [LChain] at h
    subst h
    cases fuel with
    | zero => omega
    | succ f => simp [chainLen]
  | cons a r ih =>
    intro p fuel h hf
    obtain ⟨i, w⟩ := a
    obtain ⟨hp, x, hx, _, _, hr⟩ := h
    subst hp
    cases fuel with
    | zero => omega
    | succ f =>
      have := ih _ f hr (by simpa using hf)
      simp [chainLen, Ctx.deref, get_cell, hx, bind, Except.bind, this]

/-! ## List literals -/

/-- The cells of a list, up to mark bits. -/
theorem lchain_frame_unmark (c c' : Ctx) : ∀ (cells : List (Nat × Ptr)) (p : Ptr),
    LChain c p cells →
    (∀ a ∈ cells, (c'.cells[a.1]?).map unmark = (c.cells[a.1]?).map unmark) →
    LChain c' p cells := by
  intro cells
  induction cells with
  | nil => intro p h _; exact h
  | cons a r ih =>
    intro p h hf
    obtain ⟨i, w⟩ := a
    obtain ⟨hp, x, hx, ht, hw, hr⟩ := h
    have h1 := hf (i, w) (List.mem_cons_self _ _)
    simp only [hx, Option.map_some'] at h1
    obtain ⟨x', hx', hu⟩ := Option.map_eq_some'.mp h1
    have e1 : (unmark x').type = (unmark x).type := by rw [hu]
    have e2 : (unmark x').value = (unmark x).value := by rw [hu]
    have e3 : (unmark x').next = (unmark x).next := by rw [hu]
    refine ⟨hp, x', hx', e1.trans ht, e2.trans hw, ?_⟩
    rw [show x'.next = x.next from e3]
    exact ih _ hr fun a ha => hf a (List.mem_cons_of_mem _ ha)

/-- Reading a list with the walk of `.` and the length loop of `$`. -/
theorem lchain_read (c : Ctx) (i0 : Nat) (w0 : Ptr) (rest : List (Nat × Ptr))
    (h : LChain c (Ptr.cell i0) ((i0, w0) :: rest)) :
    (∀ (q : ℚ) (k : Nat) (a : Nat × Ptr), toInt q = (k : Int) →
      ((i0, w0) :: rest)[k]? = some a → dotList c (Ptr.cell i0) q = Except.ok a.2) ∧
    (∀ fuel, rest.length + 1 < fuel → dollarLen fuel c (Ptr.cell i0) =
      Except.ok ((if w0 = Ptr.null then -1 else 0) + ((rest.length + 1 : Nat) : Int))) := by
  constructor
  · intro q k a hq ha
    have hk : k < ((i0, w0) :: rest).length := (List.getElem?_eq_some.mp ha).1
    have hwalk := listWalk_lchain c _ (Ptr.cell i0) k h (le_of_lt hk)
    obtain ⟨x, hx, _, hxv⟩ := lchain_cell c _ _ h a
      (by obtain ⟨hk', e⟩ := List.getElem?_eq_some.mp ha; exact e ▸ List.getElem_mem hk')
    simp only [dotList, hq, Int.toNat_ofNat, hwalk, ha, bind, Except.bind, Ctx.deref,
      get_cell, hx]
    simp [hxv]
  · intro fuel hfuel
    have hl := chainLen_lchain c _ (Ptr.cell i0) fuel h (by simpa using hfuel)
    obtain ⟨_, x, hx, _, hxw, _⟩ := h
    simp only [dollarLen, Ctx.deref, get_cell, hx, bind, Except.bind, hl, hxw]
    simp

/-- One `lx_listappend` of the loop of a list literal: the first element is
stored in the cell of the list, each later one in a cell popped from the
free list and linked behind `list_current`. -/
theorem listLit_append (fuel : Nat) (d : Ctx) (l cur : Ptr) (cells : List (Nat × Ptr))
    (first : Bool) (v : Ptr) (hv : v ≠ Ptr.null)
    (hch : LChain d l cells) (hnd : (cells.map fun a => a.1).Nodup)
    (hlast : ∃ init iL wL, cells = init ++ [(iL, wL)] ∧ cur = Ptr.cell iL ∧
      (first = true → init = [] ∧ wL = Ptr.null) ∧ (first = false → wL ≠ Ptr.null))
    (hfree : first = true ∨ HeadFree d) :
    ∃ cur' c' cells', lx_listappend (fuel + 1) d cur v = Except.ok (cur', c') ∧
      LChain c' l cells' ∧ (cells'.map fun a => a.1).Nodup ∧
      (∃ init iL wL, cells' = init ++ [(iL, wL)] ∧ cur' = Ptr.cell iL ∧ wL ≠ Ptr.null) ∧
      (cells'.map fun a => a.2) = (if first then [] else cells.map fun a => a.2) ++ [v] ∧
      (∀ a ∈ cells', Ptr.cell a.1 = cur' ∨ ∃ b ∈ cells, b.1 = a.1) ∧
      c'.text = d.text := by
  obtain ⟨init, iL, wL, hcells, hcur, hf1, hf2⟩ := hlast
  subst hcells
  subst hcur
  cases first with
  | true =>
    obtain ⟨hi, hw⟩ := hf1 rfl
    subst hi
    subst hw
    obtain ⟨hl, x, hx, ht, hxv, hxn⟩ := hch
    refine ⟨Ptr.cell iL, d.set (Ptr.cell iL) { x with value := v }, [(iL, v)],
      lx_listappend_first (fuel + 1) d iL x v hx ht hxv, ?_, by simp, ⟨[], iL, v, rfl, rfl, hv⟩,
      by simp, ?_, set_text _ _ _⟩
    · exact ⟨hl, _, set_cell_same d iL x _ hx, ht, rfl, hxn⟩
    · intro a ha
      simp only [List.mem_singleton] at ha
      left
      rw [ha]
  | false =>
    have hwL : wL ≠ Ptr.null := hf2 rfl
    have hfree' : HeadFree d := by
      cases hfree with
      | inl h => cases h
      | inr h => exact h
    obtain ⟨j, hfl, hj⟩ := hfree'
    obtain ⟨xj, hxj, hxt⟩ := Option.map_eq_some'.mp hj
    obtain ⟨xL, hxL, hLt, hLv, hLn⟩ := lchain_last_next d iL wL init l hch hnd
    obtain ⟨c', h1, h2, h3, h4, h5, h6, h7⟩ := lx_listappend_snoc fuel d iL j xL xj v hxL hLt
      (hLv ▸ hwL) hLn hfl hxj hxt
    have hjcells : ∀ a ∈ init ++ [(iL, wL)], a.1 ≠ j := by
      intro a ha e
      obtain ⟨x, hx, ht, _⟩ := lchain_cell d _ l hch a ha
      rw [e, hxj] at hx
      cases hx
      rw [hxt] at ht
      cases ht
    have hinit : ∀ a ∈ init, a.1 ≠ iL ∧ c'.cells[a.1]? = d.cells[a.1]? := by
      intro a ha
      have hne : a.1 ≠ iL := by
        intro e
        have hnd2 := hnd
        rw [List.map_append, List.nodup_append] at hnd2
        exact hnd2.2.2 (List.mem_map_of_mem _ ha) (by simp [e])
      exact ⟨hne, h4 a.1 hne (hjcells a (List.mem_append_left _ ha))⟩
    refine ⟨Ptr.cell j, c', (init ++ [(iL, wL)]) ++ [(j, v)], h1, ?_, ?_,
      ⟨init ++ [(iL, wL)], j, v, rfl, rfl, hv⟩, by simp, ?_, h7⟩
    · have := lchain_snoc d c' iL j wL v xL _ hxL h2 h3 rfl rfl rfl init l hch hinit
      simpa using this
    · rw [List.map_append]
      refine List.nodup_append.mpr ⟨hnd, by simp, ?_⟩
      intro a ha hb
      simp only [List.map_cons, List.map_nil, List.mem_singleton] at hb
      obtain ⟨b, hb1, hb2⟩ := List.mem_map.mp ha
      exact hjcells b hb1 (hb2.trans hb)
    · intro a ha
      rcases List.mem_append.mp ha with h | h
      · exact Or.inr ⟨a, h, rfl⟩
      · simp only [List.mem_singleton] at h
        left
        rw [h]

/-- The loop of `PARSE_BODY` in a list literal whose elements evaluate as
`ElemsRun` says: it returns, and the list consists of the values of the
elements in order. -/
theorem parseBodyLoop_list (fuel : Nat) (ev : Eval) (call : Ptr) (se : Bool) (l : Ptr) :
    ∀ (es : List (Ptr × Nat × Ctx)) (e1 : Ptr × Nat × Ctx) (n : Nat) (first : Bool) (c : Ctx)
      (cur : Ptr) (spine : List Ptr) (cells : List (Nat × Ptr)) (pos next : Nat) (result : Ptr),
    es.length < n →
    LChain c l cells → (cells.map fun a => a.1).Nodup →
    (∃ init iL wL, cells = init ++ [(iL, wL)] ∧ cur = Ptr.cell iL ∧
      (first = true → init = [] ∧ wL = Ptr.null) ∧ (first = false → wL ≠ Ptr.null)) →
    (∀ a ∈ cells, Ptr.cell a.1 ∈ spine) →
    ElemsRun (fuel + 1) ev call se (e1 :: es) first c cur spine pos next →
    ∃ pos' res cur' c' cells',
      parseBodyLoop (fuel + 1) ev 93 se n c call pos next result (some cur) =
        Except.ok (some (pos', res, some cur'), c') ∧
      LChain c' l cells' ∧
      (cells'.map fun a => a.2) =
        (if first then [] else cells.map fun a => a.2) ++ (e1 :: es).map fun a => a.1 := by
  intro es
  induction es with
  | nil =>
    intro e1 n first c cur spine cells pos next result hn hch hnd hlast hsp hrun
    obtain ⟨v, nx, d⟩ := e1
    obtain ⟨_, _, hev, hv, heof, hframe, hfree, hrest⟩ := hrun
    obtain ⟨n', rfl⟩ : ∃ n', n = n' + 1 := ⟨n - 1, by omega⟩
    have hchd : LChain d l cells := lchain_frame c d cells l hch fun a ha => hframe _ (hsp a ha)
    obtain ⟨cur', c2, cells', happ, hch', _, _, hvals, _, htext⟩ :=
      listLit_append fuel d l cur cells first v hv hchd hnd hlast hfree
    simp only [happ, okOr] at hrest
    have h93 : c2.peek (eatSpace d nx) = 93 := hrest
    have hpk : d.peek (eatSpace d nx) = 93 := by
      rw [← h93]
      simp [Ctx.peek, htext]
    refine ⟨eatSpace d nx + 1, v, cur', c2, cells', ?_, hch', by simpa using hvals⟩
    simp [parseBodyLoop, hev, bind, Except.bind, hv, heof, hpk, happ, h93]
  | cons e2 es ih =>
    intro e1 n first c cur spine cells pos next result hn hch hnd hlast hsp hrun
    obtain ⟨v, nx, d⟩ := e1
    obtain ⟨_, _, hev, hv, heof, hframe, hfree, hrest⟩ := hrun
    obtain ⟨n', rfl⟩ : ∃ n', n = n' + 1 := ⟨n - 1, by omega⟩
    have hchd : LChain d l cells := lchain_frame c d cells l hch fun a ha => hframe _ (hsp a ha)
    obtain ⟨cur', c2, cells', happ, hch', hnd', hlast', hvals, hmem, htext⟩ :=
      listLit_append fuel d l cur cells first v hv hchd hnd hlast hfree
    simp only [happ, okOr] at hrest
    have hp0 : c2.peek (eatSpace d nx) ≠ 0 := by
      obtain ⟨v2, nx2, d2⟩ := e2
      exact hrest.1
    have hp93 : c2.peek (eatSpace d nx) ≠ 93 := by
      obtain ⟨v2, nx2, d2⟩ := e2
      exact hrest.2.1
    have hpk : d.peek (eatSpace d nx) = c2.peek (eatSpace d nx) := by
      simp [Ctx.peek, htext]
    obtain ⟨iL', hlast2⟩ : ∃ iL', ∃ init wL, cells' = init ++ [(iL', wL)] ∧
        cur' = Ptr.cell iL' ∧ wL ≠ Ptr.null := by
      obtain ⟨init, iL', wL, h⟩ := hlast'
      exact ⟨iL', init, wL, h⟩
    obtain ⟨init2, wL2, hc2, hcur2, hw2⟩ := hlast2
    obtain ⟨pos', res, cur'', c', cells'', hloop, hch'', hvals''⟩ :=
      ih e2 n' false c2 cur' (spine ++ [cur']) cells' (eatSpace d nx) nx v (by simpa using hn)
        hch' hnd' ⟨init2, iL', wL2, hc2, hcur2, (fun h => absurd h (by decide)), fun _ => hw2⟩
        (by
          intro a ha
          rcases hmem a ha with h | ⟨b, hb, hba⟩
          · rw [h]
            simp
          · rw [← hba]
            exact List.mem_append_left _ (hsp b hb))
        hrest
    refine ⟨pos', res, cur'', c', cells'', ?_, hch'', ?_⟩
    · rw [← hloop]
      simp [parseBodyLoop, hev, bind, Except.bind, hv, heof, hpk, happ, hp0, hp93]
    · rw [hvals'', hvals]
      simp

/-- The dispatch of `lx_eval` on an opening bracket. -/
theorem evalStep_list (f : Nat) (ev : Eval) (host : Host) (c : Ctx) (call : Ptr)
    (start e0 : Nat) (evs se : Bool) (hch : c.peek (eatSpace c start) = 91) :
    evalStep f ev host c call start e0 evs se =
      evalList f ev c call (eatSpace c start + 1) (eatSpace c start) (eatSpace c start) se := by
  unfold evalStep
  simp [hch]

/-- The cells of a list literal. A list literal whose elements are
evaluated without a GC cycle or
allocation failure (the free list holds a free cell for the list and for
each element after the first, and the evaluation of an element leaves the
cells of the list built so far as they are) evaluates to a list that is read
back, in every later context that differs on the cells of the list in mark
bits at most, by the index walk of `.` and the length loop of `$`: every
index number `q` with `(int)q = k`, `0 ≤ k < n`, yields the value of element
`k` (counting from 0), and the length is the number `n` of elements. -/
theorem list_literal_roundtrip (host : Host) (fuel : Nat) (c : Ctx) (call : Ptr)
    (start e0 : Nat) (evs se : Bool) (es : List (Ptr × Nat × Ctx))
    (hch : c.peek (eatSpace c start) = 91)
    (hfree : HeadFree c)
    (hrun : ElemsRun fuel (lx_eval host fuel) call se es true
      (okOr (Ptr.null, c) (lx_list fuel c)).2 c.free_list [c.free_list]
      (eatSpace c (eatSpace c start + 1)) (eatSpace c start))
    (hfuel : es.length + 1 < fuel) :
    ∃ (e1 : Nat) (c' : Ctx) (spine : List Nat),
      lx_eval host (fuel + 1) c call start e0 evs se = Except.ok (c.free_list, e1, c') ∧
      ∀ c'' : Ctx, (∀ i ∈ spine, (c''.cells[i]?).map unmark = (c'.cells[i]?).map unmark) →
        (∀ (q : ℚ) (k : Nat) (w : Ptr × Nat × Ctx), toInt q = (k : Int) → es[k]? = some w →
          dotList c'' c.free_list q = Except.ok w.1) ∧
        dollarLen fuel c'' c.free_list = Except.ok (es.length : Int) := by
  obtain ⟨j0, hfl, hj⟩ := hfree
  obtain ⟨xj, hxj, _⟩ := Option.map_eq_some'.mp hj
  obtain ⟨f, rfl⟩ : ∃ f, fuel = f + 1 := ⟨fuel - 1, by omega⟩
  have hp := lx_promote_pop (f + 1) c { type := LX_LIST, value := Ptr.null, next := Ptr.null }
    j0 xj hfl hxj
  have hc0 := promote_cell_same c { type := LX_LIST, value := Ptr.null, next := Ptr.null } xj j0
    hfl hxj
  have ht0 := promote_text c { type := LX_LIST, value := Ptr.null, next := Ptr.null } xj j0
  have hl : lx_list (f + 1) c = Except.ok (Ptr.cell j0, (c.popFree xj LX_LIST false).set
      (Ptr.cell j0) { type := LX_LIST, value := Ptr.null, next := Ptr.null }) := hp
  rw [hl, hfl] at hrun
  simp only [okOr] at hrun
  rw [hfl, lx_eval_succ, evalStep_list (f + 1) _ host c call start e0 evs se hch]
  generalize hc0def : (c.popFree xj LX_LIST false).set (Ptr.cell j0)
    { type := LX_LIST, value := Ptr.null, next := Ptr.null } = c0 at hrun hl hc0 ht0
  have hes : ∀ x, eatSpace c0 x = eatSpace c x := by
    intro x
    simp [eatSpace, ht0]
  have hch0 : LChain c0 (Ptr.cell j0) [(j0, Ptr.null)] := ⟨rfl, _, hc0, rfl, rfl, rfl⟩
  cases es with
  | nil =>
    have h93 : c0.peek (eatSpace c (eatSpace c start + 1)) = 93 := hrun
    refine ⟨eatSpace c (eatSpace c start + 1) + 2, c0, [j0], ?_, ?_⟩
    · simp [evalList, hl, bind, Except.bind, parseBody, hes, h93]
    · intro c'' hframe
      have hch2 := lchain_frame_unmark c0 c'' _ _ hch0 (by
        intro a ha
        simp only [List.mem_singleton] at ha
        rw [ha]
        exact hframe j0 (by simp))
      obtain ⟨_, h2⟩ := lchain_read c'' j0 Ptr.null [] hch2
      refine ⟨?_, ?_⟩
      · intro q k w _ hw
        simp at hw
      · have := h2 (f + 1) (by simp at hfuel ⊢; omega)
        simpa using this
  | cons e1 r =>
    obtain ⟨pos', res, cur', c', cells', hloop, hch', hvals⟩ :=
      parseBodyLoop_list f (lx_eval host (f + 1)) call se (Ptr.cell j0) r e1 (f + 1) true c0
        (Ptr.cell j0) [Ptr.cell j0] [(j0, Ptr.null)] (eatSpace c (eatSpace c start + 1))
        (eatSpace c start) Ptr.nil (by simp at hfuel; omega) hch0 (by simp)
        ⟨[], j0, Ptr.null, rfl, rfl, fun _ => ⟨rfl, rfl⟩, fun h => absurd h (by decide)⟩
        (by simp) hrun
    obtain ⟨v, nx, d⟩ := e1
    have hp0 : c0.peek (eatSpace c (eatSpace c start + 1)) ≠ 0 := hrun.1
    have hp93 : c0.peek (eatSpace c (eatSpace c start + 1)) ≠ 93 := hrun.2.1
    have hv : v ≠ Ptr.null := hrun.2.2.2.1
    have hvals' : (cells'.map fun a => a.2) = v :: r.map fun a => a.1 := by simpa using hvals
    refine ⟨pos', c', cells'.map fun a => a.1, ?_, ?_⟩
    · simp [evalList, hl, bind, Except.bind, parseBody, hes, hp0, hp93, hloop]
    · intro c'' hframe
      have hch2 := lchain_frame_unmark c' c'' _ _ hch' (by
        intro a ha
        exact hframe a.1 (List.mem_map_of_mem _ ha))
      cases cells' with
      | nil => simp at hvals'
      | cons a rest =>
        obtain ⟨i, w0⟩ := a
        have hi : i = j0 := (Ptr.cell.inj hch2.1).symm
        subst hi
        have hw0 : w0 = v := by
          have := congrArg List.head? hvals'
          simpa using this
        have hlen : rest.length = r.length := by
          have := congrArg List.length hvals'
          simpa using this
        obtain ⟨h1, h2⟩ := lchain_read c'' i w0 rest hch2
        refine ⟨?_, ?_⟩
        · intro q k w hq hw
          have hk : k < ((i, w0) :: rest).length := by
            have := (List.getElem?_eq_some.mp hw).1
            simp only [List.length_cons] at this ⊢
            omega
          have hck : ((i, w0) :: rest)[k]? = some ((i, w0) :: rest)[k] :=
            List.getElem?_eq_getElem hk
          rw [h1 q k _ hq hck]
          have h3 : (((i, w0) :: rest).map fun a => a.2)[k]? = some w.1 := by
            rw [hvals']
            have : ((v, nx, d) :: r)[k]? = some w := hw
            rw [← List.map_cons (fun a : Ptr × Nat × Ctx => a.1) (v, nx, d) r,
              List.getElem?_map, this]
            rfl
          rw [List.getElem?_map, hck] at h3
          simpa using h3
        · have := h2 (f + 1) (by simp at hfuel ⊢; omega)
          rw [this, hw0]
          simp [hv, hlen]

theorem list_literal_roundtrip_witness :
    ∃ (e1 : Nat) (c' : Ctx) (spine : List Nat),
      lx_eval noHost 6 litDemo Ptr.null 0 0 true true =
        Except.ok (litDemo.free_list, e1, c') ∧
      ∀ c'' : Ctx, (∀ i ∈ spine, (c''.cells[i]?).map unmark = (c'.cells[i]?).map unmark) →
        (∀ (q : ℚ) (k : Nat) (w : Ptr × Nat × Ctx), toInt q = (k : Int) →
          litDemoElems[k]? = some w → dotList c'' litDemo.free_list q = Except.ok w.1) ∧
        dollarLen 5 c'' litDemo.free_list = Except.ok (litDemoElems.length : Int) :=
  list_literal_roundtrip noHost 5 litDemo Ptr.null 0 0 true true litDemoElems
    (by decide!) ⟨0, by decide!, by decide!⟩
    ⟨by decide!, by decide!, by decide!, by decide!, by decide!, by decide!, Or.inl rfl,
      by decide!, by decide!, by decide!, by decide!, by decide!, by decide!,
      Or.inr ⟨3, by decide!, by decide!⟩,
      by decide!, by decide!, by decide!, by decide!, by decide!, by decide!,
      Or.inr ⟨5, by decide!, by decide!⟩, by show Ctx.peek _ _ = 93; decide!⟩
    (by decide)

/-! ## The evaluator under memory pressure: application and blocks -/

/-- C5 fails on the code when GC cycles run while the arguments are bound.
After `(= f ' (a b) b)` the application `(f 1 2)` yields the number 2 on an
arena of 10 cells, where no cycle runs. On an arena of 8 cells no allocation
fails, two cycles run while the second parameter is bound, and the
application yields a cell tagged Env instead of the number 2. Without a cycle
`(sq 7)` yields 49 after `(= sq ' x (* x x))`, and a name free in a function
body resolves through the caller's chain: with `y` bound to 1 at top level,
`(= g ' x y)` and `(= h ' y (g 0))`, the application `(h 5)` yields 5. -/
theorem apply_under_gc :
    runNumber (runAt 10 "(= f ' (a b) b)(f 1 2)") = some 2 ∧
    runGcs (runAt 10 "(= f ' (a b) b)(f 1 2)") = some 0 ∧
    runType (runAt 8 "(= f ' (a b) b)(f 1 2)") = some LX_ENV ∧
    runGcs (runAt 8 "(= f ' (a b) b)(f 1 2)") = some 2 ∧
    runNumber (runAt 12 "(= sq ' x (* x x))(sq 7)") = some 49 ∧
    runNumber (runAt 30 "(= y 1)(= g ' x y)(= h ' y (g 0))(h 5)") = some 5 := by
  decide!

/-- C8 fails on the code when GC cycles run. On an arena of 6 cells
`(. B x)` yields 5 for the block B `{= x 5}` and 2 for the block
`{= x (+ 1 1)}`, and the name bound in the block is not bound in the
enclosing frame. On an arena of 4 cells no allocation fails and `(. B x)`
yields nil for the block `{= x (+ 1 1)}`: the cycle that runs while
the `.` operator reads its second operand frees the name and the value
held by the env the block returned. On the same arena the block
`{= x (+ 1 (+ 1 1))}` itself returns an env whose name cell has been
freed by the second of the two cycles that run while the value expression is
evaluated; on an arena of 7 cells no cycle runs and the name cell is a
Symbol. -/
theorem block_binding_under_gc :
    runNumber (runAt 6 "(. \x7b= x 5\x7d x)") = some 5 ∧
    runNumber (runAt 6 "(. \x7b= x (+ 1 1)\x7d x)") = some 2 ∧
    runType (runAt 6 "(\x7b= x 5\x7d)(x)") = some LX_NIL ∧
    runType (runAt 4 "(. \x7b= x (+ 1 1)\x7d x)") = some LX_NIL ∧
    runGcs (runAt 4 "(. \x7b= x (+ 1 1)\x7d x)") = some 2 ∧
    runEnvNameType (runAt 4 "\x7b= x (+ 1 (+ 1 1))\x7d") = some LX_FREE ∧
    runGcs (runAt 4 "\x7b= x (+ 1 (+ 1 1))\x7d") = some 2 ∧
    runEnvNameType (runAt 7 "\x7b= x (+ 1 (+ 1 1))\x7d") = some LX_SYMBOL ∧
    runGcs (runAt 7 "\x7b= x (+ 1 (+ 1 1))\x7d") = some 0 := by
  decide!

/-! ## Truth values and `!` -/

/-- C12. When the source text (of a length that an `int` holds) does not fit
in what is left of the program-text buffer, `lx_run` returns the nil
singleton and the context is what it was: nothing has been handed to the
printer, no cell has been allocated or changed, `ctx->current`, the program
text and its append position are unchanged. -/
theorem lx_run_no_room (host : Host) (fuel : Nat) (c : Ctx) (env : Ptr) (code : List Nat)
    (_hint : (code.takeWhile (· != 0)).length + 1 < 2 ^ 31)
    (h : ¬ Fits c code) :
    lx_run host fuel c env code = Except.ok (Ptr.nil, c) := by
  have h' : (c.prog_end : Int) - (c.prog_start : Int) ≤
      (((code.takeWhile (· != 0)).length + 1 : Nat) : Int) := by
    unfold Fits at h
    push_cast
    omega
  simp only [lx_run]
  rw [if_pos h']

theorem lx_run_no_room_witness :
    lx_run noHost 9 (lx_open 4 8) Ptr.null (bytes "(+ 1 2)") = Except.ok (Ptr.nil, lx_open 4 8) :=
  lx_run_no_room noHost 9 (lx_open 4 8) Ptr.null (bytes "(+ 1 2)") (by decide) (by unfold Fits; decide)

/-! ## The evaluator on comments, truncated input and dry parses -/

/-- C13 fails on the code. A comment evaluates to a null pointer, which the
loop of `lx_run` and `PARSE_BODY` skip; in operand position the null pointer
is dereferenced: `(! C)` and `(+ 1 C 2)` with a comment C fault, and so does
`(! . [] 0)`, whose operand is the null element of an empty list.  A comment
in statement position is skipped: `(C 5)` yields 5. -/
theorem operand_null_deref :
    ptrOf (lx_eval noHost 24 (ctxOf 8 "`c") Ptr.null 0 0 true true) = some Ptr.null ∧
    runAt 8 "(! `c\n)" = Except.error Err.fault ∧
    runAt 8 "(+ 1 `c\n 2)" = Except.error Err.fault ∧
    runAt 8 "(! . [] 0)" = Except.error Err.fault ∧
    runNumber (runAt 8 "(`c\n 5)") = some 5 := by
  decide!

/-- C14 fails on the code where a truncated body is only dry-parsed. An
operand cut short by the end of the input yields Eof (`+ 1`, `(+ 1`,
`? 1 2`), but the result of a dry parse is discarded: the function literal
`' x (+ 1` yields the Fn cell, and the while loop `^ 0 (+ 1` with a false
condition and the iteration `% [] x (+ 1` over an empty list yield nil. -/
theorem dry_body_eof_dropped :
    ptrOf (lx_eval noHost 24 (ctxOf 8 "+ 1") Ptr.null 0 0 true true) = some Ptr.eof ∧
    ptrOf (lx_eval noHost 24 (ctxOf 8 "(+ 1") Ptr.null 0 0 true true) = some Ptr.eof ∧
    ptrOf (lx_eval noHost 24 (ctxOf 8 "? 1 2") Ptr.null 0 0 true true) = some Ptr.eof ∧
    typeOf (lx_eval noHost 24 (ctxOf 8 "' x (+ 1") Ptr.null 0 0 true true) = some LX_FN ∧
    ptrOf (lx_eval noHost 24 (ctxOf 8 "^ 0 (+ 1") Ptr.null 0 0 true true) = some Ptr.nil ∧
    ptrOf (lx_eval noHost 24 (ctxOf 8 "% [] x (+ 1") Ptr.null 0 0 true true) = some Ptr.nil := by
  decide!

/-- C15 fails on the code for `%`. With `l` bound to `[1 2]` and `x` to 0,
the unselected branch `(% l x 1)` of `(? 0 (% l x 1) 5)` and the body of the
while loop `(^ 0 (% l x 1))`, both evaluated with side effects off, bind `x`
to each element of the list: `x` is 2 afterwards.  The rules `=` and `#` are
gated: an unselected `(= x 7)` leaves `x` at 0 and an unselected `(# l 3)`
leaves the list at length 2. -/
theorem dry_for_binds :
    runNumber (runAt 20 "(= l [1 2])(= x 0)(? 0 (% l x 1) 5)(x)") = some 2 ∧
    runNumber (runAt 20 "(= l [1 2])(= x 0)(^ 0 (% l x 1))(x)") = some 2 ∧
    runNumber (runAt 20 "(= l [1 2])(= x 0)(? 0 (= x 7) 5)(x)") = some 0 ∧
    runNumber (runAt 20 "(= l [1 2])(= x 0)(? 0 (# l 3) 5)($ l)") = some 2 := by
  decide!

/-! ## The count returned by `lx_gc`, and allocation failure -/

/-- C18 fails on the code. Right after `lx_open` on four cells `lx_gc` turns
no cell from not Free to Free and returns 4: the sweep counts every cell
whose mark bit is clear, the cells that are Free already included.  On
`gcDemo`, whose free list is empty, the count is the number of cells freed. -/
theorem lx_gc_count_after_open :
    gcCounts 5 (lx_open 0 4) = some (4, 0) ∧ gcCounts 5 gcDemo = some (1, 1) := by
  decide!

/-- C20 fails on the code. In `fullDemo`, whose free list is empty and in
which a collection frees nothing, `lx_alloc` returns the null pointer, and
the constructors dereference it: `lx_number`, `lx_symbol`, `lx_list`,
`lx_fn`, `lx_cfn`, `lx_makenv` and an `lx_setenv` that has to append a node
fault, and so does the evaluation of `(= a 1)` on an arena of one cell. -/
theorem alloc_failure_deref :
    gcCounts 5 fullDemo = some (0, 0) ∧
    ((lx_alloc 5 fullDemo LX_NUMBER false).toOption.map fun r => r.1) = some Ptr.null ∧
    lx_number 5 fullDemo 7 = Except.error Err.fault ∧
    lx_symbol 5 fullDemo 0 1 = Except.error Err.fault ∧
    lx_list 5 fullDemo = Except.error Err.fault ∧
    lx_fn 5 fullDemo 0 0 = Except.error Err.fault ∧
    lx_cfn 5 fullDemo 0 0 = Except.error Err.fault ∧
    lx_makenv 5 fullDemo = Except.error Err.fault ∧
    lx_setenv 5 fullDemo (Ptr.cell 0) (Ptr.cell 2) Ptr.one = Except.error Err.fault ∧
    runAt 1 "(= a 1)" = Except.error Err.fault := by
  decide!

/-! ## The outcome of a collection -/

theorem reach_markLe_back {c1 c2 : Ctx} (h : MarkLe c1 c2) {p q : Ptr} (hr : Reach c2 p q) :
    Reach c1 p q := by
  induction hr with
  | refl p => exact Reach.refl p
  | step hc _ ih => exact Reach.step (child_markLe_back h hc) ih

/-- The function `mark` changes nothing outside what is reachable from its
argument. -/
theorem mark_only (fuel : Nat) :
    (∀ c v c', mark fuel c v = Except.ok c' → ∀ p, ¬ Reach c v p → c'.get p = c.get p) ∧
    (∀ c ps c', markAll fuel c ps = Except.ok c' →
      ∀ p, (∀ q ∈ ps, ¬ Reach c q p) → c'.get p = c.get p) := by
  induction fuel with
  | zero =>
    constructor
    · intro c v c' h
      simp [mark] at h
    · intro c ps c' h
      cases ps with
      | nil =>
        simp [markAll] at h
        subst h
        intro p _
        rfl
      | cons p ps => simp [markAll] at h
  | succ fuel ih =>
    obtain ⟨ihm, iha⟩ := ih
    constructor
    · intro c v c' h p hp
      rw [mark] at h
      by_cases hv : v = Ptr.null
      · simp [hv] at h
        subst h
        rfl
      · simp only [hv, if_false] at h
        cases hg : c.get v with
        | none => simp [hg] at h
        | some x =>
          simp only [hg] at h
          have h1 := markLe_set_mark c v x hg
          have hpv : p ≠ v := fun e => hp (e ▸ Reach.refl _)
          rw [iha _ _ _ h p (fun q hq hr =>
            hp (Reach.step ⟨x, hg, hq⟩ (reach_markLe_back h1 hr)))]
          exact get_set_other c v p _ hpv
    · intro c ps c' h p hp
      cases ps with
      | nil =>
        simp [markAll] at h
        subst h
        rfl
      | cons q ps =>
        rw [markAll] at h
        cases hm : mark fuel c q with
        | error e => simp [hm] at h
        | ok c1 =>
          simp only [hm] at h
          obtain ⟨h1, _⟩ := (mark_spec fuel).1 _ _ _ hm
          rw [iha _ _ _ h p (fun q2 hq2 hr =>
            hp q2 (List.mem_cons_of_mem _ hq2) (reach_markLe_back h1 hr))]
          exact ihm _ _ _ hm p (hp q (List.mem_cons_self _ _))

/-- The loop over the persistent cells changes nothing outside what is
reachable from them. -/
theorem markPersist_only (fuel : Nat) : ∀ (n i : Nat) (c c' : Ctx),
    markPersist fuel n i c = Except.ok c' →
    ∀ p, (∀ j x, c.cells[j]? = some x → x.persist = true → ¬ Reach c (Ptr.cell j) p) →
      c'.get p = c.get p := by
  intro n
  induction n with
  | zero =>
    intro i c c' h p _
    simp [markPersist] at h
    subst h
    rfl
  | succ n ih =>
    intro i c c' h p hp
    rw [markPersist] at h
    cases hi : c.cells[i]? with
    | none =>
      simp only [hi] at h
      cases h
      rfl
    | some x0 =>
      simp only [hi] at h
      by_cases hpers : x0.persist = true
      · simp only [hpers, if_true] at h
        cases hm : mark fuel c (Ptr.cell i) with
        | error e => simp [hm] at h
        | ok c1 =>
          simp only [hm] at h
          obtain ⟨h1, _⟩ := (mark_spec fuel).1 _ _ _ hm
          rw [ih _ _ _ h p (by
            intro j x hx hxp hr
            obtain ⟨x', hx', hu⟩ := markLe_children_back h1 (p := Ptr.cell j) hx
            have hp' : x'.persist = true := by
              have := congrArg Value.persist hu
              simpa [unmark, hxp] using this.symm
            exact hp j x' hx' hp' (reach_markLe_back h1 hr))]
          exact (mark_only fuel).1 _ _ _ hm p (hp i x0 hi hpers)
      · simp only [hpers] at h
        exact ih _ _ _ h p hp

/-- The mark phase of `lx_gc` changes nothing that is not reachable from the
roots. -/
theorem mark_phase_only (fuel : Nat) (c c1 c2 : Ctx)
    (h1 : mark fuel c c.current = Except.ok c1)
    (h2 : markPersist fuel c1.cells.length 0 c1 = Except.ok c2)
    (p : Ptr) (hp : ¬ Reachable c p) : c2.get p = c.get p := by
  obtain ⟨m1, _⟩ := (mark_spec fuel).1 _ _ _ h1
  rw [markPersist_only fuel _ _ _ _ h2 p (by
    intro j x hx hxp hr
    obtain ⟨x', hx', hu⟩ := markLe_children_back m1 (p := Ptr.cell j) hx
    have hp' : x'.persist = true := by
      have := congrArg Value.persist hu
      simpa [unmark, hxp] using this.symm
    exact hp ⟨Ptr.cell j, Or.inr ⟨j, x', rfl, hx', hp'⟩, reach_markLe_back m1 hr⟩)]
  exact (mark_only fuel).1 _ _ _ h1 p (fun hr => hp ⟨c.current, Or.inl rfl, hr⟩)

theorem freePath_onFreeList {c : Ctx} {b : Nat} {p : Ptr} (h : FreePath c b p) :
    OnFreeList c p := by
  induction h with
  | @head j hfl _ =>
    rw [← hfl]
    exact OnFreeList.head (by rw [hfl]; exact fun e => by cases e)
  | @next j j2 x _ hx hf _ ih =>
    rw [← hf]
    exact OnFreeList.next ih hx (by rw [hf]; exact fun e => by cases e)

theorem sweepKeep_other (c : Ctx) (i j : Nat) (x : Value) (h : j ≠ i) :
    (sweepKeep c i x).cells[j]? = c.cells[j]? := by
  simp [sweepKeep, List.getElem?_set, Ne.symm h]

theorem sweepFree_other (c : Ctx) (i j : Nat) (x : Value) (h : j ≠ i) :
    (sweepFree c i x).cells[j]? = c.cells[j]? := by
  simp [sweepFree, List.getElem?_set, Ne.symm h]

theorem sweepFree_same (c : Ctx) (i : Nat) (x y : Value) (h : c.cells[i]? = some y) :
    (sweepFree c i x).cells[i]? = some { x with type := LX_FREE, free := c.free_list } := by
  have hlt : i < c.cells.length := (List.getElem?_eq_some.mp h).1
  simp [sweepFree, List.getElem?_set, hlt]

/-- One step of the sweep keeps what is on the free list through cells below
the cell it visits. -/
theorem freePath_keep (c : Ctx) (i : Nat) (x : Value) {p : Ptr} (h : FreePath c i p) :
    FreePath (sweepKeep c i x) (i + 1) p := by
  induction h with
  | @head j hfl hj => exact FreePath.head hfl (by omega)
  | @next j j2 y hp hy hf hj2 ih =>
    have hj : j < i := by
      cases hp with
      | head _ h => exact h
      | next _ _ _ h => exact h
    exact FreePath.next ih (by rw [sweepKeep_other c i j x (by omega)]; exact hy) hf (by omega)

theorem freePath_free (c : Ctx) (i : Nat) (x y : Value) (hi : c.cells[i]? = some y) {p : Ptr}
    (h : FreePath c i p) : FreePath (sweepFree c i x) (i + 1) p := by
  have hhead : FreePath (sweepFree c i x) (i + 1) (Ptr.cell i) :=
    FreePath.head rfl (by omega)
  induction h with
  | @head j hfl hj =>
    exact FreePath.next hhead (sweepFree_same c i x y hi) hfl (by omega)
  | @next j j2 z hp hz hf hj2 ih =>
    have hj : j < i := by
      cases hp with
      | head _ h => exact h
      | next _ _ _ h => exact h
    exact FreePath.next ih (by rw [sweepFree_other c i j x (by omega)]; exact hz) hf (by omega)

/-- The sweep keeps what is on the free list through cells it has passed. -/
theorem sweep_path : ∀ (n i : Nat) (c : Ctx) (k : Nat) (p : Ptr), i + n = c.cells.length →
    FreePath c i p → FreePath (sweep n i c k).1 (i + n) p := by
  intro n
  induction n with
  | zero =>
    intro i c k p _ h
    simpa [sweep] using h
  | succ n ih =>
    intro i c k p hlen h
    rw [sweep]
    cases hi : c.cells[i]? with
    | none =>
      have := List.getElem?_eq_none_iff.mp hi
      omega
    | some x =>
      simp only []
      by_cases hm : x.mark = true
      · simp only [hm, if_true]
        have := ih (i + 1) (sweepKeep c i x) k p (by simp [sweepKeep]; omega)
          (freePath_keep c i x h)
        rw [show i + (n + 1) = i + 1 + n by omega]
        exact this
      · simp only [hm, Bool.false_eq_true, if_false]
        have := ih (i + 1) (sweepFree c i x) (k + 1) p (by simp [sweepFree]; omega)
          (freePath_free c i x x hi h)
        rw [show i + (n + 1) = i + 1 + n by omega]
        exact this

/-- The sweep retags every cell whose mark bit is clear as Free and puts it
on the free list. -/
theorem sweep_frees : ∀ (n i : Nat) (c : Ctx) (k : Nat), i + n = c.cells.length →
    ∀ j x, i ≤ j → c.cells[j]? = some x → x.mark = false →
      ∃ y, (sweep n i c k).1.cells[j]? = some y ∧ y.type = LX_FREE ∧
        FreePath (sweep n i c k).1 (i + n) (Ptr.cell j) := by
  intro n
  induction n with
  | zero =>
    intro i c k hlen j x hij hx _
    have := (List.getElem?_eq_some.mp hx).1
    omega
  | succ n ih =>
    intro i c k hlen j x hij hx hm
    rw [sweep]
    cases hi : c.cells[i]? with
    | none =>
      have := List.getElem?_eq_none_iff.mp hi
      omega
    | some x0 =>
      simp only []
      by_cases hji : j = i
      · subst hji
        rw [hx] at hi
        cases hi
        simp only [hm, Bool.false_eq_true, if_false]
        have hl : j + 1 + n = (sweepFree c j x).cells.length := by simp [sweepFree]; omega
        have hsame := (sweep_spec n (j + 1) (sweepFree c j x) (k + 1) hl).1 j (by omega)
        have hpath := sweep_path n (j + 1) (sweepFree c j x) (k + 1) (Ptr.cell j) hl
          (FreePath.head rfl (by omega))
        refine ⟨_, hsame.trans (sweepFree_same c j x x hx), rfl, ?_⟩
        rw [show j + (n + 1) = j + 1 + n by omega]
        exact hpath
      · by_cases hm0 : x0.mark = true
        · simp only [hm0, if_true]
          obtain ⟨y, h1, h2, h3⟩ := ih (i + 1) (sweepKeep c i x0) k
            (by simp [sweepKeep]; omega) j x (by omega)
            (by rw [sweepKeep_other c i j x0 hji]; exact hx) hm
          refine ⟨y, h1, h2, ?_⟩
          rw [show i + (n + 1) = i + 1 + n by omega]
          exact h3
        · simp only [hm0, Bool.false_eq_true, if_false]
          obtain ⟨y, h1, h2, h3⟩ := ih (i + 1) (sweepFree c i x0) (k + 1)
            (by simp [sweepFree]; omega) j x (by omega)
            (by rw [sweepFree_other c i j x0 hji]; exact hx) hm
          refine ⟨y, h1, h2, ?_⟩
          rw [show i + (n + 1) = i + 1 + n by omega]
          exact h3

/-- The outcome of `lx_gc` for each arena cell. -/
theorem lx_gc_outcome_core (fuel : Nat) (c c' : Ctx) (n i : Nat) (x : Value)
    (hgc : lx_gc fuel c = Except.ok (c', n)) (hx : c.cells[i]? = some x) :
    (Reachable c (Ptr.cell i) → c'.cells[i]? = some (unmark x)) ∧
    (¬ Reachable c (Ptr.cell i) → x.mark = false →
      ∃ y, c'.cells[i]? = some y ∧ y.type = LX_FREE ∧ OnFreeList c' (Ptr.cell i)) ∧
    (¬ Reachable c (Ptr.cell i) → x.mark = true → c'.cells[i]? = some (unmark x)) := by
  refine ⟨fun hr => (lx_gc_reachable_core fuel c c' n i x hgc hx hr).1, ?_, ?_⟩
  all_goals
    intro hr hm
    unfold lx_gc at hgc
    cases h1 : mark fuel c c.current with
    | error e => simp [h1] at hgc
    | ok c1 =>
      simp only [h1] at hgc
      cases h2 : markPersist fuel c1.cells.length 0 c1 with
      | error e => simp [h2] at hgc
      | ok c2 =>
        simp only [h2] at hgc
        have hc' : c' = (sweep c2.cells.length 0 c2.tick 0).1 :=
          (congrArg Prod.fst (Except.ok.inj hgc)).symm
        have hsame : c2.cells[i]? = some x := by
          have := mark_phase_only fuel c c1 c2 h1 h2 (Ptr.cell i) hr
          rw [get_cell, get_cell] at this
          rw [this]
          exact hx
        have hl : 0 + c2.cells.length = c2.tick.cells.length := by simp [Ctx.tick]
        first
        | obtain ⟨y, hy1, hy2, hy3⟩ := sweep_frees c2.cells.length 0 c2.tick 0 hl i x
            (Nat.zero_le _) hsame hm
          rw [hc']
          exact ⟨y, hy1, hy2, freePath_onFreeList hy3⟩
        | rw [hc']
          exact (sweep_spec c2.cells.length 0 c2.tick 0 hl).2.1 i x (Nat.zero_le _) hsame hm

/-- C19, amended. After a cycle of `lx_gc`, every reachable arena cell has
its tag and payload and a clear mark bit; every arena cell that is not
reachable from `ctx->current` or a persist-flagged cell and whose mark bit
was clear before the cycle is tagged Free and is on the free list; an
unreachable cell whose mark bit was set before the cycle is not reclaimed by
that cycle: it keeps its tag and payload and only its mark bit is cleared. -/
theorem lx_gc_outcome (fuel : Nat) (c c' : Ctx) (n i : Nat) (x : Value)
    (hgc : lx_gc fuel c = Except.ok (c', n)) (hx : c.cells[i]? = some x) :
    (Reachable c (Ptr.cell i) → c'.cells[i]? = some (unmark x)) ∧
    (¬ Reachable c (Ptr.cell i) → x.mark = false →
      ∃ y, c'.cells[i]? = some y ∧ y.type = LX_FREE ∧ OnFreeList c' (Ptr.cell i)) ∧
    (¬ Reachable c (Ptr.cell i) → x.mark = true → c'.cells[i]? = some (unmark x)) :=
  lx_gc_outcome_core fuel c c' n i x hgc hx

theorem lx_gc_outcome_witness :
    (Reachable gcDemo (Ptr.cell 3) →
      gcDemoAfter.cells[3]? = some (unmark { type := LX_NUMBER, number := 9 })) ∧
    (¬ Reachable gcDemo (Ptr.cell 3) → ({ type := LX_NUMBER, number := 9 } : Value).mark = false →
      ∃ y, gcDemoAfter.cells[3]? = some y ∧ y.type = LX_FREE ∧
        OnFreeList gcDemoAfter (Ptr.cell 3)) ∧
    (¬ Reachable gcDemo (Ptr.cell 3) → ({ type := LX_NUMBER, number := 9 } : Value).mark = true →
      gcDemoAfter.cells[3]? = some (unmark { type := LX_NUMBER, number := 9 })) :=
  lx_gc_outcome 5 gcDemo gcDemoAfter 1 3 { type := LX_NUMBER, number := 9 } (by decide!) rfl

/-- C19 fails on the code: the env that `lx_makenv` has just allocated on a
fresh arena has its mark bit set and is referenced by nothing; the cycle of
`lx_gc` that follows keeps it tagged Env. -/
theorem lx_gc_keeps_marked_counterexample :
    lx_makenv 5 (lx_open 0 2) = Except.ok (Ptr.cell 0, markDemo) ∧
    ¬ Reachable markDemo (Ptr.cell 0) ∧
    lx_gc 5 markDemo = Except.ok (markDemoAfter, 1) ∧
    (markDemoAfter.cells[0]?).map (fun x => x.type) = some LX_ENV := by
  refine ⟨by decide!, ?_, by decide!, by decide!⟩
  rintro ⟨r, hroot, hreach⟩
  have hr : r = Ptr.null := by
    rcases hroot with h | ⟨i, x, _, hx, hp⟩
    · exact h
    · have hi : i < 2 := (List.getElem?_eq_some.mp hx).1
      interval_cases i <;> simp [markDemo] at hx <;> subst hx <;> simp at hp
  subst hr
  cases hreach with
  | step hc _ =>
    obtain ⟨y, hy, _⟩ := hc
    simp [Ctx.get] at hy

/-! ## A loop that never ends -/

theorem mark_text (fuel : Nat) :
    (∀ c v c', mark fuel c v = Except.ok c' → c'.text = c.text) ∧
    (∀ c ps c', markAll fuel c ps = Except.ok c' → c'.text = c.text) := by
  induction fuel with
  | zero =>
    constructor
    · intro c v c' h
      simp [mark] at h
    · intro c ps c' h
      cases ps with
      | nil =>
        simp [markAll] at h
        subst h
        rfl
      | cons p ps => simp [markAll] at h
  | succ fuel ih =>
    obtain ⟨ihm, iha⟩ := ih
    constructor
    · intro c v c' h
      rw [mark] at h
      by_cases hv : v = Ptr.null
      · simp [hv] at h
        subst h
        rfl
      · simp only [hv, if_false] at h
        cases hg : c.get v with
        | none => simp [hg] at h
        | some x =>
          simp only [hg] at h
          rw [iha _ _ _ h, set_text]
    · intro c ps c' h
      cases ps with
      | nil =>
        simp [markAll] at h
        subst h
        rfl
      | cons q ps =>
        rw [markAll] at h
        cases hm : mark fuel c q with
        | error e => simp [hm] at h
        | ok c1 =>
          simp only [hm] at h
          rw [iha _ _ _ h, ihm _ _ _ hm]

theorem markPersist_text (fuel : Nat) : ∀ (n i : Nat) (c c' : Ctx),
    markPersist fuel n i c = Except.ok c' → c'.text = c.text := by
  intro n
  induction n with
  | zero =>
    intro i c c' h
    simp [markPersist] at h
    subst h
    rfl
  | succ n ih =>
    intro i c c' h
    rw [markPersist] at h
    cases hi : c.cells[i]? with
    | none =>
      simp only [hi] at h
      cases h
      rfl
    | some x0 =>
      simp only [hi] at h
      by_cases hp : x0.persist = true
      · simp only [hp, if_true] at h
        cases hm : mark fuel c (Ptr.cell i) with
        | error e => simp [hm] at h
        | ok c1 =>
          simp only [hm] at h
          rw [ih _ _ _ h, (mark_text fuel).1 _ _ _ hm]
      · simp only [hp] at h
        exact ih _ _ _ h

/-- The sweep touches the arena and the free list only. -/
theorem sweep_frame : ∀ (n i : Nat) (c : Ctx) (k : Nat),
    (sweep n i c k).1.text = c.text ∧ (sweep n i c k).1.current = c.current ∧
    (sweep n i c k).1.stack = c.stack ∧ (sweep n i c k).1.nil_ = c.nil_ ∧
    (sweep n i c k).1.one_ = c.one_ := by
  intro n
  induction n with
  | zero =>
    intro i c k
    simp [sweep]
  | succ n ih =>
    intro i c k
    rw [sweep]
    cases hi : c.cells[i]? with
    | none => simp
    | some x =>
      simp only []
      by_cases hm : x.mark = true
      · rw [if_pos hm]
        exact ih (i + 1) (sweepKeep c i x) k
      · rw [if_neg hm]
        exact ih (i + 1) (sweepFree c i x) (k + 1)

theorem unmark_fields {x y : Value} (h : unmark y = unmark x) :
    y.type = x.type ∧ y.name = x.name ∧ y.value = x.value ∧ y.next = x.next ∧
    y.start = x.start ∧ y.len = x.len ∧ y.number = x.number ∧ y.env = x.env ∧
    y.callable = x.callable ∧ y.last = x.last ∧ y.free = x.free :=
  ⟨(congrArg Value.type h : (unmark y).type = (unmark x).type),
    (congrArg Value.name h : (unmark y).name = (unmark x).name),
    (congrArg Value.value h : (unmark y).value = (unmark x).value),
    (congrArg Value.next h : (unmark y).next = (unmark x).next),
    (congrArg Value.start h : (unmark y).start = (unmark x).start),
    (congrArg Value.len h : (unmark y).len = (unmark x).len),
    (congrArg Value.number h : (unmark y).number = (unmark x).number),
    (congrArg Value.env h : (unmark y).env = (unmark x).env),
    (congrArg Value.callable h : (unmark y).callable = (unmark x).callable),
    (congrArg Value.last h : (unmark y).last = (unmark x).last),
    (congrArg Value.free h : (unmark y).free = (unmark x).free)⟩

/-- The loop invariant does not depend on mark bits. -/
theorem loopInv_markLe {c c' : Ctx} (h : LoopInv c) (hle : MarkLe c c')
    (ht : c'.text = c.text) : LoopInv c' := by
  obtain ⟨fr, hst, hf1, hf2, hf3, hf4⟩ := h.frame
  obtain ⟨e, he, he1, he2, he3, he4⟩ := h.env
  obtain ⟨x0, hx0, hn1, hn2, hn3⟩ := h.name
  obtain ⟨x1, hx1, hv1, hv2⟩ := h.val
  have cellk : ∀ k x, c.cells[k]? = some x →
      ∃ y, c'.cells[k]? = some y ∧ unmark y = unmark x :=
    fun k x hx => markLe_children hle (p := Ptr.cell k) hx
  obtain ⟨e', he', hue⟩ := cellk 2 e he
  obtain ⟨y0, hy0, hu0⟩ := cellk 0 x0 hx0
  obtain ⟨y1, hy1, hu1⟩ := cellk 1 x1 hx1
  have hs0 : c.get (Ptr.stack 0) = some fr := by simp [Ctx.get, hst]
  obtain ⟨fr', hfr', huf⟩ := markLe_children hle hs0
  have hs1 := hle.get (Ptr.stack 1)
  have hnil := hle.get Ptr.nil
  have hone := hle.get Ptr.one
  simp only [Ctx.get, Option.map_some', Option.some.injEq, hst] at hs1 hnil hone hfr'
  have hstack : c'.stack = [fr'] := by
    cases hc : c'.stack with
    | nil => simp [hc] at hfr'
    | cons a t =>
      cases t with
      | nil =>
        simp [hc] at hfr'
        rw [hfr']
      | cons b t => simp [hc] at hs1
  refine ⟨ht.trans h.text, hle.current.trans h.cur, ⟨fr', hstack, ?_⟩, ⟨e', he', ?_⟩,
    ⟨y0, hy0, ?_⟩, ⟨y1, hy1, ?_⟩, ?_, ?_, ?_⟩
  · have u := unmark_fields huf
    exact ⟨u.1.trans hf1, u.2.2.2.2.2.2.2.1.trans hf2, u.2.2.2.2.2.2.2.2.1.trans hf3,
      u.2.2.2.2.2.2.2.2.2.1.trans hf4⟩
  · have u := unmark_fields hue
    exact ⟨u.1.trans he1, u.2.1.trans he2, u.2.2.1.trans he3, u.2.2.2.1.trans he4⟩
  · have u := unmark_fields hu0
    exact ⟨u.1.trans hn1, u.2.2.2.2.1.trans hn2, u.2.2.2.2.2.1.trans hn3⟩
  · have u := unmark_fields hu1
    exact ⟨u.1.trans hv1, u.2.2.2.2.2.2.1.trans hv2⟩
  · exact (unmark_fields hnil).1.trans h.nil
  · have u := unmark_fields hone
    exact ⟨u.1.trans h.one.1, u.2.2.2.2.2.2.1.trans h.one.2⟩
  · intro p hp
    exact h.free p (onFreeList_congr (fun q => markLe_free c c' hle q) hle.free_list hp)

/-- Setting a mark bit keeps the loop invariant. -/
theorem loopInv_modify {c c' : Ctx} {p : Ptr} (h : LoopInv c)
    (hm : c.modify p (fun x => { x with mark := true }) = Except.ok c') : LoopInv c' := by
  unfold Ctx.modify at hm
  cases hg : c.get p with
  | none => simp [hg] at hm
  | some x =>
    simp only [hg, Except.ok.injEq] at hm
    subst hm
    exact loopInv_markLe h (markLe_set_mark c p x hg) (set_text _ _ _)

theorem loopInv_out {c : Ctx} (h : LoopInv c) (o : List (List Nat)) :
    LoopInv { c with out := o } :=
  ⟨h.text, h.cur, h.frame, h.env, h.name, h.val, h.nil, h.one, fun p hp =>
    h.free p (@onFreeList_congr { c with out := o } c (fun q => by cases q <;> rfl) rfl _ hp)⟩
theorem loopInv_reachable {c : Ctx} (h : LoopInv c) :
    Reachable c (Ptr.cell 2) ∧ Reachable c (Ptr.cell 0) ∧ Reachable c (Ptr.cell 1) := by
  obtain ⟨fr, hst, hf1, hf2, hf3, hf4⟩ := h.frame
  obtain ⟨e, he, he1, he2, he3, he4⟩ := h.env
  have hs0 : c.get (Ptr.stack 0) = some fr := by simp [Ctx.get, hst]
  have c1 : Child c (Ptr.stack 0) (Ptr.cell 2) := ⟨fr, hs0, by simp [children, hf1, hf2]⟩
  have c2 : Child c (Ptr.cell 2) (Ptr.cell 0) := ⟨e, he, by simp [children, he1, he2]⟩
  have c3 : Child c (Ptr.cell 2) (Ptr.cell 1) := ⟨e, he, by simp [children, he1, he3]⟩
  have hroot : Root c (Ptr.stack 0) := Or.inl h.cur.symm
  exact ⟨⟨_, hroot, Reach.step c1 (Reach.refl _)⟩,
    ⟨_, hroot, Reach.step c1 (Reach.step c2 (Reach.refl _))⟩,
    ⟨_, hroot, Reach.step c1 (Reach.step c3 (Reach.refl _))⟩⟩

/-- A collection keeps the loop invariant. -/
theorem loopInv_gc {c c' : Ctx} {fuel n : Nat} (h : LoopInv c)
    (hgc : lx_gc fuel c = Except.ok (c', n)) : LoopInv c' := by
  obtain ⟨r2, r0, r1⟩ := loopInv_reachable h
  obtain ⟨e, he, he1, he2, he3, he4⟩ := h.env
  obtain ⟨x0, hx0, hn1, hn2, hn3⟩ := h.name
  obtain ⟨x1, hx1, hv1, hv2⟩ := h.val
  have k2 := (lx_gc_reachable_core fuel c c' n 2 e hgc he r2).1
  have k0 := (lx_gc_reachable_core fuel c c' n 0 x0 hgc hx0 r0).1
  have k1 := (lx_gc_reachable_core fuel c c' n 1 x1 hgc hx1 r1).1
  unfold lx_gc at hgc
  cases h1 : mark fuel c c.current with
  | error e => simp [h1] at hgc
  | ok c1 =>
    simp only [h1] at hgc
    cases h2 : markPersist fuel c1.cells.length 0 c1 with
    | error e => simp [h2] at hgc
    | ok c2 =>
      simp only [h2, Except.ok.injEq] at hgc
      obtain ⟨hle, hmk⟩ := mark_phase_spec fuel c c1 c2 h1 h2
      have ht2 : c2.text = c.text := by
        rw [markPersist_text fuel _ _ _ _ h2, (mark_text fuel).1 _ _ _ h1]
      have i2 : LoopInv c2 := loopInv_markLe h hle ht2
      have hc' : c' = (sweep c2.tick.cells.length 0 c2.tick 0).1 := by
        show c' = (sweep c2.cells.length 0 c2.tick 0).1
        rw [hgc]
      obtain ⟨s1, s2, s3, s4, s5⟩ := sweep_frame c2.tick.cells.length 0 c2.tick 0
      rw [← hc'] at s1 s2 s3 s4 s5
      refine ⟨s1.trans i2.text, s2.trans i2.cur, ?_, ⟨_, k2, he1, he2, he3, he4⟩,
        ⟨_, k0, hn1, hn2, hn3⟩, ⟨_, k1, hv1, hv2⟩, ?_, ?_, ?_⟩
      · rw [s3]
        exact i2.frame
      · rw [s4]
        exact i2.nil
      · rw [s5]
        exact i2.one
      · intro p hp
        rw [hc'] at hp
        rcases sweep_freeList c2.tick 0 p hp with ⟨j, hj, z, hz, hzm⟩ | hold
        · refine ⟨j, hj, ?_⟩
          have nm : ∀ k x, Reachable c (Ptr.cell k) → c.cells[k]? = some x → j ≠ k := by
            intro k x hr hx hjk
            subst hjk
            obtain ⟨y, hy, hym⟩ := hmk (Ptr.cell j) x hr hx
            have hy2 : c2.tick.cells[j]? = some y := hy
            rw [hy2] at hz
            cases hz
            simp [hym] at hzm
          have a0 := nm 0 x0 r0 hx0
          have a1 := nm 1 x1 r1 hx1
          have a2 := nm 2 e r2 he
          omega
        · exact i2.free p (@onFreeList_congr c2.tick c2 (fun q => by cases q <;> rfl) rfl _ hold)

theorem get_set_self (c : Ctx) (q : Ptr) (v x : Value) (h : (c.set q v).get q = some x) :
    x = v := by
  cases q <;> simp [Ctx.get, Ctx.set, List.getElem?_set] at h
  all_goals first | exact h.symm | exact h.2.symm

/-- Overwriting a value by one whose `free` member is null adds no member to
the free list. -/
theorem onFreeList_set_null (c : Ctx) (q : Ptr) (v : Value) (hv : v.free = Ptr.null)
    {p : Ptr} (hp : OnFreeList (c.set q v) p) : OnFreeList c p := by
  induction hp with
  | head hne =>
    rw [set_free_list] at hne ⊢
    exact OnFreeList.head hne
  | @next r x _ hx hne ih =>
    by_cases hr : r = q
    · subst hr
      rw [get_set_self c r v x hx, hv] at hne
      exact absurd rfl hne
    · rw [get_set_other c q r v hr] at hx
      exact OnFreeList.next ih hx hne

/-- An allocation that succeeds keeps the loop invariant, and the new cell
holds the promoted value. -/
theorem loopInv_promote {c c' : Ctx} {fuel : Nat} {val : Value} {p : Ptr} (h : LoopInv c)
    (hv : val.free = Ptr.null) (hp : lx_promote fuel c val = Except.ok (p, c')) :
    LoopInv c' ∧ c'.get p = some val := by
  unfold lx_promote at hp
  cases ha : lx_alloc fuel c val.type false with
  | error e => simp [ha, bind, Except.bind] at hp
  | ok r =>
    obtain ⟨q, c1⟩ := r
    cases hd : c1.get q with
    | none => simp [ha, bind, Except.bind, Ctx.deref, hd] at hp
    | some y =>
      simp only [ha, bind, Except.bind, Ctx.deref, hd, Except.ok.injEq, Prod.mk.injEq] at hp
      obtain ⟨hpq, hc'⟩ := hp
      subst hpq
      obtain ⟨c0, hc0, hpop⟩ := lx_alloc_cases fuel c val.type false q c1 ha
      have i0 : LoopInv c0 := by
        rcases hc0 with ⟨rfl, _⟩ | ⟨_, n, hgc⟩
        · exact h
        · exact loopInv_gc h hgc
      rcases hpop with ⟨hq, _, _⟩ | ⟨x, hx, hq, hc1⟩
      · rw [hq] at hd
        simp [Ctx.get] at hd
      · have hnn : c0.free_list ≠ Ptr.null := by
          intro e
          rw [e] at hx
          simp [Ctx.get] at hx
        obtain ⟨j, hj, hj3⟩ := i0.free _ (OnFreeList.head hnn)
        rw [hj] at hq
        subst hq
        have hxj : c0.cells[j]? = some x := by rw [← get_cell, ← hj]; exact hx
        have hc : c' = (c0.popFree x val.type false).set (Ptr.cell j) val := by
          rw [← hc', hc1]
        have other : ∀ r, r ≠ Ptr.cell j → c'.get r = c0.get r := fun r hr => by
          rw [hc]
          exact promote_get_other c0 val x j r hj hr
        have cellk : ∀ k, k < 3 → c'.cells[k]? = c0.cells[k]? := fun k hk =>
          other (Ptr.cell k) (cell_ne (by omega))
        have hst : c'.stack = c0.stack := by
          rw [hc]
          simp [Ctx.popFree, Ctx.set, hj]
        have hnil : c'.nil_ = c0.nil_ := by
          rw [hc]
          simp [Ctx.popFree, Ctx.set, hj]
        have hone : c'.one_ = c0.one_ := by
          rw [hc]
          simp [Ctx.popFree, Ctx.set, hj]
        have hcur : c'.current = c0.current := by
          rw [hc]
          simp [Ctx.popFree, Ctx.set, hj]
        have htx : c'.text = c0.text := by
          rw [hc]
          simp [Ctx.popFree, Ctx.set, hj]
        refine ⟨⟨htx.trans i0.text, hcur.trans i0.cur, ?_, ?_, ?_, ?_, ?_, ?_, ?_⟩, ?_⟩
        · rw [hst]
          exact i0.frame
        · rw [cellk 2 (by omega)]
          exact i0.env
        · rw [cellk 0 (by omega)]
          exact i0.name
        · rw [cellk 1 (by omega)]
          exact i0.val
        · rw [hnil]
          exact i0.nil
        · rw [hone]
          exact i0.one
        · intro r hr
          rw [hc] at hr
          exact i0.free r (onFreeList_pop c0 x val.type false hx r
            (onFreeList_set_null _ _ val hv hr))
        · rw [hc]
          exact promote_cell_same c0 val x j hj hxj
/-- The characters, words and numbers of `loopText` the evaluator reads. -/
theorem loopText_facts {c : Ctx} (ht : c.text = loopText) :
    (c.peek 0 = 40 ∧ c.peek 1 = 61 ∧ c.peek 2 = 32 ∧ c.peek 3 = 105 ∧ c.peek 5 = 48 ∧
      c.peek 6 = 41 ∧ c.peek 7 = 40 ∧ c.peek 8 = 94 ∧ c.peek 10 = 40 ∧ c.peek 11 = 60 ∧
      c.peek 12 = 32 ∧ c.peek 13 = 105 ∧ c.peek 15 = 51 ∧ c.peek 16 = 41 ∧ c.peek 18 = 40 ∧
      c.peek 19 = 44 ∧ c.peek 21 = 105 ∧ c.peek 22 = 41) ∧
    (eatSpace c 0 = 0 ∧ eatSpace c 1 = 1 ∧ eatSpace c 2 = 3 ∧ eatSpace c 4 = 5 ∧
      eatSpace c 6 = 6 ∧ eatSpace c 7 = 7 ∧ eatSpace c 8 = 8 ∧ eatSpace c 9 = 10 ∧
      eatSpace c 11 = 11 ∧ eatSpace c 12 = 13 ∧ eatSpace c 14 = 15 ∧ eatSpace c 16 = 16 ∧
      eatSpace c 17 = 18 ∧ eatSpace c 19 = 19 ∧ eatSpace c 20 = 21 ∧ eatSpace c 22 = 22) ∧
    (lx_word c 3 = 1 ∧ lx_word c 13 = 1 ∧ lx_word c 21 = 1) ∧
    (lx_parsenumber c 5 = (0, 6) ∧ lx_parsenumber c 15 = (3, 16)) := by
  simp only [Ctx.peek, eatSpace, lx_word, lx_parsenumber, ht]
  decide!

theorem evalStep_paren (f : Nat) (ev : Eval) (host : Host) (c : Ctx) (call : Ptr)
    (start e0 : Nat) (evs se : Bool) (hch : c.peek (eatSpace c start) = 40) :
    evalStep f ev host c call start e0 evs se =
      evalParen f ev c call (eatSpace c start + 1) (eatSpace c start) (eatSpace c start) se := by
  unfold evalStep
  simp [hch]

theorem evalStep_print (f : Nat) (ev : Eval) (host : Host) (c : Ctx) (call : Ptr)
    (start e0 : Nat) (evs se : Bool) (hch : c.peek (eatSpace c start) = 44) :
    evalStep f ev host c call start e0 evs se =
      evalPrint ev c call (eatSpace c start + 1) (eatSpace c start) se := by
  unfold evalStep
  simp [hch]

theorem evalStep_while (f : Nat) (ev : Eval) (host : Host) (c : Ctx) (call : Ptr)
    (start e0 : Nat) (evs se : Bool) (hch : c.peek (eatSpace c start) = 94) :
    evalStep f ev host c call start e0 evs se =
      evalWhile f ev c call (eatSpace c start + 1) (eatSpace c start) (eatSpace c start) se := by
  unfold evalStep
  simp [hch]

theorem evalStep_assign (f : Nat) (ev : Eval) (host : Host) (c : Ctx) (call : Ptr)
    (start e0 : Nat) (evs se : Bool) (hch : c.peek (eatSpace c start) = 61)
    (hne : c.peek (eatSpace c start + 1) ≠ 61) :
    evalStep f ev host c call start e0 evs se =
      evalAssign f ev c call (eatSpace c start + 1) (eatSpace c start) (eatSpace c start) se := by
  unfold evalStep
  simp [hch, hne]

theorem evalStep_less (f : Nat) (ev : Eval) (host : Host) (c : Ctx) (call : Ptr)
    (start e0 : Nat) (evs se : Bool) (hch : c.peek (eatSpace c start) = 60)
    (hne : c.peek (eatSpace c start + 1) ≠ 61) :
    evalStep f ev host c call start e0 evs se =
      evalCompare ev (fun x y => decide (x < y)) c call (eatSpace c start + 1)
        (eatSpace c start) (eatSpace c start) se := by
  unfold evalStep
  simp [hch, hne]

/-- The dispatch of `lx_eval` on the letter `i` and on the digits `0` and `3`. -/
theorem evalStep_word (f : Nat) (ev : Eval) (host : Host) (c : Ctx) (call : Ptr)
    (start e0 : Nat) (evs se : Bool)
    (hch : c.peek (eatSpace c start) = 105 ∨ c.peek (eatSpace c start) = 51 ∨
      c.peek (eatSpace c start) = 48) :
    evalStep f ev host c call start e0 evs se =
      evalWord f ev host c call (eatSpace c start) (eatSpace c start) evs se := by
  unfold evalStep
  rcases hch with h | h | h <;> simp [h]

/-- The word `i` evaluates to the number cell 1 and leaves the state as it is. -/
theorem loop_word (host : Host) (m : Nat) (c : Ctx) (s0 s e : Nat) (se : Bool)
    (h : LoopInv c) (hs : eatSpace c s0 = s) (hp : c.peek s = 105) (hw : lx_word c s = 1)
    (r : Ptr × Nat × Ctx)
    (hr : lx_eval host m c (Ptr.stack 0) s0 e true se = Except.ok r) :
    r = (Ptr.cell 1, s + 1, c) := by
  obtain ⟨fr, hst, hf1, hf2, hf3, hf4⟩ := h.frame
  obtain ⟨en, he, he1, he2, he3, he4⟩ := h.env
  obtain ⟨x0, hx0, hn1, hn2, hn3⟩ := h.name
  obtain ⟨x1, hx1, hv1, hv2⟩ := h.val
  have p3 := (loopText_facts h.text).1.2.2.2.1
  have hp' : c.text[s]?.getD 0 = 105 := by simpa [Ctx.peek] using hp
  have p3' : c.text[3]?.getD 0 = 105 := by simpa [Ctx.peek] using p3
  cases m with
  | zero => simp [lx_eval] at hr
  | succ m =>
    rw [lx_eval_succ, evalStep_word _ _ _ _ _ _ _ _ _ (by rw [hs]; exact Or.inl hp), hs] at hr
    cases m with
    | zero => simp [evalWord, hp, lx_isdigit, lx_isalpha, Ctx.push, lx_getcall, bind, Except.bind] at hr
    | succ m =>
      cases m with
      | zero =>
        simp [evalWord, hp, lx_isdigit, lx_isalpha, Ctx.push, lx_getcall, lx_getenv, bind,
          Except.bind, Ctx.deref, Ctx.get, hst, hf2] at hr
      | succ m =>
        simp [evalWord, hp, lx_isdigit, lx_isalpha, Ctx.push, lx_getcall, lx_getenv, bind,
          Except.bind, Ctx.deref, Ctx.get, hst, hf2, he, he2, he3, lx_symbeq, hx0, hn1, hn2, hn3,
          hw, bytesEq, Ctx.peek, hx1, hv1, Ctx.pop, hp', p3'] at hr
        rw [← hr, ← hst]

/-- The numeral `3` evaluates to a new number cell and keeps the loop invariant. -/
theorem loop_three (host : Host) (m : Nat) (c : Ctx) (s0 e : Nat) (evs se : Bool)
    (h : LoopInv c) (hs : eatSpace c s0 = 15) (r : Ptr × Nat × Ctx)
    (hr : lx_eval host m c (Ptr.stack 0) s0 e evs se = Except.ok r) :
    LoopInv r.2.2 ∧ r.2.1 = 16 ∧
      ∃ y, r.2.2.get r.1 = some y ∧ y.type = LX_NUMBER ∧ y.number = 3 := by
  obtain ⟨hpk, -, -, -, hnum⟩ := loopText_facts h.text
  have p15 : c.peek 15 = 51 := hpk.2.2.2.2.2.2.2.2.2.2.2.2.1
  cases m with
  | zero => simp [lx_eval] at hr
  | succ m =>
    rw [lx_eval_succ, evalStep_word _ _ _ _ _ _ _ _ _ (by rw [hs]; exact Or.inr (Or.inl p15)),
      hs] at hr
    simp only [evalWord, p15, lx_isdigit, hnum] at hr
    cases hpr : lx_promote m c { type := LX_NUMBER, number := 3 } with
    | error err => simp [hpr, bind, Except.bind] at hr
    | ok q =>
      obtain ⟨p, c'⟩ := q
      simp [hpr, bind, Except.bind] at hr
      subst hr
      obtain ⟨i1, hg⟩ := loopInv_promote h rfl hpr
      exact ⟨i1, rfl, _, hg, rfl, rfl⟩

/-- The body `(, i)` of the loop prints `0` and changes nothing else. -/
theorem loop_body (host : Host) (m : Nat) (c : Ctx) (e : Nat) (h : LoopInv c)
    (r : Ptr × Nat × Ctx)
    (hr : lx_eval host m c (Ptr.stack 0) 17 e true true = Except.ok r) :
    r = (Ptr.nil, 23, { c with out := c.out ++ [[48]] }) := by
  obtain ⟨hpk, hes, hwd, -⟩ := loopText_facts h.text
  obtain ⟨x1, hx1, hv1, hv2⟩ := h.val
  obtain ⟨-, -, -, -, -, -, -, -, -, -, -, -, -, -, p18, p19, p21, p22⟩ := hpk
  obtain ⟨-, -, -, -, -, -, -, -, -, -, -, -, e17, e19, e20, e22⟩ := hes
  cases m with
  | zero => simp [lx_eval] at hr
  | succ m =>
    rw [lx_eval_succ, evalStep_paren _ _ _ _ _ _ _ _ _ (by rw [e17]; exact p18), e17] at hr
    cases m with
    | zero => simp [evalParen, parseBody, e19, p19, parseBodyLoop, bind, Except.bind] at hr
    | succ m =>
      simp only [evalParen, parseBody, e19, p19, parseBodyLoop] at hr
      rw [lx_eval_succ, evalStep_print _ _ _ _ _ _ _ _ _ (by rw [e19]; exact p19), e19] at hr
      cases hw : lx_eval host m c (Ptr.stack 0) 20 19 true true with
      | error err => simp [evalPrint, hw, bind, Except.bind] at hr
      | ok q =>
        have hq := loop_word host m c 20 21 19 true h e20 p21 hwd.2.2 q hw
        subst hq
        have hfm : lx_format c (Ptr.cell 1) = Except.ok [48] := by
          simp [lx_format, Ctx.deref, Ctx.get, hx1, hv1, hv2, bind, Except.bind, toInt]
        have e22' : eatSpace { c with out := c.out ++ [[48]] } 22 = 22 := e22
        have p22' : Ctx.peek { c with out := c.out ++ [[48]] } 22 = 41 := p22
        simp [evalPrint, hw, bind, Except.bind, isEof, Ctx.deref, Ctx.get, hx1, hv1, hfm,
          h.nil, e22', p22'] at hr
        exact hr.symm

theorem loop_isEof_cell1 {c : Ctx} (h : LoopInv c) : isEof c (Ptr.cell 1) = Except.ok false := by
  obtain ⟨x1, hx1, hv1, hv2⟩ := h.val
  exact isEof_false c (Ptr.cell 1) x1 hx1 (by rw [hv1]; decide)

theorem loop_isEof_one {c : Ctx} (h : LoopInv c) : isEof c Ptr.one = Except.ok false :=
  isEof_false c Ptr.one c.one_ rfl (by rw [h.one.1]; decide)

theorem loop_truthy_one {c : Ctx} (h : LoopInv c) : lx_truthy c Ptr.one = Except.ok true := by
  simp [lx_truthy, Ctx.deref, Ctx.get, bind, Except.bind, h.one.1, h.one.2]

/-- The condition `(< i 3)` of the loop is true in every state of the loop. -/
theorem loop_cond (host : Host) (m : Nat) (c : Ctx) (e : Nat) (h : LoopInv c)
    (r : Ptr × Nat × Ctx)
    (hr : lx_eval host m c (Ptr.stack 0) 9 e true true = Except.ok r) :
    r.1 = Ptr.one ∧ r.2.1 = 17 ∧ LoopInv r.2.2 := by
  obtain ⟨hpk, hes, hwd, -⟩ := loopText_facts h.text
  obtain ⟨-, -, -, -, -, -, -, -, p10, p11, p12, p13, -, -, -, -, -, -⟩ := hpk
  obtain ⟨-, -, -, -, -, -, -, e9, e11, e12, e14, -, -, -, -, -⟩ := hes
  cases m with
  | zero => simp [lx_eval] at hr
  | succ m =>
    rw [lx_eval_succ, evalStep_paren _ _ _ _ _ _ _ _ _ (by rw [e9]; exact p10), e9] at hr
    cases m with
    | zero => simp [evalParen, parseBody, e11, p11, parseBodyLoop, bind, Except.bind] at hr
    | succ m =>
      simp only [evalParen, parseBody, e11, p11, parseBodyLoop] at hr
      rw [lx_eval_succ, evalStep_less _ _ _ _ _ _ _ _ _ (by rw [e11]; exact p11)
        (by rw [e11, p12]; decide), e11] at hr
      cases hw : lx_eval host m c (Ptr.stack 0) 12 11 true true with
      | error err => simp [evalCompare, compOp, getAB, hw, bind, Except.bind] at hr
      | ok q =>
        have hq := loop_word host m c 12 13 11 true h e12 p13 hwd.2.1 q hw
        subst hq
        cases hm : lx_marktemp c (Ptr.cell 1) with
        | error err => simp [evalCompare, compOp, getAB, hw, hm, bind, Except.bind] at hr
        | ok c2 =>
          have i2 : LoopInv c2 := loopInv_modify h hm
          have e14' : eatSpace c2 14 = 15 := (loopText_facts i2.text).2.1.2.2.2.2.2.2.2.2.2.2.1
          cases hb : lx_eval host m c2 (Ptr.stack 0) 14 11 true true with
          | error err =>
            simp [evalCompare, compOp, getAB, hw, hm, hb, bind, Except.bind,
              loop_isEof_cell1 i2] at hr
          | ok q =>
            obtain ⟨b, e1, c3⟩ := q
            obtain ⟨i3, he1, y, hy, hy1, hy2⟩ := loop_three host m c2 14 11 true true i2 e14' _ hb
            simp only at i3 he1 hy
            subst he1
            obtain ⟨x1, hx1, hv1, hv2⟩ := i3.val
            obtain ⟨hpk3, hes3, -, -⟩ := loopText_facts i3.text
            have p16 : c3.peek 16 = 41 := hpk3.2.2.2.2.2.2.2.2.2.2.2.2.2.1
            have e16 : eatSpace c3 16 = 16 := hes3.2.2.2.2.2.2.2.2.2.2.2.1
            have hbe : isEof c3 b = Except.ok false :=
              isEof_false c3 b y hy (by rw [hy1]; decide)
            simp [evalCompare, compOp, getAB, hw, hm, hb, bind, Except.bind,
              loop_isEof_cell1 i2, hbe, Ctx.deref, get_cell, hx1, hy, hv1, hy1, hv2, hy2,
              loop_isEof_one i3, e16, p16] at hr
            subst hr
            exact ⟨rfl, rfl, i3⟩

/-- The loop of `^` never ends from a state of the loop: every budget is
used up (or the run faults). -/
theorem loop_whileLoop (host : Host) (m : Nat) : ∀ (n : Nat) (c : Ctx) (result : Ptr)
    (next e : Nat), LoopInv c → ∀ r,
    whileLoop (lx_eval host m) (Ptr.stack 0) 9 17 true n c Ptr.one result next e ≠
      Except.ok r := by
  intro n
  induction n with
  | zero =>
    intro c result next e h r hr
    simp [whileLoop] at hr
  | succ n ih =>
    intro c result next e h r hr
    rw [whileLoop] at hr
    simp only [loop_truthy_one h, bind, Except.bind, if_true] at hr
    cases h1 : lx_releasetemp c result with
    | error err => simp [h1] at hr
    | ok c1 =>
      have i1 : LoopInv c1 := loopInv_modify h h1
      cases h2 : lx_eval host m c1 (Ptr.stack 0) 17 e true true with
      | error err => simp [h1, h2] at hr
      | ok q =>
        have hq := loop_body host m c1 e i1 q h2
        subst hq
        have i2 : LoopInv { c1 with out := c1.out ++ [[48]] } := loopInv_out i1 _
        cases h3 : lx_marktemp { c1 with out := c1.out ++ [[48]] } Ptr.nil with
        | error err => simp [h1, h2, h3] at hr
        | ok c3 =>
          have i3 : LoopInv c3 := loopInv_modify i2 h3
          cases h4 : lx_releasetemp c3 Ptr.one with
          | error err => simp [h1, h2, h3, h4] at hr
          | ok c4 =>
            have i4 : LoopInv c4 := loopInv_modify i3 h4
            cases h5 : lx_eval host m c4 (Ptr.stack 0) 9 next true true with
            | error err => simp [h1, h2, h3, h4, h5] at hr
            | ok q =>
              obtain ⟨cond1, next1, c5⟩ := q
              obtain ⟨hc1, hn1, i5⟩ := loop_cond host m c4 next i4 _ h5
              simp only at hc1 hn1 i5
              subst hc1
              cases h6 : lx_marktemp c5 Ptr.one with
              | error err => simp [h1, h2, h3, h4, h5, h6] at hr
              | ok c6 =>
                have i6 : LoopInv c6 := loopInv_modify i5 h6
                simp [h1, h2, h3, h4, h5, h6] at hr
                exact ih c6 _ _ _ i6 r hr

/-- The statement `(^ (< i 3) (, i)` never returns from a state of the loop. -/
theorem loop_statement (host : Host) (m : Nat) (c : Ctx) (e : Nat) (h : LoopInv c)
    (r : Ptr × Nat × Ctx) :
    lx_eval host m c (Ptr.stack 0) 7 e true true ≠ Except.ok r := by
  intro hr
  obtain ⟨hpk, hes, -, -⟩ := loopText_facts h.text
  obtain ⟨-, -, -, -, -, -, p7, p8, -, -, -, -, -, -, -, -, -, -⟩ := hpk
  obtain ⟨-, -, -, -, -, e7, e8, -, -, -, -, -, -, -, -, -⟩ := hes
  cases m with
  | zero => simp [lx_eval] at hr
  | succ m =>
    rw [lx_eval_succ, evalStep_paren _ _ _ _ _ _ _ _ _ (by rw [e7]; exact p7), e7] at hr
    cases m with
    | zero => simp [evalParen, parseBody, e8, p8, parseBodyLoop, bind, Except.bind] at hr
    | succ m =>
      simp only [evalParen, parseBody, e8, p8, parseBodyLoop] at hr
      rw [lx_eval_succ, evalStep_while _ _ _ _ _ _ _ _ _ (by rw [e8]; exact p8), e8] at hr
      cases hw : evalWhile m (lx_eval host m) c (Ptr.stack 0) 9 8 8 true with
      | ok q =>
        exfalso
        unfold evalWhile at hw
        cases h1 : lx_eval host m c (Ptr.stack 0) 9 8 true true with
        | error err => simp [h1, bind, Except.bind] at hw
        | ok q1 =>
          obtain ⟨cond, next1, c1⟩ := q1
          obtain ⟨hc1, hn1, i1⟩ := loop_cond host m c 8 h _ h1
          simp only at hc1 hn1 i1
          subst hc1
          subst hn1
          cases h2 : lx_marktemp c1 Ptr.one with
          | error err => simp [h1, h2, bind, Except.bind] at hw
          | ok c2 =>
            have i2 : LoopInv c2 := loopInv_modify i1 h2
            simp [h1, h2, bind, Except.bind, loop_isEof_one i2, loop_truthy_one i2] at hw
            exact loop_whileLoop host m m c2 Ptr.nil 17 8 i2 q hw
      | error err => simp [hw, bind, Except.bind] at hr

/-- The first statement `(= i 0)` leads from the initial state to `loopFirst`. -/
theorem loop_first (host : Host) (m : Nat) (r : Ptr × Nat × Ctx)
    (hr : lx_eval host m loopInit (Ptr.stack 0) 0 0 true true = Except.ok r) :
    r = (Ptr.nil, 7, loopFirst) := by
  have ht : loopInit.text = loopText := rfl
  obtain ⟨hpk, hes, hwd, hnum⟩ := loopText_facts ht
  obtain ⟨p0, p1, p2, p3, p5, p6, -⟩ := hpk
  obtain ⟨e0, e1, e2, e4, e6, -⟩ := hes
  cases m with
  | zero => simp [lx_eval] at hr
  | succ m =>
    rw [lx_eval_succ, evalStep_paren _ _ _ _ _ _ _ _ _ (by rw [e0]; exact p0), e0] at hr
    cases m with
    | zero => simp [evalParen, parseBody, e1, p1, parseBodyLoop, bind, Except.bind] at hr
    | succ m =>
      simp only [evalParen, parseBody, e1, p1, parseBodyLoop] at hr
      rw [lx_eval_succ, evalStep_assign _ _ _ _ _ _ _ _ _ (by rw [e1]; exact p1)
        (by rw [e1, p2]; decide), e1] at hr
      cases m with
      | zero => simp [evalAssign, lx_eval, bind, Except.bind] at hr
      | succ m =>
        have a1 : lx_promote m loopInit { type := LX_SYMBOL, start := 3, len := 1 } =
            Except.ok (Ptr.cell 0, loopS 0) := by
          rw [lx_promote_pop m loopInit _ 0 { type := LX_FREE, free := Ptr.cell 1 } rfl rfl]
          decide!
        have hsym : lx_eval host (m + 1) loopInit (Ptr.stack 0) 2 1 false true =
            Except.ok (Ptr.cell 0, 4, loopS 0) := by
          rw [lx_eval_succ, evalStep_word _ _ _ _ _ _ _ _ _ (by rw [e2]; exact Or.inl p3), e2]
          simp [evalWord, p3, lx_isdigit, lx_isalpha, hwd.1, bind, Except.bind, a1]
        have a2 : lx_marktemp (loopS 0) (Ptr.cell 0) =
            Except.ok (loopS 1) := by decide!
        have b2 : isEof (loopS 1) (Ptr.cell 0) = Except.ok false := by decide!
        have ht2 : (loopS 1).text = loopText := by decide!
        obtain ⟨hpk2, hes2, -, hnum2⟩ := loopText_facts ht2
        have a3 : lx_promote m (loopS 1) { type := LX_NUMBER, number := 0 } =
            Except.ok (Ptr.cell 1, loopS 2) := by
          rw [lx_promote_pop m (loopS 1) _ 1 { type := LX_FREE, free := Ptr.cell 2 } (by decide!)
            (by decide!)]
          decide!
        have hval : lx_eval host (m + 1) (loopS 1) (Ptr.stack 0) 4 1 true true =
            Except.ok (Ptr.cell 1, 6, loopS 2) := by
          rw [lx_eval_succ, evalStep_word _ _ _ _ _ _ _ _ _
            (by rw [hes2.2.2.2.1]; exact Or.inr (Or.inr hpk2.2.2.2.2.1)), hes2.2.2.2.1]
          simp [evalWord, hpk2.2.2.2.2.1, lx_isdigit, hnum2.1, bind, Except.bind, a3]
        have a4 : lx_marktemp (loopS 2) (Ptr.cell 1) =
            Except.ok (loopS 3) := by decide!
        have b4 : isEof (loopS 3) (Ptr.cell 1) = Except.ok false := by decide!
        have d4 : (loopS 3).deref (Ptr.stack 0) =
            Except.ok { type := LX_CALL } := by decide!
        have a5 : lx_makenv (m + 1) (loopS 3) =
            Except.ok (Ptr.cell 2, loopS 4) := by
          simp only [lx_makenv, lx_alloc_pop (m + 1) (loopS 3) LX_ENV true 2
            { type := LX_FREE, free := Ptr.cell 3 } (by decide!) (by decide!), bind, Except.bind]
          decide!
        have a6 : (loopS 4).modify (Ptr.stack 0)
            (fun f => { f with env := Ptr.cell 2 }) = Except.ok (loopS 5) := by
          decide!
        have a7 : lx_setenv (m + 1) (loopS 5) (Ptr.cell 2) (Ptr.cell 0)
            (Ptr.cell 1) = Except.ok loopFirst := by
          simp only [lx_setenv, setenvFrom, setenvLoop_noname m (loopS 5) _ _ _ 2
            { type := LX_ENV, mark := true, free := Ptr.cell 3 } (by decide!) rfl,
            bind, Except.bind]
          simp [setenvTail, bind, Except.bind]
          decide!
        have b7 : isEof loopFirst Ptr.nil = Except.ok false := by decide!
        have ht7 : loopFirst.text = loopText := by decide!
        obtain ⟨hpk7, hes7, -, -⟩ := loopText_facts ht7
        simp [evalAssign, hsym, a2, b2, hval, a4, b4, d4, a5, a6, a7, b7, bind, Except.bind,
          hes7.2.2.2.2.1, hpk7.2.2.2.2.2.1] at hr
        exact hr.symm

/-- The state after the first statement satisfies the loop invariant. -/
theorem loopInv_first : LoopInv loopFirst := by
  have key : ∀ p, OnFreeList loopFirst p →
      p = Ptr.cell 3 ∨ p = Ptr.cell 4 ∨ p = Ptr.cell 5 ∨ p = Ptr.cell 6 ∨ p = Ptr.cell 7 := by
    intro p hp
    induction hp with
    | head _ => exact Or.inl (by decide!)
    | @next q x _ hx hne ih =>
      have f3 : loopFirst.get (Ptr.cell 3) = some { type := LX_FREE, free := Ptr.cell 4 } := by
        decide!
      have f4 : loopFirst.get (Ptr.cell 4) = some { type := LX_FREE, free := Ptr.cell 5 } := by
        decide!
      have f5 : loopFirst.get (Ptr.cell 5) = some { type := LX_FREE, free := Ptr.cell 6 } := by
        decide!
      have f6 : loopFirst.get (Ptr.cell 6) = some { type := LX_FREE, free := Ptr.cell 7 } := by
        decide!
      have f7 : loopFirst.get (Ptr.cell 7) = some { type := LX_FREE, free := Ptr.null } := by
        decide!
      rcases ih with rfl | rfl | rfl | rfl | rfl
      · rw [f3] at hx
        cases hx
        exact Or.inr (Or.inl rfl)
      · rw [f4] at hx
        cases hx
        exact Or.inr (Or.inr (Or.inl rfl))
      · rw [f5] at hx
        cases hx
        exact Or.inr (Or.inr (Or.inr (Or.inl rfl)))
      · rw [f6] at hx
        cases hx
        exact Or.inr (Or.inr (Or.inr (Or.inr rfl)))
      · rw [f7] at hx
        cases hx
        exact absurd rfl hne
  refine ⟨by decide!, by decide!, ⟨{ type := LX_CALL, env := Ptr.cell 2 }, by decide!⟩,
    ⟨{ type := LX_ENV, mark := true, free := Ptr.cell 3, name := Ptr.cell 0,
        value := Ptr.cell 1 }, by decide!⟩,
    ⟨{ type := LX_SYMBOL, mark := true, start := 3, len := 1 }, by decide!⟩,
    ⟨{ type := LX_NUMBER, mark := true, number := 0 }, by decide!⟩, by decide!, by decide!, ?_⟩
  intro p hp
  rcases key p hp with rfl | rfl | rfl | rfl | rfl
  · exact ⟨3, rfl, by omega⟩
  · exact ⟨4, rfl, by omega⟩
  · exact ⟨5, rfl, by omega⟩
  · exact ⟨6, rfl, by omega⟩
  · exact ⟨7, rfl, by omega⟩

/-- The function `lx_run` on `loopProg` starts the evaluation in `loopInit`. -/
theorem lx_run_loopProg (host : Host) (fuel : Nat) :
    lx_run host fuel (lx_open 48 8) Ptr.null loopProg =
      (runLoop (lx_eval host fuel) (Ptr.stack 0) 42 fuel loopInit 0 0 Ptr.nil).bind fun q =>
        (q.2.deref (Ptr.stack 0)).bind fun fr =>
          Except.ok (q.1, Ctx.pop { q.2 with current := fr.last } 0) := by
  have h1 : loopProg.takeWhile (· != 0) = loopProg := by decide
  have h2 : loopProg.length = 41 := by decide
  unfold lx_run
  simp only [h1, h2]
  rfl

/-- The run of `loopProg` returns for no budget of evaluation steps. -/
theorem loop_never_core (host : Host) (fuel : Nat) :
    (lx_run host fuel (lx_open 48 8) Ptr.null loopProg).toOption = none := by
  have hloop : ∀ r, runLoop (lx_eval host fuel) (Ptr.stack 0) 42 fuel loopInit 0 0 Ptr.nil ≠
      Except.ok r := by
    intro r hr
    cases fuel with
    | zero => simp [runLoop] at hr
    | succ f =>
      rw [runLoop] at hr
      cases h1 : lx_eval host (f + 1) loopInit (Ptr.stack 0) 0 0 true true with
      | error err => simp [h1, bind, Except.bind] at hr
      | ok q =>
        have hq := loop_first host (f + 1) q h1
        subst hq
        have b7 : isEof loopFirst Ptr.nil = Except.ok false := by decide!
        simp [h1, bind, Except.bind, b7] at hr
        cases f with
        | zero => simp [runLoop] at hr
        | succ f =>
          rw [runLoop] at hr
          cases h2 : lx_eval host (f + 1 + 1) loopFirst (Ptr.stack 0) 7 7 true true with
          | error err => simp [h2, bind, Except.bind] at hr
          | ok q2 => exact loop_statement host _ loopFirst 7 loopInv_first q2 h2
  rw [lx_run_loopProg]
  cases h : runLoop (lx_eval host fuel) (Ptr.stack 0) 42 fuel loopInit 0 0 Ptr.nil with
  | error err => rfl
  | ok r => exact absurd h (hloop r)

/-- C17 (the claim as stated fails). The source
`(= i 0)(^ (< i 3) (, i)(; )(= i (+ i 1)))` does not terminate with the
output `0\n1\n2\n`: run by `lx_run` on a fresh context of 8 cells, it returns
for no budget of evaluation steps, so that the run has no result and no final
output at all (with the budget 25 the run stops because the budget is used
up).  The body of `^` is the single expression `(, i)`; the
statements `(; )` and `(= i (+ i 1))` come after the loop, `i` stays 0 and
the condition `(< i 3)` stays true. -/
theorem loop_scenario_counterexample :
    (∀ fuel : Nat, ((lx_run noHost fuel (lx_open 48 8) Ptr.null loopProg).toOption.map
      fun r => r.2.out.flatten) = none) ∧
    lx_run noHost 25 (lx_open 48 8) Ptr.null loopProg = Except.error Err.fuel := by
  refine ⟨?_, by decide!⟩
  intro fuel
  rw [loop_never_core noHost fuel]
  rfl

/-- C17 (amended). With the three statements of the loop grouped into one
body, `(= i 0)(^ (< i 3) ((, i)(; )(= i (+ i 1))))`, the run by `lx_run` on a
fresh context (of 8 and of 20 cells) terminates, and the concatenation of the
strings passed to the printer is exactly `0\n1\n2\n`; the source without the
grouping parentheses returns for no budget of evaluation steps and for no
table of native functions (with the budgets 10 and 25 the run stops because
the budget is used up, not because of a fault). -/
theorem loop_scenario_grouped :
    ((lx_run noHost 30 (lx_open 48 8) Ptr.null loopGrouped).map fun r => r.2.out.flatten) =
        Except.ok [48, 10, 49, 10, 50, 10] ∧
      ((lx_run noHost 30 (lx_open 48 20) Ptr.null loopGrouped).map fun r => r.2.out.flatten) =
        Except.ok [48, 10, 49, 10, 50, 10] ∧
      (∀ (host : Host) (fuel : Nat),
        (lx_run host fuel (lx_open 48 8) Ptr.null loopProg).toOption = none) ∧
      lx_run noHost 10 (lx_open 48 8) Ptr.null loopProg = Except.error Err.fuel ∧
      lx_run noHost 25 (lx_open 48 8) Ptr.null loopProg = Except.error Err.fuel :=
  ⟨by decide!, by decide!, loop_never_core, by decide!, by decide!⟩
/-! ## Dry and wet parses -/

theorem plainF_of_fields {x y : Value} (h : PlainF x) (h2 : y.value = x.value)
    (h3 : y.next = x.next) (h4 : y.env = x.env) (h5 : y.free = x.free) : PlainF y := by
  unfold PlainF at h ⊢
  rw [h2, h3, h4, h5]
  exact h

/-- What a plain state says about the value behind a valid pointer. -/
theorem plain_get {c : Ctx} (h : Plain c) {p : Ptr} {x : Value} (hx : c.get p = some x) :
    PlainF x ∧ ((p = Ptr.eof ∧ x.type = LX_EOF) ∨ (p ≠ Ptr.eof ∧ PlainTag x.type)) := by
  obtain ⟨h1, h2, h3, h4, h5, h6, -⟩ := h
  cases p with
  | null => simp [Ctx.get] at hx
  | nil =>
    simp only [Ctx.get, Option.some.injEq] at hx
    subst hx
    exact ⟨h3.2, Or.inr ⟨by decide, h3.1⟩⟩
  | eof =>
    simp only [Ctx.get, Option.some.injEq] at hx
    subst hx
    exact ⟨h6.2, Or.inl ⟨rfl, h6.1⟩⟩
  | zero =>
    simp only [Ctx.get, Option.some.injEq] at hx
    subst hx
    exact ⟨h4.2, Or.inr ⟨by decide, h4.1⟩⟩
  | one =>
    simp only [Ctx.get, Option.some.injEq] at hx
    subst hx
    exact ⟨h5.2, Or.inr ⟨by decide, h5.1⟩⟩
  | cell i =>
    obtain ⟨hi, he⟩ := List.getElem?_eq_some.mp hx
    have := h1 x (he ▸ List.getElem_mem hi)
    exact ⟨this.2, Or.inr ⟨by simp, this.1⟩⟩
  | stack i =>
    obtain ⟨hi, he⟩ := List.getElem?_eq_some.mp hx
    have := h2 x (he ▸ List.getElem_mem hi)
    exact ⟨this.2, Or.inr ⟨by simp, this.1⟩⟩

/-- In a plain state the tag Eof is the tag of the Eof singleton only. -/
theorem plain_eof_iff {c : Ctx} (h : Plain c) {p : Ptr} {x : Value} (hx : c.get p = some x) :
    x.type = LX_EOF ↔ p = Ptr.eof := by
  rcases (plain_get h hx).2 with ⟨hp, ht⟩ | ⟨hp, ht⟩
  · exact ⟨fun _ => hp, fun _ => ht⟩
  · exact ⟨fun e => absurd e ht.1, fun e => absurd e hp⟩

/-- In a plain state the test of `BUBBLE_EOF` tells whether the pointer is the
Eof singleton. -/
theorem isEof_plain {c : Ctx} (h : Plain c) {p : Ptr} {b : Bool}
    (hb : isEof c p = Except.ok b) : b = decide (p = Ptr.eof) := by
  unfold isEof Ctx.deref at hb
  cases hx : c.get p with
  | none => simp [hx, bind, Except.bind] at hb
  | some x =>
    simp only [hx, bind, Except.bind, Except.ok.injEq] at hb
    subst hb
    have := plain_eof_iff h hx
    by_cases hp : p = Ptr.eof
    · simp [hp, this.mpr hp]
    · have hne : x.type ≠ LX_EOF := fun e => hp (this.mp e)
      simp [hp, hne]

/-- Writing a plain value (the Eof singleton keeps its tag) keeps a state plain. -/
theorem plain_set {c : Ctx} (h : Plain c) (p : Ptr) (v : Value) (hf : PlainF v)
    (hv : p ≠ Ptr.eof → PlainTag v.type) (he : p = Ptr.eof → v.type = LX_EOF) :
    Plain (c.set p v) := by
  obtain ⟨h1, h2, h3, h4, h5, h6, h7⟩ := h
  cases p with
  | null => exact ⟨h1, h2, h3, h4, h5, h6, h7⟩
  | nil => exact ⟨h1, h2, ⟨hv (by decide), hf⟩, h4, h5, h6, h7⟩
  | eof => exact ⟨h1, h2, h3, h4, h5, ⟨he rfl, hf⟩, h7⟩
  | zero => exact ⟨h1, h2, h3, ⟨hv (by decide), hf⟩, h5, h6, h7⟩
  | one => exact ⟨h1, h2, h3, h4, ⟨hv (by decide), hf⟩, h6, h7⟩
  | cell i =>
    refine ⟨?_, h2, h3, h4, h5, h6, h7⟩
    intro x hx
    rcases List.mem_or_eq_of_mem_set hx with hm | rfl
    · exact h1 x hm
    · exact ⟨hv (by simp), hf⟩
  | stack i =>
    refine ⟨h1, ?_, h3, h4, h5, h6, h7⟩
    intro x hx
    rcases List.mem_or_eq_of_mem_set hx with hm | rfl
    · exact h2 x hm
    · exact ⟨hv (by simp), hf⟩

/-- Replacing a value by one with the same tag and plain members keeps a state plain. -/
theorem plainAt_set {k c : Ctx} {p : Ptr} {x v : Value} (h : PlainAt k c)
    (hg : c.get p = some x) (h1 : v.type = x.type) (h2 : PlainF v) :
    PlainAt k (c.set p v) := by
  refine ⟨(set_text c p _).trans h.1, plain_set h.2 p _ h2 ?_ ?_⟩
  · intro hp
    rcases (plain_get h.2 hg).2 with ⟨hp', _⟩ | ⟨_, hv⟩
    · exact absurd hp' hp
    · rw [h1]
      exact hv
  · intro hp
    rcases (plain_get h.2 hg).2 with ⟨_, ht⟩ | ⟨hp', _⟩
    · rw [h1, ht]
    · exact absurd hp hp'

/-- An in-place update that keeps the tag and plain members keeps a state plain. -/
theorem plainAt_modify {k c c' : Ctx} {p : Ptr} {f : Value → Value} (h : PlainAt k c)
    (hm : c.modify p f = Except.ok c') (h1 : ∀ x, (f x).type = x.type)
    (h2 : ∀ x, PlainF x → PlainF (f x)) : PlainAt k c' := by
  unfold Ctx.modify at hm
  cases hg : c.get p with
  | none => simp [hg] at hm
  | some x =>
    simp only [hg, Except.ok.injEq] at hm
    subst hm
    exact plainAt_set h hg (h1 x) (h2 x (plain_get h.2 hg).1)

theorem plainAt_mark {k c c' : Ctx} {p : Ptr} (h : PlainAt k c)
    (hm : c.modify p (fun x => { x with mark := true }) = Except.ok c') : PlainAt k c' :=
  plainAt_modify h hm (fun _ => rfl) (fun _ hx => plainF_of_fields hx rfl rfl rfl rfl)

/-- Mark bits do not matter for plainness. -/
theorem plain_markLe {c c' : Ctx} (h : Plain c) (hle : MarkLe c c') : Plain c' := by
  have key : ∀ p y, c'.get p = some y →
      ∃ x, c.get p = some x ∧ y.type = x.type ∧ (PlainF x → PlainF y) := by
    intro p y hy
    obtain ⟨x, hx, hu⟩ := markLe_children_back hle hy
    have u := unmark_fields hu
    exact ⟨x, hx, u.1, fun hf => plainF_of_fields hf u.2.2.1 u.2.2.2.1
      u.2.2.2.2.2.2.2.1 u.2.2.2.2.2.2.2.2.2.2⟩
  have single : ∀ p y, p ≠ Ptr.eof → c'.get p = some y → PlainTag y.type ∧ PlainF y := by
    intro p y hp hy
    obtain ⟨x, hx, ht, hf⟩ := key p y hy
    obtain ⟨g1, g2⟩ := plain_get h hx
    rcases g2 with ⟨e, _⟩ | ⟨_, g3⟩
    · exact absurd e hp
    · exact ⟨ht ▸ g3, hf g1⟩
  refine ⟨?_, ?_, single Ptr.nil _ (by decide) rfl, single Ptr.zero _ (by decide) rfl,
    single Ptr.one _ (by decide) rfl, ?_, ?_⟩
  · intro y hy
    obtain ⟨i, hi, he⟩ := List.getElem_of_mem hy
    exact single (Ptr.cell i) y (by simp) (by
      show c'.cells[i]? = some y
      rw [List.getElem?_eq_getElem hi, he])
  · intro y hy
    obtain ⟨i, hi, he⟩ := List.getElem_of_mem hy
    exact single (Ptr.stack i) y (by simp) (by
      show c'.stack[i]? = some y
      rw [List.getElem?_eq_getElem hi, he])
  · obtain ⟨x, hx, ht, hf⟩ := key Ptr.eof c'.eof_ rfl
    obtain ⟨g1, g2⟩ := plain_get h hx
    rcases g2 with ⟨_, g3⟩ | ⟨e, _⟩
    · exact ⟨ht.trans g3, hf g1⟩
    · exact absurd rfl e
  · rw [hle.free_list]
    exact h.2.2.2.2.2.2

/-- The sweep keeps a state plain. -/
theorem plain_sweep : ∀ (n i : Nat) (c : Ctx) (k : Nat), Plain c → Plain (sweep n i c k).1 := by
  intro n
  induction n with
  | zero =>
    intro i c k h
    simpa [sweep] using h
  | succ n ih =>
    intro i c k h
    rw [sweep]
    cases hi : c.cells[i]? with
    | none => simpa using h
    | some x =>
      simp only []
      obtain ⟨gf, gt⟩ := plain_get h (p := Ptr.cell i) hi
      have gt' : PlainTag x.type := by
        rcases gt with ⟨e, _⟩ | ⟨_, g⟩
        · cases e
        · exact g
      by_cases hm : x.mark = true
      · rw [if_pos hm]
        exact ih _ _ _ (plain_set h (Ptr.cell i) _ (plainF_of_fields gf rfl rfl rfl rfl)
          (fun _ => gt') (fun e => by cases e))
      · rw [if_neg hm]
        apply ih
        have h' := plain_set h (Ptr.cell i) { x with type := LX_FREE, free := c.free_list }
          ⟨gf.1, gf.2.1, gf.2.2.1, h.2.2.2.2.2.2⟩
          (fun _ => ⟨by simp, by simp, by simp⟩) (fun e => by cases e)
        exact ⟨h'.1, h'.2.1, h'.2.2.1, h'.2.2.2.1, h'.2.2.2.2.1, h'.2.2.2.2.2.1, rfl⟩

/-- A collection keeps a state plain and leaves the text alone. -/
theorem plainAt_gc {k c c' : Ctx} {fuel n : Nat} (h : PlainAt k c)
    (hgc : lx_gc fuel c = Except.ok (c', n)) : PlainAt k c' := by
  unfold lx_gc at hgc
  cases h1 : mark fuel c c.current with
  | error e => simp [h1] at hgc
  | ok c1 =>
    simp only [h1] at hgc
    cases h2 : markPersist fuel c1.cells.length 0 c1 with
    | error e => simp [h2] at hgc
    | ok c2 =>
      simp only [h2, Except.ok.injEq] at hgc
      obtain ⟨hle, -⟩ := mark_phase_spec fuel c c1 c2 h1 h2
      have ht2 : c2.text = c.text := by
        rw [markPersist_text fuel _ _ _ _ h2, (mark_text fuel).1 _ _ _ h1]
      have p2 : Plain c2.tick := (plain_markLe h.2 hle : Plain c2)
      have hc' : c' = (sweep c2.cells.length 0 c2.tick 0).1 := by rw [hgc]
      rw [hc']
      have ht3 : c2.tick.text = c.text := ht2
      exact ⟨((sweep_frame c2.cells.length 0 c2.tick 0).1.trans ht3).trans h.1,
        plain_sweep _ _ _ _ p2⟩

theorem isCellOrNull_cases {p : Ptr} (h : p.isCellOrNull = true) :
    p = Ptr.null ∨ ∃ j, p = Ptr.cell j := by
  cases p <;> simp [Ptr.isCellOrNull] at h ⊢

/-- An allocation keeps a state plain; the result is null or an arena cell. -/
theorem plainAt_alloc {k c c' : Ctx} {g : Nat} {t : LxType} {m : Bool} {p : Ptr}
    (h : PlainAt k c) (ht : PlainTag t) (ha : lx_alloc g c t m = Except.ok (p, c')) :
    PlainAt k c' ∧ p.isCellOrNull = true := by
  obtain ⟨c0, hc0, hpop⟩ := lx_alloc_cases g c t m p c' ha
  have i0 : PlainAt k c0 := by
    rcases hc0 with ⟨rfl, _⟩ | ⟨_, n, hgc⟩
    · exact h
    · exact plainAt_gc h hgc
  rcases hpop with ⟨hq, hc, _⟩ | ⟨x, hx, hq, hc⟩
  · subst hq
    subst hc
    exact ⟨i0, rfl⟩
  · have hfl := i0.2.2.2.2.2.2.2
    rw [← hq] at hfl hx
    obtain ⟨gf, gt⟩ := plain_get i0.2 hx
    have hset := plainAt_set (v := { x with type := t, mark := m }) i0 hx
    refine ⟨?_, hfl⟩
    subst hc
    have hp : p ≠ Ptr.eof := by
      intro e
      rw [e] at hfl
      simp [Ptr.isCellOrNull] at hfl
    have hs : Plain (c0.set p { x with type := t, mark := m }) :=
      plain_set i0.2 p _ (plainF_of_fields gf rfl rfl rfl rfl) (fun _ => ht)
        (fun e => absurd e hp)
    refine ⟨?_, ?_⟩
    · show (c0.set c0.free_list _).text = k.text
      rw [set_text]
      exact i0.1
    · unfold Ctx.popFree
      rw [← hq]
      exact ⟨hs.1, hs.2.1, hs.2.2.1, hs.2.2.2.1, hs.2.2.2.2.1, hs.2.2.2.2.2.1, gf.2.2.2⟩

/-- The function `lx_promote` of a plain value keeps a state plain and
returns an arena cell. -/
theorem plainAt_promote {k c c' : Ctx} {g : Nat} {val : Value} {p : Ptr}
    (h : PlainAt k c) (hv : PlainTag val.type ∧ PlainF val)
    (hp : lx_promote g c val = Except.ok (p, c')) : PlainAt k c' ∧ p ≠ Ptr.eof := by
  unfold lx_promote at hp
  cases ha : lx_alloc g c val.type false with
  | error e => simp [ha, bind, Except.bind] at hp
  | ok r =>
    obtain ⟨q, c1⟩ := r
    cases hd : c1.get q with
    | none => simp [ha, bind, Except.bind, Ctx.deref, hd] at hp
    | some y =>
      simp only [ha, bind, Except.bind, Ctx.deref, hd, Except.ok.injEq, Prod.mk.injEq] at hp
      obtain ⟨hpq, hc'⟩ := hp
      subst hpq
      subst hc'
      obtain ⟨i1, hq⟩ := plainAt_alloc h hv.1 ha
      have hne : q ≠ Ptr.eof := by
        intro e
        rw [e] at hq
        simp [Ptr.isCellOrNull] at hq
      exact ⟨⟨(set_text _ _ _).trans i1.1,
        plain_set i1.2 q val hv.2 (fun _ => hv.1) (fun e => absurd e hne)⟩, hne⟩

/-- The function `lx_makenv` keeps a state plain and returns an arena cell. -/
theorem plainAt_makenv {k c c' : Ctx} {g : Nat} {p : Ptr} (h : PlainAt k c)
    (hp : lx_makenv g c = Except.ok (p, c')) : PlainAt k c' ∧ p ≠ Ptr.eof := by
  unfold lx_makenv at hp
  cases ha : lx_alloc g c LX_ENV true with
  | error e => simp [ha, bind, Except.bind] at hp
  | ok r =>
    obtain ⟨q, c1⟩ := r
    obtain ⟨i1, hq⟩ := plainAt_alloc h (by simp [PlainTag]) ha
    simp only [ha, bind, Except.bind] at hp
    split at hp
    · cases hp
    · rename_i c2 hm
      simp only [Except.ok.injEq, Prod.mk.injEq] at hp
      obtain ⟨hpq, hc'⟩ := hp
      subst hpq
      subst hc'
      refine ⟨plainAt_modify i1 hm (fun _ => rfl) ?_, ?_⟩
      · intro x hx
        exact ⟨by simp, by simp, hx.2.2.1, hx.2.2.2⟩
      · intro e
        rw [e] at hq
        simp [Ptr.isCellOrNull] at hq

/-- The loop of `lx_setenv` keeps a state plain; the pointers it hands to the
rest of the function do not refer to the Eof singleton. -/
theorem plainAt_setenvLoop {k : Ctx} {name value : Ptr} (hval : value ≠ Ptr.eof) :
    ∀ (fuel : Nat) (c : Ctx) (prev env : Ptr) (r : Bool × Ptr × Ptr × Ctx),
      PlainAt k c → env ≠ Ptr.eof →
      setenvLoop fuel c prev env name value = Except.ok r →
      PlainAt k r.2.2.2 ∧ r.2.2.1 ≠ Ptr.eof := by
  intro fuel
  induction fuel with
  | zero =>
    intro c prev env r h he hr
    simp [setenvLoop] at hr
  | succ fuel ih =>
    intro c prev env r h he hr
    rw [setenvLoop] at hr
    by_cases hn : env = Ptr.null
    · simp only [hn, if_true, Except.ok.injEq] at hr
      subst hr
      exact ⟨h, by simp⟩
    · simp only [hn, if_false, bind, Except.bind, Ctx.deref] at hr
      cases hg : c.get env with
      | none => simp [hg] at hr
      | some x =>
        simp only [hg] at hr
        by_cases hk : x.name = Ptr.null
        · simp only [hk, if_true, Except.ok.injEq] at hr
          subst hr
          exact ⟨h, he⟩
        · simp only [hk, if_false] at hr
          cases hs : lx_symbeq c x.name name with
          | error e => simp [hs] at hr
          | ok b =>
            simp only [hs] at hr
            obtain ⟨gf, -⟩ := plain_get h.2 hg
            cases b with
            | true =>
              simp only [if_true, Except.ok.injEq] at hr
              subst hr
              exact ⟨plainAt_set h hg rfl ⟨hval, gf.2.1, gf.2.2.1, gf.2.2.2⟩, he⟩
            | false =>
              simp only [Bool.false_eq_true, if_false] at hr
              exact ih c env x.next r h gf.2.1 hr

/-- A computation that returns has returned from its first step. -/
theorem bind_ok {α β : Type} {x : Except Err α} {f : α → Except Err β} {b : β}
    (h : x >>= f = Except.ok b) : ∃ a, x = Except.ok a ∧ f a = Except.ok b := by
  cases x with
  | error e => cases h
  | ok a => exact ⟨a, rfl, h⟩

/-- The function `lx_setenv` (entered at any point of the chain) keeps a
state plain when the value bound is not the Eof singleton. -/
theorem plainAt_setenv {k c c' : Ctx} {g fuel : Nat} {prev env name value : Ptr}
    (h : PlainAt k c) (hval : value ≠ Ptr.eof) (henv : env ≠ Ptr.eof)
    (hs : setenvFrom g fuel c prev env name value = Except.ok c') : PlainAt k c' := by
  unfold setenvFrom at hs
  obtain ⟨⟨done, prev1, env1, c1⟩, hl, hs⟩ := bind_ok hs
  obtain ⟨i1, he1⟩ := plainAt_setenvLoop hval fuel c prev env _ h henv hl
  simp only at hs i1 he1
  cases done with
  | true =>
    simp only [if_true, Except.ok.injEq] at hs
    subst hs
    exact i1
  | false =>
    simp only [Bool.false_eq_true, if_false] at hs
    unfold setenvTail at hs
    obtain ⟨⟨env2, c2⟩, h1, hs⟩ := bind_ok hs
    obtain ⟨c3, h2, hs⟩ := bind_ok hs
    have i2 : PlainAt k c2 ∧ env2 ≠ Ptr.eof := by
      by_cases hn : env1 = Ptr.null
      · rw [if_pos hn] at h1
        obtain ⟨⟨en, d⟩, ha, h1⟩ := bind_ok h1
        obtain ⟨d1, hd1, h1⟩ := bind_ok h1
        simp only [Except.ok.injEq, Prod.mk.injEq] at h1
        obtain ⟨e1, e2⟩ := h1
        subst e1
        subst e2
        obtain ⟨j2, hq⟩ := plainAt_alloc i1 (by simp [PlainTag]) ha
        refine ⟨plainAt_modify j2 hd1 (fun _ => rfl)
          (fun x hx => ⟨hx.1, by simp, hx.2.2.1, hx.2.2.2⟩), ?_⟩
        intro e
        rw [e] at hq
        simp [Ptr.isCellOrNull] at hq
      · rw [if_neg hn] at h1
        simp only [Except.ok.injEq, Prod.mk.injEq] at h1
        obtain ⟨e1, e2⟩ := h1
        subst e1
        subst e2
        exact ⟨i1, he1⟩
    have i3 : PlainAt k c3 := by
      by_cases hb : (env2 != prev1) = true
      · rw [if_pos hb] at h2
        exact plainAt_modify i2.1 h2 (fun _ => rfl)
          (fun x hx => ⟨hx.1, i2.2, hx.2.2.1, hx.2.2.2⟩)
      · rw [if_neg hb] at h2
        cases h2
        exact i2.1
    exact plainAt_modify i3 hs (fun _ => rfl)
      (fun x hx => ⟨hval, hx.2.1, hx.2.2.1, hx.2.2.2⟩)

theorem ne_eof_of_isCellOrNull {p : Ptr} (h : p.isCellOrNull = true) : p ≠ Ptr.eof := by
  intro e
  rw [e] at h
  simp [Ptr.isCellOrNull] at h

theorem plainF_list : PlainF { type := LX_LIST, value := Ptr.null, next := Ptr.null } := by
  simp [PlainF, Ptr.isCellOrNull]

theorem listLast_ne {c : Ctx} (h : Plain c) : ∀ (fuel : Nat) (list l : Ptr), list ≠ Ptr.eof →
    listLast fuel c list = Except.ok l → l ≠ Ptr.eof := by
  intro fuel
  induction fuel with
  | zero =>
    intro list l _ hl
    simp [listLast] at hl
  | succ fuel ih =>
    intro list l hne hl
    rw [listLast] at hl
    obtain ⟨x, hx, hl⟩ := bind_ok hl
    have hg : c.get list = some x := by
      unfold Ctx.deref at hx
      cases hg : c.get list with
      | none => simp [hg] at hx
      | some y =>
        simp only [hg, Except.ok.injEq] at hx
        rw [hx]
    by_cases hn : x.next = Ptr.null
    · rw [if_pos hn] at hl
      cases hl
      exact hne
    · rw [if_neg hn] at hl
      exact ih _ _ (plain_get h hg).1.2.1 hl

theorem listLastPrev_ne {c : Ctx} (h : Plain c) : ∀ (fuel : Nat) (prev list p l : Ptr),
    list ≠ Ptr.eof → listLastPrev fuel c prev list = Except.ok (p, l) → l ≠ Ptr.eof := by
  intro fuel
  induction fuel with
  | zero =>
    intro prev list p l _ hl
    simp [listLastPrev] at hl
  | succ fuel ih =>
    intro prev list p l hne hl
    rw [listLastPrev] at hl
    obtain ⟨x, hx, hl⟩ := bind_ok hl
    have hg : c.get list = some x := by
      unfold Ctx.deref at hx
      cases hg : c.get list with
      | none => simp [hg] at hx
      | some y =>
        simp only [hg, Except.ok.injEq] at hx
        rw [hx]
    by_cases hn : x.next = Ptr.null
    · rw [if_pos hn] at hl
      simp only [Except.ok.injEq, Prod.mk.injEq] at hl
      rw [← hl.2]
      exact hne
    · rw [if_neg hn] at hl
      exact ih _ _ _ _ (plain_get h hg).1.2.1 hl

theorem deref_get {c : Ctx} {p : Ptr} {x : Value} (h : c.deref p = Except.ok x) :
    c.get p = some x := by
  unfold Ctx.deref at h
  cases hg : c.get p with
  | none => simp [hg] at h
  | some y =>
    simp only [hg, Except.ok.injEq] at h
    rw [h]

/-- The function `lx_listappend` keeps a state plain when the item is not the
Eof singleton; it returns a pointer other than the Eof singleton. -/
theorem plainAt_listappend {k c c' : Ctx} {g : Nat} {list item p : Ptr} (h : PlainAt k c)
    (hitem : item ≠ Ptr.eof) (hlist : list ≠ Ptr.eof)
    (hr : lx_listappend g c list item = Except.ok (p, c')) : PlainAt k c' ∧ p ≠ Ptr.eof := by
  unfold lx_listappend at hr
  obtain ⟨x, hx, hr⟩ := bind_ok hr
  have hg := deref_get hx
  obtain ⟨gf, -⟩ := plain_get h.2 hg
  by_cases ht : (x.type != LX_LIST) = true
  · rw [if_pos ht] at hr
    simp only [Except.ok.injEq, Prod.mk.injEq] at hr
    rw [← hr.1, ← hr.2]
    exact ⟨h, by decide⟩
  · rw [if_neg ht] at hr
    by_cases hv : x.value = Ptr.null
    · rw [if_pos hv] at hr
      simp only [Except.ok.injEq, Prod.mk.injEq] at hr
      rw [← hr.1, ← hr.2]
      exact ⟨plainAt_set h hg rfl ⟨hitem, gf.2.1, gf.2.2.1, gf.2.2.2⟩, hlist⟩
    · rw [if_neg hv] at hr
      obtain ⟨l, hl, hr⟩ := bind_ok hr
      obtain ⟨⟨n, c1⟩, hn, hr⟩ := bind_ok hr
      obtain ⟨c2, h2, hr⟩ := bind_ok hr
      obtain ⟨c3, h3, hr⟩ := bind_ok hr
      simp only [Except.ok.injEq, Prod.mk.injEq] at hr
      rw [← hr.1, ← hr.2]
      obtain ⟨i1, hne⟩ := plainAt_promote h ⟨by simp [PlainTag], plainF_list⟩ hn
      have i2 : PlainAt k c2 := plainAt_modify i1 h2 (fun _ => rfl)
        (fun y hy => ⟨hy.1, hne, hy.2.2.1, hy.2.2.2⟩)
      exact ⟨plainAt_modify i2 h3 (fun _ => rfl)
        (fun y hy => ⟨hitem, hy.2.1, hy.2.2.1, hy.2.2.2⟩), hne⟩

/-- The function `lx_listpop` keeps a state plain and returns a pointer other
than the Eof singleton. -/
theorem plainAt_listpop {k c c' : Ctx} {g : Nat} {list p : Ptr} (h : PlainAt k c)
    (hlist : list ≠ Ptr.eof) (hr : lx_listpop g c list = Except.ok (p, c')) :
    PlainAt k c' ∧ p ≠ Ptr.eof := by
  unfold lx_listpop at hr
  obtain ⟨x, hx, hr⟩ := bind_ok hr
  by_cases ht : (x.type != LX_LIST) = true
  · rw [if_pos ht] at hr
    simp only [Except.ok.injEq, Prod.mk.injEq] at hr
    rw [← hr.1, ← hr.2]
    exact ⟨h, by decide⟩
  · rw [if_neg ht] at hr
    obtain ⟨⟨prev, l⟩, hl, hr⟩ := bind_ok hr
    obtain ⟨c1, h1, hr⟩ := bind_ok hr
    obtain ⟨c2, h2, hr⟩ := bind_ok hr
    simp only [Except.ok.injEq, Prod.mk.injEq] at hr
    rw [← hr.1, ← hr.2]
    have i1 : PlainAt k c1 := plainAt_modify h h1 (fun _ => rfl)
      (fun y hy => ⟨hy.1, by simp, hy.2.2.1, hy.2.2.2⟩)
    refine ⟨?_, listLastPrev_ne h.2 g list list prev l hlist hl⟩
    by_cases hp : prev = l
    · rw [if_pos hp] at h2
      exact plainAt_modify i1 h2 (fun _ => rfl)
        (fun y hy => ⟨by simp, hy.2.1, hy.2.2.1, hy.2.2.2⟩)
    · rw [if_neg hp] at h2
      cases h2
      exact i1

theorem lx_getenv_ne {c : Ctx} (h : Plain c) : ∀ (fuel : Nat) (env name r : Ptr),
    lx_getenv fuel c env name = Except.ok r → r ≠ Ptr.eof := by
  intro fuel
  induction fuel with
  | zero =>
    intro env name r hr
    simp [lx_getenv] at hr
  | succ fuel ih =>
    intro env name r hr
    rw [lx_getenv] at hr
    by_cases hn : env = Ptr.null
    · rw [if_pos hn] at hr
      cases hr
      decide
    · rw [if_neg hn] at hr
      obtain ⟨x, hx, hr⟩ := bind_ok hr
      obtain ⟨b, hb, hr⟩ := bind_ok hr
      cases b with
      | true =>
        simp only [if_true, Except.ok.injEq] at hr
        rw [← hr]
        exact (plain_get h (deref_get hx)).1.1
      | false =>
        simp only [Bool.false_eq_true, if_false] at hr
        exact ih _ _ _ hr

theorem lx_getcall_ne {c : Ctx} (h : Plain c) : ∀ (fuel : Nat) (call name r : Ptr),
    lx_getcall fuel c call name = Except.ok r → r ≠ Ptr.eof := by
  intro fuel
  induction fuel with
  | zero =>
    intro call name r hr
    simp [lx_getcall] at hr
  | succ fuel ih =>
    intro call name r hr
    rw [lx_getcall] at hr
    obtain ⟨f, hf, hr⟩ := bind_ok hr
    obtain ⟨result, hres, hr⟩ := bind_ok hr
    obtain ⟨x, hx, hr⟩ := bind_ok hr
    by_cases ht : (x.type != LX_NIL) = true
    · rw [if_pos ht] at hr
      cases hr
      exact lx_getenv_ne h _ _ _ _ hres
    · rw [if_neg ht] at hr
      by_cases hl : f.last = Ptr.null
      · rw [if_pos hl] at hr
        cases hr
        decide
      · rw [if_neg hl] at hr
        exact ih _ _ _ hr

theorem plainAt_push {k c : Ctx} (h : PlainAt k c) (v : Value) (hv : PlainTag v.type ∧ PlainF v) :
    PlainAt k (c.push v).2 := by
  obtain ⟨ht, h1, h2, h3⟩ := h
  refine ⟨ht, h1, ?_, h3⟩
  intro x hx
  rcases List.mem_append.mp hx with hm | hm
  · exact h2 x hm
  · simp only [List.mem_singleton] at hm
    rw [hm]
    exact hv

theorem plainAt_pop {k c : Ctx} (h : PlainAt k c) (n : Nat) : PlainAt k (c.pop n) := by
  obtain ⟨ht, h1, h2, h3⟩ := h
  exact ⟨ht, h1, fun x hx => h2 x (List.mem_of_mem_take hx), h3⟩

theorem plainAt_current {k c : Ctx} (h : PlainAt k c) (p : Ptr) :
    PlainAt k { c with current := p } := h

theorem plainAt_out {k c : Ctx} (h : PlainAt k c) (o : List (List Nat)) :
    PlainAt k { c with out := o } := h

theorem peek_text {k c : Ctx} (h : c.text = k.text) (i : Nat) : c.peek i = k.peek i := by
  simp [Ctx.peek, h]

theorem eatSpace_text {k c : Ctx} (h : c.text = k.text) (i : Nat) :
    eatSpace c i = eatSpace k i := by
  simp [eatSpace, h]

theorem lx_word_text {k c : Ctx} (h : c.text = k.text) (i : Nat) :
    lx_word c i = lx_word k i := by
  simp [lx_word, h]

theorem lx_parsenumber_text {k c : Ctx} (h : c.text = k.text) (i : Nat) :
    lx_parsenumber c i = lx_parsenumber k i := by
  simp [lx_parsenumber, h]

/-- A value written by a constructor, with null pointer members, is plain. -/
theorem plainV_lit (v : Value) (ht : PlainTag v.type) (h1 : v.value = Ptr.null)
    (h2 : v.next = Ptr.null) (h3 : v.env = Ptr.null) (h4 : v.free = Ptr.null) :
    PlainTag v.type ∧ PlainF v := by
  refine ⟨ht, ?_⟩
  unfold PlainF
  rw [h1, h2, h3, h4]
  simp [Ptr.isCellOrNull]

theorem scans_at {k : Ctx} {ev : Eval} {sc : Scan} (hev : Scans k ev sc) {c : Ctx} {call : Ptr}
    {s e : Nat} {es se : Bool} {a : Ptr} {n1 : Nat} {c1 : Ctx} (h : PlainAt k c)
    (h1 : ev c call s e es se = Except.ok (a, n1, c1)) :
    PlainAt k c1 ∧ sc s e = some (decide (a = Ptr.eof), n1) :=
  hev c call s e es se _ h h1

/-- The macro `GET_AB` reads its operands as `scanAB` says. -/
theorem getAB_scan {k : Ctx} {ev : Eval} {sc : Scan} (hev : Scans k ev sc) {c : Ctx}
    {call : Ptr} {start next e : Nat} {se : Bool} {ab : Option (Ptr × Ptr)} {e1 : Nat}
    {c1 : Ctx} (h : PlainAt k c)
    (hr : getAB ev c call start next e se = Except.ok (ab, e1, c1)) :
    PlainAt k c1 ∧ scanAB sc start next e = some (ab.isNone, e1) ∧
      ∀ a b, ab = some (a, b) → a ≠ Ptr.eof ∧ b ≠ Ptr.eof := by
  unfold getAB at hr
  obtain ⟨⟨a, next1, d1⟩, h1, hr⟩ := bind_ok hr
  obtain ⟨i1, s1⟩ := scans_at hev h h1
  obtain ⟨d2, h2, hr⟩ := bind_ok hr
  have i2 : PlainAt k d2 := plainAt_mark i1 h2
  obtain ⟨b1, hb1, hr⟩ := bind_ok hr
  have e1' := isEof_plain i2.2 hb1
  by_cases ha : a = Ptr.eof
  · simp only [e1', ha, decide_True, if_true, Except.ok.injEq, Prod.mk.injEq] at hr
    obtain ⟨r1, r2, r3⟩ := hr
    subst r1 r2 r3
    refine ⟨i2, ?_, by simp⟩
    simp [scanAB, s1, ha]
  · simp only [e1', ha, decide_False, Bool.false_eq_true, if_false] at hr
    obtain ⟨⟨b, e2, d3⟩, h3, hr⟩ := bind_ok hr
    obtain ⟨i3, s3⟩ := scans_at hev i2 h3
    obtain ⟨b2, hb2, hr⟩ := bind_ok hr
    have e2' := isEof_plain i3.2 hb2
    by_cases hb : b = Ptr.eof
    · simp only [e2', hb, decide_True, if_true, Except.ok.injEq, Prod.mk.injEq] at hr
      obtain ⟨r1, r2, r3⟩ := hr
      subst r1 r2 r3
      refine ⟨i3, ?_, by simp⟩
      simp [scanAB, s1, ha, s3, hb]
    · simp only [e2', hb, decide_False, Bool.false_eq_true, if_false, Except.ok.injEq,
        Prod.mk.injEq] at hr
      obtain ⟨r1, r2, r3⟩ := hr
      subst r1 r2 r3
      refine ⟨i3, ?_, ?_⟩
      · simp [scanAB, s1, ha, s3, hb]
      · intro a' b' hab
        simp only [Option.some.injEq, Prod.mk.injEq] at hab
        rw [← hab.1, ← hab.2]
        exact ⟨ha, hb⟩

theorem arithOp_scan {k : Ctx} {ev : Eval} {sc : Scan} (hev : Scans k ev sc) {c : Ctx}
    {g : Nat} {op : ℚ → ℚ → ℚ} {call : Ptr} {start next e : Nat} {se : Bool}
    {r : Ptr × Nat × Ctx} (h : PlainAt k c)
    (hr : arithOp g ev op c call start next e se = Except.ok r) :
    PlainAt k r.2.2 ∧ scanAB sc start next e = some (decide (r.1 = Ptr.eof), r.2.1) := by
  unfold arithOp at hr
  obtain ⟨⟨ab, e1, c1⟩, h1, hr⟩ := bind_ok hr
  obtain ⟨i1, s1, -⟩ := getAB_scan hev h h1
  cases ab with
  | none =>
    simp only [Except.ok.injEq] at hr
    subst hr
    exact ⟨i1, by simpa using s1⟩
  | some q =>
    obtain ⟨a, b⟩ := q
    simp only at hr
    obtain ⟨x, hx, hr⟩ := bind_ok hr
    obtain ⟨y, hy, hr⟩ := bind_ok hr
    by_cases ht : (x.type != y.type) = true
    · rw [if_pos ht] at hr
      cases hr
      exact ⟨i1, by simpa using s1⟩
    · rw [if_neg ht] at hr
      by_cases hn : (x.type == LX_NUMBER) = true
      · rw [if_pos hn] at hr
        obtain ⟨⟨p, c2⟩, hp, hr⟩ := bind_ok hr
        cases hr
        obtain ⟨i2, hne⟩ := plainAt_promote i1 (plainV_lit _ (by simp [PlainTag]) rfl rfl rfl rfl) hp
        exact ⟨i2, by simpa [hne] using s1⟩
      · rw [if_neg hn] at hr
        cases hr
        exact ⟨i1, by simpa using s1⟩

theorem compOp_scan {k : Ctx} {ev : Eval} {sc : Scan} (hev : Scans k ev sc) {c : Ctx}
    {op : ℚ → ℚ → Bool} {call : Ptr} {start next e : Nat} {se : Bool}
    {r : Option Ptr × Ptr × Ptr × Nat × Ctx} (h : PlainAt k c)
    (hr : compOp ev op c call start next e se = Except.ok r) :
    PlainAt k r.2.2.2.2 ∧
      scanAB sc start next e = some (decide (r.1 = some Ptr.eof), r.2.2.2.1) := by
  unfold compOp at hr
  obtain ⟨⟨ab, e1, c1⟩, h1, hr⟩ := bind_ok hr
  obtain ⟨i1, s1, -⟩ := getAB_scan hev h h1
  cases ab with
  | none =>
    simp only [Except.ok.injEq] at hr
    subst hr
    exact ⟨i1, by simpa using s1⟩
  | some q =>
    obtain ⟨a, b⟩ := q
    simp only at hr
    obtain ⟨x, hx, hr⟩ := bind_ok hr
    obtain ⟨y, hy, hr⟩ := bind_ok hr
    by_cases ht : (x.type != y.type) = true
    · rw [if_pos ht] at hr
      cases hr
      exact ⟨i1, by simpa using s1⟩
    · rw [if_neg ht] at hr
      by_cases hn : (x.type == LX_NUMBER) = true
      · rw [if_pos hn] at hr
        cases hr
        refine ⟨i1, ?_⟩
        by_cases ho : op x.number y.number = true <;> simpa [ho] using s1
      · rw [if_neg hn] at hr
        cases hr
        exact ⟨i1, by simpa using s1⟩

theorem evalCompare_scan {k : Ctx} {ev : Eval} {sc : Scan} (hev : Scans k ev sc) {c : Ctx}
    {op : ℚ → ℚ → Bool} {call : Ptr} {start next e : Nat} {se : Bool}
    {r : Ptr × Nat × Ctx} (h : PlainAt k c)
    (hr : evalCompare ev op c call start next e se = Except.ok r) :
    PlainAt k r.2.2 ∧ scanAB sc start next e = some (decide (r.1 = Ptr.eof), r.2.1) := by
  unfold evalCompare at hr
  obtain ⟨⟨q, a, b, e1, c1⟩, h1, hr⟩ := bind_ok hr
  obtain ⟨i1, s1⟩ := compOp_scan hev h h1
  have hq : q = some Ptr.eof ∨ q = some Ptr.zero ∨ q = some Ptr.one ∨ q = none := by
    unfold compOp at h1
    obtain ⟨⟨ab, e1', c1'⟩, -, h1⟩ := bind_ok h1
    cases ab with
    | none =>
      cases h1
      exact Or.inl rfl
    | some w =>
      obtain ⟨a', b'⟩ := w
      simp only at h1
      obtain ⟨x, hx, h1⟩ := bind_ok h1
      obtain ⟨y, hy, h1⟩ := bind_ok h1
      by_cases ht : (x.type != y.type) = true
      · rw [if_pos ht] at h1
        cases h1
        exact Or.inr (Or.inl rfl)
      · rw [if_neg ht] at h1
        by_cases hn : (x.type == LX_NUMBER) = true
        · rw [if_pos hn] at h1
          cases h1
          by_cases ho : op x.number y.number = true <;> simp [ho]
        · rw [if_neg hn] at h1
          cases h1
          exact Or.inr (Or.inr (Or.inr rfl))
  rcases hq with rfl | rfl | rfl | rfl <;>
  · simp only [Except.ok.injEq] at hr
    subst hr
    exact ⟨i1, by simpa using s1⟩

theorem evalEq_scan {k : Ctx} {ev : Eval} {sc : Scan} (hev : Scans k ev sc) {c : Ctx}
    {call : Ptr} {start next e : Nat} {se : Bool} {r : Ptr × Nat × Ctx} (h : PlainAt k c)
    (hr : evalEq ev c call start next e se = Except.ok r) :
    PlainAt k r.2.2 ∧ scanAB sc start next e = some (decide (r.1 = Ptr.eof), r.2.1) := by
  unfold evalEq at hr
  obtain ⟨⟨q, a, b, e1, c1⟩, h1, hr⟩ := bind_ok hr
  obtain ⟨i1, s1⟩ := compOp_scan hev h h1
  have hq : q = some Ptr.eof ∨ q = some Ptr.zero ∨ q = some Ptr.one ∨ q = none := by
    unfold compOp at h1
    obtain ⟨⟨ab, e1', c1'⟩, -, h1⟩ := bind_ok h1
    cases ab with
    | none =>
      cases h1
      exact Or.inl rfl
    | some w =>
      obtain ⟨a', b'⟩ := w
      simp only at h1
      obtain ⟨x, hx, h1⟩ := bind_ok h1
      obtain ⟨y, hy, h1⟩ := bind_ok h1
      by_cases ht : (x.type != y.type) = true
      · rw [if_pos ht] at h1
        cases h1
        exact Or.inr (Or.inl rfl)
      · rw [if_neg ht] at h1
        by_cases hn : (x.type == LX_NUMBER) = true
        · rw [if_pos hn] at h1
          cases h1
          by_cases ho : decide (x.number = y.number) = true <;> simp [ho]
        · rw [if_neg hn] at h1
          cases h1
          exact Or.inr (Or.inr (Or.inr rfl))
  rcases hq with rfl | rfl | rfl | rfl
  · simp only [Except.ok.injEq] at hr
    subst hr
    exact ⟨i1, by simpa using s1⟩
  · simp only [Except.ok.injEq] at hr
    subst hr
    exact ⟨i1, by simpa using s1⟩
  · simp only [Except.ok.injEq] at hr
    subst hr
    exact ⟨i1, by simpa using s1⟩
  · simp only at hr
    obtain ⟨x, hx, hr⟩ := bind_ok hr
    obtain ⟨y, hy, hr⟩ := bind_ok hr
    have hres : r.1 ≠ Ptr.eof ∧ r.2.1 = e1 ∧ r.2.2 = c1 := by
      split at hr
      · split at hr
        · cases hr
          exact ⟨by simp, rfl, rfl⟩
        · split at hr <;> cases hr <;> exact ⟨by simp, rfl, rfl⟩
      · split at hr <;> cases hr <;> exact ⟨by simp, rfl, rfl⟩
    obtain ⟨r1, r2, r3⟩ := hres
    rw [r2, r3]
    exact ⟨i1, by simpa [r1] using s1⟩

theorem evalLogic_scan {k : Ctx} {ev : Eval} {sc : Scan} (hev : Scans k ev sc) {c : Ctx}
    {op : Bool → Bool → Bool} {call : Ptr} {start next e : Nat} {se : Bool}
    {r : Ptr × Nat × Ctx} (h : PlainAt k c)
    (hr : evalLogic ev op c call start next e se = Except.ok r) :
    PlainAt k r.2.2 ∧ scanAB sc start next e = some (decide (r.1 = Ptr.eof), r.2.1) := by
  unfold evalLogic at hr
  obtain ⟨⟨ab, e1, c1⟩, h1, hr⟩ := bind_ok hr
  obtain ⟨i1, s1, -⟩ := getAB_scan hev h h1
  cases ab with
  | none =>
    simp only [Except.ok.injEq] at hr
    subst hr
    exact ⟨i1, by simpa using s1⟩
  | some q =>
    obtain ⟨a, b⟩ := q
    simp only at hr
    obtain ⟨ta, hta, hr⟩ := bind_ok hr
    obtain ⟨tb, htb, hr⟩ := bind_ok hr
    cases hr
    refine ⟨i1, ?_⟩
    by_cases ho : op ta tb = true <;> simpa [ho] using s1

/-- An operand read under `BUBBLE_EOF`: the state stays plain, and the scan
tells the outcome of the test and the cursor. -/
theorem operand_scan {k : Ctx} {ev : Eval} {sc : Scan} (hev : Scans k ev sc) {c : Ctx}
    {call : Ptr} {start e : Nat} {es se : Bool} {a : Ptr} {e1 : Nat} {c1 : Ctx} {b : Bool}
    (h : PlainAt k c) (h1 : ev c call start e es se = Except.ok (a, e1, c1))
    (hb : isEof c1 a = Except.ok b) :
    PlainAt k c1 ∧ sc start e = some (b, e1) ∧ (b = false → a ≠ Ptr.eof) := by
  obtain ⟨i1, s1⟩ := scans_at hev h h1
  have e1' := isEof_plain i1.2 hb
  refine ⟨i1, by rw [s1, e1'], ?_⟩
  intro hf
  rw [hf] at e1'
  simpa using e1'.symm

theorem evalNot_scan {k : Ctx} {ev : Eval} {sc : Scan} (hev : Scans k ev sc) {c : Ctx}
    {call : Ptr} {start e : Nat} {se : Bool} {r : Ptr × Nat × Ctx} (h : PlainAt k c)
    (hr : evalNot ev c call start e se = Except.ok r) :
    PlainAt k r.2.2 ∧ sc start e = some (decide (r.1 = Ptr.eof), r.2.1) := by
  unfold evalNot at hr
  obtain ⟨⟨a, e1, c1⟩, h1, hr⟩ := bind_ok hr
  obtain ⟨b1, hb1, hr⟩ := bind_ok hr
  obtain ⟨i1, s1, -⟩ := operand_scan hev h h1 hb1
  cases b1 with
  | true =>
    simp only [if_true, Except.ok.injEq] at hr
    subst hr
    exact ⟨i1, by simpa using s1⟩
  | false =>
    simp only [Bool.false_eq_true, if_false] at hr
    obtain ⟨t, ht, hr⟩ := bind_ok hr
    cases hr
    refine ⟨i1, ?_⟩
    cases t <;> simpa using s1

theorem evalRound_scan {k : Ctx} {ev : Eval} {sc : Scan} (hev : Scans k ev sc) {c : Ctx}
    {g : Nat} {call : Ptr} {start e : Nat} {se : Bool} {r : Ptr × Nat × Ctx} (h : PlainAt k c)
    (hr : evalRound g ev c call start e se = Except.ok r) :
    PlainAt k r.2.2 ∧ sc start e = some (decide (r.1 = Ptr.eof), r.2.1) := by
  unfold evalRound at hr
  obtain ⟨⟨a, e1, c1⟩, h1, hr⟩ := bind_ok hr
  obtain ⟨b1, hb1, hr⟩ := bind_ok hr
  obtain ⟨i1, s1, -⟩ := operand_scan hev h h1 hb1
  cases b1 with
  | true =>
    simp only [if_true, Except.ok.injEq] at hr
    subst hr
    exact ⟨i1, by simpa using s1⟩
  | false =>
    simp only [Bool.false_eq_true, if_false] at hr
    obtain ⟨x, hx, hr⟩ := bind_ok hr
    by_cases ht : (x.type != LX_NUMBER) = true
    · rw [if_pos ht] at hr
      cases hr
      exact ⟨i1, by simpa using s1⟩
    · rw [if_neg ht] at hr
      obtain ⟨⟨p, c2⟩, hp, hr⟩ := bind_ok hr
      cases hr
      obtain ⟨i2, hne⟩ := plainAt_promote i1
        (plainV_lit _ (by simp [PlainTag]) rfl rfl rfl rfl) hp
      exact ⟨i2, by simpa [hne] using s1⟩

theorem evalPrint_scan {k : Ctx} {ev : Eval} {sc : Scan} (hev : Scans k ev sc) {c : Ctx}
    {call : Ptr} {start e : Nat} {se : Bool} {r : Ptr × Nat × Ctx} (h : PlainAt k c)
    (hr : evalPrint ev c call start e se = Except.ok r) :
    PlainAt k r.2.2 ∧ sc start e = some (decide (r.1 = Ptr.eof), r.2.1) := by
  unfold evalPrint at hr
  obtain ⟨⟨a, e1, c1⟩, h1, hr⟩ := bind_ok hr
  obtain ⟨b1, hb1, hr⟩ := bind_ok hr
  obtain ⟨i1, s1, -⟩ := operand_scan hev h h1 hb1
  cases b1 with
  | true =>
    simp only [if_true, Except.ok.injEq] at hr
    subst hr
    exact ⟨i1, by simpa using s1⟩
  | false =>
    simp only [Bool.false_eq_true, if_false] at hr
    cases se with
    | true =>
      simp only [if_true] at hr
      obtain ⟨str, hs, hr⟩ := bind_ok hr
      cases hr
      exact ⟨plainAt_out i1 _, by simpa using s1⟩
    | false =>
      simp only [Bool.false_eq_true, if_false] at hr
      cases hr
      exact ⟨i1, by simpa using s1⟩

theorem evalAt_scan {k : Ctx} {ev : Eval} {sc : Scan} (hev : Scans k ev sc) {c : Ctx}
    {g : Nat} {call : Ptr} {start e : Nat} {se : Bool} {r : Ptr × Nat × Ctx} (h : PlainAt k c)
    (hr : evalAt g ev c call start e se = Except.ok r) :
    PlainAt k r.2.2 ∧ sc start e = some (decide (r.1 = Ptr.eof), r.2.1) := by
  unfold evalAt at hr
  obtain ⟨⟨a, e1, c1⟩, h1, hr⟩ := bind_ok hr
  obtain ⟨b1, hb1, hr⟩ := bind_ok hr
  obtain ⟨i1, s1, -⟩ := operand_scan hev h h1 hb1
  cases b1 with
  | true =>
    simp only [if_true, Except.ok.injEq] at hr
    subst hr
    exact ⟨i1, by simpa using s1⟩
  | false =>
    simp only [Bool.false_eq_true, if_false] at hr
    obtain ⟨p, hp, hr⟩ := bind_ok hr
    cases hr
    exact ⟨i1, by simpa [lx_getcall_ne i1.2 _ _ _ _ hp] using s1⟩

theorem evalLen_scan {k : Ctx} {ev : Eval} {sc : Scan} (hev : Scans k ev sc) {c : Ctx}
    {g : Nat} {call : Ptr} {start e : Nat} {se : Bool} {r : Ptr × Nat × Ctx} (h : PlainAt k c)
    (hr : evalLen g ev c call start e se = Except.ok r) :
    PlainAt k r.2.2 ∧ sc start e = some (decide (r.1 = Ptr.eof), r.2.1) := by
  unfold evalLen at hr
  obtain ⟨⟨a, e1, c1⟩, h1, hr⟩ := bind_ok hr
  obtain ⟨b1, hb1, hr⟩ := bind_ok hr
  obtain ⟨i1, s1, -⟩ := operand_scan hev h h1 hb1
  cases b1 with
  | true =>
    simp only [if_true, Except.ok.injEq] at hr
    subst hr
    exact ⟨i1, by simpa using s1⟩
  | false =>
    simp only [Bool.false_eq_true, if_false] at hr
    obtain ⟨x, hx, hr⟩ := bind_ok hr
    obtain ⟨len, hl, hr⟩ := bind_ok hr
    by_cases ht : len = -1
    · rw [if_pos ht] at hr
      cases hr
      exact ⟨i1, by simpa using s1⟩
    · rw [if_neg ht] at hr
      obtain ⟨⟨p, c2⟩, hp, hr⟩ := bind_ok hr
      cases hr
      obtain ⟨i2, hne⟩ := plainAt_promote i1
        (plainV_lit _ (by simp [PlainTag]) rfl rfl rfl rfl) hp
      exact ⟨i2, by simpa [hne] using s1⟩

/-- An operand read under `BUBBLE_EOF` after `lx_marktemp`. -/
theorem operand_mark_scan {k : Ctx} {ev : Eval} {sc : Scan} (hev : Scans k ev sc) {c : Ctx}
    {call : Ptr} {start e : Nat} {es se : Bool} {a : Ptr} {e1 : Nat} {c1 c2 : Ctx} {b : Bool}
    (h : PlainAt k c) (h1 : ev c call start e es se = Except.ok (a, e1, c1))
    (h2 : lx_marktemp c1 a = Except.ok c2) (hb : isEof c2 a = Except.ok b) :
    PlainAt k c2 ∧ sc start e = some (b, e1) ∧ (b = false → a ≠ Ptr.eof) := by
  obtain ⟨i1, s1⟩ := scans_at hev h h1
  have i2 : PlainAt k c2 := plainAt_mark i1 h2
  have e1' := isEof_plain i2.2 hb
  refine ⟨i2, by rw [s1, e1'], ?_⟩
  intro hf
  rw [hf] at e1'
  simpa using e1'.symm

theorem evalAssign_scan {k : Ctx} {ev : Eval} {sc : Scan} (hev : Scans k ev sc) {c : Ctx}
    {g : Nat} {call : Ptr} {start next e : Nat} {se : Bool} {r : Ptr × Nat × Ctx}
    (h : PlainAt k c) (hr : evalAssign g ev c call start next e se = Except.ok r) :
    PlainAt k r.2.2 ∧ scanAB sc start next e = some (decide (r.1 = Ptr.eof), r.2.1) := by
  unfold evalAssign at hr
  obtain ⟨⟨sym, next1, c1⟩, h1, hr⟩ := bind_ok hr
  obtain ⟨c2, h2, hr⟩ := bind_ok hr
  obtain ⟨b1, hb1, hr⟩ := bind_ok hr
  obtain ⟨i2, s1, n1⟩ := operand_mark_scan hev h h1 h2 hb1
  cases b1 with
  | true =>
    simp only [if_true, Except.ok.injEq] at hr
    subst hr
    exact ⟨i2, by simp [scanAB, s1]⟩
  | false =>
    simp only [Bool.false_eq_true, if_false] at hr
    obtain ⟨⟨val, e1, c3⟩, h3, hr⟩ := bind_ok hr
    obtain ⟨c4, h4, hr⟩ := bind_ok hr
    obtain ⟨b2, hb2, hr⟩ := bind_ok hr
    obtain ⟨i4, s2, n2⟩ := operand_mark_scan hev i2 h3 h4 hb2
    cases b2 with
    | true =>
      simp only [if_true, Except.ok.injEq] at hr
      subst hr
      exact ⟨i4, by simp [scanAB, s1, s2]⟩
    | false =>
      simp only [Bool.false_eq_true, if_false] at hr
      cases se with
      | false =>
        simp only [Bool.false_eq_true, if_false, Except.ok.injEq] at hr
        subst hr
        exact ⟨i4, by simp [scanAB, s1, s2]⟩
      | true =>
        simp only [if_true] at hr
        obtain ⟨fr, hfr, hr⟩ := bind_ok hr
        obtain ⟨⟨envp, c5⟩, h5, hr⟩ := bind_ok hr
        obtain ⟨c6, h6, hr⟩ := bind_ok hr
        simp only [Except.ok.injEq] at hr
        subst hr
        have i5 : PlainAt k c5 ∧ envp ≠ Ptr.eof := by
          by_cases hn : fr.env = Ptr.null
          · rw [if_pos hn] at h5
            obtain ⟨⟨en, d⟩, hen, h5⟩ := bind_ok h5
            obtain ⟨d1, hd1, h5⟩ := bind_ok h5
            simp only [Except.ok.injEq, Prod.mk.injEq] at h5
            obtain ⟨q1, q2⟩ := h5
            subst q1 q2
            obtain ⟨j, hne⟩ := plainAt_makenv i4 hen
            exact ⟨plainAt_modify j hd1 (fun _ => rfl)
              (fun x hx => ⟨hx.1, hx.2.1, hne, hx.2.2.2⟩), hne⟩
          · rw [if_neg hn] at h5
            simp only [Except.ok.injEq, Prod.mk.injEq] at h5
            obtain ⟨q1, q2⟩ := h5
            subst q1 q2
            exact ⟨i4, (plain_get i4.2 (deref_get hfr)).1.2.2.1⟩
        exact ⟨plainAt_setenv i5.1 (n2 rfl) i5.2 h6, by simp [scanAB, s1, s2]⟩

theorem evalAppend_scan {k : Ctx} {ev : Eval} {sc : Scan} (hev : Scans k ev sc) {c : Ctx}
    {g : Nat} {call : Ptr} {start next e : Nat} {se : Bool} {r : Ptr × Nat × Ctx}
    (h : PlainAt k c) (hr : evalAppend g ev c call start next e se = Except.ok r) :
    PlainAt k r.2.2 ∧ scanAB sc start next e = some (decide (r.1 = Ptr.eof), r.2.1) := by
  unfold evalAppend at hr
  obtain ⟨⟨list, next1, c1⟩, h1, hr⟩ := bind_ok hr
  obtain ⟨c2, h2, hr⟩ := bind_ok hr
  obtain ⟨b1, hb1, hr⟩ := bind_ok hr
  obtain ⟨i2, s1, n1⟩ := operand_mark_scan hev h h1 h2 hb1
  cases b1 with
  | true =>
    simp only [if_true, Except.ok.injEq] at hr
    subst hr
    exact ⟨i2, by simp [scanAB, s1]⟩
  | false =>
    simp only [Bool.false_eq_true, if_false] at hr
    obtain ⟨⟨item, e1, c3⟩, h3, hr⟩ := bind_ok hr
    obtain ⟨c4, h4, hr⟩ := bind_ok hr
    obtain ⟨b2, hb2, hr⟩ := bind_ok hr
    obtain ⟨i4, s2, n2⟩ := operand_mark_scan hev i2 h3 h4 hb2
    cases b2 with
    | true =>
      simp only [if_true, Except.ok.injEq] at hr
      subst hr
      exact ⟨i4, by simp [scanAB, s1, s2]⟩
    | false =>
      simp only [Bool.false_eq_true, if_false] at hr
      cases se with
      | false =>
        simp only [Bool.false_eq_true, if_false, Except.ok.injEq] at hr
        subst hr
        exact ⟨i4, by simp [scanAB, s1, s2]⟩
      | true =>
        simp only [if_true] at hr
        obtain ⟨c5, h5, hr⟩ := bind_ok hr
        obtain ⟨c6, h6, hr⟩ := bind_ok hr
        obtain ⟨⟨p, c7⟩, h7, hr⟩ := bind_ok hr
        simp only [Except.ok.injEq] at hr
        subst hr
        obtain ⟨i7, hne⟩ := plainAt_listappend (plainAt_mark (plainAt_mark i4 h5) h6)
          (n2 rfl) (n1 rfl) h7
        exact ⟨i7, by simp [scanAB, s1, s2, hne]⟩

theorem evalPop_scan {k : Ctx} {ev : Eval} {sc : Scan} (hev : Scans k ev sc) {c : Ctx}
    {g : Nat} {call : Ptr} {start next e : Nat} {se : Bool} {r : Ptr × Nat × Ctx}
    (h : PlainAt k c) (hr : evalPop g ev c call start next e se = Except.ok r) :
    (match sc start next with
      | none => none
      | some (true, _) => some (true, e)
      | some (false, _) => some (false, start)) = some (decide (r.1 = Ptr.eof), r.2.1) ∧
    PlainAt k r.2.2 := by
  unfold evalPop at hr
  obtain ⟨⟨list, next1, c1⟩, h1, hr⟩ := bind_ok hr
  obtain ⟨b1, hb1, hr⟩ := bind_ok hr
  obtain ⟨i1, s1, n1⟩ := operand_scan hev h h1 hb1
  cases b1 with
  | true =>
    simp only [if_true, Except.ok.injEq] at hr
    subst hr
    exact ⟨by simp [s1], i1⟩
  | false =>
    simp only [Bool.false_eq_true, if_false] at hr
    cases se with
    | false =>
      simp only [Bool.false_eq_true, if_false, Except.ok.injEq] at hr
      subst hr
      exact ⟨by simp [s1], i1⟩
    | true =>
      simp only [if_true] at hr
      obtain ⟨⟨p, c2⟩, h2, hr⟩ := bind_ok hr
      simp only [Except.ok.injEq] at hr
      subst hr
      obtain ⟨i2, hne⟩ := plainAt_listpop i1 (n1 rfl) h2
      exact ⟨by simp [s1, hne], i2⟩

theorem evalString_scan {k c : Ctx} {g : Nat} {start e : Nat} {r : Ptr × Nat × Ctx}
    (h : PlainAt k c) (hr : evalString g c start e = Except.ok r) :
    PlainAt k r.2.2 ∧
      (if k.peek (start + scan (fun b => b != 34) (k.text.drop start)) == 0 then some (true, e)
        else some (false, start + scan (fun b => b != 34) (k.text.drop start) + 1)) =
        some (decide (r.1 = Ptr.eof), r.2.1) := by
  unfold evalString at hr
  obtain ⟨⟨p, c1⟩, h1, hr⟩ := bind_ok hr
  obtain ⟨i1, hne⟩ := plainAt_promote h (plainV_lit _ (by simp [PlainTag]) rfl rfl rfl rfl) h1
  simp only [peek_text i1.1, i1.1] at hr
  by_cases hz : (k.peek (start + scan (fun b => b != 34) (k.text.drop start)) == 0) = true
  · rw [if_pos hz] at hr ⊢
    cases hr
    exact ⟨i1, by simp⟩
  · rw [if_neg hz] at hr ⊢
    obtain ⟨c2, h2, hr⟩ := bind_ok hr
    cases hr
    exact ⟨plainAt_modify i1 h2 (fun _ => rfl)
      (fun x hx => plainF_of_fields hx rfl rfl rfl rfl), by simp [hne]⟩

theorem evalCond_scan {k : Ctx} {ev : Eval} {sc : Scan} (hev : Scans k ev sc) {c : Ctx}
    {call : Ptr} {start next e : Nat} {se : Bool} {r : Ptr × Nat × Ctx}
    (h : PlainAt k c) (hr : evalCond ev c call start next e se = Except.ok r) :
    PlainAt k r.2.2 ∧ scanABC sc start next e = some (decide (r.1 = Ptr.eof), r.2.1) := by
  unfold evalCond at hr
  obtain ⟨⟨cond, next1, c1⟩, h1, hr⟩ := bind_ok hr
  obtain ⟨c2, h2, hr⟩ := bind_ok hr
  obtain ⟨b1, hb1, hr⟩ := bind_ok hr
  obtain ⟨i2, s1, n1⟩ := operand_mark_scan hev h h1 h2 hb1
  cases b1 with
  | true =>
    simp only [if_true, Except.ok.injEq] at hr
    subst hr
    exact ⟨i2, by simp [scanABC, s1]⟩
  | false =>
    simp only [Bool.false_eq_true, if_false] at hr
    obtain ⟨t1, ht1, hr⟩ := bind_ok hr
    obtain ⟨⟨tr, start1, c3⟩, h3, hr⟩ := bind_ok hr
    obtain ⟨c4, h4, hr⟩ := bind_ok hr
    obtain ⟨b2, hb2, hr⟩ := bind_ok hr
    obtain ⟨i4, s2, n2⟩ := operand_mark_scan hev i2 h3 h4 hb2
    cases b2 with
    | true =>
      simp only [if_true, Except.ok.injEq] at hr
      subst hr
      exact ⟨i4, by simp [scanABC, scanAB, s1, s2]⟩
    | false =>
      simp only [Bool.false_eq_true, if_false] at hr
      obtain ⟨t2, ht2, hr⟩ := bind_ok hr
      obtain ⟨⟨fl, e1, c5⟩, h5, hr⟩ := bind_ok hr
      obtain ⟨b3, hb3, hr⟩ := bind_ok hr
      obtain ⟨i5, s3, n3⟩ := operand_scan hev i4 h5 hb3
      cases b3 with
      | true =>
        simp only [if_true, Except.ok.injEq] at hr
        subst hr
        exact ⟨i5, by simp [scanABC, scanAB, s1, s2, s3]⟩
      | false =>
        simp only [Bool.false_eq_true, if_false] at hr
        obtain ⟨c6, h6, hr⟩ := bind_ok hr
        obtain ⟨t3, ht3, hr⟩ := bind_ok hr
        have i6 : PlainAt k c6 := plainAt_mark i5 h6
        cases t3 with
        | true =>
          simp only [if_true] at hr
          obtain ⟨c7, h7, hr⟩ := bind_ok hr
          simp only [Except.ok.injEq] at hr
          subst hr
          exact ⟨plainAt_mark i6 h7, by simp [scanABC, scanAB, s1, s2, s3, n2 rfl]⟩
        | false =>
          simp only [Bool.false_eq_true, if_false, Except.ok.injEq] at hr
          subst hr
          exact ⟨i6, by simp [scanABC, scanAB, s1, s2, s3, n3 rfl]⟩

theorem dotList_ne {c : Ctx} (h : Plain c) {list r : Ptr} {q : ℚ}
    (hr : dotList c list q = Except.ok r) : r ≠ Ptr.eof := by
  unfold dotList at hr
  obtain ⟨env1, h1, hr⟩ := bind_ok hr
  by_cases hn : env1 = Ptr.null
  · rw [if_pos hn] at hr
    cases hr
    decide
  · rw [if_neg hn] at hr
    obtain ⟨z, hz, hr⟩ := bind_ok hr
    cases hr
    exact (plain_get h (deref_get hz)).1.1

theorem evalDot_scan {k : Ctx} {ev : Eval} {sc : Scan} (hev : Scans k ev sc) {c : Ctx}
    {g : Nat} {call : Ptr} {start next e : Nat} {se : Bool} {r : Ptr × Nat × Ctx}
    (h : PlainAt k c) (hr : evalDot g ev c call start next e se = Except.ok r) :
    PlainAt k r.2.2 ∧ scanAB sc start next e = some (decide (r.1 = Ptr.eof), r.2.1) := by
  unfold evalDot at hr
  obtain ⟨⟨env, next1, c1⟩, h1, hr⟩ := bind_ok hr
  obtain ⟨c2, h2, hr⟩ := bind_ok hr
  obtain ⟨x, hx, hr⟩ := bind_ok hr
  obtain ⟨i1, s1⟩ := scans_at hev h h1
  have i2 : PlainAt k c2 := plainAt_mark i1 h2
  have hiff := plain_eof_iff i2.2 (deref_get hx)
  by_cases he : x.type = LX_EOF
  · simp only [he, beq_self_eq_true, if_true, Except.ok.injEq] at hr
    subst hr
    exact ⟨i2, by simp [scanAB, s1, hiff.mp he]⟩
  · have hne : env ≠ Ptr.eof := fun e' => he (hiff.mpr e')
    have hb : (x.type == LX_EOF) = false := by simpa using he
    simp only [hb, Bool.false_eq_true, if_false] at hr
    by_cases hen : (x.type == LX_ENV) = true
    · rw [if_pos hen] at hr
      obtain ⟨⟨sym, e1, c3⟩, h3, hr⟩ := bind_ok hr
      obtain ⟨b2, hb2, hr⟩ := bind_ok hr
      obtain ⟨i3, s2, n2⟩ := operand_scan hev i2 h3 hb2
      cases b2 with
      | true =>
        simp only [if_true, Except.ok.injEq] at hr
        subst hr
        exact ⟨i3, by simp [scanAB, s1, hne, s2]⟩
      | false =>
        simp only [Bool.false_eq_true, if_false] at hr
        obtain ⟨c4, h4, hr⟩ := bind_ok hr
        obtain ⟨p, hp, hr⟩ := bind_ok hr
        simp only [Except.ok.injEq] at hr
        subst hr
        have i4 : PlainAt k c4 := plainAt_mark i3 h4
        exact ⟨i4, by simp [scanAB, s1, hne, s2, lx_getenv_ne i4.2 _ _ _ _ hp]⟩
    · rw [if_neg hen] at hr
      obtain ⟨c3, h3, hr⟩ := bind_ok hr
      have i3 : PlainAt k c3 := plainAt_mark i2 h3
      by_cases hli : (x.type == LX_LIST) = true
      · rw [if_pos hli] at hr
        obtain ⟨⟨sym, e1, c4⟩, h4, hr⟩ := bind_ok hr
        obtain ⟨b2, hb2, hr⟩ := bind_ok hr
        obtain ⟨i4, s2, n2⟩ := operand_scan hev i3 h4 hb2
        cases b2 with
        | true =>
          simp only [if_true, Except.ok.injEq] at hr
          subst hr
          exact ⟨i4, by simp [scanAB, s1, hne, s2]⟩
        | false =>
          simp only [Bool.false_eq_true, if_false] at hr
          obtain ⟨y, hy, hr⟩ := bind_ok hr
          by_cases hnum : (y.type != LX_NUMBER) = true
          · rw [if_pos hnum] at hr
            cases hr
            exact ⟨i4, by simp [scanAB, s1, hne, s2]⟩
          · rw [if_neg hnum] at hr
            obtain ⟨p, hp, hr⟩ := bind_ok hr
            cases hr
            exact ⟨i4, by simp [scanAB, s1, hne, s2, dotList_ne i4.2 hp]⟩
      · rw [if_neg hli] at hr
        obtain ⟨⟨sym, e1, c4⟩, h4, hr⟩ := bind_ok hr
        obtain ⟨b2, hb2, hr⟩ := bind_ok hr
        obtain ⟨i4, s2, n2⟩ := operand_scan hev i3 h4 hb2
        cases b2 with
        | true =>
          simp only [if_true, Except.ok.injEq] at hr
          subst hr
          exact ⟨i4, by simp [scanAB, s1, hne, s2]⟩
        | false =>
          simp only [Bool.false_eq_true, if_false, Except.ok.injEq] at hr
          subst hr
          exact ⟨i4, by simp [scanAB, s1, hne, s2]⟩

/-- The operands `sym` and `val` of the case `:` are read as `scanAB` says,
whatever the flags. -/
theorem colonOperands_scan {k : Ctx} {ev : Eval} {sc : Scan} (hev : Scans k ev sc) {c : Ctx}
    {call : Ptr} {start next e : Nat} {se evsym mk : Bool}
    {r : Option (Ptr × Ptr) × Nat × Ctx} (h : PlainAt k c)
    (hr : colonOperands ev c call start next e se evsym mk = Except.ok r) :
    PlainAt k r.2.2 ∧ scanAB sc next start e = some (r.1.isNone, r.2.1) ∧
      ∀ sym val, r.1 = some (sym, val) → sym ≠ Ptr.eof ∧ val ≠ Ptr.eof := by
  unfold colonOperands at hr
  obtain ⟨⟨sym, start1, c1⟩, h1, hr⟩ := bind_ok hr
  obtain ⟨c2, h2, hr⟩ := bind_ok hr
  obtain ⟨b1, hb1, hr⟩ := bind_ok hr
  obtain ⟨i2, s1, n1⟩ := operand_mark_scan hev h h1 h2 hb1
  cases b1 with
  | true =>
    simp only [if_true, Except.ok.injEq] at hr
    subst hr
    exact ⟨i2, by simp [scanAB, s1], by simp⟩
  | false =>
    simp only [Bool.false_eq_true, if_false] at hr
    obtain ⟨⟨val, e1, c3⟩, h3, hr⟩ := bind_ok hr
    obtain ⟨c4, h4, hr⟩ := bind_ok hr
    obtain ⟨b2, hb2, hr⟩ := bind_ok hr
    obtain ⟨i3, s2⟩ := scans_at hev i2 h3
    have i4 : PlainAt k c4 := by
      cases mk with
      | true => exact plainAt_mark i3 h4
      | false =>
        simp only [Bool.false_eq_true, if_false, Except.ok.injEq] at h4
        subst h4
        exact i3
    have e2 := isEof_plain i4.2 hb2
    by_cases hv : val = Ptr.eof
    · simp only [e2, hv, decide_True, if_true, Except.ok.injEq] at hr
      subst hr
      exact ⟨i4, by simp [scanAB, s1, s2, hv], by simp⟩
    · simp only [e2, hv, decide_False, Bool.false_eq_true, if_false, Except.ok.injEq] at hr
      subst hr
      refine ⟨i4, by simp [scanAB, s1, s2, hv], ?_⟩
      intro sym' val' hsv
      simp only [Option.some.injEq, Prod.mk.injEq] at hsv
      rw [← hsv.1, ← hsv.2]
      exact ⟨n1 rfl, hv⟩

theorem evalColon_scan {k : Ctx} {ev : Eval} {sc : Scan} (hev : Scans k ev sc) {c : Ctx}
    {g : Nat} {call : Ptr} {start next e : Nat} {se : Bool} {r : Ptr × Nat × Ctx}
    (h : PlainAt k c) (hr : evalColon g ev c call start next e se = Except.ok r) :
    PlainAt k r.2.2 ∧ scanABC sc start next e = some (decide (r.1 = Ptr.eof), r.2.1) := by
  unfold evalColon at hr
  obtain ⟨⟨env, next1, c1⟩, h1, hr⟩ := bind_ok hr
  obtain ⟨c2, h2, hr⟩ := bind_ok hr
  obtain ⟨x, hx, hr⟩ := bind_ok hr
  obtain ⟨i1, s1⟩ := scans_at hev h h1
  have i2 : PlainAt k c2 := plainAt_mark i1 h2
  have hiff := plain_eof_iff i2.2 (deref_get hx)
  by_cases he : x.type = LX_EOF
  · simp only [he, beq_self_eq_true, if_true, Except.ok.injEq] at hr
    subst hr
    exact ⟨i2, by simp [scanABC, s1, hiff.mp he]⟩
  · have hne : env ≠ Ptr.eof := fun e' => he (hiff.mpr e')
    have hb : (x.type == LX_EOF) = false := by simpa using he
    simp only [hb, Bool.false_eq_true, if_false] at hr
    have fin : ∀ (q : Option (Ptr × Ptr)) (e1 : Nat) (c' : Ctx) (p : Ptr),
        scanAB sc next1 start e = some (q.isNone, e1) → (q = none → p = Ptr.eof) →
        (q ≠ none → p ≠ Ptr.eof) →
        scanABC sc start next e = some (decide (p = Ptr.eof), e1) := by
      intro q e1 c' p hs h1 h2
      cases q with
      | none => simp [scanABC, s1, hne, hs, h1 rfl]
      | some w => simp [scanABC, s1, hne, hs, h2 (by simp)]
    by_cases hen : (se && x.type == LX_ENV) = true
    · rw [if_pos hen] at hr
      obtain ⟨⟨q, e1, c3⟩, h3, hr⟩ := bind_ok hr
      obtain ⟨i3, s3, n3⟩ := colonOperands_scan hev i2 h3
      cases q with
      | none =>
        simp only [Except.ok.injEq] at hr
        subst hr
        exact ⟨i3, fin none e1 c3 _ s3 (fun _ => rfl) (fun hh => absurd rfl hh)⟩
      | some w =>
        obtain ⟨sym, val⟩ := w
        simp only at hr
        obtain ⟨c4, h4, hr⟩ := bind_ok hr
        simp only [Except.ok.injEq] at hr
        subst hr
        exact ⟨plainAt_setenv i3 (n3 sym val rfl).2 hne h4,
          fin (some (sym, val)) e1 c3 _ s3 (fun hh => by cases hh) (fun _ => by simp)⟩
    · rw [if_neg hen] at hr
      by_cases hli : (se && x.type == LX_LIST) = true
      · rw [if_pos hli] at hr
        obtain ⟨⟨q, e1, c3⟩, h3, hr⟩ := bind_ok hr
        obtain ⟨i3, s3, n3⟩ := colonOperands_scan hev i2 h3
        cases q with
        | none =>
          simp only [Except.ok.injEq] at hr
          subst hr
          exact ⟨i3, fin none e1 c3 _ s3 (fun _ => rfl) (fun hh => absurd rfl hh)⟩
        | some w =>
          obtain ⟨sym, val⟩ := w
          simp only at hr
          obtain ⟨y, hy, hr⟩ := bind_ok hr
          by_cases hnum : (y.type != LX_NUMBER) = true
          · rw [if_pos hnum] at hr
            cases hr
            exact ⟨i3, fin (some (sym, val)) e1 c3 _ s3 (fun hh => by cases hh)
              (fun _ => by simp)⟩
          · rw [if_neg hnum] at hr
            obtain ⟨c4, h4, hr⟩ := bind_ok hr
            obtain ⟨env1, hw, hr⟩ := bind_ok hr
            obtain ⟨c5, h5, hr⟩ := bind_ok hr
            obtain ⟨c6, h6, hr⟩ := bind_ok hr
            obtain ⟨c7, h7, hr⟩ := bind_ok hr
            cases hr
            have i6 : PlainAt k c6 := plainAt_mark (plainAt_mark (plainAt_mark i3 h4) h5) h6
            exact ⟨plainAt_modify i6 h7 (fun _ => rfl)
                (fun z hz => ⟨(n3 sym val rfl).2, hz.2.1, hz.2.2.1, hz.2.2.2⟩),
              fin (some (sym, val)) e1 c3 _ s3 (fun hh => by cases hh) (fun _ => by simp)⟩
      · rw [if_neg hli] at hr
        obtain ⟨⟨q, e1, c3⟩, h3, hr⟩ := bind_ok hr
        obtain ⟨i3, s3, n3⟩ := colonOperands_scan hev i2 h3
        cases q with
        | none =>
          simp only [Except.ok.injEq] at hr
          subst hr
          exact ⟨i3, fin none e1 c3 _ s3 (fun _ => rfl) (fun hh => absurd rfl hh)⟩
        | some w =>
          simp only [Except.ok.injEq] at hr
          subst hr
          exact ⟨i3, fin (some w) e1 c3 _ s3 (fun hh => by cases hh) (fun _ => by simp)⟩

/-- The loop of `PARSE_BODY` reads the elements as `scanBodyLoop` says. -/
theorem parseBodyLoop_scan {k : Ctx} {ev : Eval} {sc : Scan} (hev : Scans k ev sc)
    (g endchar : Nat) (se : Bool) :
    ∀ (n : Nat) (c : Ctx) (call : Ptr) (start next : Nat) (result : Ptr) (lst : Option Ptr)
      (r : Option (Nat × Ptr × Option Ptr)) (c' : Ctx),
      PlainAt k c → result ≠ Ptr.eof → (∀ cur, lst = some cur → cur ≠ Ptr.eof) →
      parseBodyLoop g ev endchar se n c call start next result lst = Except.ok (r, c') →
      PlainAt k c' ∧ scanBodyLoop k sc endchar n start next = some (r.map fun t => t.1) ∧
        ∀ s1 res l, r = some (s1, res, l) → res ≠ Ptr.eof := by
  intro n
  induction n with
  | zero =>
    intro c call start next result lst r c' h hres hlst hr
    simp [parseBodyLoop] at hr
  | succ n ih =>
    intro c call start next result lst r c' h hres hlst hr
    rw [parseBodyLoop] at hr
    obtain ⟨⟨value, next1, c1⟩, h1, hr⟩ := bind_ok hr
    obtain ⟨i1, s1⟩ := scans_at hev h h1
    dsimp only at hr
    obtain ⟨b, hb, hr⟩ := bind_ok hr
    have eb := isEof_plain i1.2 hb
    have hiff : (if value = Ptr.null then result else value) = Ptr.eof ↔ value = Ptr.eof := by
      by_cases hv : value = Ptr.null
      · rw [if_pos hv, hv]
        exact ⟨fun e => absurd e hres, fun e => by cases e⟩
      · rw [if_neg hv]
    by_cases hve : value = Ptr.eof
    · have : b = true := by rw [eb]; simpa using hiff.mpr hve
      subst this
      simp only [if_true, Except.ok.injEq, Prod.mk.injEq] at hr
      obtain ⟨r1, r2⟩ := hr
      subst r1 r2
      exact ⟨i1, by simp [scanBodyLoop, s1, hve], by simp⟩
    · have hr1 : (if value = Ptr.null then result else value) ≠ Ptr.eof :=
        fun e => hve (hiff.mp e)
      have : b = false := by rw [eb]; simpa using hr1
      subst this
      simp only [Bool.false_eq_true, if_false, peek_text i1.1, eatSpace_text i1.1] at hr
      by_cases hz : (k.peek (eatSpace k next1) == 0) = true
      · rw [if_pos hz] at hr
        simp only [Except.ok.injEq, Prod.mk.injEq] at hr
        obtain ⟨r1, r2⟩ := hr
        subst r1 r2
        exact ⟨i1, by simp [scanBodyLoop, s1, hve, hz], by simp⟩
      · rw [if_neg hz] at hr
        obtain ⟨⟨lst1, c2⟩, h2, hr⟩ := bind_ok hr
        have i2 : PlainAt k c2 ∧ ∀ cur, lst1 = some cur → cur ≠ Ptr.eof := by
          cases lst with
          | none =>
            simp only [Except.ok.injEq, Prod.mk.injEq] at h2
            obtain ⟨q1, q2⟩ := h2
            subst q1 q2
            exact ⟨i1, by simp⟩
          | some cur =>
            simp only at h2
            obtain ⟨⟨cur1, d⟩, ha, h2⟩ := bind_ok h2
            simp only [Except.ok.injEq, Prod.mk.injEq] at h2
            obtain ⟨q1, q2⟩ := h2
            subst q1 q2
            obtain ⟨j, hne⟩ := plainAt_listappend i1 hr1 (hlst cur rfl) ha
            refine ⟨j, ?_⟩
            intro cur' hc
            simp only [Option.some.injEq] at hc
            rw [← hc]
            exact hne
        simp only [peek_text i2.1.1] at hr
        by_cases hend : (k.peek (eatSpace k next1) != endchar) = true
        · rw [if_pos hend] at hr
          obtain ⟨j, sj, hj⟩ := ih c2 call _ next1 _ lst1 r c' i2.1 hr1 i2.2 hr
          exact ⟨j, by simp [scanBodyLoop, s1, hve, hz, hend, sj], hj⟩
        · rw [if_neg hend] at hr
          simp only [Except.ok.injEq, Prod.mk.injEq] at hr
          obtain ⟨r1, r2⟩ := hr
          subst r1 r2
          refine ⟨i2.1, by simp [scanBodyLoop, s1, hve, hz, hend], ?_⟩
          intro s1' res l hh
          simp only [Option.some.injEq, Prod.mk.injEq] at hh
          rw [← hh.2.1]
          exact hr1

/-- The macro `PARSE_BODY` moves the cursor as `scanBody` says. -/
theorem parseBody_scan {k : Ctx} {ev : Eval} {sc : Scan} (hev : Scans k ev sc)
    {g endchar : Nat} {se : Bool} {c : Ctx} {call : Ptr} {start next e : Nat} {lst : Option Ptr}
    {r : Option (Nat × Ptr × Option Ptr)} {c' : Ctx} (h : PlainAt k c)
    (hlst : ∀ cur, lst = some cur → cur ≠ Ptr.eof)
    (hr : parseBody g ev endchar se c call start next Ptr.nil lst = Except.ok (r, c')) :
    PlainAt k c' ∧ scanBody k g sc endchar start next e = some (r.isNone, (r.map fun t => t.1).getD e) ∧
      ∀ s1 res l, r = some (s1, res, l) → res ≠ Ptr.eof := by
  unfold parseBody at hr
  simp only [peek_text h.1, eatSpace_text h.1] at hr
  by_cases hz : (k.peek (eatSpace k start) == 0) = true
  · rw [if_pos hz] at hr
    simp only [Except.ok.injEq, Prod.mk.injEq] at hr
    obtain ⟨r1, r2⟩ := hr
    subst r1 r2
    exact ⟨h, by simp [scanBody, hz], by simp⟩
  · rw [if_neg hz] at hr
    by_cases hend : (k.peek (eatSpace k start) == endchar) = true
    · rw [if_pos hend] at hr
      simp only [Except.ok.injEq, Prod.mk.injEq] at hr
      obtain ⟨r1, r2⟩ := hr
      subst r1 r2
      refine ⟨h, by simp [scanBody, hz, hend], ?_⟩
      intro s1 res l hh
      simp only [Option.some.injEq, Prod.mk.injEq] at hh
      rw [← hh.2.1]
      decide
    · rw [if_neg hend] at hr
      obtain ⟨j, sj, hj⟩ := parseBodyLoop_scan hev g endchar se g c call _ next Ptr.nil lst r c' h
        (by decide) hlst hr
      refine ⟨j, ?_, hj⟩
      cases r with
      | none => simp [scanBody, hz, hend, sj]
      | some t => simp [scanBody, hz, hend, sj]

theorem evalParen_scan {k : Ctx} {ev : Eval} {sc : Scan} (hev : Scans k ev sc) {c : Ctx}
    {g : Nat} {call : Ptr} {start next e : Nat} {se : Bool} {r : Ptr × Nat × Ctx}
    (h : PlainAt k c) (hr : evalParen g ev c call start next e se = Except.ok r) :
    PlainAt k r.2.2 ∧ scanBody k g sc 41 start next e = some (decide (r.1 = Ptr.eof), r.2.1) := by
  unfold evalParen at hr
  obtain ⟨⟨q, c1⟩, h1, hr⟩ := bind_ok hr
  obtain ⟨i1, s1, n1⟩ := parseBody_scan (e := e) hev h (by simp) h1
  cases q with
  | none =>
    cases hr
    exact ⟨i1, by simpa using s1⟩
  | some t =>
    obtain ⟨start1, result, l⟩ := t
    cases hr
    exact ⟨i1, by simpa [n1 start1 result l rfl] using s1⟩

theorem evalList_scan {k : Ctx} {ev : Eval} {sc : Scan} (hev : Scans k ev sc) {c : Ctx}
    {g : Nat} {call : Ptr} {start next e : Nat} {se : Bool} {r : Ptr × Nat × Ctx}
    (h : PlainAt k c) (hr : evalList g ev c call start next e se = Except.ok r) :
    PlainAt k r.2.2 ∧ scanBody k g sc 93 start next e = some (decide (r.1 = Ptr.eof), r.2.1) := by
  unfold evalList at hr
  obtain ⟨⟨ls, c0⟩, h0, hr⟩ := bind_ok hr
  obtain ⟨i0, hne⟩ := plainAt_promote h (plainV_lit _ (by simp [PlainTag]) rfl rfl rfl rfl) h0
  obtain ⟨⟨q, c1⟩, h1, hr⟩ := bind_ok hr
  obtain ⟨i1, s1, n1⟩ := parseBody_scan (e := e) hev i0
    (fun cur hc => by simp only [Option.some.injEq] at hc; rw [← hc]; exact hne) h1
  cases q with
  | none =>
    cases hr
    exact ⟨i1, by simpa using s1⟩
  | some t =>
    obtain ⟨start1, result, l⟩ := t
    cases hr
    exact ⟨i1, by simpa [hne] using s1⟩

theorem evalBlock_scan {k : Ctx} {ev : Eval} {sc : Scan} (hev : Scans k ev sc) {c : Ctx}
    {g : Nat} {call : Ptr} {start next e : Nat} {se : Bool} {r : Ptr × Nat × Ctx}
    (h : PlainAt k c) (hr : evalBlock g ev c call start next e se = Except.ok r) :
    PlainAt k r.2.2 ∧ scanBody k g sc 125 start next e = some (decide (r.1 = Ptr.eof), r.2.1) := by
  unfold evalBlock at hr
  dsimp only at hr
  obtain ⟨⟨q, c1⟩, h1, hr⟩ := bind_ok hr
  have i0 := plainAt_current (plainAt_push h
    { type := LX_CALL, last := call, env := Ptr.null, callable := Ptr.null }
    ⟨by simp [PlainTag], by simp [PlainF, Ptr.isCellOrNull]⟩)
    (c.push { type := LX_CALL, last := call, env := Ptr.null, callable := Ptr.null }).1
  obtain ⟨i1, s1, n1⟩ := parseBody_scan (e := e) hev i0 (by simp) h1
  cases q with
  | none =>
    cases hr
    exact ⟨plainAt_pop i1 _, by simpa using s1⟩
  | some t =>
    obtain ⟨start1, result, l⟩ := t
    simp only at hr
    obtain ⟨c2, h2, hr⟩ := bind_ok hr
    obtain ⟨fr, hfr, hr⟩ := bind_ok hr
    cases hr
    have i2 : PlainAt k c2 := by
      unfold popCurrent at h2
      obtain ⟨cur, hcur, h2⟩ := bind_ok h2
      cases h2
      exact plainAt_current i1 _
    have hne : (if fr.env = Ptr.null then Ptr.nil else fr.env) ≠ Ptr.eof := by
      by_cases hn : fr.env = Ptr.null
      · rw [if_pos hn]
        decide
      · rw [if_neg hn]
        exact (plain_get i2.2 (deref_get hfr)).1.2.2.1
    exact ⟨plainAt_pop i2 _, by simpa [hne] using s1⟩

theorem peek_mem {c : Ctx} {i : Nat} (h : c.peek i ≠ 0) : c.peek i ∈ c.text := by
  unfold Ctx.peek at h ⊢
  by_cases hi : i < c.text.length
  · rw [List.getD_eq_getElem _ _ hi]
    exact List.getElem_mem hi
  · rw [List.getD_eq_default _ _ (by omega)] at h
    exact absurd rfl h

theorem evalWord_scan {k c : Ctx} {g : Nat} {ev : Eval} {host : Host} {call : Ptr} {s e : Nat}
    {es se : Bool} {r : Ptr × Nat × Ctx} (h : PlainAt k c)
    (hr : evalWord g ev host c call s e es se = Except.ok r) :
    PlainAt k r.2.2 ∧
      (if lx_isdigit (k.peek s) then some (false, (lx_parsenumber k s).2)
        else if lx_isalpha (k.peek s) then some (false, s + lx_word k s)
        else some (true, e)) = some (decide (r.1 = Ptr.eof), r.2.1) := by
  unfold evalWord at hr
  simp only [peek_text h.1, lx_parsenumber_text h.1, lx_word_text h.1] at hr
  by_cases hd : lx_isdigit (k.peek s) = true
  · rw [if_pos hd] at hr ⊢
    obtain ⟨⟨p, c1⟩, hp, hr⟩ := bind_ok hr
    cases hr
    obtain ⟨i1, hne⟩ := plainAt_promote h (plainV_lit _ (by simp [PlainTag]) rfl rfl rfl rfl) hp
    exact ⟨i1, by simp [hne]⟩
  · rw [if_neg hd] at hr ⊢
    by_cases ha : lx_isalpha (k.peek s) = true
    · rw [if_pos ha] at hr ⊢
      cases es with
      | false =>
        simp only [Bool.false_eq_true, if_false] at hr
        obtain ⟨⟨p, c1⟩, hp, hr⟩ := bind_ok hr
        cases hr
        obtain ⟨i1, hne⟩ := plainAt_promote h
          (plainV_lit _ (by simp [PlainTag]) rfl rfl rfl rfl) hp
        exact ⟨i1, by simp [hne]⟩
      | true =>
        simp only [if_true, Ctx.push] at hr
        obtain ⟨result, hres, hr⟩ := bind_ok hr
        obtain ⟨x, hx, hr⟩ := bind_ok hr
        have i1 := plainAt_push h { type := LX_SYMBOL, start := s, len := (lx_word k s : Int) }
          (plainV_lit _ (by simp [PlainTag]) rfl rfl rfl rfl)
        have hne : result ≠ Ptr.eof := lx_getcall_ne i1.2 _ _ _ _ hres
        have htag : PlainTag x.type := by
          rcases (plain_get i1.2 (deref_get hx)).2 with ⟨e1, _⟩ | ⟨_, t⟩
          · exact absurd e1 hne
          · exact t
        have hfn : (x.type == LX_FN || x.type == LX_CFN) = false := by
          simp [htag.2.1, htag.2.2]
        rw [hfn] at hr
        simp only [Bool.false_eq_true, if_false, Except.ok.injEq] at hr
        subst hr
        exact ⟨plainAt_pop i1 _, by simp [hne]⟩
    · rw [if_neg ha] at hr ⊢
      cases hr
      exact ⟨h, by simp⟩

/-- One level of `lx_eval` moves the cursor as one level of the scan says,
on plain texts and plain states. -/
theorem evalStep_scan {k : Ctx} {ev : Eval} {sc : Scan} (hT : PlainText k.text)
    (hev : Scans k ev sc) (g : Nat) (host : Host) :
    Scans k (evalStep g ev host) (scanStep k g sc) := by
  intro c call s0 e0 es se r h hr
  have hS : eatSpace c s0 = eatSpace k s0 := eatSpace_text h.1 s0
  have hP : ∀ i, c.peek i = k.peek i := peek_text h.1
  have hX : c.text = k.text := h.1
  by_cases c0 : k.peek (eatSpace k s0) = 0
  · have hE : evalStep g ev host c call s0 e0 es se = Except.ok (Ptr.eof, e0, c) := by
      unfold evalStep
      simp [hS, hP, c0]
    have hSc : scanStep k g sc s0 e0 = some (true, e0) := by
      unfold scanStep
      simp [c0]
    rw [hE] at hr
    rw [hSc]
    cases hr
    exact ⟨h, by simp⟩
  obtain ⟨n39, n94, n37⟩ := hT _ (peek_mem c0)
  by_cases c126 : k.peek (eatSpace k s0) = 126
  · have hE : evalStep g ev host c call s0 e0 es se =
        Except.ok (Ptr.nil, eatSpace k s0 + 1, c) := by
      unfold evalStep
      simp [hS, hP, hX, c126]
    have hSc : scanStep k g sc s0 e0 =
        some (false, eatSpace k s0 + 1) := by
      unfold scanStep
      simp [c126]
    rw [hE] at hr
    rw [hSc]
    cases hr
    exact ⟨h, by simp⟩
  by_cases c34 : k.peek (eatSpace k s0) = 34
  · have hE : evalStep g ev host c call s0 e0 es se =
        evalString g c (eatSpace k s0 + 1) (eatSpace k s0) := by
      unfold evalStep
      simp [hS, hP, hX, c34]
    have hSc : scanStep k g sc s0 e0 =
        (if k.peek (eatSpace k s0 + 1 + scan (fun b => b != 34) (k.text.drop (eatSpace k s0 + 1))) == 0 then some (true, eatSpace k s0)
        else some (false, eatSpace k s0 + 1 + scan (fun b => b != 34) (k.text.drop (eatSpace k s0 + 1)) + 1)) := by
      unfold scanStep
      simp [c34]
    rw [hE] at hr
    rw [hSc]
    exact evalString_scan h hr
  by_cases c43 : k.peek (eatSpace k s0) = 43
  · have hE : evalStep g ev host c call s0 e0 es se =
        arithOp g ev (· + ·) c call (eatSpace k s0 + 1) (eatSpace k s0) (eatSpace k s0) se := by
      unfold evalStep
      simp [hS, hP, hX, c43]
    have hSc : scanStep k g sc s0 e0 =
        scanAB sc (eatSpace k s0 + 1) (eatSpace k s0) (eatSpace k s0) := by
      unfold scanStep
      simp [c43]
    rw [hE] at hr
    rw [hSc]
    exact arithOp_scan hev h hr
  by_cases c45 : k.peek (eatSpace k s0) = 45
  · have hE : evalStep g ev host c call s0 e0 es se =
        arithOp g ev (· - ·) c call (eatSpace k s0 + 1) (eatSpace k s0) (eatSpace k s0) se := by
      unfold evalStep
      simp [hS, hP, hX, c45]
    have hSc : scanStep k g sc s0 e0 =
        scanAB sc (eatSpace k s0 + 1) (eatSpace k s0) (eatSpace k s0) := by
      unfold scanStep
      simp [c45]
    rw [hE] at hr
    rw [hSc]
    exact arithOp_scan hev h hr
  by_cases c42 : k.peek (eatSpace k s0) = 42
  · have hE : evalStep g ev host c call s0 e0 es se =
        arithOp g ev (· * ·) c call (eatSpace k s0 + 1) (eatSpace k s0) (eatSpace k s0) se := by
      unfold evalStep
      simp [hS, hP, hX, c42]
    have hSc : scanStep k g sc s0 e0 =
        scanAB sc (eatSpace k s0 + 1) (eatSpace k s0) (eatSpace k s0) := by
      unfold scanStep
      simp [c42]
    rw [hE] at hr
    rw [hSc]
    exact arithOp_scan hev h hr
  by_cases c47 : k.peek (eatSpace k s0) = 47
  · have hE : evalStep g ev host c call s0 e0 es se =
        arithOp g ev (· / ·) c call (eatSpace k s0 + 1) (eatSpace k s0) (eatSpace k s0) se := by
      unfold evalStep
      simp [hS, hP, hX, c47]
    have hSc : scanStep k g sc s0 e0 =
        scanAB sc (eatSpace k s0 + 1) (eatSpace k s0) (eatSpace k s0) := by
      unfold scanStep
      simp [c47]
    rw [hE] at hr
    rw [hSc]
    exact arithOp_scan hev h hr
  by_cases c60 : k.peek (eatSpace k s0) = 60
  · have hE : evalStep g ev host c call s0 e0 es se =
        (if k.peek (eatSpace k s0 + 1) == 61 then evalCompare ev (fun x y => decide (x ≤ y)) c call (eatSpace k s0 + 1 + 1) (eatSpace k s0) (eatSpace k s0) se
        else evalCompare ev (fun x y => decide (x < y)) c call (eatSpace k s0 + 1) (eatSpace k s0) (eatSpace k s0) se) := by
      unfold evalStep
      simp [hS, hP, hX, c60]
    have hSc : scanStep k g sc s0 e0 =
        (if k.peek (eatSpace k s0 + 1) == 61 then scanAB sc (eatSpace k s0 + 1 + 1) (eatSpace k s0) (eatSpace k s0) else scanAB sc (eatSpace k s0 + 1) (eatSpace k s0) (eatSpace k s0)) := by
      unfold scanStep
      simp [c60]
    rw [hE] at hr
    rw [hSc]
    by_cases h61 : (k.peek (eatSpace k s0 + 1) == 61) = true
    · rw [if_pos h61] at hr ⊢
      exact evalCompare_scan hev h hr
    · rw [if_neg h61] at hr ⊢
      exact evalCompare_scan hev h hr
  by_cases c62 : k.peek (eatSpace k s0) = 62
  · have hE : evalStep g ev host c call s0 e0 es se =
        (if k.peek (eatSpace k s0 + 1) == 61 then evalCompare ev (fun x y => decide (x ≥ y)) c call (eatSpace k s0 + 1 + 1) (eatSpace k s0) (eatSpace k s0) se
        else evalCompare ev (fun x y => decide (x > y)) c call (eatSpace k s0 + 1) (eatSpace k s0) (eatSpace k s0) se) := by
      unfold evalStep
      simp [hS, hP, hX, c62]
    have hSc : scanStep k g sc s0 e0 =
        (if k.peek (eatSpace k s0 + 1) == 61 then scanAB sc (eatSpace k s0 + 1 + 1) (eatSpace k s0) (eatSpace k s0) else scanAB sc (eatSpace k s0 + 1) (eatSpace k s0) (eatSpace k s0)) := by
      unfold scanStep
      simp [c62]
    rw [hE] at hr
    rw [hSc]
    by_cases h61 : (k.peek (eatSpace k s0 + 1) == 61) = true
    · rw [if_pos h61] at hr ⊢
      exact evalCompare_scan hev h hr
    · rw [if_neg h61] at hr ⊢
      exact evalCompare_scan hev h hr
  by_cases c38 : k.peek (eatSpace k s0) = 38
  · have hE : evalStep g ev host c call s0 e0 es se =
        evalLogic ev (· && ·) c call (eatSpace k s0 + 1) (eatSpace k s0) (eatSpace k s0) se := by
      unfold evalStep
      simp [hS, hP, hX, c38]
    have hSc : scanStep k g sc s0 e0 =
        scanAB sc (eatSpace k s0 + 1) (eatSpace k s0) (eatSpace k s0) := by
      unfold scanStep
      simp [c38]
    rw [hE] at hr
    rw [hSc]
    exact evalLogic_scan hev h hr
  by_cases c124 : k.peek (eatSpace k s0) = 124
  · have hE : evalStep g ev host c call s0 e0 es se =
        evalLogic ev (· || ·) c call (eatSpace k s0 + 1) (eatSpace k s0) (eatSpace k s0) se := by
      unfold evalStep
      simp [hS, hP, hX, c124]
    have hSc : scanStep k g sc s0 e0 =
        scanAB sc (eatSpace k s0 + 1) (eatSpace k s0) (eatSpace k s0) := by
      unfold scanStep
      simp [c124]
    rw [hE] at hr
    rw [hSc]
    exact evalLogic_scan hev h hr
  by_cases c33 : k.peek (eatSpace k s0) = 33
  · have hE : evalStep g ev host c call s0 e0 es se =
        evalNot ev c call (eatSpace k s0 + 1) (eatSpace k s0) se := by
      unfold evalStep
      simp [hS, hP, hX, c33]
    have hSc : scanStep k g sc s0 e0 =
        sc (eatSpace k s0 + 1) (eatSpace k s0) := by
      unfold scanStep
      simp [c33]
    rw [hE] at hr
    rw [hSc]
    exact evalNot_scan hev h hr
  by_cases c95 : k.peek (eatSpace k s0) = 95
  · have hE : evalStep g ev host c call s0 e0 es se =
        evalRound g ev c call (eatSpace k s0 + 1) (eatSpace k s0) se := by
      unfold evalStep
      simp [hS, hP, hX, c95]
    have hSc : scanStep k g sc s0 e0 =
        sc (eatSpace k s0 + 1) (eatSpace k s0) := by
      unfold scanStep
      simp [c95]
    rw [hE] at hr
    rw [hSc]
    exact evalRound_scan hev h hr
  by_cases c40 : k.peek (eatSpace k s0) = 40
  · have hE : evalStep g ev host c call s0 e0 es se =
        evalParen g ev c call (eatSpace k s0 + 1) (eatSpace k s0) (eatSpace k s0) se := by
      unfold evalStep
      simp [hS, hP, hX, c40]
    have hSc : scanStep k g sc s0 e0 =
        scanBody k g sc 41 (eatSpace k s0 + 1) (eatSpace k s0) (eatSpace k s0) := by
      unfold scanStep
      simp [c40]
    rw [hE] at hr
    rw [hSc]
    exact evalParen_scan hev h hr
  by_cases c123 : k.peek (eatSpace k s0) = 123
  · have hE : evalStep g ev host c call s0 e0 es se =
        evalBlock g ev c call (eatSpace k s0 + 1) (eatSpace k s0) (eatSpace k s0) se := by
      unfold evalStep
      simp [hS, hP, hX, c123]
    have hSc : scanStep k g sc s0 e0 =
        scanBody k g sc 125 (eatSpace k s0 + 1) (eatSpace k s0) (eatSpace k s0) := by
      unfold scanStep
      simp [c123]
    rw [hE] at hr
    rw [hSc]
    exact evalBlock_scan hev h hr
  by_cases c91 : k.peek (eatSpace k s0) = 91
  · have hE : evalStep g ev host c call s0 e0 es se =
        evalList g ev c call (eatSpace k s0 + 1) (eatSpace k s0) (eatSpace k s0) se := by
      unfold evalStep
      simp [hS, hP, hX, c91]
    have hSc : scanStep k g sc s0 e0 =
        scanBody k g sc 93 (eatSpace k s0 + 1) (eatSpace k s0) (eatSpace k s0) := by
      unfold scanStep
      simp [c91]
    rw [hE] at hr
    rw [hSc]
    exact evalList_scan hev h hr
  by_cases c46 : k.peek (eatSpace k s0) = 46
  · have hE : evalStep g ev host c call s0 e0 es se =
        evalDot g ev c call (eatSpace k s0 + 1) (eatSpace k s0) (eatSpace k s0) se := by
      unfold evalStep
      simp [hS, hP, hX, c46]
    have hSc : scanStep k g sc s0 e0 =
        scanAB sc (eatSpace k s0 + 1) (eatSpace k s0) (eatSpace k s0) := by
      unfold scanStep
      simp [c46]
    rw [hE] at hr
    rw [hSc]
    exact evalDot_scan hev h hr
  by_cases c58 : k.peek (eatSpace k s0) = 58
  · have hE : evalStep g ev host c call s0 e0 es se =
        evalColon g ev c call (eatSpace k s0 + 1) (eatSpace k s0) (eatSpace k s0) se := by
      unfold evalStep
      simp [hS, hP, hX, c58]
    have hSc : scanStep k g sc s0 e0 =
        scanABC sc (eatSpace k s0 + 1) (eatSpace k s0) (eatSpace k s0) := by
      unfold scanStep
      simp [c58]
    rw [hE] at hr
    rw [hSc]
    exact evalColon_scan hev h hr
  by_cases c61 : k.peek (eatSpace k s0) = 61
  · have hE : evalStep g ev host c call s0 e0 es se =
        (if k.peek (eatSpace k s0 + 1) == 61 then evalEq ev c call (eatSpace k s0 + 1 + 1) (eatSpace k s0) (eatSpace k s0) se
        else evalAssign g ev c call (eatSpace k s0 + 1) (eatSpace k s0) (eatSpace k s0) se) := by
      unfold evalStep
      simp [hS, hP, hX, c61]
    have hSc : scanStep k g sc s0 e0 =
        (if k.peek (eatSpace k s0 + 1) == 61 then scanAB sc (eatSpace k s0 + 1 + 1) (eatSpace k s0) (eatSpace k s0) else scanAB sc (eatSpace k s0 + 1) (eatSpace k s0) (eatSpace k s0)) := by
      unfold scanStep
      simp [c61]
    rw [hE] at hr
    rw [hSc]
    by_cases h61 : (k.peek (eatSpace k s0 + 1) == 61) = true
    · rw [if_pos h61] at hr ⊢
      exact evalEq_scan hev h hr
    · rw [if_neg h61] at hr ⊢
      exact evalAssign_scan hev h hr
  by_cases c96 : k.peek (eatSpace k s0) = 96
  · have hE : evalStep g ev host c call s0 e0 es se =
        Except.ok (Ptr.null, eatSpace k s0 + 1 + scan (fun b => b != 10) (k.text.drop (eatSpace k s0 + 1)), c) := by
      unfold evalStep
      simp [hS, hP, hX, c96]
    have hSc : scanStep k g sc s0 e0 =
        some (false, eatSpace k s0 + 1 + scan (fun b => b != 10) (k.text.drop (eatSpace k s0 + 1))) := by
      unfold scanStep
      simp [c96]
    rw [hE] at hr
    rw [hSc]
    cases hr
    exact ⟨h, by simp⟩
  by_cases c44 : k.peek (eatSpace k s0) = 44
  · have hE : evalStep g ev host c call s0 e0 es se =
        evalPrint ev c call (eatSpace k s0 + 1) (eatSpace k s0) se := by
      unfold evalStep
      simp [hS, hP, hX, c44]
    have hSc : scanStep k g sc s0 e0 =
        sc (eatSpace k s0 + 1) (eatSpace k s0) := by
      unfold scanStep
      simp [c44]
    rw [hE] at hr
    rw [hSc]
    exact evalPrint_scan hev h hr
  by_cases c59 : k.peek (eatSpace k s0) = 59
  · have hE : evalStep g ev host c call s0 e0 es se =
        Except.ok (Ptr.nil, eatSpace k s0 + 1, if se then { c with out := c.out ++ [[10]] } else c) := by
      unfold evalStep
      simp [hS, hP, hX, c59]
    have hSc : scanStep k g sc s0 e0 =
        some (false, eatSpace k s0 + 1) := by
      unfold scanStep
      simp [c59]
    rw [hE] at hr
    rw [hSc]
    cases hr
    refine ⟨?_, by simp⟩
    cases se
    · exact h
    · exact plainAt_out h _
  by_cases c64 : k.peek (eatSpace k s0) = 64
  · have hE : evalStep g ev host c call s0 e0 es se =
        evalAt g ev c call (eatSpace k s0 + 1) (eatSpace k s0) se := by
      unfold evalStep
      simp [hS, hP, hX, c64]
    have hSc : scanStep k g sc s0 e0 =
        sc (eatSpace k s0 + 1) (eatSpace k s0) := by
      unfold scanStep
      simp [c64]
    rw [hE] at hr
    rw [hSc]
    exact evalAt_scan hev h hr
  by_cases c63 : k.peek (eatSpace k s0) = 63
  · have hE : evalStep g ev host c call s0 e0 es se =
        evalCond ev c call (eatSpace k s0 + 1) (eatSpace k s0) (eatSpace k s0) se := by
      unfold evalStep
      simp [hS, hP, hX, c63]
    have hSc : scanStep k g sc s0 e0 =
        scanABC sc (eatSpace k s0 + 1) (eatSpace k s0) (eatSpace k s0) := by
      unfold scanStep
      simp [c63]
    rw [hE] at hr
    rw [hSc]
    exact evalCond_scan hev h hr
  by_cases c35 : k.peek (eatSpace k s0) = 35
  · have hE : evalStep g ev host c call s0 e0 es se =
        evalAppend g ev c call (eatSpace k s0 + 1) (eatSpace k s0) (eatSpace k s0) se := by
      unfold evalStep
      simp [hS, hP, hX, c35]
    have hSc : scanStep k g sc s0 e0 =
        scanAB sc (eatSpace k s0 + 1) (eatSpace k s0) (eatSpace k s0) := by
      unfold scanStep
      simp [c35]
    rw [hE] at hr
    rw [hSc]
    exact evalAppend_scan hev h hr
  by_cases c92 : k.peek (eatSpace k s0) = 92
  · have hE : evalStep g ev host c call s0 e0 es se =
        evalPop g ev c call (eatSpace k s0 + 1) (eatSpace k s0) (eatSpace k s0) se := by
      unfold evalStep
      simp [hS, hP, hX, c92]
    have hSc : scanStep k g sc s0 e0 =
        (match sc (eatSpace k s0 + 1) (eatSpace k s0) with
        | none => none
        | some (true, _) => some (true, eatSpace k s0)
        | some (false, _) => some (false, eatSpace k s0 + 1)) := by
      unfold scanStep
      simp [c92]
    rw [hE] at hr
    rw [hSc]
    exact ⟨(evalPop_scan hev h hr).2, (evalPop_scan hev h hr).1⟩
  by_cases c36 : k.peek (eatSpace k s0) = 36
  · have hE : evalStep g ev host c call s0 e0 es se =
        evalLen g ev c call (eatSpace k s0 + 1) (eatSpace k s0) se := by
      unfold evalStep
      simp [hS, hP, hX, c36]
    have hSc : scanStep k g sc s0 e0 =
        sc (eatSpace k s0 + 1) (eatSpace k s0) := by
      unfold scanStep
      simp [c36]
    rw [hE] at hr
    rw [hSc]
    exact evalLen_scan hev h hr
  have hE : evalStep g ev host c call s0 e0 es se =
      evalWord g ev host c call (eatSpace k s0) (eatSpace k s0) es se := by
    unfold evalStep
    simp [hS, hP, hX, c0, n39, n94, n37, c126, c34, c43, c45, c42, c47, c60, c62, c38, c124, c33, c95, c40, c123, c91, c46, c58, c61, c96, c44, c59, c64, c63, c35, c92, c36]
  have hSc : scanStep k g sc s0 e0 =
      (if lx_isdigit (k.peek (eatSpace k s0)) then
          some (false, (lx_parsenumber k (eatSpace k s0)).2)
        else if lx_isalpha (k.peek (eatSpace k s0)) then
          some (false, eatSpace k s0 + lx_word k (eatSpace k s0))
        else some (true, eatSpace k s0)) := by
    unfold scanStep
    simp [c0, n39, n94, n37, c126, c34, c43, c45, c42, c47, c60, c62, c38, c124, c33, c95, c40, c123, c91, c46, c58, c61, c96, c44, c59, c64, c63, c35, c92, c36]
  rw [hE] at hr
  rw [hSc]
  exact evalWord_scan h hr

/-- The evaluator moves the cursor as the scan of the text says, on plain
texts and plain states. -/
theorem lx_eval_scan {k : Ctx} (hT : PlainText k.text) (host : Host) :
    ∀ f, Scans k (lx_eval host f) (scanE k f) := by
  intro f
  induction f with
  | zero =>
    intro c call s e es se r _ hr
    simp [lx_eval] at hr
  | succ f ih => exact evalStep_scan hT ih f host

theorem scanAB_mono {sc sc' : Scan} (h : ∀ s e x, sc s e = some x → sc' s e = some x)
    (start next e : Nat) (x : Bool × Nat) (hx : scanAB sc start next e = some x) :
    scanAB sc' start next e = some x := by
  unfold scanAB at hx ⊢
  cases h1 : sc start next with
  | none => simp [h1] at hx
  | some w =>
    obtain ⟨b, n1⟩ := w
    rw [h _ _ _ h1]
    rw [h1] at hx
    cases b with
    | true => exact hx
    | false => exact h _ _ _ hx

theorem scanABC_mono {sc sc' : Scan} (h : ∀ s e x, sc s e = some x → sc' s e = some x)
    (start next e : Nat) (x : Bool × Nat) (hx : scanABC sc start next e = some x) :
    scanABC sc' start next e = some x := by
  unfold scanABC at hx ⊢
  cases h1 : sc start next with
  | none => simp [h1] at hx
  | some w =>
    obtain ⟨b, n1⟩ := w
    rw [h _ _ _ h1]
    rw [h1] at hx
    cases b with
    | true => exact hx
    | false => exact scanAB_mono h _ _ _ _ hx

theorem scanBodyLoop_mono {k : Ctx} {sc sc' : Scan}
    (h : ∀ s e x, sc s e = some x → sc' s e = some x) (endchar : Nat) :
    ∀ (n n' : Nat) (start next : Nat) (x : Option Nat), n ≤ n' →
      scanBodyLoop k sc endchar n start next = some x →
      scanBodyLoop k sc' endchar n' start next = some x := by
  intro n
  induction n with
  | zero =>
    intro n' start next x _ hx
    simp [scanBodyLoop] at hx
  | succ n ih =>
    intro n' start next x hn hx
    obtain ⟨m, rfl⟩ : ∃ m, n' = m + 1 := ⟨n' - 1, by omega⟩
    rw [scanBodyLoop] at hx ⊢
    cases h1 : sc start next with
    | none => simp [h1] at hx
    | some w =>
      obtain ⟨b, n1⟩ := w
      rw [h _ _ _ h1]
      rw [h1] at hx
      cases b with
      | true => exact hx
      | false =>
        simp only at hx ⊢
        split_ifs at hx ⊢
        · exact hx
        · exact ih m _ _ _ (by omega) hx
        · exact hx

theorem scanBody_mono {k : Ctx} {sc sc' : Scan}
    (h : ∀ s e x, sc s e = some x → sc' s e = some x) (endchar g g' : Nat) (hg : g ≤ g')
    (start next e : Nat) (x : Bool × Nat) (hx : scanBody k g sc endchar start next e = some x) :
    scanBody k g' sc' endchar start next e = some x := by
  unfold scanBody at hx ⊢
  simp only at hx ⊢
  split_ifs at hx ⊢
  · exact hx
  · exact hx
  · cases hl : scanBodyLoop k sc endchar g (eatSpace k start) next with
    | none => simp [hl] at hx
    | some y =>
      rw [scanBodyLoop_mono h endchar g g' _ _ y hg hl]
      rw [hl] at hx
      exact hx

theorem scanStep_mono {k : Ctx} {sc sc' : Scan}
    (h : ∀ s e x, sc s e = some x → sc' s e = some x) (g g' : Nat) (hg : g ≤ g')
    (s0 e0 : Nat) (x : Bool × Nat) (hx : scanStep k g sc s0 e0 = some x) :
    scanStep k g' sc' s0 e0 = some x := by
  by_cases c0 : k.peek (eatSpace k s0) = 0
  · have hSc : ∀ (g : Nat) (sc : Scan), scanStep k g sc s0 e0 = some (true, e0) := by
      intro g sc
      unfold scanStep
      simp [c0]
    rw [hSc] at hx ⊢
    exact hx
  by_cases c126 : k.peek (eatSpace k s0) = 126
  · have hSc : ∀ (g : Nat) (sc : Scan), scanStep k g sc s0 e0 =
        some (false, eatSpace k s0 + 1) := by
      intro g sc
      unfold scanStep
      simp [c126]
    rw [hSc] at hx ⊢
    exact hx
  by_cases c34 : k.peek (eatSpace k s0) = 34
  · have hSc : ∀ (g : Nat) (sc : Scan), scanStep k g sc s0 e0 =
        (if k.peek (eatSpace k s0 + 1 + scan (fun b => b != 34) (k.text.drop (eatSpace k s0 + 1))) == 0 then some (true, eatSpace k s0)
        else some (false, eatSpace k s0 + 1 + scan (fun b => b != 34) (k.text.drop (eatSpace k s0 + 1)) + 1)) := by
      intro g sc
      unfold scanStep
      simp [c34]
    rw [hSc] at hx ⊢
    exact hx
  by_cases c43 : k.peek (eatSpace k s0) = 43
  · have hSc : ∀ (g : Nat) (sc : Scan), scanStep k g sc s0 e0 =
        scanAB sc (eatSpace k s0 + 1) (eatSpace k s0) (eatSpace k s0) := by
      intro g sc
      unfold scanStep
      simp [c43]
    rw [hSc] at hx ⊢
    exact scanAB_mono h _ _ _ _ hx
  by_cases c45 : k.peek (eatSpace k s0) = 45
  · have hSc : ∀ (g : Nat) (sc : Scan), scanStep k g sc s0 e0 =
        scanAB sc (eatSpace k s0 + 1) (eatSpace k s0) (eatSpace k s0) := by
      intro g sc
      unfold scanStep
      simp [c45]
    rw [hSc] at hx ⊢
    exact scanAB_mono h _ _ _ _ hx
  by_cases c42 : k.peek (eatSpace k s0) = 42
  · have hSc : ∀ (g : Nat) (sc : Scan), scanStep k g sc s0 e0 =
        scanAB sc (eatSpace k s0 + 1) (eatSpace k s0) (eatSpace k s0) := by
      intro g sc
      unfold scanStep
      simp [c42]
    rw [hSc] at hx ⊢
    exact scanAB_mono h _ _ _ _ hx
  by_cases c47 : k.peek (eatSpace k s0) = 47
  · have hSc : ∀ (g : Nat) (sc : Scan), scanStep k g sc s0 e0 =
        scanAB sc (eatSpace k s0 + 1) (eatSpace k s0) (eatSpace k s0) := by
      intro g sc
      unfold scanStep
      simp [c47]
    rw [hSc] at hx ⊢
    exact scanAB_mono h _ _ _ _ hx
  by_cases c38 : k.peek (eatSpace k s0) = 38
  · have hSc : ∀ (g : Nat) (sc : Scan), scanStep k g sc s0 e0 =
        scanAB sc (eatSpace k s0 + 1) (eatSpace k s0) (eatSpace k s0) := by
      intro g sc
      unfold scanStep
      simp [c38]
    rw [hSc] at hx ⊢
    exact scanAB_mono h _ _ _ _ hx
  by_cases c124 : k.peek (eatSpace k s0) = 124
  · have hSc : ∀ (g : Nat) (sc : Scan), scanStep k g sc s0 e0 =
        scanAB sc (eatSpace k s0 + 1) (eatSpace k s0) (eatSpace k s0) := by
      intro g sc
      unfold scanStep
      simp [c124]
    rw [hSc] at hx ⊢
    exact scanAB_mono h _ _ _ _ hx
  by_cases c46 : k.peek (eatSpace k s0) = 46
  · have hSc : ∀ (g : Nat) (sc : Scan), scanStep k g sc s0 e0 =
        scanAB sc (eatSpace k s0 + 1) (eatSpace k s0) (eatSpace k s0) := by
      intro g sc
      unfold scanStep
      simp [c46]
    rw [hSc] at hx ⊢
    exact scanAB_mono h _ _ _ _ hx
  by_cases c35 : k.peek (eatSpace k s0) = 35
  · have hSc : ∀ (g : Nat) (sc : Scan), scanStep k g sc s0 e0 =
        scanAB sc (eatSpace k s0 + 1) (eatSpace k s0) (eatSpace k s0) := by
      intro g sc
      unfold scanStep
      simp [c35]
    rw [hSc] at hx ⊢
    exact scanAB_mono h _ _ _ _ hx
  by_cases c60 : k.peek (eatSpace k s0) = 60
  · have hSc : ∀ (g : Nat) (sc : Scan), scanStep k g sc s0 e0 =
        (if k.peek (eatSpace k s0 + 1) == 61 then scanAB sc (eatSpace k s0 + 1 + 1) (eatSpace k s0) (eatSpace k s0) else scanAB sc (eatSpace k s0 + 1) (eatSpace k s0) (eatSpace k s0)) := by
      intro g sc
      unfold scanStep
      simp [c60]
    rw [hSc] at hx ⊢
    by_cases h61 : (k.peek (eatSpace k s0 + 1) == 61) = true
    · rw [if_pos h61] at hx ⊢
      exact scanAB_mono h _ _ _ _ hx
    · rw [if_neg h61] at hx ⊢
      exact scanAB_mono h _ _ _ _ hx
  by_cases c62 : k.peek (eatSpace k s0) = 62
  · have hSc : ∀ (g : Nat) (sc : Scan), scanStep k g sc s0 e0 =
        (if k.peek (eatSpace k s0 + 1) == 61 then scanAB sc (eatSpace k s0 + 1 + 1) (eatSpace k s0) (eatSpace k s0) else scanAB sc (eatSpace k s0 + 1) (eatSpace k s0) (eatSpace k s0)) := by
      intro g sc
      unfold scanStep
      simp [c62]
    rw [hSc] at hx ⊢
    by_cases h61 : (k.peek (eatSpace k s0 + 1) == 61) = true
    · rw [if_pos h61] at hx ⊢
      exact scanAB_mono h _ _ _ _ hx
    · rw [if_neg h61] at hx ⊢
      exact scanAB_mono h _ _ _ _ hx
  by_cases c61 : k.peek (eatSpace k s0) = 61
  · have hSc : ∀ (g : Nat) (sc : Scan), scanStep k g sc s0 e0 =
        (if k.peek (eatSpace k s0 + 1) == 61 then scanAB sc (eatSpace k s0 + 1 + 1) (eatSpace k s0) (eatSpace k s0) else scanAB sc (eatSpace k s0 + 1) (eatSpace k s0) (eatSpace k s0)) := by
      intro g sc
      unfold scanStep
      simp [c61]
    rw [hSc] at hx ⊢
    by_cases h61 : (k.peek (eatSpace k s0 + 1) == 61) = true
    · rw [if_pos h61] at hx ⊢
      exact scanAB_mono h _ _ _ _ hx
    · rw [if_neg h61] at hx ⊢
      exact scanAB_mono h _ _ _ _ hx
  by_cases c33 : k.peek (eatSpace k s0) = 33
  · have hSc : ∀ (g : Nat) (sc : Scan), scanStep k g sc s0 e0 =
        sc (eatSpace k s0 + 1) (eatSpace k s0) := by
      intro g sc
      unfold scanStep
      simp [c33]
    rw [hSc] at hx ⊢
    exact h _ _ _ hx
  by_cases c95 : k.peek (eatSpace k s0) = 95
  · have hSc : ∀ (g : Nat) (sc : Scan), scanStep k g sc s0 e0 =
        sc (eatSpace k s0 + 1) (eatSpace k s0) := by
      intro g sc
      unfold scanStep
      simp [c95]
    rw [hSc] at hx ⊢
    exact h _ _ _ hx
  by_cases c44 : k.peek (eatSpace k s0) = 44
  · have hSc : ∀ (g : Nat) (sc : Scan), scanStep k g sc s0 e0 =
        sc (eatSpace k s0 + 1) (eatSpace k s0) := by
      intro g sc
      unfold scanStep
      simp [c44]
    rw [hSc] at hx ⊢
    exact h _ _ _ hx
  by_cases c64 : k.peek (eatSpace k s0) = 64
  · have hSc : ∀ (g : Nat) (sc : Scan), scanStep k g sc s0 e0 =
        sc (eatSpace k s0 + 1) (eatSpace k s0) := by
      intro g sc
      unfold scanStep
      simp [c64]
    rw [hSc] at hx ⊢
    exact h _ _ _ hx
  by_cases c36 : k.peek (eatSpace k s0) = 36
  · have hSc : ∀ (g : Nat) (sc : Scan), scanStep k g sc s0 e0 =
        sc (eatSpace k s0 + 1) (eatSpace k s0) := by
      intro g sc
      unfold scanStep
      simp [c36]
    rw [hSc] at hx ⊢
    exact h _ _ _ hx
  by_cases c40 : k.peek (eatSpace k s0) = 40
  · have hSc : ∀ (g : Nat) (sc : Scan), scanStep k g sc s0 e0 =
        scanBody k g sc 41 (eatSpace k s0 + 1) (eatSpace k s0) (eatSpace k s0) := by
      intro g sc
      unfold scanStep
      simp [c40]
    rw [hSc] at hx ⊢
    exact scanBody_mono h _ g g' hg _ _ _ _ hx
  by_cases c123 : k.peek (eatSpace k s0) = 123
  · have hSc : ∀ (g : Nat) (sc : Scan), scanStep k g sc s0 e0 =
        scanBody k g sc 125 (eatSpace k s0 + 1) (eatSpace k s0) (eatSpace k s0) := by
      intro g sc
      unfold scanStep
      simp [c123]
    rw [hSc] at hx ⊢
    exact scanBody_mono h _ g g' hg _ _ _ _ hx
  by_cases c91 : k.peek (eatSpace k s0) = 91
  · have hSc : ∀ (g : Nat) (sc : Scan), scanStep k g sc s0 e0 =
        scanBody k g sc 93 (eatSpace k s0 + 1) (eatSpace k s0) (eatSpace k s0) := by
      intro g sc
      unfold scanStep
      simp [c91]
    rw [hSc] at hx ⊢
    exact scanBody_mono h _ g g' hg _ _ _ _ hx
  by_cases c58 : k.peek (eatSpace k s0) = 58
  · have hSc : ∀ (g : Nat) (sc : Scan), scanStep k g sc s0 e0 =
        scanABC sc (eatSpace k s0 + 1) (eatSpace k s0) (eatSpace k s0) := by
      intro g sc
      unfold scanStep
      simp [c58]
    rw [hSc] at hx ⊢
    exact scanABC_mono h _ _ _ _ hx
  by_cases c63 : k.peek (eatSpace k s0) = 63
  · have hSc : ∀ (g : Nat) (sc : Scan), scanStep k g sc s0 e0 =
        scanABC sc (eatSpace k s0 + 1) (eatSpace k s0) (eatSpace k s0) := by
      intro g sc
      unfold scanStep
      simp [c63]
    rw [hSc] at hx ⊢
    exact scanABC_mono h _ _ _ _ hx
  by_cases c96 : k.peek (eatSpace k s0) = 96
  · have hSc : ∀ (g : Nat) (sc : Scan), scanStep k g sc s0 e0 =
        some (false, eatSpace k s0 + 1 + scan (fun b => b != 10) (k.text.drop (eatSpace k s0 + 1))) := by
      intro g sc
      unfold scanStep
      simp [c96]
    rw [hSc] at hx ⊢
    exact hx
  by_cases c59 : k.peek (eatSpace k s0) = 59
  · have hSc : ∀ (g : Nat) (sc : Scan), scanStep k g sc s0 e0 =
        some (false, eatSpace k s0 + 1) := by
      intro g sc
      unfold scanStep
      simp [c59]
    rw [hSc] at hx ⊢
    exact hx
  by_cases c92 : k.peek (eatSpace k s0) = 92
  · have hSc : ∀ (g : Nat) (sc : Scan), scanStep k g sc s0 e0 =
        (match sc (eatSpace k s0 + 1) (eatSpace k s0) with
        | none => none
        | some (true, _) => some (true, eatSpace k s0)
        | some (false, _) => some (false, eatSpace k s0 + 1)) := by
      intro g sc
      unfold scanStep
      simp [c92]
    rw [hSc] at hx ⊢
    cases h1 : sc (eatSpace k s0 + 1) (eatSpace k s0) with
    | none => simp [h1] at hx
    | some w =>
      obtain ⟨b, n1⟩ := w
      rw [h _ _ _ h1]
      rw [h1] at hx
      exact hx
  by_cases c37 : k.peek (eatSpace k s0) = 37
  · have hSc : ∀ (g : Nat) (sc : Scan), scanStep k g sc s0 e0 =
        none := by
      intro g sc
      unfold scanStep
      simp [c37]
    rw [hSc] at hx ⊢
    cases hx
  by_cases c94 : k.peek (eatSpace k s0) = 94
  · have hSc : ∀ (g : Nat) (sc : Scan), scanStep k g sc s0 e0 =
        none := by
      intro g sc
      unfold scanStep
      simp [c94]
    rw [hSc] at hx ⊢
    cases hx
  by_cases c39 : k.peek (eatSpace k s0) = 39
  · have hSc : ∀ (g : Nat) (sc : Scan), scanStep k g sc s0 e0 =
        none := by
      intro g sc
      unfold scanStep
      simp [c39]
    rw [hSc] at hx ⊢
    cases hx
  have hSc : ∀ (g : Nat) (sc : Scan), scanStep k g sc s0 e0 =
      (if lx_isdigit (k.peek (eatSpace k s0)) then
          some (false, (lx_parsenumber k (eatSpace k s0)).2)
        else if lx_isalpha (k.peek (eatSpace k s0)) then
          some (false, eatSpace k s0 + lx_word k (eatSpace k s0))
        else some (true, eatSpace k s0)) := by
    intro g sc
    unfold scanStep
    simp [c0, c126, c34, c43, c45, c42, c47, c38, c124, c46, c35, c60, c62, c61, c33, c95, c44, c64, c36, c40, c123, c91, c58, c63, c96, c59, c92, c37, c94, c39]
  rw [hSc] at hx ⊢
  exact hx

/-- A larger budget does not change what the scan returns. -/
theorem scanE_mono {k : Ctx} : ∀ (f f' : Nat), f ≤ f' → ∀ (s e : Nat) (x : Bool × Nat),
    scanE k f s e = some x → scanE k f' s e = some x := by
  intro f
  induction f with
  | zero =>
    intro f' _ s e x hx
    simp [scanE] at hx
  | succ f ih =>
    intro f' hf s e x hx
    obtain ⟨m, rfl⟩ : ∃ m, f' = m + 1 := ⟨f' - 1, by omega⟩
    exact scanStep_mono (ih m (by omega)) f m (by omega) s e x hx

/-- On a plain text and from a plain state, the end cursor and the outcome
Eof or not Eof of an evaluation that returns are those of the scan of the
text: they depend neither on the flags, nor on the state, nor on the budget. -/
theorem dry_wet_core (host : Host) (k : Ctx) (call : Ptr) (s e : Nat) (es1 es2 se1 se2 : Bool)
    (f1 f2 : Nat) (r1 r2 : Ptr × Nat × Ctx) (hT : PlainText k.text) (hP : Plain k)
    (h1 : lx_eval host f1 k call s e es1 se1 = Except.ok r1)
    (h2 : lx_eval host f2 k call s e es2 se2 = Except.ok r2) :
    r2.2.1 = r1.2.1 ∧ (r2.1 = Ptr.eof ↔ r1.1 = Ptr.eof) := by
  have a1 := (lx_eval_scan hT host f1 k call s e es1 se1 r1 ⟨rfl, hP⟩ h1).2
  have a2 := (lx_eval_scan hT host f2 k call s e es2 se2 r2 ⟨rfl, hP⟩ h2).2
  have b1 := scanE_mono f1 (max f1 f2) (le_max_left _ _) _ _ _ a1
  have b2 := scanE_mono f2 (max f1 f2) (le_max_right _ _) _ _ _ a2
  rw [b1] at b2
  simp only [Option.some.injEq, Prod.mk.injEq, decide_eq_decide] at b2
  exact ⟨b2.2.symm, b2.1.symm⟩

/-- C16 (amended). For every expression text that contains no function
literal (apostrophe), no `^` and no `%`, and every plain interpreter state
(no value is tagged Fn or CFn, the tag Eof is that of the Eof singleton only,
no value refers to the Eof singleton, the free list links arena cells),
evaluating with `side_effects = true` and with `side_effects = false` from the
same start cursor and the same state writes the same end cursor, whenever
both evaluations return, with whatever budgets; and one returns Eof exactly
when the other does. -/
theorem dry_wet_cursor (host : Host) (k : Ctx) (call : Ptr) (s e : Nat) (es : Bool)
    (f1 f2 : Nat) (rwet rdry : Ptr × Nat × Ctx) (hT : PlainText k.text) (hP : Plain k)
    (hw : lx_eval host f1 k call s e es true = Except.ok rwet)
    (hd : lx_eval host f2 k call s e es false = Except.ok rdry) :
    rdry.2.1 = rwet.2.1 ∧ (rdry.1 = Ptr.eof ↔ rwet.1 = Ptr.eof) :=
  dry_wet_core host k call s e es es true false f1 f2 rwet rdry hT hP hw hd

theorem dry_wet_cursor_witness :
    PlainText dryDemo.text ∧ Plain dryDemo ∧
    lx_eval noHost 8 dryDemo (Ptr.stack 0) 0 0 true true = Except.ok dryDemoWet ∧
    lx_eval noHost 6 dryDemo (Ptr.stack 0) 0 0 true false = Except.ok dryDemoDry ∧
    dryDemoWet.2.2 ≠ dryDemoDry.2.2 ∧
    (dryDemoDry.2.1 = dryDemoWet.2.1 ∧ (dryDemoDry.1 = Ptr.eof ↔ dryDemoWet.1 = Ptr.eof)) := by
  have hT : PlainText dryDemo.text := by
    unfold PlainText
    decide!
  have hP : Plain dryDemo := by
    unfold Plain PlainTag PlainF
    decide!
  have hw : lx_eval noHost 8 dryDemo (Ptr.stack 0) 0 0 true true = Except.ok dryDemoWet := by
    decide!
  have hd : lx_eval noHost 6 dryDemo (Ptr.stack 0) 0 0 true false = Except.ok dryDemoDry := by
    decide!
  exact ⟨hT, hP, hw, hd, by decide!,
    dry_wet_cursor noHost dryDemo (Ptr.stack 0) 0 0 true 8 6 dryDemoWet dryDemoDry hT hP hw hd⟩

/-- C16 (the claim as stated fails). Four expressions whose wet and dry
evaluations from the same state both return without Eof and write different
end cursors.  `& (= g ' x x) g 1`: the wet run binds `g` to a function, so
that `g 1` is an application, and ends after `1` (17); the dry run binds
nothing and ends after `g` (15).  `: l f 0 5` with `l` a list and `f` a
function: the wet run reads the index `f 0` as an application and ends
after `5` (31); the dry run reads the symbol `f` and the value `0` and ends
after `0` (29).  `^ ((= c 1) 0) (^ c )` and, with `l` an empty list,
`% ((# l 1) [] ) y (% l x )`, in plain states: the dry parse of the inner loop
meets Eof at `)` when the wet run has made the condition true (the list non
empty), and that Eof is dropped with the cursor left at the inner `(`.  (An
empty `[]` ends one byte after the byte that follows `]`, hence the blanks.) -/
theorem dry_wet_cursor_counterexample :
    cursorOf 20 0 "& (= g ' x x) g 1" true = some (Ptr.zero, 17) ∧
    cursorOf 20 0 "& (= g ' x x) g 1" false = some (Ptr.zero, 15) ∧
    cursorOf 20 2 "(= l [1 2])(= f ' x x): l f 0 5" true = some (Ptr.nil, 31) ∧
    cursorOf 20 2 "(= l [1 2])(= f ' x x): l f 0 5" false = some (Ptr.nil, 29) ∧
    Plain (startOf 20 0 "^ ((= c 1) 0) (^ c )").2 ∧
    cursorOf 20 0 "^ ((= c 1) 0) (^ c )" true = some (Ptr.nil, 14) ∧
    cursorOf 20 0 "^ ((= c 1) 0) (^ c )" false = some (Ptr.nil, 20) ∧
    Plain (startOf 20 1 "(= l [] )% ((# l 1) [] ) y (% l x )").2 ∧
    cursorOf 20 1 "(= l [] )% ((# l 1) [] ) y (% l x )" true = some (Ptr.nil, 27) ∧
    cursorOf 20 1 "(= l [] )% ((# l 1) [] ) y (% l x )" false = some (Ptr.nil, 35) := by
  refine ⟨by decide!, by decide!, by decide!, by decide!, ?_, by decide!, by decide!, ?_,
    by decide!, by decide!⟩
  · unfold Plain PlainTag PlainF
    decide!
  · unfold Plain PlainTag PlainF
    decide!

/-! ## Formatting integers -/

theorem digitsRev_digits : ∀ (fuel m : Nat), m < fuel →
    digitsRev fuel m = (Nat.digits 10 m).map (48 + ·) := by
  intro fuel
  induction fuel with
  | zero =>
    intro m h
    omega
  | succ fuel ih =>
    intro m h
    by_cases hm : 0 < m
    · have hd : m / 10 < fuel := by omega
      rw [digitsRev, if_pos hm, ih (m / 10) hd, Nat.digits_def' (by norm_num) hm]
      rfl
    · have : m = 0 := by omega
      subst this
      simp [digitsRev]

theorem toInt_intCast (n : Int) : toInt (n : ℚ) = n := by
  simp [toInt]

/-- C21. For every number cell that holds an integer `n` with `|n| < 2^31`,
`lx_format` returns the decimal representation of `n`: the character `-`
exactly when `n < 0`, then the digits of `|n|`, most significant first and
without leading zeros (`0` for zero), and no fractional part. -/
theorem lx_format_integer (c : Ctx) (p : Ptr) (x : Value) (n : Int)
    (hx : c.get p = some x) (ht : x.type = LX_NUMBER) (hn : x.number = (n : ℚ))
    (_hb : |n| < 2 ^ 31) :
    lx_format c p = Except.ok ((if n < 0 then [45] else []) ++ decimal n.natAbs) := by
  have hsign : ((n : ℚ) < 0) ↔ n < 0 := Int.cast_lt_zero
  have hds : (if n.natAbs = 0 then [48] else (digitsRev (n.natAbs + 1) n.natAbs).reverse) =
      decimal n.natAbs := by
    unfold decimal
    rw [digitsRev_digits _ _ (Nat.lt_succ_self _), List.map_reverse]
  simp only [lx_format, Ctx.deref, hx, bind, Except.bind, ht, hn, toInt_intCast, sub_self,
    abs_zero, hsign, hds]
  norm_num

theorem lx_format_integer_witness : lx_format fmtDemo.2 fmtDemo.1 = Except.ok [51] := by
  have h := lx_format_integer fmtDemo.2 fmtDemo.1 { type := LX_NUMBER, number := 3 } 3
    (by decide!) rfl (by norm_num) (by decide)
  simpa [decimal] using h

/-! ## Words -/

theorem peek_of_drop {c : Ctx} {s b : Nat} {t : List Nat} (h : c.text.drop s = b :: t) :
    c.peek s = b := by
  have h0 : (c.text.drop s)[0]? = some b := by rw [h]; simp
  rw [List.getElem?_drop] at h0
  simp only [Nat.add_zero] at h0
  simp [Ctx.peek, List.getD, h0]

theorem takeWhile_word (p : Nat → Bool) : ∀ (w rest : List Nat), (∀ x ∈ w, p x = true) →
    (∀ x, rest.head? = some x → p x = false) → (w ++ rest).takeWhile p = w := by
  intro w
  induction w with
  | nil =>
    intro rest _ hmax
    cases rest with
    | nil => rfl
    | cons x r => simp [List.takeWhile, hmax x rfl]
  | cons a w ih =>
    intro rest hw hmax
    have ha : p a = true := hw a (List.mem_cons_self _ _)
    rw [List.cons_append, List.takeWhile_cons_of_pos ha, ih rest (fun x hx => hw x (List.mem_cons_of_mem _ hx)) hmax]

theorem wordChar_scan {x : Nat} (h : isWordChar x = true) :
    (x != 0 && (lx_isalnum x || x == 95)) = true := by
  simp only [isWordChar, isLetter, Bool.or_eq_true, Bool.and_eq_true, decide_eq_true_eq,
    beq_iff_eq] at h
  simp only [lx_isalnum, lx_isdigit, lx_isalpha, Bool.or_eq_true, Bool.and_eq_true,
    decide_eq_true_eq, beq_iff_eq, bne_iff_ne, ne_eq]
  omega

theorem not_wordChar_scan {x : Nat} (h : isWordChar x = false) :
    (x != 0 && (lx_isalnum x || x == 95)) = false := by
  rw [← Bool.not_eq_true] at h ⊢
  intro h1
  apply h
  simp only [lx_isalnum, lx_isdigit, lx_isalpha, Bool.or_eq_true, Bool.and_eq_true,
    decide_eq_true_eq, beq_iff_eq, bne_iff_ne, ne_eq] at h1
  simp only [isWordChar, isLetter, Bool.or_eq_true, Bool.and_eq_true, decide_eq_true_eq,
    beq_iff_eq]
  omega

/-- The function `lx_word` returns the length of the maximal word at the cursor. -/
theorem lx_word_maximal (c : Ctx) (s : Nat) (w rest : List Nat)
    (htext : c.text.drop s = w ++ rest) (hw : ∀ x ∈ w, isWordChar x = true)
    (hmax : ∀ x, rest.head? = some x → isWordChar x = false) : lx_word c s = w.length := by
  unfold lx_word scan
  rw [htext, takeWhile_word _ w rest (fun x hx => wordChar_scan (hw x hx))
    (fun x hx => not_wordChar_scan (hmax x hx))]

/-- A letter at the cursor selects the default case of `lx_eval`. -/
theorem evalStep_letter (f : Nat) (ev : Eval) (host : Host) (c : Ctx) (call : Ptr)
    (start e0 : Nat) (evs se : Bool) (h : isLetter (c.peek (eatSpace c start)) = true) :
    evalStep f ev host c call start e0 evs se =
      evalWord f ev host c call (eatSpace c start) (eatSpace c start) evs se := by
  simp only [isLetter, Bool.or_eq_true, Bool.and_eq_true, decide_eq_true_eq] at h
  have hne : ∀ k, (k < 65 ∨ (90 < k ∧ k < 97) ∨ 122 < k) →
      (c.peek (eatSpace c start) == k) = false := by
    intro k hk
    rw [beq_eq_false_iff_ne]
    omega
  unfold evalStep
  simp only [hne 0 (by omega), hne 126 (by omega), hne 34 (by omega), hne 43 (by omega),
    hne 45 (by omega), hne 42 (by omega), hne 47 (by omega), hne 60 (by omega),
    hne 62 (by omega), hne 38 (by omega), hne 124 (by omega), hne 33 (by omega),
    hne 95 (by omega), hne 40 (by omega), hne 123 (by omega), hne 91 (by omega),
    hne 46 (by omega), hne 58 (by omega), hne 61 (by omega), hne 96 (by omega),
    hne 44 (by omega), hne 59 (by omega), hne 64 (by omega), hne 63 (by omega),
    hne 35 (by omega), hne 92 (by omega), hne 37 (by omega), hne 94 (by omega),
    hne 36 (by omega), hne 39 (by omega), Bool.false_eq_true, if_false]

theorem lx_gc_text (fuel : Nat) (c c1 : Ctx) (n : Nat)
    (h : lx_gc fuel c = Except.ok (c1, n)) : c1.text = c.text := by
  unfold lx_gc at h
  cases hm : mark fuel c c.current with
  | error e => simp [hm] at h
  | ok d1 =>
    simp only [hm] at h
    cases hp : markPersist fuel d1.cells.length 0 d1 with
    | error e => simp [hp] at h
    | ok d2 =>
      simp only [hp, Except.ok.injEq] at h
      have e1 := (mark_text fuel).1 _ _ _ hm
      have e2 := markPersist_text fuel _ _ _ _ hp
      have e3 := (sweep_frame d2.cells.length 0 d2.tick 0).1
      rw [h] at e3
      rw [e3]
      exact e2.trans e1

/-- A successful `lx_promote` returns a cell that holds the value, and
leaves the program text as it is. -/
theorem lx_promote_result (g : Nat) (c c' : Ctx) (val : Value) (p : Ptr)
    (h : lx_promote g c val = Except.ok (p, c')) : c'.get p = some val ∧ c'.text = c.text := by
  unfold lx_promote at h
  cases ha : lx_alloc g c val.type false with
  | error e => simp [ha, bind, Except.bind] at h
  | ok r =>
    obtain ⟨q, c1⟩ := r
    cases hd : c1.get q with
    | none => simp [ha, bind, Except.bind, Ctx.deref, hd] at h
    | some y =>
      simp only [ha, bind, Except.bind, Ctx.deref, hd, Except.ok.injEq, Prod.mk.injEq] at h
      obtain ⟨hpq, hc'⟩ := h
      subst hpq
      subst hc'
      refine ⟨get_set_same c1 q y val hd, ?_⟩
      rw [set_text]
      obtain ⟨d, hd1, hd2⟩ := lx_alloc_cases g c val.type false q c1 ha
      have hdt : d.text = c.text := by
        rcases hd1 with ⟨e, _⟩ | ⟨_, n, hg⟩
        · rw [e]
        · exact lx_gc_text g c d n hg
      rcases hd2 with ⟨_, e, _⟩ | ⟨x, _, _, e⟩
      · rw [e, hdt]
      · rw [e]
        show (d.set d.free_list _).text = c.text
        rw [set_text, hdt]

/-- C22 (amended). For every source text that begins, after white space,
with a maximal word `b :: w` whose first character `b` is a letter and whose
other characters are letters, digits or underscores, `lx_eval` with symbol
evaluation disabled returns, whenever the allocation of the Symbol cell
succeeds, a Symbol whose bytes are exactly the word, and writes the end
cursor immediately after the word. -/
theorem word_symbol (host : Host) (fuel : Nat) (c c' : Ctx) (call p : Ptr) (s0 e0 : Nat)
    (se : Bool) (b : Nat) (w rest : List Nat)
    (htext : c.text.drop (eatSpace c s0) = b :: w ++ rest)
    (hb : isLetter b = true) (hw : ∀ x ∈ w, isWordChar x = true)
    (hmax : ∀ x, rest.head? = some x → isWordChar x = false)
    (hal : lx_promote fuel c
      { type := LX_SYMBOL, start := eatSpace c s0, len := ((w.length + 1 : Nat) : Int) } =
        Except.ok (p, c')) :
    lx_eval host (fuel + 1) c call s0 e0 false se =
        Except.ok (p, eatSpace c s0 + (w.length + 1), c') ∧
      symbolOf (lx_eval host (fuel + 1) c call s0 e0 false se) =
        some (b :: w, eatSpace c s0 + (w.length + 1)) := by
  have hp : c.peek (eatSpace c s0) = b := peek_of_drop htext
  have hbw : isWordChar b = true := by simp [isWordChar, hb]
  have hlen : lx_word c (eatSpace c s0) = w.length + 1 := by
    have := lx_word_maximal c (eatSpace c s0) (b :: w) rest htext
      (by
        intro x hx
        rcases List.mem_cons.mp hx with rfl | hx
        · exact hbw
        · exact hw x hx)
      hmax
    simpa using this
  have hdig : lx_isdigit b = false := by
    simp only [isLetter, Bool.or_eq_true, Bool.and_eq_true, decide_eq_true_eq] at hb
    rw [← Bool.not_eq_true]
    simp only [lx_isdigit, Bool.and_eq_true, decide_eq_true_eq]
    omega
  have halpha : lx_isalpha b = true := by
    simp only [isLetter, Bool.or_eq_true, Bool.and_eq_true, decide_eq_true_eq] at hb
    simp only [lx_isalpha, Bool.or_eq_true, Bool.and_eq_true, decide_eq_true_eq, beq_iff_eq]
    omega
  have hev : lx_eval host (fuel + 1) c call s0 e0 false se =
      Except.ok (p, eatSpace c s0 + (w.length + 1), c') := by
    rw [lx_eval_succ, evalStep_letter _ _ _ _ _ _ _ _ _ (by rw [hp]; exact hb)]
    unfold evalWord
    simp only [hp, hdig, halpha, hlen, Bool.false_eq_true, if_false, if_true]
    rw [hal]
    rfl
  obtain ⟨hget, ht⟩ := lx_promote_result fuel c c' _ p hal
  refine ⟨hev, ?_⟩
  rw [hev]
  simp only [symbolOf]
  rw [hget]
  simp only [if_true, ht, htext, Int.toNat_ofNat]
  have : (b :: w ++ rest).take (w.length + 1) = b :: w := by
    simp
  rw [this]

theorem word_symbol_witness :
    symbolOf (lx_eval noHost 1 (frameOf 4 "  a_b1 c") (Ptr.stack 0) 0 0 false true) =
      some ([97, 95, 98, 49], 6) := by
  exact (word_symbol noHost 0 (frameOf 4 "  a_b1 c") _ (Ptr.stack 0) (Ptr.cell 0) 0 0 true
    97 [95, 98, 49] [32, 99, 0, 0] (by decide) (by decide) (by decide) (by decide)
    (lx_promote_pop 0 (frameOf 4 "  a_b1 c") _ 0 { type := LX_FREE, free := Ptr.cell 1 }
      rfl rfl)).2

/-- C22 as stated fails for words that begin with an underscore. The text
`_x` is, in full, a maximal word of the pattern `[A-Za-z_][A-Za-z0-9_]*`, but
`lx_eval` selects the case of the rounding operator `_` before the default
case: with symbol evaluation disabled it evaluates `x` as the operand, which
is unbound, and returns the nil singleton, no Symbol.  Likewise `_7` yields
the number 7.  The word `x_` with the underscore inside is read as one
Symbol. -/
theorem word_symbol_counterexample :
    (frameOf 4 "_x").text = [95, 120] ++ [0, 0] ∧
    isWordChar 95 = true ∧ isWordChar 120 = true ∧ isWordChar 0 = false ∧
    lx_word (frameOf 4 "_x") 0 = 2 ∧
    symbolOf (lx_eval noHost 9 (frameOf 4 "_x") (Ptr.stack 0) 0 0 false true) = none ∧
    ((lx_eval noHost 9 (frameOf 4 "_x") (Ptr.stack 0) 0 0 false true).map fun r =>
      (r.1, r.2.1)) = Except.ok (Ptr.nil, 2) ∧
    typeOf (lx_eval noHost 9 (frameOf 4 "_7") (Ptr.stack 0) 0 0 false true) = some LX_NUMBER ∧
    symbolOf (lx_eval noHost 9 (frameOf 4 "x_") (Ptr.stack 0) 0 0 false true) =
      some ([120, 95], 2) := by
  decide!

/-! ## One binding per name -/

/-- One call of `lx_setenv` keeps the invariant; the nodes of the chain are
updated as `envUpd` describes. -/
theorem envInv_setenv_upd (fuel : Nat) (c0 c : Ctx) (env : Ptr) (ns : List (Nat × Ptr × Ptr))
    (j : Nat) (ps : List Nat) (n v : Ptr)
    (hinv : EnvInv c0 c env ns (j :: ps))
    (hn : n = Ptr.null ∨ (c0.get n).isSome = true) (hf : ns.length < fuel) :
    ∃ c' ps', lx_setenv fuel c env n v = Except.ok c' ∧
      EnvInv c0 c' env (envUpd (sameSymbol c0) j n v ns) ps' ∧ ps.length ≤ ps'.length := by
  obtain ⟨hch, hnv, hnd, hne, hfr, hpn, hdis, hss, hgc⟩ := hinv
  obtain ⟨hfl, xj, hxj, hxt, hfr'⟩ := hfr
  have hjps : j ∉ ps := (List.nodup_cons.mp hpn).1
  have hpsn : ps.Nodup := (List.nodup_cons.mp hpn).2
  have hjn : j ∉ nodeIds ns := hdis j (List.mem_cons_self _ _)
  have heq : sameSymbol c = sameSymbol c0 := by
    funext a b
    exact sameSymbol_symSame hss a b
  obtain ⟨i0, hi0, hi0n⟩ := chain_head c env ns hch hne
  obtain ⟨c', t, h1, h2, h3, h4⟩ := setenvFrom_chain fuel c n v j xj (symSame_valid hss n hn)
    hfl hxj hxt ns env env fuel hch hnv hnd hjn hf (Or.inl ⟨rfl, hne⟩)
  rw [heq] at h2 h4
  have ht : t = env := h3 hne
  subst ht
  obtain ⟨_, p2, _, p4, p5, p6, _, p8⟩ := h4
  have hframe : ∀ i ∈ ps, c'.cells[i]? = c.cells[i]? := by
    intro i hi
    have h1 : i ∉ nodeIds ns := hdis i (List.mem_cons_of_mem _ hi)
    have h2 : i ≠ j := fun e => hjps (e ▸ hi)
    have h3 : Ptr.cell i ≠ t := by
      rw [hi0]
      exact cell_ne (fun e => h1 (e ▸ hi0n))
    exact p2 i h1 h2 h3
  have hnv' : NamesValid c' (envUpd (sameSymbol c0) j n v ns) :=
    namesValid_envUpd c' _ j n v (symSame_valid p4 n (symSame_valid hss n hn)) ns
      (namesValid_symSame p4 ns hnv)
  have hids := nodeIds_envUpd (sameSymbol c0) j n v ns
  by_cases hg : envGrows (sameSymbol c0) n ns = true
  · rw [hg] at p5 hids
    simp only [if_true] at p5 hids
    refine ⟨c', ps, h1, ?_, le_refl _⟩
    refine ⟨h2, hnv', ?_, envUpd_ne_nil _ _ _ _ _, ?_, hpsn, ?_, symSame_trans hss p4,
      p8.trans hgc⟩
    · rw [hids]
      exact List.nodup_append.mpr ⟨hnd, List.nodup_singleton j, by
        intro a ha hb
        rw [List.mem_singleton] at hb
        exact hjn (hb ▸ ha)⟩
    · rw [p5]
      exact freeFrom_frame c c' ps _ hfr' hframe
    · intro i hi
      rw [hids]
      intro hmem
      rcases List.mem_append.mp hmem with h | h
      · exact hdis i (List.mem_cons_of_mem _ hi) h
      · rw [List.mem_singleton] at h
        exact hjps (h ▸ hi)
  · have hg' : envGrows (sameSymbol c0) n ns = false := by simpa using hg
    rw [hg'] at p5 p6 hids
    simp only [Bool.false_eq_true, if_false] at p5 hids
    refine ⟨c', j :: ps, h1, ?_, Nat.le_succ _⟩
    refine ⟨h2, hnv', ?_, envUpd_ne_nil _ _ _ _ _, ?_, hpn, ?_, symSame_trans hss p4,
      p8.trans hgc⟩
    · rw [hids]
      exact hnd
    · rw [p5]
      exact ⟨rfl, xj, p6 rfl, hxt, freeFrom_frame c c' ps _ hfr' hframe⟩
    · intro i hi
      rw [hids]
      exact hdis i hi

theorem mem_envUpd_name (eqv : Ptr → Ptr → Bool) (j : Nat) (n v : Ptr) :
    ∀ (ns : List (Nat × Ptr × Ptr)) (b : Nat × Ptr × Ptr), b ∈ envUpd eqv j n v ns →
      b.2.1 = n ∨ ∃ a ∈ ns, a.2.1 = b.2.1 := by
  intro ns
  induction ns with
  | nil =>
    intro b hb
    simp only [envUpd, List.mem_singleton] at hb
    subst hb
    exact Or.inl rfl
  | cons a r ih =>
    intro b hb
    obtain ⟨i, k, w⟩ := a
    simp only [envUpd] at hb
    split at hb
    · rcases List.mem_cons.mp hb with rfl | h
      · exact Or.inl rfl
      · exact Or.inr ⟨b, List.mem_cons_of_mem _ h, rfl⟩
    · split at hb
      · rcases List.mem_cons.mp hb with rfl | h
        · exact Or.inr ⟨(i, k, w), List.mem_cons_self _ _, rfl⟩
        · exact Or.inr ⟨b, List.mem_cons_of_mem _ h, rfl⟩
      · rcases List.mem_cons.mp hb with rfl | h
        · exact Or.inr ⟨(i, k, w), List.mem_cons_self _ _, rfl⟩
        · rcases ih b h with h1 | ⟨a, ha, hab⟩
          · exact Or.inl h1
          · exact Or.inr ⟨a, List.mem_cons_of_mem _ ha, hab⟩

theorem isSymbol_ne_null {c : Ctx} {p : Ptr} (h : IsSymbol c p) : p ≠ Ptr.null := by
  rintro rfl
  obtain ⟨x, hx, _⟩ := h
  simp [Ctx.get] at hx

theorem namesSym_envUpd (c : Ctx) (j : Nat) (n v : Ptr) (hn : IsSymbol c n) :
    ∀ ns : List (Nat × Ptr × Ptr),
      (∀ a ∈ ns, IsSymbol c a.2.1) →
      ns.Pairwise (fun a b => sameSymbol c a.2.1 b.2.1 = false) →
      (∀ a ∈ envUpd (sameSymbol c) j n v ns, IsSymbol c a.2.1) ∧
      (envUpd (sameSymbol c) j n v ns).Pairwise fun a b => sameSymbol c a.2.1 b.2.1 = false := by
  intro ns
  induction ns with
  | nil =>
    intro _ _
    simp only [envUpd, List.mem_singleton, List.pairwise_cons, List.not_mem_nil,
      List.Pairwise.nil, and_true]
    exact ⟨fun a ha => ha ▸ hn, fun _ h => absurd h id⟩
  | cons a r ih =>
    intro hs hp
    obtain ⟨i, k, w⟩ := a
    have hk : IsSymbol c k := hs (i, k, w) (List.mem_cons_self _ _)
    have hk0 : k ≠ Ptr.null := isSymbol_ne_null hk
    have hsr : ∀ a ∈ r, IsSymbol c a.2.1 := fun a ha => hs a (List.mem_cons_of_mem _ ha)
    obtain ⟨hhead, hpr⟩ := List.pairwise_cons.mp hp
    simp only [envUpd, hk0, if_false]
    by_cases he : sameSymbol c k n = true
    · simp only [he, if_true]
      refine ⟨?_, List.pairwise_cons.mpr ⟨fun b hb => hhead b hb, hpr⟩⟩
      intro a ha
      rcases List.mem_cons.mp ha with rfl | h
      · exact hk
      · exact hsr a h
    · have he' : sameSymbol c k n = false := by simpa using he
      simp only [he', Bool.false_eq_true, if_false]
      obtain ⟨ih1, ih2⟩ := ih hsr hpr
      refine ⟨?_, List.pairwise_cons.mpr ⟨?_, ih2⟩⟩
      · intro a ha
        rcases List.mem_cons.mp ha with rfl | h
        · exact hk
        · exact ih1 a h
      · intro b hb
        rcases mem_envUpd_name _ j n v r b hb with h1 | ⟨a, ha, hab⟩
        · show sameSymbol c k b.2.1 = false
          rw [h1]
          exact he'
        · show sameSymbol c k b.2.1 = false
          rw [← hab]
          exact hhead a ha

theorem namesOk_envUpd (c : Ctx) (j : Nat) (n v : Ptr) (hn : IsSymbol c n)
    (ns : List (Nat × Ptr × Ptr)) (h : NamesOk c ns) :
    NamesOk c (envUpd (sameSymbol c) j n v ns) := by
  rcases h with ⟨i, w, rfl⟩ | ⟨hs, hp⟩
  · refine Or.inr ?_
    simp only [envUpd, if_true, List.mem_singleton, List.pairwise_cons, List.not_mem_nil,
      List.Pairwise.nil, and_true]
    exact ⟨fun a ha => ha ▸ hn, fun _ h => absurd h id⟩
  · exact Or.inr (namesSym_envUpd c j n v hn ns hs hp)

theorem bindingsOf_le_one (c : Ctx) (m : Ptr) (ns : List (Nat × Ptr × Ptr))
    (h : NamesOk c ns) : bindingsOf c m ns ≤ 1 := by
  rcases h with ⟨i, w, rfl⟩ | ⟨-, hp⟩
  · simp [bindingsOf, sameSymbol_null]
  · unfold bindingsOf
    induction ns with
    | nil => simp
    | cons a r ih =>
      obtain ⟨hhead, hpr⟩ := List.pairwise_cons.mp hp
      by_cases ha : sameSymbol c a.2.1 m = true
      · have hr : r.filter (fun b => sameSymbol c b.2.1 m) = [] := by
          rw [List.filter_eq_nil_iff]
          intro b hb hbm
          have h1 := sameSymbol_trans c a.2.1 m b.2.1 ha
          rw [sameSymbol_symm c m b.2.1, hbm] at h1
          rw [hhead b hb] at h1
          exact absurd h1 (by simp)
        simp [List.filter_cons, ha, hr]
      · have ha' : sameSymbol c a.2.1 m = false := by simpa using ha
        simp only [List.filter_cons, ha', Bool.false_eq_true, if_false]
        exact ih hpr

/-- A sequence of calls of `lx_setenv` with Symbol names keeps the names of
the chain distinct. -/
theorem envInv_setAll_names (fuel : Nat) (c0 : Ctx) (env : Ptr) :
    ∀ (kvs : List (Ptr × Ptr)) (c : Ctx) (ns : List (Nat × Ptr × Ptr)) (ps : List Nat),
      EnvInv c0 c env ns ps → kvs.length ≤ ps.length →
      (∀ kv ∈ kvs, IsSymbol c0 kv.1) → ns.length + kvs.length < fuel → NamesOk c0 ns →
      ∃ c' ns' ps', setAll fuel env c kvs = Except.ok c' ∧ EnvInv c0 c' env ns' ps' ∧
        NamesOk c0 ns' := by
  intro kvs
  induction kvs with
  | nil =>
    intro c ns ps hinv _ _ _ hok
    exact ⟨c, ns, ps, rfl, hinv, hok⟩
  | cons kv r ih =>
    intro c ns ps hinv hlen hsym hfuel hok
    obtain ⟨n, v⟩ := kv
    have hn : IsSymbol c0 n := hsym (n, v) (List.mem_cons_self _ _)
    cases ps with
    | nil => simp at hlen
    | cons j ps =>
      obtain ⟨c1, ps1, h1, hinv1, hl1⟩ := envInv_setenv_upd fuel c0 c env ns j ps n v hinv
        (isSymbol_valid hn) (by simp at hfuel; omega)
      have hlen1 := envUpd_length (sameSymbol c0) j n v ns
      obtain ⟨c2, ns2, ps2, h2, hinv2, hok2⟩ := ih c1 _ ps1 hinv1 (by simp at hlen; omega)
        (fun kv hkv => hsym kv (List.mem_cons_of_mem _ hkv)) (by simp at hfuel; omega)
        (namesOk_envUpd c0 j n v hn ns hok)
      refine ⟨c2, ns2, ps2, ?_, hinv2, hok2⟩
      simp only [setAll, h1]
      exact h2

/-- C23 (amended). As long as no collection runs, an env holds at most one
binding per name: from a context whose free list starts with distinct Free
cells, more of them than there are calls of `lx_setenv`, take the env made by
`lx_makenv` and modified by any sequence `kvs` of calls of `lx_setenv` with
Symbol names.  The calls return, the env is a chain of nodes, and for every
name `m` at most one node of the chain has a name with the length and bytes
of `m`.  No collection has run (`gcs` is unchanged). -/
theorem env_one_binding (fuel : Nat) (c0 : Ctx) (ps : List Nat) (kvs : List (Ptr × Ptr))
    (m : Ptr)
    (hfree : FreeFrom c0 c0.free_list ps) (hnd : ps.Nodup) (hlen : kvs.length + 1 ≤ ps.length)
    (hkvs : ∀ kv ∈ kvs, IsSymbol c0 kv.1) (hfuel : kvs.length + 1 < fuel) :
    ∃ env c1 c2 ns, lx_makenv fuel c0 = Except.ok (env, c1) ∧
      setAll fuel env c1 kvs = Except.ok c2 ∧ Chain c2 env ns ∧
      bindingsOf c2 m ns ≤ 1 ∧ c2.gcs = c0.gcs := by
  cases ps with
  | nil => simp at hlen
  | cons j0 ps1 =>
    obtain ⟨c1, hmk, hinv1⟩ := envInv_makenv fuel c0 j0 ps1 hfree hnd
    obtain ⟨c2, ns2, ps2, hset, hinv2, hok2⟩ := envInv_setAll_names fuel c0 (Ptr.cell j0) kvs
      c1 [(j0, Ptr.null, Ptr.null)] ps1 hinv1 (by simp at hlen; omega) hkvs (by simp; omega)
      (Or.inl ⟨j0, Ptr.null, rfl⟩)
    have e2 : sameSymbol c2 = sameSymbol c0 := by
      funext a b
      exact sameSymbol_symSame hinv2.2.2.2.2.2.2.2.1 a b
    refine ⟨Ptr.cell j0, c1, c2, ns2, hmk, hset, hinv2.1, ?_, hinv2.2.2.2.2.2.2.2.2⟩
    unfold bindingsOf
    rw [e2]
    exact bindingsOf_le_one c0 m ns2 hok2

theorem env_one_binding_witness :
    ∃ env c1 c2 ns, lx_makenv 9 envDemo = Except.ok (env, c1) ∧
      setAll 9 env c1 [(Ptr.cell 0, Ptr.zero), (Ptr.cell 0, Ptr.one)] = Except.ok c2 ∧
      Chain c2 env ns ∧ bindingsOf c2 (Ptr.cell 0) ns ≤ 1 ∧ c2.gcs = envDemo.gcs :=
  env_one_binding 9 envDemo [2, 3, 4] [(Ptr.cell 0, Ptr.zero), (Ptr.cell 0, Ptr.one)]
    (Ptr.cell 0)
    ⟨rfl, _, rfl, rfl, rfl, _, rfl, rfl, rfl, _, rfl, rfl, trivial⟩ (by decide) (by decide)
    (by
      intro kv hkv
      simp only [List.mem_cons, List.mem_singleton, List.not_mem_nil, or_false] at hkv
      rcases hkv with rfl | rfl <;> exact ⟨_, rfl, rfl⟩)
    (by decide)

/-- C23 as stated fails in two ways. A key that is not a Symbol never
matches: after `(= 5 1)(= 5 2)` the env of the frame (cell 2) has two nodes,
whose names (cells 0 and 3) are both the number 5, and binding the key 5
twice through `:` makes an env of one binding grow to three.  And a
collection inside `lx_setenv` frees a name that is not rooted: in the
session `envDupRun` all names are Symbols, and the env (cell 0) ends with
two nodes whose names (cells 1 and 3) are both the Symbol `a`. -/
theorem env_one_binding_counterexample :
    ((dupKeys.get (Ptr.stack 0)).map fun x => x.env) = some (Ptr.cell 2) ∧
    envNames 9 dupKeys (Ptr.cell 2) = [Ptr.cell 0, Ptr.cell 3] ∧
    numView dupKeys (Ptr.cell 0) = some (LX_NUMBER, 5) ∧
    numView dupKeys (Ptr.cell 3) = some (LX_NUMBER, 5) ∧
    runNumber (runAt 16 "(= e \x7b= x 1\x7d)(: e 5 1)(: e 5 2)($ e)") = some 3 ∧
    (envDupRun.map fun r =>
      (r.1, envNames 9 r.2 (Ptr.cell 0), sameSymbol r.2 (Ptr.cell 1) (Ptr.cell 3))) =
      Except.ok (Ptr.cell 3, [Ptr.cell 1, Ptr.cell 3], true) := by
  decide!

/-! ## The free-list invariant -/

theorem openCells_get (n i : Nat) (h : i < n) :
    (openCells n)[i]? =
      some { type := LX_FREE, free := if i + 1 < n then Ptr.cell (i + 1) else Ptr.null } := by
  simp [openCells, h]

theorem freeChain_open (p n : Nat) : ∀ (m k : Nat), k + m = n →
    FreeChain (lx_open p n) (if k < n then Ptr.cell k else Ptr.null) (List.range' k m) := by
  intro m
  induction m with
  | zero =>
    intro k hk
    have : ¬ k < n := by omega
    simp [FreeChain, this]
  | succ m ih =>
    intro k hk
    have hkn : k < n := by omega
    have e : List.range' k (m + 1) = k :: List.range' (k + 1) m := rfl
    rw [e]
    simp only [hkn, if_true]
    refine ⟨rfl, _, openCells_get n k hkn, rfl, ?_⟩
    exact ih (k + 1) (by omega)

theorem freeChain_loop (c : Ctx) (i : Nat) (x : Value) (hx : c.cells[i]? = some x)
    (hf : x.free = Ptr.cell i) : ∀ l, ¬ FreeChain c (Ptr.cell i) l := by
  intro l
  induction l with
  | nil =>
    intro h
    simp [FreeChain] at h
  | cons k r ih =>
    intro h
    obtain ⟨hk, y, hy, _, hr⟩ := h
    have e : k = i := by
      injection hk with hk
      exact hk.symm
    subst e
    rw [hx] at hy
    cases hy
    rw [hf] at hr
    exact ih hr

theorem freeChain_step {c : Ctx} {i : Nat} {x : Value} {l : List Nat}
    (h : FreeChain c (Ptr.cell i) l) (hx : c.cells[i]? = some x) :
    ∃ r, FreeChain c x.free r := by
  cases l with
  | nil => simp [FreeChain] at h
  | cons k r =>
    obtain ⟨hk, y, hy, _, hr⟩ := h
    have e : k = i := by
      injection hk with hk
      exact hk.symm
    subst e
    rw [hx] at hy
    cases hy
    exact ⟨r, hr⟩

/-- C24 fails on the code. Right after `lx_open` the free list is the chain
of all cells, each once.  A call of `lx_gc` made by the host in that state
(four cells, none in use) pushes every cell on the free list a second time,
because the sweep does not test whether an unmarked cell is Free already:
cell 0 then links to itself, so the free list is no finite chain any more,
and of five allocations that follow, with no collection in between, the
fourth and the fifth return the same cell. -/
theorem free_list_after_host_gc :
    (∀ p n, lx_cells (lx_open p (n + 1)) = n + 1 ∧
      FreeChain (lx_open p (n + 1)) (lx_open p (n + 1)).free_list (List.range (n + 1))) ∧
    lx_gc 5 (lx_open 8 4) = Except.ok (openGc, 4) ∧
    (¬ ∃ l, FreeChain openGc openGc.free_list l) ∧
    ((allocs 5 5 openGc).map fun r => (r.1, r.2.gcs)) =
      Except.ok ([Ptr.cell 3, Ptr.cell 2, Ptr.cell 1, Ptr.cell 0, Ptr.cell 0], 1) := by
  refine ⟨?_, by decide!, ?_, by decide!⟩
  · intro p n
    refine ⟨by simp [lx_cells, lx_open, openCells], ?_⟩
    have h := freeChain_open p (n + 1) (n + 1) 0 (by omega)
    rw [List.range_eq_range']
    simpa using h
  · rintro ⟨l, h⟩
    obtain ⟨l2, h2⟩ := freeChain_step h (rfl : openGc.cells[3]? = some _)
    obtain ⟨l1, h1⟩ := freeChain_step h2 (rfl : openGc.cells[2]? = some _)
    obtain ⟨l0, h0⟩ := freeChain_step h1 (rfl : openGc.cells[1]? = some _)
    exact freeChain_loop openGc 0 _ rfl rfl l0 h0

/-! ## Collections on cyclic heaps -/

theorem mark_zero_fuel (c : Ctx) (p : Ptr) : mark 0 c p = Except.error Err.fuel := by
  rw [mark]

theorem mark_succ_null (f : Nat) (c : Ctx) : mark (f + 1) c Ptr.null = Except.ok c := by
  rw [mark]
  simp

theorem mark_succ_node (f : Nat) (c : Ctx) (p : Ptr) (x : Value) (hp : p ≠ Ptr.null)
    (hx : c.get p = some x) :
    mark (f + 1) c p = markAll f (c.set p { x with mark := true }) (children x) := by
  rw [mark]
  simp only [hp, if_false, hx]

theorem markAll_zero_cons (c : Ctx) (p : Ptr) (ps : List Ptr) :
    markAll 0 c (p :: ps) = Except.error Err.fuel := by
  rw [markAll]

theorem markAll_succ_stuck (f : Nat) (c : Ctx) (p : Ptr) (ps : List Ptr)
    (h : mark f c p = Except.error Err.fuel) :
    markAll (f + 1) c (p :: ps) = Except.error Err.fuel := by
  rw [markAll, h]

theorem markAll_succ_ok (f : Nat) (c c1 : Ctx) (p : Ptr) (ps : List Ptr)
    (h : mark f c p = Except.ok c1) :
    markAll (f + 1) c (p :: ps) = markAll f c1 ps := by
  rw [markAll, h]

theorem cyc_set_mark {c : Ctx} {i j : Nat} (h : Cyc c i j) (k : Nat) (x : Value)
    (hx : c.cells[k]? = some x) : Cyc (c.set (Ptr.cell k) { x with mark := true }) i j := by
  obtain ⟨hij, a, b, ha, hat, han, hb, hbt, hbn, hbv⟩ := h
  have hk : k < c.cells.length := (List.getElem?_eq_some.mp hx).1
  by_cases hki : k = i
  · subst hki
    have e : x = a := Option.some.inj (hx.symm.trans ha)
    subst e
    refine ⟨hij, { x with mark := true }, b, ?_, hat, han, ?_, hbt, hbn, hbv⟩
    · simp [Ctx.set, hk]
    · simp only [Ctx.set]
      rw [List.getElem?_set_ne hij]
      exact hb
  · by_cases hkj : k = j
    · subst hkj
      have e : x = b := Option.some.inj (hx.symm.trans hb)
      subst e
      refine ⟨hij, a, { x with mark := true }, ?_, hat, han, ?_, hbt, hbn, hbv⟩
      · simp only [Ctx.set]
        rw [List.getElem?_set_ne (Ne.symm hij)]
        exact ha
      · simp [Ctx.set, hk]
    · refine ⟨hij, a, b, ?_, hat, han, ?_, hbt, hbn, hbv⟩
      · simp only [Ctx.set]
        rw [List.getElem?_set_ne hki]
        exact ha
      · simp only [Ctx.set]
        rw [List.getElem?_set_ne hkj]
        exact hb

theorem children_list {x : Value} (h : x.type = LX_LIST) : children x = [x.next, x.value] := by
  simp [children, h]

/-- The recursion of `mark` never returns on a cell of a cycle: whatever the
budget, it is used up. -/
theorem mark_cycle : ∀ (f : Nat) (c : Ctx) (i j : Nat), Cyc c i j →
    mark f c (Ptr.cell i) = Except.error Err.fuel := by
  intro f
  induction f using Nat.strong_induction_on with
  | _ f ih =>
    intro c i j h
    have h1 := h
    obtain ⟨hij, a, b, ha, hat, han, hb, hbt, hbn, hbv⟩ := h1
    have h2 := cyc_set_mark h i a ha
    obtain ⟨_, a1, b1, ha1, hat1, han1, hb1, hbt1, hbn1, hbv1⟩ := h2
    have h3 := cyc_set_mark (cyc_set_mark h i a ha) j b1 hb1
    rcases f with _ | f
    · exact mark_zero_fuel _ _
    have hca : children a = [Ptr.cell j, a.value] := by rw [children_list hat, han]
    have hcb : children b1 = [Ptr.null, Ptr.cell i] := by rw [children_list hbt1, hbn1, hbv1]
    rw [mark_succ_node f c (Ptr.cell i) a (by simp) ha, hca]
    rcases f with _ | f
    · exact markAll_zero_cons _ _ _
    refine markAll_succ_stuck f _ _ _ ?_
    rcases f with _ | f
    · exact mark_zero_fuel _ _
    rw [mark_succ_node f _ (Ptr.cell j) b1 (by simp) hb1, hcb]
    rcases f with _ | f
    · exact markAll_zero_cons _ _ _
    rcases f with _ | f
    · exact markAll_succ_stuck 0 _ _ _ (mark_zero_fuel _ _)
    rw [markAll_succ_ok (f + 1) _ _ _ _ (mark_succ_null f _)]
    exact markAll_succ_stuck f _ _ _ (ih f (by omega) _ i j h3)

theorem markAll_null_cons (c : Ctx) (ps : List Ptr)
    (h : ∀ f, markAll f c ps = Except.error Err.fuel) :
    ∀ f, markAll f c (Ptr.null :: ps) = Except.error Err.fuel := by
  intro f
  rcases f with _ | f
  · exact markAll_zero_cons _ _ _
  rcases f with _ | f
  · exact markAll_succ_stuck 0 _ _ _ (mark_zero_fuel _ _)
  rw [markAll_succ_ok (f + 1) _ _ _ _ (mark_succ_null f _)]
  exact h _

theorem markAll_leaf_cons (c : Ctx) (p : Ptr) (x : Value) (ps : List Ptr)
    (hp : p ≠ Ptr.null) (hx : c.get p = some x) (hc : children x = [])
    (h : ∀ f, markAll f (c.set p { x with mark := true }) ps = Except.error Err.fuel) :
    ∀ f, markAll f c (p :: ps) = Except.error Err.fuel := by
  intro f
  rcases f with _ | f
  · exact markAll_zero_cons _ _ _
  rcases f with _ | f
  · exact markAll_succ_stuck 0 _ _ _ (mark_zero_fuel _ _)
  have e : mark (f + 1) c p = Except.ok (c.set p { x with mark := true }) := by
    rw [mark_succ_node f c p x hp hx, hc, markAll]
  rw [markAll_succ_ok (f + 1) _ _ _ _ e]
  exact h _

theorem markAll_stuck_cons (c : Ctx) (p : Ptr) (ps : List Ptr)
    (h : ∀ f, mark f c p = Except.error Err.fuel) :
    ∀ f, markAll f c (p :: ps) = Except.error Err.fuel := by
  intro f
  rcases f with _ | f
  · exact markAll_zero_cons _ _ _
  exact markAll_succ_stuck f _ _ _ (h f)

theorem mark_node (c : Ctx) (p : Ptr) (x : Value) (hp : p ≠ Ptr.null) (hx : c.get p = some x)
    (h : ∀ f, markAll f (c.set p { x with mark := true }) (children x) =
      Except.error Err.fuel) :
    ∀ f, mark f c p = Except.error Err.fuel := by
  intro f
  rcases f with _ | f
  · exact mark_zero_fuel _ _
  rw [mark_succ_node f c p x hp hx]
  exact h f

theorem cycDemo_mark : ∀ f, mark f cycDemo cycDemo.current = Except.error Err.fuel := by
  refine mark_node cycDemo (Ptr.stack 0) _ (by decide) rfl ?_
  refine markAll_null_cons _ _ ?_
  refine markAll_stuck_cons _ _ _ ?_
  refine mark_node _ (Ptr.cell 3) _ (by decide) rfl ?_
  refine markAll_null_cons _ _ ?_
  refine markAll_leaf_cons _ (Ptr.cell 0) _ _ (by decide) rfl rfl ?_
  refine markAll_stuck_cons _ _ _ ?_
  intro f
  exact mark_cycle f _ 1 4 ⟨by decide, _, _, rfl, rfl, rfl, rfl, rfl, rfl, rfl⟩

/-- C25 fails on the code. The state `cycDemo` is the one the evaluation of
`(= xs [1])(# xs xs)` ends in: the list `xs` (cell 1) is reachable from
itself through the cell appended to it (cell 4).  `mark` sets the mark bit
and recurses into the children without testing whether the bit was set
already, so on this heap the recursion from `ctx->current` never returns:
`lx_gc` uses up every budget, and so does the next allocation, which has to
collect because the free list is empty. -/
theorem lx_gc_cyclic_heap :
    (startOf 5 2 "(= xs [1])(# xs xs)").2 = cycDemo ∧
    Cyc cycDemo 1 4 ∧
    (∀ fuel, lx_gc fuel cycDemo = Except.error Err.fuel) ∧
    (∀ fuel, lx_number fuel cycDemo 7 = Except.error Err.fuel) := by
  have hgc : ∀ fuel, lx_gc fuel cycDemo = Except.error Err.fuel := by
    intro fuel
    unfold lx_gc
    rw [cycDemo_mark fuel]
  refine ⟨by decide!, ⟨by decide, _, _, rfl, rfl, rfl, rfl, rfl, rfl, rfl⟩, hgc, ?_⟩
  intro fuel
  have hfl : cycDemo.free_list = Ptr.null := rfl
  simp only [lx_number, lx_promote, lx_alloc, hfl, if_true, hgc fuel, bind, Except.bind]

/-! ## List literals under memory pressure -/

/-- C26 fails on the code. On an arena of eight cells the run of `1 2 [3 4]`
returns the list of 3 and 4 without a collection.  On an arena of four cells
the evaluation of the element `4` has to collect (the numbers 1 and 2 are
garbage, so there is room for the list): the cell of the list under
construction is neither reachable from the roots nor marked, so it is freed
with the rest, and the run returns a cell that is tagged Free and is the
head of the free list; reading element 1 of the literal yields nil instead
of 4.  On an arena of two cells `1 [2]` returns the number 2 itself: the
cell of the list has been handed out again for the element. -/
theorem list_literal_under_gc :
    runType (runAt 8 "1 2 [3 4]") = some LX_LIST ∧
    runGcs (runAt 8 "1 2 [3 4]") = some 0 ∧
    runNumber (runAt 8 "1 2 (. [3 4] 0)") = some 3 ∧
    runNumber (runAt 8 "1 2 (. [3 4] 1)") = some 4 ∧
    runGcs (runAt 4 "1 2 [3 4]") = some 1 ∧
    runType (runAt 4 "1 2 [3 4]") = some LX_FREE ∧
    runHead (runAt 4 "1 2 [3 4]") = some (Ptr.cell 2, Ptr.cell 2) ∧
    runType (runAt 4 "1 2 (. [3 4] 1)") = some LX_NIL ∧
    runGcs (runAt 2 "1 [2]") = some 1 ∧
    runNumber (runAt 2 "1 [2]") = some 2 := by
  decide!

/-! ## The pop operator and the end cursor -/

/-- The case of the backslash writes the cursor it was entered with (the
position after the operator character) whenever its operand is not Eof, and
leaves the end cursor as it was otherwise; the end position of the operand is
dropped. -/
theorem evalPop_cursor (fuel : Nat) (ev : Eval) (c : Ctx) (call : Ptr) (start next e : Nat)
    (se : Bool) (r : Ptr × Nat × Ctx)
    (h : evalPop fuel ev c call start next e se = Except.ok r) :
    r.2.1 = start ∨ (r.1 = Ptr.eof ∧ r.2.1 = e) := by
  unfold evalPop at h
  obtain ⟨⟨list, e1, c1⟩, _, h⟩ := bind_ok h
  obtain ⟨b, _, h⟩ := bind_ok h
  cases b with
  | true =>
    simp only [if_true] at h
    cases h
    exact Or.inr ⟨rfl, rfl⟩
  | false =>
    simp only [Bool.false_eq_true, if_false] at h
    cases se with
    | true =>
      simp only [if_true] at h
      obtain ⟨⟨q, c2⟩, _, h⟩ := bind_ok h
      cases h
      exact Or.inl rfl
    | false =>
      simp only [Bool.false_eq_true, if_false] at h
      cases h
      exact Or.inl rfl

/-- C27 fails on the code. In the text `(= l [1 2]) \ l` the operator stands
at position 12 and its operand `l` at position 14; the evaluation of the
operand alone ends at 15, but the evaluation of `\ l` writes 13, the position
right after the operator character, with and without side effects.  An
enclosing sequence therefore evaluates the operand a second time:
`($ (\ l))` on a list of three yields 2, the length of the list after the
pop, instead of the length 1 of the popped cell, and in
`(= l [1])(\ (# l 5))($ l)` the operand `(# l 5)` runs twice, so the list
ends with three cells instead of two. -/
theorem pop_cursor :
    (startOf 8 1 "(= l [1 2]) \\ l").1 = 11 ∧
    cursorAt 8 1 "(= l [1 2]) \\ l" 14 true = some (Ptr.cell 1, 15) ∧
    cursorAt 8 1 "(= l [1 2]) \\ l" 14 false = some (Ptr.cell 1, 15) ∧
    cursorAt 8 1 "(= l [1 2]) \\ l" 11 true = some (Ptr.cell 4, 13) ∧
    cursorAt 8 1 "(= l [1 2]) \\ l" 11 false = some (Ptr.nil, 13) ∧
    runNumber (runAt 12 "(= l [1 2 3])($ (\\ l))") = some 2 ∧
    runNumber (runAt 16 "(= l [1])(\\ (# l 5))($ l)") = some 3 := by
  decide!

/-! ## The GC root across an evaluation -/

/-- C28 fails on the code. Each evaluation below is entered with
`ctx->current` equal to its `call` argument, the frame at `Ptr.stack 0`.
The complete block `{ 1 }` returns with `ctx->current` restored.  The
block `{ 1` that the text ends in returns Eof from inside `PARSE_BODY` and
leaves `ctx->current` at the frame of the block (`Ptr.stack 1`), a local of
the evaluation that has returned; the same holds when the Eof is discarded
by the dry parse of `^ 0 { 1`, which returns nil.  A collection run in
that state follows the stale pointer. -/
theorem block_eof_root :
    (frameOf 4 "\x7b 1 \x7d").current = Ptr.stack 0 ∧
    rootAfter (lx_eval noHost 9 (frameOf 4 "\x7b 1 \x7d") (Ptr.stack 0) 0 0 true true) =
      some (Ptr.nil, Ptr.stack 0, true) ∧
    rootAfter (lx_eval noHost 9 (frameOf 4 "\x7b 1") (Ptr.stack 0) 0 0 true true) =
      some (Ptr.eof, Ptr.stack 1, false) ∧
    rootAfter (lx_eval noHost 9 (frameOf 4 "^ 0 \x7b 1") (Ptr.stack 0) 0 0 true true) =
      some (Ptr.nil, Ptr.stack 1, false) ∧
    gcAfter (lx_eval noHost 9 (frameOf 4 "\x7b 1 \x7d") (Ptr.stack 0) 0 0 true true) =
      some (Except.ok 4) ∧
    gcAfter (lx_eval noHost 9 (frameOf 4 "^ 0 \x7b 1") (Ptr.stack 0) 0 0 true true) =
      some (Except.error Err.fault) := by
  decide!

/-! ## Roots and persistent cells after a collection requested by the host -/

/-- C1 fails on the code. In the host session `hostGcRun` (a fresh arena of
four cells, `lx_gc`, three numbers, `lx_makenv`, `lx_persist`) the env is
cell 0, a root of the next collection by its persist flag.  That collection
terminates and leaves the tag and the payload of cell 0 as they are, but
cell 0 is on the free list afterwards (3, 2, 1, 0): the collection on the
fresh arena has pushed the free cells a second time, so cell 0 was handed
out while it stayed the head of the free list, and the sweep links the cells
it frees in front of it. -/
theorem root_on_free_list :
    hostGcRun = Except.ok (Ptr.cell 0, hostGc) ∧
    Reachable hostGc (Ptr.cell 0) ∧
    lx_gc 5 hostGc = Except.ok (hostGcAfter, 3) ∧
    hostGcAfter.cells[0]? = (hostGc.cells[0]?).map unmark ∧
    hostGcAfter.free_list = Ptr.cell 3 ∧
    FreeFrom hostGcAfter hostGcAfter.free_list [3, 2, 1] ∧
    ((hostGcAfter.cells[1]?).map fun x => x.free) = some (Ptr.cell 0) ∧
    OnFreeList hostGcAfter (Ptr.cell 0) := by
  have h3 : OnFreeList hostGcAfter (Ptr.cell 3) :=
    OnFreeList.head (c := hostGcAfter) (by decide)
  have h2 : OnFreeList hostGcAfter (Ptr.cell 2) :=
    OnFreeList.next (c := hostGcAfter) (x := { type := LX_FREE, number := 1, free := Ptr.cell 2 })
      h3 rfl (by decide)
  have h1 : OnFreeList hostGcAfter (Ptr.cell 1) :=
    OnFreeList.next (c := hostGcAfter) (x := { type := LX_FREE, number := 2, free := Ptr.cell 1 })
      h2 rfl (by decide)
  have h0 : OnFreeList hostGcAfter (Ptr.cell 0) :=
    OnFreeList.next (c := hostGcAfter) (x := { type := LX_FREE, number := 3, free := Ptr.cell 0 })
      h1 rfl (by decide)
  refine ⟨by decide!, ?_, by decide!, by decide!, rfl, ?_, by decide!, h0⟩
  · exact ⟨Ptr.cell 0, Or.inr ⟨0, _, rfl, rfl, rfl⟩, Reach.refl _⟩
  · exact ⟨rfl, _, rfl, rfl, rfl, _, rfl, rfl, rfl, _, rfl, rfl, trivial⟩

/-- C2 fails on the code. In the context `hostGc`, which the host session
`hostGcRun` ends in, `lx_persist` has been called on the env in cell 0, and
cell 0 is the head of the free list.  The next allocation (`lx_number`)
returns cell 0 itself; `lx_promote` overwrites the cell, persist flag
included, and the following `lx_gc` retags it Free. -/
theorem persist_cell_reused :
    hostGcRun = Except.ok (Ptr.cell 0, hostGc) ∧
    tagPersist hostGc 0 = some (LX_ENV, true) ∧
    hostGc.free_list = Ptr.cell 0 ∧
    (persistReuseRun.map fun r => (r.1, tagPersist r.2.1 0, tagPersist r.2.2 0)) =
      Except.ok (Ptr.cell 0, some (LX_NUMBER, false), some (LX_FREE, false)) := by
  decide!

/-! ## Reading a list back under memory pressure -/

/-- C6 fails on the code when the collection runs while the list is read
back.  On six cells the run of `1 (. [3 4] 0)` yields 3 and the one of
`1 (. [3 4] 1)` yields 4 with no collection, and `($ [3 4])` yields 2.  On
five cells the literal is still evaluated without a collection (the
evaluation from cursor 5 returns cell 1 and leaves the free list empty), but
the evaluation of the index has to collect (the number 1 is garbage, so
there is room): the case `.` has marked the first cell of the list only, so
the elements and the second cell are freed, and the run returns a cell
tagged Free for index 0 and nil for index 1.  The same happens for
`(. [3 4] 0)` and `(. [3 4] 1)` on four cells. -/
theorem list_roundtrip_under_gc :
    runNumber (runAt 6 "1 (. [3 4] 0)") = some 3 ∧
    runNumber (runAt 6 "1 (. [3 4] 1)") = some 4 ∧
    runGcs (runAt 6 "1 (. [3 4] 1)") = some 0 ∧
    runNumber (runAt 8 "($ [3 4])") = some 2 ∧
    (startOf 5 1 "1 (. [3 4] 0)").1 = 1 ∧
    evalGcs (lx_eval noHost 9 (startOf 5 1 "1 (. [3 4] 0)").2 (Ptr.stack 0) 5 5 true true) =
      some (Ptr.cell 1, 10, 0, Ptr.null) ∧
    runGcs (runAt 5 "1 (. [3 4] 0)") = some 1 ∧
    runType (runAt 5 "1 (. [3 4] 0)") = some LX_FREE ∧
    runType (runAt 5 "1 (. [3 4] 1)") = some LX_NIL ∧
    runGcs (runAt 4 "[3 4]") = some 0 ∧
    runGcs (runAt 4 "(. [3 4] 0)") = some 1 ∧
    runType (runAt 4 "(. [3 4] 0)") = some LX_FREE ∧
    runType (runAt 4 "(. [3 4] 1)") = some LX_NIL := by
  decide!
end Lx
